import Mathlib

/-!
# Library management system: the doubly linked list core, the records and the services

A shallow embedding of `src/core/doubly_linked_list.c`, of the validators of
`src/models`, and of the parts of `src/repositories` and `src/services` that add,
find, lend and return books and that mark overdue loans.

* Memory is a `Heap`: a list of cells indexed by address; a cell is either a live
  `Node` or free.  `malloc` takes the next address and fails once `limit` cells
  exist; `free` empties a cell.  Reading or writing through a pointer that is not
  a live node is undefined behaviour in C and is `none` here.
* A pointer is an `Option Nat` (`none` is `NULL`).
* The container struct is passed and returned by value next to the heap.
* C `int` (`size`, `index`, comparator results) is `Int`; signed overflow is
  undefined behaviour in C and no list of `INT_MAX` nodes is considered.
* `while` loops over the chain and the recursive merge sort take a `fuel`
  argument; `none` is also the answer when the fuel runs out.
* The `list` and `data` arguments are never `NULL` (the `CHECK_NULL` exits are
  excluded by the types).
-/

namespace LMS

/-- Result codes of `include/common.h`. -/
inductive LMS_Result where
  | LMS_SUCCESS
  | LMS_ERROR_NULL_POINTER
  | LMS_ERROR_MEMORY
  | LMS_ERROR_NOT_FOUND
  | LMS_ERROR_DUPLICATE
  | LMS_ERROR_INVALID_INPUT
  | LMS_ERROR_LOAN_LIMIT
  | LMS_ERROR_BOOK_UNAVAILABLE
  | LMS_ERROR_FILE_IO
  | LMS_ERROR_PERMISSION_DENIED
  | LMS_ERROR_SYSTEM
  deriving DecidableEq, Repr

open LMS_Result

/-- The `struct Node`: the record and the two links. -/
structure Node (α : Type) where
  data : α
  prev : Option Nat
  next : Option Nat
  deriving DecidableEq, Repr

/-- The memory holding the nodes. -/
structure Heap (α : Type) where
  cells : List (Option (Node α))
  limit : Nat
  deriving DecidableEq, Repr

/-- The `struct DoublyLinkedList` (the record size is the type `α`; the print,
free and copy hooks are kept as function-pointer identities). -/
structure DoublyLinkedList (α : Type) where
  head : Option Nat
  tail : Option Nat
  size : Int
  compare : Option (α → α → Int)
  print : Option Nat
  free_data : Option Nat
  copy_data : Option Nat

variable {α : Type}

/-- The node stored at address `p`, if `p` is a live node. -/
def Heap.read (h : Heap α) (p : Nat) : Option (Node α) :=
  match h.cells[p]? with
  | some (some nd) => some nd
  | _ => none

/-- Overwrite the live node at address `p`. -/
def Heap.write (h : Heap α) (p : Nat) (nd : Node α) : Option (Heap α) :=
  match h.read p with
  | none => none
  | some _ => some { h with cells := h.cells.set p (some nd) }

/-- The assignment `p->next = v`. -/
def Heap.set_next (h : Heap α) (p : Nat) (v : Option Nat) : Option (Heap α) :=
  match h.read p with
  | none => none
  | some nd => h.write p { nd with next := v }

/-- The assignment `p->prev = v`. -/
def Heap.set_prev (h : Heap α) (p : Nat) (v : Option Nat) : Option (Heap α) :=
  match h.read p with
  | none => none
  | some nd => h.write p { nd with prev := v }

/-- The call `free(p)` on a live node. -/
def Heap.free (h : Heap α) (p : Nat) : Option (Heap α) :=
  match h.read p with
  | none => none
  | some _ => some { h with cells := h.cells.set p none }

/-- Function `node_create`: a fresh node holding a copy of `data`, both links `NULL`;
`NULL` when memory is exhausted. -/
def node_create (data : α) (h : Heap α) : Option Nat × Heap α :=
  if h.cells.length < h.limit then
    (some h.cells.length,
      { h with cells := h.cells ++ [some { data := data, prev := none, next := none }] })
  else (none, h)

/-- Function `node_destroy`: nothing to do for `NULL`, otherwise the node is released. -/
def node_destroy (node : Option Nat) (h : Heap α) : Option (Heap α) :=
  match node with
  | none => some h
  | some p => h.free p

/-- Function `dll_create`. -/
def dll_create (compare : Option (α → α → Int)) (print : Option Nat) : DoublyLinkedList α :=
  { head := none, tail := none, size := 0, compare := compare, print := print,
    free_data := none, copy_data := none }

/-- Function `dll_insert_front`. -/
def dll_insert_front (list : DoublyLinkedList α) (data : α) (h : Heap α) :
    Option (LMS_Result × DoublyLinkedList α × Heap α) :=
  match node_create data h with
  | (none, h1) => some (LMS_ERROR_MEMORY, list, h1)
  | (some new_node, h1) =>
    if list.size = 0 then
      some (LMS_SUCCESS,
        { list with head := some new_node, tail := some new_node, size := list.size + 1 }, h1)
    else do
      let h2 ← h1.set_next new_node list.head
      let hd ← list.head
      let h3 ← h2.set_prev hd (some new_node)
      some (LMS_SUCCESS, { list with head := some new_node, size := list.size + 1 }, h3)

/-- Function `dll_insert_rear`. -/
def dll_insert_rear (list : DoublyLinkedList α) (data : α) (h : Heap α) :
    Option (LMS_Result × DoublyLinkedList α × Heap α) :=
  match node_create data h with
  | (none, h1) => some (LMS_ERROR_MEMORY, list, h1)
  | (some new_node, h1) =>
    if list.size = 0 then
      some (LMS_SUCCESS,
        { list with head := some new_node, tail := some new_node, size := list.size + 1 }, h1)
    else do
      let h2 ← h1.set_prev new_node list.tail
      let tl ← list.tail
      let h3 ← h2.set_next tl (some new_node)
      some (LMS_SUCCESS, { list with tail := some new_node, size := list.size + 1 }, h3)

/-- The loop `for (i = 0; i < n; i++) current = current->next;`. -/
def walk_next (h : Heap α) : Nat → Option Nat → Option (Option Nat)
  | 0, cur => some cur
  | n + 1, cur => do
    let p ← cur
    let nd ← h.read p
    walk_next h n nd.next

/-- The loop `for (i = size - 1; i > index; i--) current = current->prev;`,
with `n` the number of iterations. -/
def walk_prev (h : Heap α) : Nat → Option Nat → Option (Option Nat)
  | 0, cur => some cur
  | n + 1, cur => do
    let p ← cur
    let nd ← h.read p
    walk_prev h n nd.prev

/-- Function `dll_insert_at`. -/
def dll_insert_at (list : DoublyLinkedList α) (index : Int) (data : α) (h : Heap α) :
    Option (LMS_Result × DoublyLinkedList α × Heap α) :=
  if index < 0 ∨ index > list.size then some (LMS_ERROR_INVALID_INPUT, list, h)
  else if index = 0 then dll_insert_front list data h
  else if index = list.size then dll_insert_rear list data h
  else
    match node_create data h with
    | (none, h1) => some (LMS_ERROR_MEMORY, list, h1)
    | (some new_node, h1) => do
      let cur ← walk_next h1 index.toNat list.head
      let current ← cur
      let h2 ← h1.set_next new_node (some current)
      let c2 ← h2.read current
      let h3 ← h2.set_prev new_node c2.prev
      let c3 ← h3.read current
      let cp ← c3.prev
      let h4 ← h3.set_next cp (some new_node)
      let h5 ← h4.set_prev current (some new_node)
      some (LMS_SUCCESS, { list with size := list.size + 1 }, h5)

/-- The loop of `dll_insert_sorted`,
`while (current && compare(data, current->data) > 0) { current = current->next; index++; }`,
returning the final `index`. -/
def insert_sorted_scan (compare : α → α → Int) (data : α) (h : Heap α) :
    Nat → Option Nat → Int → Option Int
  | _, none, index => some index
  | 0, some _, _ => none
  | fuel + 1, some p, index => do
    let nd ← h.read p
    if compare data nd.data > 0 then
      insert_sorted_scan compare data h fuel nd.next (index + 1)
    else some index

/-- Function `dll_insert_sorted`. -/
def dll_insert_sorted (fuel : Nat) (list : DoublyLinkedList α) (data : α) (h : Heap α) :
    Option (LMS_Result × DoublyLinkedList α × Heap α) :=
  match list.compare with
  | none => some (LMS_ERROR_INVALID_INPUT, list, h)
  | some compare =>
    if list.size = 0 then dll_insert_front list data h
    else do
      let index ← insert_sorted_scan compare data h fuel list.head 0
      dll_insert_at list index data h

/-- Function `dll_delete_front`. -/
def dll_delete_front (list : DoublyLinkedList α) (h : Heap α) :
    Option (LMS_Result × DoublyLinkedList α × Heap α) :=
  if list.size = 0 then some (LMS_ERROR_NOT_FOUND, list, h)
  else do
    let to_delete := list.head
    let (list1, h1) ←
      if list.size = 1 then some ({ list with head := none, tail := none }, h)
      else do
        let hd ← list.head
        let hn ← h.read hd
        let nh ← hn.next
        let h1 ← h.set_prev nh none
        some ({ list with head := some nh }, h1)
    let h2 ← node_destroy to_delete h1
    some (LMS_SUCCESS, { list1 with size := list1.size - 1 }, h2)

/-- Function `dll_delete_rear`. -/
def dll_delete_rear (list : DoublyLinkedList α) (h : Heap α) :
    Option (LMS_Result × DoublyLinkedList α × Heap α) :=
  if list.size = 0 then some (LMS_ERROR_NOT_FOUND, list, h)
  else do
    let to_delete := list.tail
    let (list1, h1) ←
      if list.size = 1 then some ({ list with head := none, tail := none }, h)
      else do
        let tl ← list.tail
        let tn ← h.read tl
        let nt ← tn.prev
        let h1 ← h.set_next nt none
        some ({ list with tail := some nt }, h1)
    let h2 ← node_destroy to_delete h1
    some (LMS_SUCCESS, { list1 with size := list1.size - 1 }, h2)

/-- Function `dll_delete_node`. -/
def dll_delete_node (list : DoublyLinkedList α) (node_ptr : Option Nat) (h : Heap α) :
    Option (LMS_Result × DoublyLinkedList α × Heap α) :=
  match node_ptr with
  | none => some (LMS_ERROR_NULL_POINTER, list, h)
  | some node =>
  if list.size = 0 then some (LMS_ERROR_NOT_FOUND, list, h)
  else do
    let (list1, h1) ←
      if some node = list.head ∧ some node = list.tail then
        some ({ list with head := none, tail := none }, h)
      else if some node = list.head then do
        let nd ← h.read node
        let nh ← nd.next
        let h1 ← h.set_prev nh none
        some ({ list with head := some nh }, h1)
      else if some node = list.tail then do
        let nd ← h.read node
        let nt ← nd.prev
        let h1 ← h.set_next nt none
        some ({ list with tail := some nt }, h1)
      else do
        let nd ← h.read node
        let np ← nd.prev
        let h1 ← h.set_next np nd.next
        let nd1 ← h1.read node
        let nn ← nd1.next
        let h2 ← h1.set_prev nn nd1.prev
        some (list, h2)
    let h2 ← node_destroy (some node) h1
    some (LMS_SUCCESS, { list1 with size := list1.size - 1 }, h2)

/-- Function `dll_delete_at`. -/
def dll_delete_at (list : DoublyLinkedList α) (index : Int) (h : Heap α) :
    Option (LMS_Result × DoublyLinkedList α × Heap α) :=
  if index < 0 ∨ index ≥ list.size then some (LMS_ERROR_INVALID_INPUT, list, h)
  else if index = 0 then dll_delete_front list h
  else if index = list.size - 1 then dll_delete_rear list h
  else do
    let current ← walk_next h index.toNat list.head
    dll_delete_node list current h

/-- The loop of `dll_search`: the first node from `current` on whose record
compares equal to `data`. -/
def search_from (compare : α → α → Int) (data : α) (h : Heap α) :
    Nat → Option Nat → Option (Option Nat)
  | _, none => some none
  | 0, some _ => none
  | fuel + 1, some p => do
    let nd ← h.read p
    if compare nd.data data = 0 then some (some p)
    else search_from compare data h fuel nd.next

/-- Function `dll_search`. -/
def dll_search (fuel : Nat) (list : DoublyLinkedList α) (data : α) (h : Heap α) :
    Option (Option Nat) :=
  match list.compare with
  | none => some none
  | some compare => search_from compare data h fuel list.head

/-- Function `dll_delete_data`. -/
def dll_delete_data (fuel : Nat) (list : DoublyLinkedList α) (data : α) (h : Heap α) :
    Option (LMS_Result × DoublyLinkedList α × Heap α) := do
  let node ← dll_search fuel list data h
  match node with
  | none => some (LMS_ERROR_NOT_FOUND, list, h)
  | some _ => dll_delete_node list node h

/-- The loop of `dll_reverse`: swap the two links of every node from `current`
on; returns the last value of `temp`. -/
def reverse_loop : Nat → Option Nat → Option Nat → Heap α → Option (Option Nat × Heap α)
  | _, none, temp, h => some (temp, h)
  | 0, some _, _, _ => none
  | fuel + 1, some current, _, h => do
    let c0 ← h.read current
    let temp := c0.prev
    let h1 ← h.set_prev current c0.next
    let h2 ← h1.set_next current temp
    let c2 ← h2.read current
    reverse_loop fuel c2.prev temp h2

/-- Function `dll_reverse`. -/
def dll_reverse (fuel : Nat) (list : DoublyLinkedList α) (h : Heap α) :
    Option (LMS_Result × DoublyLinkedList α × Heap α) :=
  if list.size ≤ 1 then some (LMS_SUCCESS, list, h)
  else do
    let (temp, h1) ← reverse_loop fuel list.head none h
    let list1 ←
      match temp with
      | none => some list
      | some t => do
        let tn ← h1.read t
        some { list with head := tn.prev }
    let temp := list1.head
    let list2 := { list1 with head := list1.tail }
    let list3 := { list2 with tail := temp }
    some (LMS_SUCCESS, list3, h1)

/-- Function `merge_sorted_nodes`. -/
def merge_sorted_nodes (compare : α → α → Int) :
    Nat → Option Nat → Option Nat → Heap α → Option (Option Nat × Heap α)
  | _, none, right, h => some (right, h)
  | _, some left, none, h => some (some left, h)
  | 0, some _, some _, _ => none
  | fuel + 1, some left, some right, h => do
    let ln ← h.read left
    let rn ← h.read right
    if compare ln.data rn.data ≤ 0 then
      let result := left
      let (m, h1) ← merge_sorted_nodes compare fuel ln.next (some right) h
      let h2 ← h1.set_next result m
      let h3 ← match m with
        | none => some h2
        | some nx => h2.set_prev nx (some result)
      let h4 ← h3.set_prev result none
      some (some result, h4)
    else
      let result := right
      let (m, h1) ← merge_sorted_nodes compare fuel (some left) rn.next h
      let h2 ← h1.set_next result m
      let h3 ← match m with
        | none => some h2
        | some nx => h2.set_prev nx (some result)
      let h4 ← h3.set_prev result none
      some (some result, h4)

/-- The loop of `split_list`: `slow` advances one link and `fast` two per step;
returns the final `slow` and `prev`. -/
def split_scan (h : Heap α) :
    Nat → Option Nat → Option Nat → Option Nat → Option (Option Nat × Option Nat)
  | 0, _, _, _ => none
  | fuel + 1, fast, slow, prev =>
    match fast with
    | none => some (slow, prev)
    | some f => do
      let fn ← h.read f
      match fn.next with
      | none => some (slow, prev)
      | some f1 => do
        let s ← slow
        let sn ← h.read s
        let f1n ← h.read f1
        split_scan h fuel f1n.next sn.next (some s)

/-- Function `split_list`: returns `(front, back)` and the heap with the chain cut. -/
def split_list (fuel : Nat) (head : Option Nat) (h : Heap α) :
    Option (Option Nat × Option Nat × Heap α) := do
  let (slow, prev) ← split_scan h fuel head head none
  match prev with
  | none => some (head, slow, h)
  | some p => do
    let h1 ← h.set_next p none
    let h2 ← match slow with
      | none => some h1
      | some s => h1.set_prev s none
    some (head, slow, h2)

/-- Function `merge_sort_nodes`. -/
def merge_sort_nodes (compare : α → α → Int) :
    Nat → Option Nat → Heap α → Option (Option Nat × Heap α)
  | 0, _, _ => none
  | fuel + 1, head, h =>
    match head with
    | none => some (head, h)
    | some hd => do
      let hn ← h.read hd
      match hn.next with
      | none => some (head, h)
      | some _ => do
        let (front, back, h1) ← split_list (fuel + 1) head h
        let (front, h2) ← merge_sort_nodes compare fuel front h1
        let (back, h3) ← merge_sort_nodes compare fuel back h2
        merge_sorted_nodes compare (fuel + 1) front back h3

/-- The repair loop of `dll_sort`,
`while (current->next) { current->next->prev = current; current = current->next; }`,
returning the final `current`. -/
def fix_links : Nat → Nat → Heap α → Option (Nat × Heap α)
  | 0, _, _ => none
  | fuel + 1, current, h => do
    let cn ← h.read current
    match cn.next with
    | none => some (current, h)
    | some nx => do
      let h1 ← h.set_prev nx (some current)
      fix_links fuel nx h1

/-- The common body of `dll_sort` and `dll_sort_with` after the argument checks. -/
def sort_body (fuel : Nat) (compare : α → α → Int) (list : DoublyLinkedList α) (h : Heap α) :
    Option (LMS_Result × DoublyLinkedList α × Heap α) :=
  if list.size ≤ 1 then some (LMS_SUCCESS, list, h)
  else do
    let (hd, h1) ← merge_sort_nodes compare fuel list.head h
    let list1 := { list with head := hd }
    match list1.head with
    | none => some (LMS_SUCCESS, list1, h1)
    | some current => do
      let h2 ← h1.set_prev current none
      let (last, h3) ← fix_links fuel current h2
      some (LMS_SUCCESS, { list1 with tail := some last }, h3)

/-- Function `dll_sort`. -/
def dll_sort (fuel : Nat) (list : DoublyLinkedList α) (h : Heap α) :
    Option (LMS_Result × DoublyLinkedList α × Heap α) :=
  match list.compare with
  | none => some (LMS_ERROR_NULL_POINTER, list, h)
  | some compare => sort_body fuel compare list h

/-- Function `dll_sort_with`, the comparator argument possibly `NULL`. -/
def dll_sort_with (fuel : Nat) (list : DoublyLinkedList α) (compare : Option (α → α → Int))
    (h : Heap α) : Option (LMS_Result × DoublyLinkedList α × Heap α) :=
  match compare with
  | none => some (LMS_ERROR_NULL_POINTER, list, h)
  | some cmp => sort_body fuel cmp list h

/-- The records met from `p` on by following `next` links until `NULL`, each with
the address of its node. -/
def forward_from (h : Heap α) : Nat → Option Nat → Option (List (Nat × α))
  | _, none => some []
  | 0, some _ => none
  | fuel + 1, some p => do
    let nd ← h.read p
    let rest ← forward_from h fuel nd.next
    some ((p, nd.data) :: rest)

/-- The records met from `p` on by following `prev` links until `NULL`. -/
def backward_from (h : Heap α) : Nat → Option Nat → Option (List (Nat × α))
  | _, none => some []
  | 0, some _ => none
  | fuel + 1, some p => do
    let nd ← h.read p
    let rest ← backward_from h fuel nd.prev
    some ((p, nd.data) :: rest)

/-- The forward sequence of nodes read from `head`; `none` when the walk does not
end (a cycle) or leaves the live nodes. -/
def forward_nodes (list : DoublyLinkedList α) (h : Heap α) : Option (List (Nat × α)) :=
  forward_from h h.cells.length list.head

/-- The backward sequence of nodes read from `tail`. -/
def backward_nodes (list : DoublyLinkedList α) (h : Heap α) : Option (List (Nat × α)) :=
  backward_from h h.cells.length list.tail

/-- The forward sequence of records. -/
def forward_seq (list : DoublyLinkedList α) (h : Heap α) : Option (List α) :=
  (forward_nodes list h).map (List.map Prod.snd)

/-- The backward sequence of records. -/
def backward_seq (list : DoublyLinkedList α) (h : Heap α) : Option (List α) :=
  (backward_nodes list h).map (List.map Prod.snd)

/-- A well-formed list: `size` is the length of the forward sequence of nodes read
from `head`, and the backward sequence read from `tail` is its reverse. -/
def WellFormed (list : DoublyLinkedList α) (h : Heap α) : Prop :=
  ∃ l : List (Nat × α),
    forward_nodes list h = some l ∧ list.size = l.length ∧
    backward_nodes list h = some l.reverse

/-! ## Chains of nodes

The predicates below describe a chain of nodes in the heap by the list of its
`(address, record)` pairs in forward order. -/

/-- The address of the first node of `l`, or `d` when `l` is empty. -/
def headAddr : List (Nat × α) → Option Nat → Option Nat
  | [], d => d
  | (a, _) :: _, _ => some a

/-- The address of the last node of `l`, or `d` when `l` is empty. -/
def lastAddr : List (Nat × α) → Option Nat → Option Nat
  | [], d => d
  | (a, _) :: l, _ => lastAddr l (some a)

/-- The nodes of `l` are linked in both directions; the first has `prev = pv`,
the last has `next = nx`. -/
def Linked (h : Heap α) : Option Nat → List (Nat × α) → Option Nat → Prop
  | _, [], _ => True
  | pv, (a, x) :: l, nx =>
    h.read a = some { data := x, prev := pv, next := headAddr l nx } ∧ Linked h (some a) l nx

/-- The nodes of `l` are linked by their `next` fields, the last has `next = nx`. -/
def NSeg (h : Heap α) : List (Nat × α) → Option Nat → Prop
  | [], _ => True
  | (a, x) :: l, nx =>
    (∃ pv, h.read a = some { data := x, prev := pv, next := headAddr l nx }) ∧ NSeg h l nx

/-- The nodes of `l` are linked by their `prev` fields, the first has `prev = pv`. -/
def PSeg (h : Heap α) : Option Nat → List (Nat × α) → Prop
  | _, [] => True
  | pv, (a, x) :: l =>
    (∃ nx, h.read a = some { data := x, prev := pv, next := nx }) ∧ PSeg h (some a) l

/-- The nodes of `r`, listed from the last to the first, are linked by their
`prev` fields; the last one listed has `prev = e`. -/
def BSeg (h : Heap α) : List (Nat × α) → Option Nat → Prop
  | [], _ => True
  | (a, x) :: r, e =>
    (∃ nx, h.read a = some { data := x, prev := headAddr r e, next := nx }) ∧ BSeg h r e

/-- The container `list` holds exactly the nodes `l`, in this order, correctly
linked in both directions. -/
structure IsList (list : DoublyLinkedList α) (h : Heap α) (l : List (Nat × α)) : Prop where
  linked : Linked h none l none
  head_eq : list.head = headAddr l none
  tail_eq : list.tail = lastAddr l none
  size_eq : list.size = l.length
  nodup : (l.map Prod.fst).Nodup

/-! ## Concrete inputs -/

/-- The comparator `compare_int` of `tests/test_dll.c`. -/
def compare_int (a b : Int) : Int := (if a > b then 1 else 0) - (if a < b then 1 else 0)

/-- The heap after `dll_insert_rear` of 10 and 20 into an empty list. -/
def heap_10_20 : Heap Int :=
  { cells := [some ⟨10, none, some 1⟩, some ⟨20, some 0, none⟩], limit := 16 }

/-- The list 10, 20. -/
def list_10_20 : DoublyLinkedList Int :=
  { head := some 0, tail := some 1, size := 2, compare := some compare_int, print := none,
    free_data := none, copy_data := none }

/-- The heap after `dll_insert_rear` of 10, 20 and 30 into an empty list. -/
def heap_10_20_30 : Heap Int :=
  { cells := [some ⟨10, none, some 1⟩, some ⟨20, some 0, some 2⟩, some ⟨30, some 1, none⟩],
    limit := 16 }

/-- The list 10, 20, 30. -/
def list_10_20_30 : DoublyLinkedList Int :=
  { head := some 0, tail := some 2, size := 3, compare := some compare_int, print := none,
    free_data := none, copy_data := none }

/-- What a test can observe of the outcome of an operation: the result code,
`head`, `tail`, `size`, and the forward and backward sequences of records. -/
def observe (r : Option (LMS_Result × DoublyLinkedList α × Heap α)) :
    Option (LMS_Result × Option Nat × Option Nat × Int × Option (List α) × Option (List α)) :=
  r.map fun (c, l, h) => (c, l.head, l.tail, l.size, forward_seq l h, backward_seq l h)

/-- The comparator and the three hooks of `list'` are those of `list`. -/
def SameHooks (list list' : DoublyLinkedList α) : Prop :=
  list'.compare = list.compare ∧ list'.print = list.print ∧
  list'.free_data = list.free_data ∧ list'.copy_data = list.copy_data

/-- An empty heap with room for 16 nodes. -/
def heap_empty : Heap Int := { cells := [], limit := 16 }

/-- The empty list of `dll_create(sizeof(int), compare_int, print_int)`. -/
def list_empty : DoublyLinkedList Int := dll_create (some compare_int) (some 0)

/-- The heap after `dll_insert_rear` of 10, then `dll_insert_front` of 20. -/
def heap_20_10 : Heap Int :=
  { cells := [some ⟨10, some 1, none⟩, some ⟨20, none, some 0⟩], limit := 16 }

/-- The list 20, 10 of the insertion test. -/
def list_20_10 : DoublyLinkedList Int :=
  { head := some 1, tail := some 0, size := 2, compare := some compare_int, print := some 0,
    free_data := none, copy_data := none }

/-- The container invariants: the list is well formed, `size` is the number of
nodes reachable forward from `head` and the number reachable backward from `tail`,
`size` is 0 exactly when `head` and `tail` are both `NULL`, and the predecessor and
the successor of every node of the list link back to it. -/
structure Invariants (list : DoublyLinkedList α) (h : Heap α) : Prop where
  wellFormed : WellFormed list h
  size_forward : ∃ f, forward_nodes list h = some f ∧ list.size = f.length
  size_backward : ∃ b, backward_nodes list h = some b ∧ list.size = b.length
  empty_iff : list.size = 0 ↔ (list.head = none ∧ list.tail = none)
  links_back : ∀ f a nd, forward_nodes list h = some f → a ∈ f.map Prod.fst →
    h.read a = some nd →
      (∀ p, nd.prev = some p → ∃ pn, h.read p = some pn ∧ pn.next = some a) ∧
      (∀ n, nd.next = some n → ∃ nn, h.read n = some nn ∧ nn.prev = some a)

/-- The comparator `cmp` is a total preorder, read as `a ≤ b` iff `cmp a b ≤ 0`. -/
structure TotalPreorder (cmp : α → α → Int) : Prop where
  total : ∀ a b, cmp a b ≤ 0 ∨ cmp b a ≤ 0
  trans : ∀ a b c, cmp a b ≤ 0 → cmp b c ≤ 0 → cmp a c ≤ 0

/-- Every adjacent pair `(a, b)` of `s` satisfies `cmp a b ≤ 0`. -/
def SortedBy (cmp : α → α → Int) (s : List α) : Prop :=
  s.Chain' fun a b => cmp a b ≤ 0

/-- The heap of the sort test: `dll_insert_rear` of 50, 10, 30, 20, 40 into an empty
list. -/
def heap_unsorted5 : Heap Int :=
  { cells := [some ⟨50, none, some 1⟩, some ⟨10, some 0, some 2⟩, some ⟨30, some 1, some 3⟩,
      some ⟨20, some 2, some 4⟩, some ⟨40, some 3, none⟩],
    limit := 16 }

/-- The list 50, 10, 30, 20, 40 of the sort test. -/
def list_unsorted5 : DoublyLinkedList Int :=
  { head := some 0, tail := some 4, size := 5, compare := some compare_int, print := some 0,
    free_data := none, copy_data := none }

/-- The heap of the sort test after `dll_sort`: the same five nodes, relinked. -/
def heap_sorted5 : Heap Int :=
  { cells := [some ⟨50, some 4, none⟩, some ⟨10, none, some 3⟩, some ⟨30, some 3, some 4⟩,
      some ⟨20, some 1, some 2⟩, some ⟨40, some 2, some 0⟩],
    limit := 16 }

/-- The list 10, 20, 30, 40, 50 of the sort test after `dll_sort`. -/
def list_sorted5 : DoublyLinkedList Int :=
  { head := some 1, tail := some 0, size := 5, compare := some compare_int, print := some 0,
    free_data := none, copy_data := none }

/-! ## The merge sort on sequences

The two functions below are the merge sort of `merge_sort_nodes` acting on the
sequence of nodes of a chain instead of on the chain itself; the theorems relate
the chain produced by the code to them. -/

/-- The test `compare(left->data, right->data) <= 0` of `merge_sorted_nodes`. -/
def node_le (cmp : α → α → Int) (e1 e2 : Nat × α) : Bool := decide (cmp e1.2 e2.2 ≤ 0)

/-- The sequence produced by `merge_sort_nodes`: a chain of fewer than two nodes is
returned as it is; otherwise the first `⌊n/2⌋` nodes and the remaining nodes are
sorted and then merged, the left node being taken first unless it compares greater. -/
def msort_model (cmp : α → α → Int) : Nat → List (Nat × α) → List (Nat × α)
  | 0, l => l
  | fuel + 1, l =>
    if l.length < 2 then l
    else
      List.merge (msort_model cmp fuel (l.take (l.length / 2)))
        (msort_model cmp fuel (l.drop (l.length / 2))) (node_le cmp)

/-- A comparator on `(key, tag)` records that looks at the key only. -/
def compare_key (a b : Int × String) : Int := compare_int a.1 b.1

/-- The heap after `dll_insert_rear` of `(1, "x")`, `(1, "y")`, `(2, "z")`. -/
def heap_keyed : Heap (Int × String) :=
  { cells := [some ⟨(1, "x"), none, some 1⟩, some ⟨(1, "y"), some 0, some 2⟩,
      some ⟨(2, "z"), some 1, none⟩],
    limit := 16 }

/-- The list `(1, "x")`, `(1, "y")`, `(2, "z")` with the key comparator. -/
def list_keyed : DoublyLinkedList (Int × String) :=
  { head := some 0, tail := some 2, size := 3, compare := some compare_key, print := none,
    free_data := none, copy_data := none }

/-- The heap after `dll_insert_rear` of `(2, "z")`, `(1, "x")`, `(1, "y")`. -/
def heap_keyed_mixed : Heap (Int × String) :=
  { cells := [some ⟨(2, "z"), none, some 1⟩, some ⟨(1, "x"), some 0, some 2⟩,
      some ⟨(1, "y"), some 1, none⟩],
    limit := 16 }

/-! ## Positional access, iterators, clearing and cloning -/

/-- Function `dll_get_node_at`: `NULL` for an index out of range; otherwise the walk
starts from `head` when `index < size / 2` and from `tail` otherwise. -/
def dll_get_node_at (list : DoublyLinkedList α) (index : Int) (h : Heap α) :
    Option (Option Nat) :=
  if index < 0 ∨ index ≥ list.size then some none
  else if index < list.size.tdiv 2 then walk_next h index.toNat list.head
  else walk_prev h (list.size - 1 - index).toNat list.tail

/-- Function `dll_get_at`: the record of the node found by `dll_get_node_at`, `NULL`
when there is none. -/
def dll_get_at (list : DoublyLinkedList α) (index : Int) (h : Heap α) : Option (Option α) := do
  let node ← dll_get_node_at list index h
  match node with
  | none => some none
  | some p => do
    let nd ← h.read p
    some (some nd.data)

/-- The loop of `dll_index_of`: the index of the first node from `current` on
whose record compares equal to `data`, `-1` when the chain ends before. -/
def index_of_from (compare : α → α → Int) (data : α) (h : Heap α) :
    Nat → Option Nat → Int → Option Int
  | _, none, _ => some (-1)
  | 0, some _, _ => none
  | fuel + 1, some p, index => do
    let nd ← h.read p
    if compare nd.data data = 0 then some index
    else index_of_from compare data h fuel nd.next (index + 1)

/-- Function `dll_index_of`; the `data` pointer may be `NULL` here, so that the result
of `dll_get_at` can be passed on. -/
def dll_index_of (fuel : Nat) (list : DoublyLinkedList α) (data : Option α) (h : Heap α) :
    Option Int :=
  match data with
  | none => some (-1)
  | some d =>
    match list.compare with
    | none => some (-1)
    | some compare => index_of_from compare d h fuel list.head 0

/-- Function `dll_size` on a non-null list. -/
def dll_size (list : DoublyLinkedList α) : Int := list.size

/-- Function `dll_is_empty` on a non-null list. -/
def dll_is_empty (list : DoublyLinkedList α) : Bool := decide (list.size = 0)

/-- The `struct Iterator`; its `list` field points to the container, which the
functions that follow this pointer take as an argument. -/
structure Iterator where
  current : Option Nat
  direction : Int
  deriving DecidableEq, Repr

/-- Function `dll_iterator_create`, the allocation of the iterator succeeding. -/
def dll_iterator_create (list : DoublyLinkedList α) : Iterator :=
  { current := list.head, direction := 1 }

/-- Function `dll_reverse_iterator_create`, the allocation of the iterator succeeding. -/
def dll_reverse_iterator_create (list : DoublyLinkedList α) : Iterator :=
  { current := list.tail, direction := -1 }

/-- Function `iterator_next`: the record under the cursor (`NULL` when the iterator is
exhausted) and the iterator moved one node in its direction. -/
def iterator_next (iter : Iterator) (h : Heap α) : Option (Option α × Iterator) :=
  match iter.current with
  | none => some (none, iter)
  | some p => do
    let nd ← h.read p
    let data := nd.data
    if iter.direction = 1 then some (some data, { iter with current := nd.next })
    else some (some data, { iter with current := nd.prev })

/-- Function `iterator_has_next`. -/
def iterator_has_next (iter : Iterator) : Bool := iter.current.isSome

/-- Function `iterator_current`. -/
def iterator_current (iter : Iterator) (h : Heap α) : Option (Option α) :=
  match iter.current with
  | none => some none
  | some p => do
    let nd ← h.read p
    some (some nd.data)

/-- Function `iterator_reset`, `list` being the container the iterator points to. -/
def iterator_reset (iter : Iterator) (list : DoublyLinkedList α) : Iterator :=
  if iter.direction = 1 then { iter with current := list.head }
  else { iter with current := list.tail }

/-- The loop `while (iterator_has_next(iter)) { data = iterator_next(iter); ... }` of
the iterator test: what the successive calls of `iterator_next` returned, and the
iterator at the end. -/
def iterator_drain (h : Heap α) : Nat → Iterator → Option (List (Option α) × Iterator)
  | 0, iter => if iterator_has_next iter then none else some ([], iter)
  | fuel + 1, iter =>
    if iterator_has_next iter then do
      let (data, iter1) ← iterator_next iter h
      let (rest, iter2) ← iterator_drain h fuel iter1
      some (data :: rest, iter2)
    else some ([], iter)

/-- The loop of `dll_clear`: every node from `current` on is released. -/
def clear_loop : Nat → Option Nat → Heap α → Option (Heap α)
  | _, none, h => some h
  | 0, some _, _ => none
  | fuel + 1, some current, h => do
    let nd ← h.read current
    let next := nd.next
    let h1 ← node_destroy (some current) h
    clear_loop fuel next h1

/-- Function `dll_clear`. -/
def dll_clear (fuel : Nat) (list : DoublyLinkedList α) (h : Heap α) :
    Option (DoublyLinkedList α × Heap α) := do
  let h1 ← clear_loop fuel list.head h
  some ({ list with head := none, tail := none, size := 0 }, h1)

/-- Function `dll_destroy`: the nodes are released; the container struct itself is not
part of the heap. -/
def dll_destroy (fuel : Nat) (list : DoublyLinkedList α) (h : Heap α) : Option (Heap α) := do
  let (_, h1) ← dll_clear fuel list h
  some h1

/-- The loop of `dll_clone`: every record from `current` on is appended to `clone`;
when an insertion fails the partial clone is destroyed and the result is `NULL`. -/
def clone_loop (dfuel : Nat) :
    Nat → Option Nat → DoublyLinkedList α → Heap α →
      Option (Option (DoublyLinkedList α) × Heap α)
  | _, none, clone, h => some (some clone, h)
  | 0, some _, _, _ => none
  | fuel + 1, some current, clone, h => do
    let nd ← h.read current
    let (r, clone1, h1) ← dll_insert_rear clone nd.data h
    if r ≠ LMS_SUCCESS then do
      let h2 ← dll_destroy dfuel clone1 h1
      some (none, h2)
    else do
      let nd1 ← h1.read current
      clone_loop dfuel fuel nd1.next clone1 h1

/-- Function `dll_clone`, the allocation of the container struct succeeding. -/
def dll_clone (fuel : Nat) (list : DoublyLinkedList α) (h : Heap α) :
    Option (Option (DoublyLinkedList α) × Heap α) :=
  let clone := dll_create list.compare list.print
  let clone := { clone with free_data := list.free_data, copy_data := list.copy_data }
  clone_loop fuel fuel list.head clone h

/-- The heap after `dll_insert_rear` of 10, 20, 30, 40, 50 into an empty list. -/
def heap_10_to_50 : Heap Int :=
  { cells := [some ⟨10, none, some 1⟩, some ⟨20, some 0, some 2⟩, some ⟨30, some 1, some 3⟩,
      some ⟨40, some 2, some 4⟩, some ⟨50, some 3, none⟩],
    limit := 16 }

/-- The list 10, 20, 30, 40, 50 of the search, delete and iterator tests. -/
def list_10_to_50 : DoublyLinkedList Int :=
  { head := some 0, tail := some 4, size := 5, compare := some compare_int, print := some 0,
    free_data := none, copy_data := none }

/-- What a test can observe of the outcome of `dll_clone`: `head`, `tail`, `size` and
the two sequences of the clone (nothing for `NULL`), and the forward sequence of the
original afterwards. -/
def observe_clone (list : DoublyLinkedList α)
    (r : Option (Option (DoublyLinkedList α) × Heap α)) :
    Option (Option (Option Nat × Option Nat × Int × Option (List α) × Option (List α)) ×
      Option (List α)) :=
  r.map fun (c, h) =>
    (c.map fun cl => (cl.head, cl.tail, cl.size, forward_seq cl h, backward_seq cl h),
      forward_seq list h)

/-- The list 10, 20, 30 in a container created without a comparator. -/
def list_10_20_30_plain : DoublyLinkedList Int :=
  { head := some 0, tail := some 2, size := 3, compare := none, print := none,
    free_data := none, copy_data := none }

/-- The effect of one operation on `size`: the operation returns, a successful run
moves `size` by exactly `d`, and a failed run leaves `size` as it was. -/
def SizeStep (d : Int) (list : DoublyLinkedList α)
    (out : Option (LMS_Result × DoublyLinkedList α × Heap α)) : Prop :=
  ∃ r list' h', out = some (r, list', h') ∧
    (r = LMS_SUCCESS → list'.size = list.size + d) ∧
    (r ≠ LMS_SUCCESS → list'.size = list.size)

/-- The result code and the `size` field after an operation. -/
def observe_size (out : Option (LMS_Result × DoublyLinkedList α × Heap α)) :
    Option (LMS_Result × Int) :=
  out.map fun r => (r.1, r.2.1.size)

/-- The records returned by `n` successive calls of `iterator_next`, and the iterator
after the last call. -/
def iterator_next_calls (h : Heap α) : Nat → Iterator → Option (List (Option α) × Iterator)
  | 0, iter => some ([], iter)
  | n + 1, iter => do
    let (data, iter1) ← iterator_next iter h
    let (rest, iter2) ← iterator_next_calls h n iter1
    some (data :: rest, iter2)

/-! ## Strings, records and validators

A C string is the list of its characters before the terminating NUL.  The record
structs of `include/models/models.h` hold their strings in zeroed fixed-size buffers;
`strncpy (dst, src, n)` into such a buffer of `n + 1` bytes keeps the first `n`
characters.  The `double` price of a book is a `Double`, which has the infinities and
NaN next to the numbers; the fine of a loan, which the code below only ever sets to
a number, is a rational number.  The string and record arguments are never `NULL`. -/

/-- The code of a character as a C `int`. -/
def char_code (c : Char) : Int := c.toNat

/-- The `int` value of `s[i]`; the terminating NUL and the zeroed rest of the buffer
read as 0. -/
def char_at (s : List Char) (i : Nat) : Int :=
  match s[i]? with
  | some c => char_code c
  | none => 0

/-- Function `strcmp` of the C library, of which only the sign is specified: negative,
zero or positive as the first string is below, equal to or above the second. -/
def strcmp : List Char → List Char → Int
  | [], [] => 0
  | [], _ :: _ => -1
  | _ :: _, [] => 1
  | a :: s, b :: t =>
    if a = b then strcmp s t else if a.toNat < b.toNat then -1 else 1

/-- The string left in a zeroed buffer of `n + 1` bytes by `strncpy (dst, src, n)`. -/
def strncpy (src : List Char) (n : Nat) : List Char := src.take n

/-- A C `double`: a number, an infinity or NaN.  The numbers are taken from the
rationals (every finite `double` is one); a negative zero compares like zero. -/
inductive Double where
  | finite (q : ℚ)
  | pos_inf
  | neg_inf
  | nan
  deriving DecidableEq, Repr

/-- The comparison `a < b` of two `double`s: false as soon as one of them is NaN. -/
def Double.lt : Double → Double → Bool
  | Double.nan, _ => false
  | _, Double.nan => false
  | Double.finite a, Double.finite b => decide (a < b)
  | Double.neg_inf, Double.neg_inf => false
  | Double.neg_inf, _ => true
  | Double.finite _, Double.pos_inf => true
  | Double.finite _, Double.neg_inf => false
  | Double.pos_inf, _ => false

/-- The `struct Book`. -/
structure Book where
  isbn : List Char
  title : List Char
  author : List Char
  publisher : List Char
  publication_year : Int
  category : List Char
  total_copies : Int
  available_copies : Int
  price : Double
  status : Char
  deriving DecidableEq, Repr

/-- The `struct Member`. -/
structure Member where
  member_id : List Char
  name : List Char
  phone : List Char
  email : List Char
  address : List Char
  join_date : List Char
  membership_type : Char
  loan_count : Int
  status : Char
  deriving DecidableEq, Repr

/-- The `struct Loan`. -/
structure Loan where
  loan_id : List Char
  member_id : List Char
  isbn : List Char
  loan_date : List Char
  due_date : List Char
  return_date : List Char
  overdue_days : Int
  fine_amount : ℚ
  status : Char
  deriving DecidableEq, Repr

/-- Function `compare_book_isbn`. -/
def compare_book_isbn (a b : Book) : Int := strcmp a.isbn b.isbn

/-- Function `compare_member_id`. -/
def compare_member_id (a b : Member) : Int := strcmp a.member_id b.member_id

/-- Function `compare_loan_id`. -/
def compare_loan_id (a b : Loan) : Int := strcmp a.loan_id b.loan_id

/-- Function `book_init`: the record it leaves in `*book`. -/
def book_init : Book :=
  { isbn := [], title := [], author := [], publisher := [], publication_year := 0,
    category := [], total_copies := 0, available_copies := 0, price := Double.finite 0,
    status := 'A' }

/-- Function `member_init`: the record it leaves in `*member`. -/
def member_init : Member :=
  { member_id := [], name := [], phone := [], email := [], address := [], join_date := [],
    membership_type := 'R', loan_count := 0, status := 'A' }

/-- Function `loan_init`: the record it leaves in `*loan`. -/
def loan_init : Loan :=
  { loan_id := [], member_id := [], isbn := [], loan_date := [], due_date := [],
    return_date := [], overdue_days := 0, fine_amount := 0, status := 'L' }

/-- Function `validate_isbn`. -/
def validate_isbn (isbn : List Char) : Bool :=
  if isbn.length ≠ 13 then false
  else if (List.range 13).any fun i =>
      decide (char_at isbn i < char_code '0' ∨ char_at isbn i > char_code '9') then false
  else
    let sum := (List.range 12).foldl
      (fun sum i =>
        let digit := char_at isbn i - char_code '0'
        sum + (if i % 2 = 0 then digit else digit * 3)) 0
    let check_digit := (10 - sum.tmod 10).tmod 10
    decide (char_at isbn 12 - char_code '0' = check_digit)

/-- Function `validate_date`. -/
def validate_date (date : List Char) : Bool :=
  if date.length ≠ 10 then false
  else if char_at date 4 ≠ char_code '-' ∨ char_at date 7 ≠ char_code '-' then false
  else if (List.range 10).any fun i =>
      decide (¬ (i = 4 ∨ i = 7) ∧
        (char_at date i < char_code '0' ∨ char_at date i > char_code '9')) then false
  else
    let year := (char_at date 0 - char_code '0') * 1000 + (char_at date 1 - char_code '0') * 100 +
      (char_at date 2 - char_code '0') * 10 + (char_at date 3 - char_code '0')
    let month := (char_at date 5 - char_code '0') * 10 + (char_at date 6 - char_code '0')
    let day := (char_at date 8 - char_code '0') * 10 + (char_at date 9 - char_code '0')
    if year < 1900 ∨ year > 2100 then false
    else if month < 1 ∨ month > 12 then false
    else if day < 1 ∨ day > 31 then false
    else if month = 2 ∧ day > 29 then false
    else if (month = 4 ∨ month = 6 ∨ month = 9 ∨ month = 11) ∧ day > 30 then false
    else true

/-- Function `validate_book`. -/
def validate_book (book : Book) : Bool :=
  if ¬ validate_isbn book.isbn then false
  else if book.title.length = 0 ∨ book.title.length > 100 then false
  else if book.author.length = 0 ∨ book.author.length > 50 then false
  else if book.publisher.length > 50 then false
  else if book.publication_year < 1000 ∨ book.publication_year > 2030 then false
  else if book.category.length > 30 then false
  else if book.total_copies < 0 ∨ book.available_copies < 0 then false
  else if book.available_copies > book.total_copies then false
  else if Double.lt book.price (Double.finite 0) then false
  else if book.status ≠ 'A' ∧ book.status ≠ 'D' then false
  else true

/-- Function `validate_loan`. -/
def validate_loan (loan : Loan) : Bool :=
  if loan.loan_id.length = 0 ∨ loan.loan_id.length > 10 then false
  else if loan.member_id.length = 0 ∨ loan.member_id.length > 10 then false
  else if ¬ validate_isbn loan.isbn then false
  else if ¬ validate_date loan.loan_date then false
  else if ¬ validate_date loan.due_date then false
  else if loan.return_date.length > 0 ∧ ¬ validate_date loan.return_date then false
  else if loan.overdue_days < 0 then false
  else if loan.fine_amount < 0 then false
  else if loan.status ≠ 'L' ∧ loan.status ≠ 'R' ∧ loan.status ≠ 'O' then false
  else true

/-- The ISBN-13 weighted sum `d0 + 3*d1 + d2 + 3*d3 + ... + 3*d11 + d12` of the digits
of a string, `dk` being the value of character `k` as a decimal digit. -/
def isbn13_weighted_sum (isbn : List Char) : Int :=
  (char_at isbn 0 - 48) + 3 * (char_at isbn 1 - 48) + (char_at isbn 2 - 48) +
  3 * (char_at isbn 3 - 48) + (char_at isbn 4 - 48) + 3 * (char_at isbn 5 - 48) +
  (char_at isbn 6 - 48) + 3 * (char_at isbn 7 - 48) + (char_at isbn 8 - 48) +
  3 * (char_at isbn 9 - 48) + (char_at isbn 10 - 48) + 3 * (char_at isbn 11 - 48) +
  (char_at isbn 12 - 48)

/-- A decimal digit, `'0'` to `'9'`. -/
def is_decimal_digit (c : Char) : Bool := decide (48 ≤ c.toNat ∧ c.toNat ≤ 57)

/-! ## Repositories

A repository struct is passed and returned by value, like the container struct; a
pointer to a stored record (`Book *`, `Member *`, `Loan *`) is the address of the node
that holds it.  The allocation of the repository, service and iterator structs
succeeds. -/

/-- The identity of the function `print_book`. -/
def print_book : Nat := 1

/-- The identity of the function `print_member`. -/
def print_member : Nat := 2

/-- The identity of the function `print_loan`. -/
def print_loan : Nat := 3

/-- The `struct BookRepository`; the index lists hold `Book *`. -/
structure BookRepository where
  books : DoublyLinkedList Book
  isbn_index : DoublyLinkedList Nat
  title_index : DoublyLinkedList Nat
  author_index : DoublyLinkedList Nat

/-- The `struct MemberRepository`; the index lists hold `Member *`. -/
structure MemberRepository where
  members : DoublyLinkedList Member
  id_index : DoublyLinkedList Nat
  email_index : DoublyLinkedList Nat
  phone_index : DoublyLinkedList Nat

/-- The `struct LoanRepository`; the index lists hold `Loan *`. -/
structure LoanRepository where
  loans : DoublyLinkedList Loan
  member_index : DoublyLinkedList Nat
  book_index : DoublyLinkedList Nat
  date_index : DoublyLinkedList Nat

/-- Function `book_repository_create`. -/
def book_repository_create : BookRepository :=
  { books := dll_create (some compare_book_isbn) (some print_book),
    isbn_index := dll_create none none,
    title_index := dll_create none none,
    author_index := dll_create none none }

/-- Function `member_repository_create`. -/
def member_repository_create : MemberRepository :=
  { members := dll_create (some compare_member_id) (some print_member),
    id_index := dll_create none none,
    email_index := dll_create none none,
    phone_index := dll_create none none }

/-- Function `loan_repository_create`. -/
def loan_repository_create : LoanRepository :=
  { loans := dll_create (some compare_loan_id) (some print_loan),
    member_index := dll_create none none,
    book_index := dll_create none none,
    date_index := dll_create none none }

/-- Function `book_repo_find_by_isbn`: the stored record found, or `NULL`. -/
def book_repo_find_by_isbn (fuel : Nat) (repo : BookRepository) (isbn : List Char)
    (h : Heap Book) : Option (Option Nat) :=
  let search_book := { book_init with isbn := strncpy isbn 13 }
  dll_search fuel repo.books search_book h

/-- Function `book_repo_add`. -/
def book_repo_add (fuel : Nat) (repo : BookRepository) (book : Book) (h : Heap Book) :
    Option (LMS_Result × BookRepository × Heap Book) :=
  if ¬ validate_book book then some (LMS_ERROR_INVALID_INPUT, repo, h)
  else do
    let found ← book_repo_find_by_isbn fuel repo book.isbn h
    if found.isSome then some (LMS_ERROR_DUPLICATE, repo, h)
    else do
      let (result, books1, h1) ← dll_insert_sorted fuel repo.books book h
      if result ≠ LMS_SUCCESS then some (result, { repo with books := books1 }, h1)
      else some (LMS_SUCCESS, { repo with books := books1 }, h1)

/-- Function `book_repo_delete`. -/
def book_repo_delete (fuel : Nat) (repo : BookRepository) (isbn : List Char) (h : Heap Book) :
    Option (LMS_Result × BookRepository × Heap Book) := do
  let search_book := { book_init with isbn := strncpy isbn 13 }
  let (result, books1, h1) ← dll_delete_data fuel repo.books search_book h
  some (result, { repo with books := books1 }, h1)

/-- Function `book_repo_update_availability`. -/
def book_repo_update_availability (fuel : Nat) (repo : BookRepository) (isbn : List Char)
    (change : Int) (h : Heap Book) : Option (LMS_Result × Heap Book) := do
  let book ← book_repo_find_by_isbn fuel repo isbn h
  match book with
  | none => some (LMS_ERROR_NOT_FOUND, h)
  | some p => do
    let nd ← h.read p
    let new_available := nd.data.available_copies + change
    if new_available < 0 ∨ new_available > nd.data.total_copies then
      some (LMS_ERROR_INVALID_INPUT, h)
    else do
      let h1 ← h.write p { nd with data := { nd.data with available_copies := new_available } }
      some (LMS_SUCCESS, h1)

/-- Function `book_repo_get_total_count`. -/
def book_repo_get_total_count (repo : BookRepository) : Int := dll_size repo.books

/-- Function `member_repo_find_by_id`: the stored record found, or `NULL`. -/
def member_repo_find_by_id (fuel : Nat) (repo : MemberRepository) (member_id : List Char)
    (h : Heap Member) : Option (Option Nat) :=
  let search_member := { member_init with member_id := strncpy member_id 10 }
  dll_search fuel repo.members search_member h

/-- Function `member_repo_update_loan_count`. -/
def member_repo_update_loan_count (fuel : Nat) (repo : MemberRepository)
    (member_id : List Char) (change : Int) (h : Heap Member) :
    Option (LMS_Result × Heap Member) := do
  let member ← member_repo_find_by_id fuel repo member_id h
  match member with
  | none => some (LMS_ERROR_NOT_FOUND, h)
  | some p => do
    let nd ← h.read p
    let new_count := nd.data.loan_count + change
    if new_count < 0 then some (LMS_ERROR_INVALID_INPUT, h)
    else do
      let h1 ← h.write p { nd with data := { nd.data with loan_count := new_count } }
      some (LMS_SUCCESS, h1)

/-- Function `loan_repo_find_by_id`: the stored record found, or `NULL`. -/
def loan_repo_find_by_id (fuel : Nat) (repo : LoanRepository) (loan_id : List Char)
    (h : Heap Loan) : Option (Option Nat) :=
  let search_loan := { loan_init with loan_id := strncpy loan_id 10 }
  dll_search fuel repo.loans search_loan h

/-- Function `loan_repo_add`. -/
def loan_repo_add (fuel : Nat) (repo : LoanRepository) (loan : Loan) (h : Heap Loan) :
    Option (LMS_Result × LoanRepository × Heap Loan) :=
  if ¬ validate_loan loan then some (LMS_ERROR_INVALID_INPUT, repo, h)
  else do
    let found ← loan_repo_find_by_id fuel repo loan.loan_id h
    if found.isSome then some (LMS_ERROR_DUPLICATE, repo, h)
    else do
      let (result, loans1, h1) ← dll_insert_sorted fuel repo.loans loan h
      if result ≠ LMS_SUCCESS then some (result, { repo with loans := loans1 }, h1)
      else some (LMS_SUCCESS, { repo with loans := loans1 }, h1)

/-- Function `loan_repo_get_total_count`. -/
def loan_repo_get_total_count (repo : LoanRepository) : Int := dll_size repo.loans

/-- Function `loan_is_active`. -/
def loan_is_active (loan : Loan) : Bool := decide (loan.status = 'L')

/-- The memory of the services. -/
structure Memory where
  books : Heap Book
  members : Heap Member
  loans : Heap Loan
  loan_counter : Nat
  deriving DecidableEq, Repr

/-- The `struct BookService`. -/
structure BookService where
  book_repo : BookRepository
  loan_repo : LoanRepository

/-- The `struct MemberService`. -/
structure MemberService where
  member_repo : MemberRepository
  loan_repo : LoanRepository

/-- The `struct LoanService`. -/
structure LoanService where
  loan_repo : LoanRepository
  book_repo : BookRepository
  member_repo : MemberRepository

/-- Function `book_service_is_available_for_loan`. -/
def book_service_is_available_for_loan (fuel : Nat) (service : BookService)
    (isbn : List Char) (h : Heap Book) : Option Bool := do
  let book ← book_repo_find_by_isbn fuel service.book_repo isbn h
  match book with
  | none => some false
  | some p => do
    let nd ← h.read p
    some (decide (nd.data.available_copies > 0 ∧ nd.data.status = 'A'))

/-- Function `book_service_get_available_count`. -/
def book_service_get_available_count (fuel : Nat) (service : BookService)
    (isbn : List Char) (h : Heap Book) : Option Int := do
  let book ← book_repo_find_by_isbn fuel service.book_repo isbn h
  match book with
  | none => some 0
  | some p => do
    let nd ← h.read p
    some nd.data.available_copies

/-- Function `book_service_reserve_book`. -/
def book_service_reserve_book (fuel : Nat) (service : BookService) (isbn : List Char)
    (h : Heap Book) : Option (LMS_Result × Heap Book) := do
  let available ← book_service_is_available_for_loan fuel service isbn h
  if ¬ available then some (LMS_ERROR_BOOK_UNAVAILABLE, h)
  else book_repo_update_availability fuel service.book_repo isbn (-1) h

/-- Function `book_service_release_reservation`. -/
def book_service_release_reservation (fuel : Nat) (service : BookService) (isbn : List Char)
    (h : Heap Book) : Option (LMS_Result × Heap Book) :=
  book_repo_update_availability fuel service.book_repo isbn 1 h

/-- The constant `MAX_LOANS_REGULAR`. -/
def MAX_LOANS_REGULAR : Int := 3

/-- The constant `MAX_LOANS_PREMIUM`. -/
def MAX_LOANS_PREMIUM : Int := 5

/-- Function `member_service_get_max_loan_limit`. -/
def member_service_get_max_loan_limit (fuel : Nat) (service : MemberService)
    (member_id : List Char) (h : Heap Member) : Option Int := do
  let member ← member_repo_find_by_id fuel service.member_repo member_id h
  match member with
  | none => some 0
  | some p => do
    let nd ← h.read p
    some (if nd.data.membership_type = 'P' then MAX_LOANS_PREMIUM else MAX_LOANS_REGULAR)

/-- Function `member_service_get_remaining_loan_limit`. -/
def member_service_get_remaining_loan_limit (fuel : Nat) (service : MemberService)
    (member_id : List Char) (h : Heap Member) : Option Int := do
  let member ← member_repo_find_by_id fuel service.member_repo member_id h
  match member with
  | none => some 0
  | some p => do
    let max_limit ← member_service_get_max_loan_limit fuel service member_id h
    let nd ← h.read p
    some (max_limit - nd.data.loan_count)

/-- The constant `DEFAULT_LOAN_PERIOD_DAYS`. -/
def DEFAULT_LOAN_PERIOD_DAYS : Int := 14

/-- The constant `FINE_PER_DAY`. -/
def FINE_PER_DAY : ℚ := 1

/-- Function `loan_service_can_borrow`. -/
def loan_service_can_borrow (fuel : Nat) (service : LoanService) (member_id isbn : List Char)
    (m : Memory) : Option Bool := do
  let member ← member_repo_find_by_id fuel service.member_repo member_id m.members
  match member with
  | none => some false
  | some mp => do
    let mn ← m.members.read mp
    if mn.data.status ≠ 'A' then some false
    else
      let max_loans : Int := if mn.data.membership_type = 'P' then 5 else 3
      if mn.data.loan_count ≥ max_loans then some false
      else do
        let book ← book_repo_find_by_isbn fuel service.book_repo isbn m.books
        match book with
        | none => some false
        | some bp => do
          let bn ← m.books.read bp
          if bn.data.available_copies ≤ 0 ∨ bn.data.status ≠ 'A' then some false
          else some true

/-- Function `loan_service_get_loan_period`. -/
def loan_service_get_loan_period (fuel : Nat) (service : LoanService) (member_id : List Char)
    (h : Heap Member) : Option Int := do
  let member ← member_repo_find_by_id fuel service.member_repo member_id h
  match member with
  | none => some DEFAULT_LOAN_PERIOD_DAYS
  | some p => do
    let nd ← h.read p
    some (if nd.data.membership_type = 'P' then 21 else DEFAULT_LOAN_PERIOD_DAYS)

/-- The string printed by `snprintf (loan_id, 11, "L%09d", n)`. -/
def format_loan_id (n : Nat) : List Char :=
  let digits := Nat.toDigits 10 n
  ('L' :: (List.replicate (9 - digits.length) '0' ++ digits)).take 10

/-- Function `loan_service_generate_loan_id`: the string, or `NULL` when its `malloc`
fails, and the static counter afterwards. -/
def loan_service_generate_loan_id (alloc : Bool) (loan_counter : Nat) :
    Option (List Char) × Nat :=
  if ¬ alloc then (none, loan_counter)
  else (some (format_loan_id loan_counter), loan_counter + 1)

/-- Function `loan_service_calculate_due_date`: the string, or `NULL` when its `malloc`
fails. -/
def loan_service_calculate_due_date (fuel : Nat) (service : LoanService) (alloc : Bool)
    (loan_date member_id : List Char) (h : Heap Member) : Option (Option (List Char)) := do
  let _loan_period ← loan_service_get_loan_period fuel service member_id h
  if ¬ alloc then some none
  else some (some (strncpy loan_date 10))

/-- Function `loan_service_calculate_fine`. -/
def loan_service_calculate_fine (due_date return_date : List Char) : ℚ :=
  if strcmp return_date due_date ≤ 0 then 0
  else
    let overdue_days : Int := 1
    (overdue_days : ℚ) * FINE_PER_DAY

/-- Function `loan_service_borrow_book`; `now` is the string of
`get_current_date_string`, `id_alloc` and `due_alloc` tell whether the `malloc` of the
loan id and of the due date succeed. -/
def loan_service_borrow_book (fuel : Nat) (service : LoanService) (member_id isbn : List Char)
    (now : List Char) (id_alloc due_alloc : Bool) (m : Memory) :
    Option (LMS_Result × LoanService × Memory) := do
  let allowed ← loan_service_can_borrow fuel service member_id isbn m
  if ¬ allowed then some (LMS_ERROR_LOAN_LIMIT, service, m)
  else do
    let (result, hb1) ← book_repo_update_availability fuel service.book_repo isbn (-1) m.books
    if result ≠ LMS_SUCCESS then some (result, service, { m with books := hb1 })
    else do
      let (result, hm1) ←
        member_repo_update_loan_count fuel service.member_repo member_id 1 m.members
      if result ≠ LMS_SUCCESS then do
        let (_, hb2) ← book_repo_update_availability fuel service.book_repo isbn 1 hb1
        some (result, service, { m with books := hb2, members := hm1 })
      else
        let loan := loan_init
        match loan_service_generate_loan_id id_alloc m.loan_counter with
        | (none, counter1) => do
          let (_, hb2) ← book_repo_update_availability fuel service.book_repo isbn 1 hb1
          let (_, hm2) ←
            member_repo_update_loan_count fuel service.member_repo member_id (-1) hm1
          some (LMS_ERROR_MEMORY, service,
            { m with books := hb2, members := hm2, loan_counter := counter1 })
        | (some loan_id, counter1) => do
          let loan := { loan with loan_id := strncpy loan_id 10 }
          let loan := { loan with member_id := strncpy member_id 10 }
          let loan := { loan with isbn := strncpy isbn 13 }
          let current_date := now
          let loan := { loan with loan_date := strncpy current_date 10 }
          let due_date ←
            loan_service_calculate_due_date fuel service due_alloc current_date member_id hm1
          let loan :=
            match due_date with
            | some d => { loan with due_date := strncpy d 10 }
            | none => loan
          let loan := { loan with status := 'L' }
          let (result, loan_repo1, hl1) ← loan_repo_add fuel service.loan_repo loan m.loans
          if result ≠ LMS_SUCCESS then do
            let (_, hb2) ← book_repo_update_availability fuel service.book_repo isbn 1 hb1
            let (_, hm2) ←
              member_repo_update_loan_count fuel service.member_repo member_id (-1) hm1
            some (result, { service with loan_repo := loan_repo1 },
              { books := hb2, members := hm2, loans := hl1, loan_counter := counter1 })
          else
            some (LMS_SUCCESS, { service with loan_repo := loan_repo1 },
              { books := hb1, members := hm1, loans := hl1, loan_counter := counter1 })

/-- Function `loan_service_return_book`; `now` is the string of
`get_current_date_string`. -/
def loan_service_return_book (fuel : Nat) (service : LoanService) (loan_id : List Char)
    (now : List Char) (m : Memory) : Option (LMS_Result × Memory) := do
  let loan ← loan_repo_find_by_id fuel service.loan_repo loan_id m.loans
  match loan with
  | none => some (LMS_ERROR_NOT_FOUND, m)
  | some lp => do
    let ln ← m.loans.read lp
    if ln.data.status ≠ 'L' then some (LMS_ERROR_INVALID_INPUT, m)
    else do
      let (result, hb1) ←
        book_repo_update_availability fuel service.book_repo ln.data.isbn 1 m.books
      if result ≠ LMS_SUCCESS then some (result, { m with books := hb1 })
      else do
        let (result, hm1) ←
          member_repo_update_loan_count fuel service.member_repo ln.data.member_id (-1)
            m.members
        if result ≠ LMS_SUCCESS then do
          let (_, hb2) ←
            book_repo_update_availability fuel service.book_repo ln.data.isbn (-1) hb1
          some (result, { m with books := hb2, members := hm1 })
        else do
          let return_date := now
          let loan1 := { ln.data with return_date := strncpy return_date 10 }
          let fine := loan_service_calculate_fine loan1.due_date return_date
          let loan2 :=
            if fine > 0 then { loan1 with fine_amount := fine, status := 'O' }
            else { loan1 with status := 'R' }
          let hl1 ← m.loans.write lp { ln with data := loan2 }
          some (LMS_SUCCESS, { m with books := hb1, members := hm1, loans := hl1 })

/-- Function `loan_service_get_total_loan_count`. -/
def loan_service_get_total_loan_count (service : LoanService) : Int :=
  loan_repo_get_total_count service.loan_repo

/-- The book of the repository and service tests ("Clean Code"), with price 50. -/
def book_clean_code : Book :=
  { isbn := "9780132350884".toList, title := "Clean Code".toList,
    author := "Robert C. Martin".toList, publisher := "Prentice Hall".toList,
    publication_year := 2008, category := "Programming".toList, total_copies := 5,
    available_copies := 5, price := Double.finite 50, status := 'A' }

/-- The member of the service tests. -/
def member_john : Member :=
  { member_id := "M001".toList, name := "John Doe".toList, phone := "555-0123".toList,
    email := "john@example.com".toList, address := "123 Main St".toList,
    join_date := "2024-01-01".toList, membership_type := 'R', loan_count := 0, status := 'A' }

/-- What a test can observe after a call on a book repository: the result code, the
total count and the stored books in list order. -/
def observe_books (out : Option (LMS_Result × BookRepository × Heap Book)) :
    Option (LMS_Result × Int × Option (List Book)) :=
  out.map fun r => (r.1, book_repo_get_total_count r.2.1, forward_seq r.2.1.books r.2.2)

/-- The stored books, members and loans of a loan service, in list order. -/
def stored_records (service : LoanService) (m : Memory) :
    Option (List Book) × Option (List Member) × Option (List Loan) :=
  (forward_seq service.book_repo.books m.books,
    forward_seq service.member_repo.members m.members,
    forward_seq service.loan_repo.loans m.loans)

/-- The heap of a list that holds the single record `x`. -/
def heap_single (x : α) : Heap α :=
  { cells := [some { data := x, prev := none, next := none }], limit := 16 }

/-- The book repository after `book_repo_add` of "Clean Code" into an empty one. -/
def book_repo_clean_code : BookRepository :=
  { book_repository_create with
    books := { dll_create (some compare_book_isbn) (some print_book) with
      head := some 0, tail := some 0, size := 1 } }

/-- The member repository after `member_repo_add` of John Doe into an empty one. -/
def member_repo_john : MemberRepository :=
  { member_repository_create with
    members := { dll_create (some compare_member_id) (some print_member) with
      head := some 0, tail := some 0, size := 1 } }

/-- The loan service of `test_loan_service_operations` before the first loan. -/
def loan_service_test : LoanService :=
  { loan_repo := loan_repository_create, book_repo := book_repo_clean_code,
    member_repo := member_repo_john }

/-- The memory of `test_loan_service_operations` before the first loan. -/
def memory_test : Memory :=
  { books := heap_single book_clean_code, members := heap_single member_john,
    loans := { cells := [], limit := 16 }, loan_counter := 1 }

/-! ## Stored sequences

The services are specified on the sequences of stored records. -/

/-- The list `list` is well formed and stores the records `s`, in this order. -/
def Stored (list : DoublyLinkedList α) (h : Heap α) (s : List α) : Prop :=
  WellFormed list h ∧ forward_seq list h = some s

/-- The sequence `s` with its first record satisfying `p` replaced by its image under
`f`. -/
def update_first (p : α → Bool) (f : α → α) : List α → List α
  | [] => []
  | x :: s => if p x then f x :: s else x :: update_first p f s

/-- The test `strcmp (book->isbn, key) == 0` of a search by ISBN, `key` being the
first 13 characters of the string searched for. -/
def has_isbn (isbn : List Char) (book : Book) : Bool := decide (book.isbn = strncpy isbn 13)

/-- The test `strcmp (member->member_id, key) == 0` of a search by member id, `key`
being the first 10 characters of the string searched for. -/
def has_member_id (member_id : List Char) (member : Member) : Bool :=
  decide (member.member_id = strncpy member_id 10)

/-- The test `strcmp (loan->loan_id, key) == 0` of a search by loan id, `key` being the
first 10 characters of the string searched for. -/
def has_loan_id (loan_id : List Char) (loan : Loan) : Bool :=
  decide (loan.loan_id = strncpy loan_id 10)

/-- The effect of `book_repo_update_availability` on the stored books: the result code
and the books afterwards. -/
def availability_model (isbn : List Char) (change : Int) (s : List Book) :
    LMS_Result × List Book :=
  match s.find? (has_isbn isbn) with
  | none => (LMS_ERROR_NOT_FOUND, s)
  | some b =>
    if b.available_copies + change < 0 ∨ b.available_copies + change > b.total_copies then
      (LMS_ERROR_INVALID_INPUT, s)
    else
      (LMS_SUCCESS, update_first (has_isbn isbn)
        (fun b => { b with available_copies := b.available_copies + change }) s)

/-- The effect of `member_repo_update_loan_count` on the stored members: the result
code and the members afterwards. -/
def loan_count_model (member_id : List Char) (change : Int) (s : List Member) :
    LMS_Result × List Member :=
  match s.find? (has_member_id member_id) with
  | none => (LMS_ERROR_NOT_FOUND, s)
  | some mb =>
    if mb.loan_count + change < 0 then (LMS_ERROR_INVALID_INPUT, s)
    else
      (LMS_SUCCESS, update_first (has_member_id member_id)
        (fun mb => { mb with loan_count := mb.loan_count + change }) s)

/-- The sequence after `dll_insert_sorted` of `x`: before the first record that `x`
does not compare greater than. -/
def insert_sorted_model (cmp : α → α → Int) (x : α) (s : List α) : List α :=
  (s.takeWhile fun e => decide (cmp x e > 0)) ++ x :: (s.dropWhile fun e => decide (cmp x e > 0))

/-- The effect of `book_repo_add` on the stored books, `room` telling whether a node
can be allocated. -/
def book_add_model (room : Bool) (book : Book) (s : List Book) : LMS_Result × List Book :=
  if ¬ validate_book book then (LMS_ERROR_INVALID_INPUT, s)
  else if (s.find? (has_isbn book.isbn)).isSome then (LMS_ERROR_DUPLICATE, s)
  else if ¬ room then (LMS_ERROR_MEMORY, s)
  else (LMS_SUCCESS, insert_sorted_model compare_book_isbn book s)

/-- The effect of `book_repo_delete` on the stored books. -/
def book_delete_model (isbn : List Char) (s : List Book) : LMS_Result × List Book :=
  match s.find? (has_isbn isbn) with
  | none => (LMS_ERROR_NOT_FOUND, s)
  | some _ => (LMS_SUCCESS, s.eraseP (has_isbn isbn))

/-- The effect of `loan_repo_add` on the stored loans, `room` telling whether a node
can be allocated. -/
def loan_add_model (room : Bool) (loan : Loan) (s : List Loan) : LMS_Result × List Loan :=
  if ¬ validate_loan loan then (LMS_ERROR_INVALID_INPUT, s)
  else if (s.find? (has_loan_id loan.loan_id)).isSome then (LMS_ERROR_DUPLICATE, s)
  else if ¬ room then (LMS_ERROR_MEMORY, s)
  else (LMS_SUCCESS, insert_sorted_model compare_loan_id loan s)

/-- A book repository built from an empty one by calls of `book_repo_add` and
`book_repo_delete`, each with fuel for one loop turn per stored book. -/
inductive BookRepoBuilt : BookRepository → Heap Book → Prop where
  | create (h : Heap Book) : BookRepoBuilt book_repository_create h
  | add {repo : BookRepository} {h : Heap Book} (fuel : Nat) (book : Book) (r : LMS_Result)
      (repo' : BookRepository) (h' : Heap Book) : repo.books.size ≤ fuel →
      BookRepoBuilt repo h → book_repo_add fuel repo book h = some (r, repo', h') →
      BookRepoBuilt repo' h'
  | delete {repo : BookRepository} {h : Heap Book} (fuel : Nat) (isbn : List Char)
      (r : LMS_Result) (repo' : BookRepository) (h' : Heap Book) : repo.books.size ≤ fuel →
      BookRepoBuilt repo h → book_repo_delete fuel repo isbn h = some (r, repo', h') →
      BookRepoBuilt repo' h'

/-- The books `s` are in strictly increasing order of ISBN. -/
def StrictlyByIsbn (s : List Book) : Prop :=
  s.Pairwise fun a b => strcmp a.isbn b.isbn < 0

/-- The book service of `test_book_service_operations` after the registration of
"Clean Code". -/
def book_service_test : BookService :=
  { book_repo := book_repo_clean_code, loan_repo := loan_repository_create }

/-! ## The loan service on the stored records -/

/-- The records stored by the three repositories of a loan service, in list order, and
the static loan counter. -/
structure Records where
  books : List Book
  members : List Member
  loans : List Loan
  loan_counter : Nat
  deriving DecidableEq, Repr

/-- The three lists of the service are well formed, carry the comparators given by
`book_repository_create`, `member_repository_create` and `loan_repository_create`, and
store the records `st`. -/
def Represents (service : LoanService) (m : Memory) (st : Records) : Prop :=
  Stored service.book_repo.books m.books st.books ∧
  service.book_repo.books.compare = some compare_book_isbn ∧
  Stored service.member_repo.members m.members st.members ∧
  service.member_repo.members.compare = some compare_member_id ∧
  Stored service.loan_repo.loans m.loans st.loans ∧
  service.loan_repo.loans.compare = some compare_loan_id ∧
  m.loan_counter = st.loan_counter

/-- Fuel for one loop turn per node of each of the three lists. -/
def FuelFor (fuel : Nat) (service : LoanService) : Prop :=
  service.book_repo.books.size ≤ fuel ∧ service.member_repo.members.size ≤ fuel ∧
  service.loan_repo.loans.size ≤ fuel

/-- The answer of `loan_service_can_borrow` on the stored records. -/
def can_borrow_model (member_id isbn : List Char) (st : Records) : Bool :=
  match st.members.find? (has_member_id member_id) with
  | none => false
  | some mb =>
    if mb.status ≠ 'A' then false
    else if mb.loan_count ≥ (if mb.membership_type = 'P' then 5 else 3) then false
    else
      match st.books.find? (has_isbn isbn) with
      | none => false
      | some b => if b.available_copies ≤ 0 ∨ b.status ≠ 'A' then false else true

/-- The loan record that `loan_service_borrow_book` hands to `loan_repo_add`. -/
def borrowed_loan (loan_id member_id isbn now : List Char) (due_alloc : Bool) : Loan :=
  let loan :=
    { loan_init with
      loan_id := strncpy loan_id 10, member_id := strncpy member_id 10,
      isbn := strncpy isbn 13, loan_date := strncpy now 10 }
  let loan := if due_alloc then { loan with due_date := strncpy (strncpy now 10) 10 } else loan
  { loan with status := 'L' }

/-- The effect of `loan_service_borrow_book` on the stored records: the result code and
the records afterwards; `room` tells whether a loan node can be allocated. -/
def borrow_model (member_id isbn now : List Char) (id_alloc due_alloc room : Bool)
    (st : Records) : LMS_Result × Records :=
  if ¬ can_borrow_model member_id isbn st then (LMS_ERROR_LOAN_LIMIT, st)
  else
    let b1 := availability_model isbn (-1) st.books
    if b1.1 ≠ LMS_SUCCESS then (b1.1, { st with books := b1.2 })
    else
      let m1 := loan_count_model member_id 1 st.members
      if m1.1 ≠ LMS_SUCCESS then
        (m1.1, { st with books := (availability_model isbn 1 b1.2).2, members := m1.2 })
      else
        let id := loan_service_generate_loan_id id_alloc st.loan_counter
        match id.1 with
        | none =>
          (LMS_ERROR_MEMORY,
            { st with
              books := (availability_model isbn 1 b1.2).2,
              members := (loan_count_model member_id (-1) m1.2).2,
              loan_counter := id.2 })
        | some loan_id =>
          let l1 := loan_add_model room (borrowed_loan loan_id member_id isbn now due_alloc)
            st.loans
          if l1.1 ≠ LMS_SUCCESS then
            (l1.1,
              { books := (availability_model isbn 1 b1.2).2,
                members := (loan_count_model member_id (-1) m1.2).2,
                loans := l1.2, loan_counter := id.2 })
          else
            (LMS_SUCCESS,
              { books := b1.2, members := m1.2, loans := l1.2, loan_counter := id.2 })

/-- The loan record left by a successful `loan_service_return_book`. -/
def returned_loan (now : List Char) (loan : Loan) : Loan :=
  let loan1 := { loan with return_date := strncpy now 10 }
  let fine := loan_service_calculate_fine loan1.due_date now
  if fine > 0 then { loan1 with fine_amount := fine, status := 'O' }
  else { loan1 with status := 'R' }

/-- The effect of `loan_service_return_book` on the stored records. -/
def return_model (loan_id now : List Char) (st : Records) : LMS_Result × Records :=
  match st.loans.find? (has_loan_id loan_id) with
  | none => (LMS_ERROR_NOT_FOUND, st)
  | some loan =>
    if loan.status ≠ 'L' then (LMS_ERROR_INVALID_INPUT, st)
    else
      let b1 := availability_model loan.isbn 1 st.books
      if b1.1 ≠ LMS_SUCCESS then (b1.1, { st with books := b1.2 })
      else
        let m1 := loan_count_model loan.member_id (-1) st.members
        if m1.1 ≠ LMS_SUCCESS then
          (m1.1, { st with books := (availability_model loan.isbn (-1) b1.2).2, members := m1.2 })
        else
          (LMS_SUCCESS,
            { st with
              books := b1.2, members := m1.2,
              loans := update_first (has_loan_id loan_id) (returned_loan now) st.loans })

/-- The records of `test_loan_service_operations` before the first loan. -/
def records_test : Records :=
  { books := [book_clean_code], members := [member_john], loans := [], loan_counter := 1 }

/-- The member service over the member repository of the loan service test. -/
def member_service_test : MemberService :=
  { member_repo := member_repo_john, loan_repo := loan_repository_create }

/-- The loan created by the first `loan_service_borrow_book` of the loan service test,
on 2024-05-01. -/
def loan_test : Loan :=
  { loan_id := "L000000001".toList, member_id := "M001".toList,
    isbn := "9780132350884".toList, loan_date := "2024-05-01".toList,
    due_date := "2024-05-01".toList, return_date := [], overdue_days := 0, fine_amount := 0,
    status := 'L' }

/-- The loan service of the test after the first loan. -/
def loan_service_after_loan : LoanService :=
  { loan_service_test with
    loan_repo := { loan_repository_create with
      loans := { dll_create (some compare_loan_id) (some print_loan) with
        head := some 0, tail := some 0, size := 1 } } }

/-- The memory of the test after the first loan. -/
def memory_after_loan : Memory :=
  { books := heap_single { book_clean_code with available_copies := 4 },
    members := heap_single { member_john with loan_count := 1 },
    loans := heap_single loan_test, loan_counter := 2 }

/-- The memory of the test after the loan has been returned on 2024-05-01. -/
def memory_after_return : Memory :=
  { books := heap_single book_clean_code, members := heap_single member_john,
    loans := heap_single { loan_test with return_date := "2024-05-01".toList, status := 'R' },
    loan_counter := 2 }

/-! ## Dates as the validators read them -/

/-- The number written by a string of decimal digits, most significant digit first. -/
def decimal_value (s : List Char) : Int :=
  s.foldl (fun v c => 10 * v + (char_code c - 48)) 0

/-- The form `YYYY-MM-DD`: exactly 10 characters, `'-'` at positions 4 and 7, decimal
digits at the eight other positions. -/
def is_date_form (date : List Char) : Bool :=
  decide (date.length = 10) && decide (date[4]? = some '-') && decide (date[7]? = some '-') &&
  [0, 1, 2, 3, 5, 6, 8, 9].all fun i =>
    match date[i]? with
    | some c => is_decimal_digit c
    | none => false

/-- The year of a string of the form `YYYY-MM-DD`. -/
def date_year (date : List Char) : Int := decimal_value (date.take 4)

/-- The month of a string of the form `YYYY-MM-DD`. -/
def date_month (date : List Char) : Int := decimal_value ((date.drop 5).take 2)

/-- The day of a string of the form `YYYY-MM-DD`. -/
def date_day (date : List Char) : Int := decimal_value ((date.drop 8).take 2)

/-- A comparator that is not an order: it answers "greater" for every pair of records,
also for a record and itself. -/
def compare_greater (_ _ : Int) : Int := 1

/-! ## Sequences of loans and returns -/

/-- The loan limit of a member: `MAX_LOANS_PREMIUM` for a premium member,
`MAX_LOANS_REGULAR` otherwise. -/
def loan_limit (member : Member) : Int :=
  if member.membership_type = 'P' then MAX_LOANS_PREMIUM else MAX_LOANS_REGULAR

/-- The stock bounds and the loan limits: every stored book has
`0 ≤ available_copies ≤ total_copies` and every stored member has
`0 ≤ loan_count ≤ limit`. -/
def WithinLimits (st : Records) : Prop :=
  (∀ b ∈ st.books, 0 ≤ b.available_copies ∧ b.available_copies ≤ b.total_copies) ∧
  (∀ mb ∈ st.members, 0 ≤ mb.loan_count ∧ mb.loan_count ≤ loan_limit mb)

/-- The states reached from `(service, m)` by a sequence of calls of
`loan_service_borrow_book` and `loan_service_return_book`, with any arguments and any
result, each call with fuel for one loop turn per stored record. -/
inductive LoanRun (service : LoanService) (m : Memory) : LoanService → Memory → Prop where
  | start : LoanRun service m service m
  | borrow {service1 : LoanService} {m1 : Memory} (fuel : Nat)
      (member_id isbn now : List Char) (id_alloc due_alloc : Bool) (r : LMS_Result)
      (service2 : LoanService) (m2 : Memory) :
      FuelFor fuel service1 → LoanRun service m service1 m1 →
      loan_service_borrow_book fuel service1 member_id isbn now id_alloc due_alloc m1 =
        some (r, service2, m2) →
      LoanRun service m service2 m2
  | give_back {service1 : LoanService} {m1 : Memory} (fuel : Nat)
      (loan_id now : List Char) (r : LMS_Result) (m2 : Memory) :
      FuelFor fuel service1 → LoanRun service m service1 m1 →
      loan_service_return_book fuel service1 loan_id now m1 = some (r, m2) →
      LoanRun service m service1 m2

/-- The records of the loan service test after the first loan. -/
def records_after_loan : Records :=
  { books := [{ book_clean_code with available_copies := 4 }],
    members := [{ member_john with loan_count := 1 }], loans := [loan_test],
    loan_counter := 2 }

/-- The loan of the test returned on 2024-05-02, one day after its due date. -/
def loan_test_late : Loan :=
  { loan_test with return_date := "2024-05-02".toList, fine_amount := 1, status := 'O' }

/-! ## Overdue fines -/

/-- The filter loop of `loan_repo_get_active` and of its siblings,
`while (iterator_has_next(iter)) { loan = iterator_next(iter);
if (cond(loan)) dll_insert_rear(results, loan); }`; `dll_insert_rear` stores a copy of
the record in a new node, and its result is not looked at. -/
def filter_loop (cond : α → Bool) :
    Nat → Iterator → DoublyLinkedList α → Heap α → Option (DoublyLinkedList α × Heap α)
  | 0, iter, results, h => if iterator_has_next iter then none else some (results, h)
  | fuel + 1, iter, results, h =>
    if iterator_has_next iter then do
      let (data, iter1) ← iterator_next iter h
      let record ← data
      if cond record then do
        let (_, results1, h1) ← dll_insert_rear results record h
        filter_loop cond fuel iter1 results1 h1
      else filter_loop cond fuel iter1 results h
    else some (results, h)

/-- Function `loan_repo_get_active`: a new list holding copies of the loans with status
'L'. -/
def loan_repo_get_active (fuel : Nat) (repo : LoanRepository) (h : Heap Loan) :
    Option (DoublyLinkedList Loan × Heap Loan) :=
  let results := dll_create (some compare_loan_id) (some print_loan)
  filter_loop loan_is_active fuel (dll_iterator_create repo.loans) results h

/-- The loop of `loan_service_calculate_overdue_fines`; `loan` points to the record of
the node under the cursor. -/
def overdue_loop (current_date : List Char) : Nat → Iterator → Heap Loan → Option (Heap Loan)
  | 0, iter, h => if iterator_has_next iter then none else some h
  | fuel + 1, iter, h =>
    if iterator_has_next iter then do
      let p ← iter.current
      let (_, iter1) ← iterator_next iter h
      let nd ← h.read p
      let loan := nd.data
      if strcmp current_date loan.due_date > 0 then
        let fine := loan_service_calculate_fine loan.due_date current_date
        if fine > 0 then do
          let h1 ← h.write p { nd with data := { loan with fine_amount := fine, status := 'O' } }
          overdue_loop current_date fuel iter1 h1
        else overdue_loop current_date fuel iter1 h
      else overdue_loop current_date fuel iter1 h
    else some h

/-- Function `loan_service_calculate_overdue_fines`; `now` is the string of
`get_current_date_string`. -/
def loan_service_calculate_overdue_fines (fuel : Nat) (service : LoanService)
    (now : List Char) (m : Memory) : Option (LMS_Result × Memory) := do
  let (active_loans, hl1) ← loan_repo_get_active fuel service.loan_repo m.loans
  let current_date := now
  let hl2 ← overdue_loop current_date fuel (dll_iterator_create active_loans) hl1
  let hl3 ← dll_destroy fuel active_loans hl2
  some (LMS_SUCCESS, { m with loans := hl3 })

/-- The stored loan found under `loan_id` by `loan_repo_find_by_id`: its status and its
fine. -/
def loan_status_and_fine (fuel : Nat) (repo : LoanRepository) (loan_id : List Char)
    (h : Heap Loan) : Option (Char × ℚ) := do
  let loan ← loan_repo_find_by_id fuel repo loan_id h
  let p ← loan
  let nd ← h.read p
  some (nd.data.status, nd.data.fine_amount)

/-- The date written by `a` is not after the date written by `b`: the order of the
calendar on (year, month, day). -/
def date_not_after (a b : List Char) : Prop :=
  date_year a < date_year b ∨
  (date_year a = date_year b ∧
    (date_month a < date_month b ∨ (date_month a = date_month b ∧ date_day a ≤ date_day b)))

theorem Heap.read_eq_some_iff {h : Heap α} {p : Nat} {nd : Node α} :
    h.read p = some nd ↔ h.cells[p]? = some (some nd) := by
  unfold Heap.read
  split
  · rename_i x hx; simp [hx]
  · rename_i hx
    constructor
    · intro h0; simp at h0
    · intro h0; exact absurd h0 (hx nd)

theorem Heap.read_lt {h : Heap α} {p : Nat} {nd : Node α} (hr : h.read p = some nd) :
    p < h.cells.length := by
  rw [Heap.read_eq_some_iff] at hr
  by_contra hlt
  have : h.cells[p]? = none := by simp at hlt ⊢; exact hlt
  rw [this] at hr
  simp at hr

theorem Heap.read_write {h h' : Heap α} {p : Nat} {nd : Node α} (hw : h.write p nd = some h')
    (q : Nat) : h'.read q = if q = p then some nd else h.read q := by
  unfold Heap.write at hw
  cases hr : h.read p with
  | none => simp [hr] at hw
  | some n0 =>
    simp [hr] at hw
    subst hw
    have hlt := Heap.read_lt hr
    by_cases hq : q = p
    · subst hq
      simp [Heap.read, hlt]
    · have : ¬ p = q := fun e => hq e.symm
      simp only [hq, if_false]
      unfold Heap.read
      simp [List.getElem?_set, this]

theorem Heap.write_shape {h h' : Heap α} {p : Nat} {nd : Node α} (hw : h.write p nd = some h') :
    h'.cells.length = h.cells.length ∧ h'.limit = h.limit := by
  unfold Heap.write at hw
  cases hr : h.read p with
  | none => simp [hr] at hw
  | some n0 =>
    simp [hr] at hw
    subst hw
    simp

theorem Heap.set_next_spec {h : Heap α} {p : Nat} {nd : Node α} (v : Option Nat)
    (hr : h.read p = some nd) :
    ∃ h', h.set_next p v = some h' ∧
      (∀ q, h'.read q = if q = p then some { nd with next := v } else h.read q) ∧
      h'.cells.length = h.cells.length ∧ h'.limit = h.limit := by
  have hw : ∃ h', h.write p { nd with next := v } = some h' := by
    simp [Heap.write, hr]
  obtain ⟨h', hw⟩ := hw
  refine ⟨h', ?_, Heap.read_write hw, Heap.write_shape hw⟩
  simp [Heap.set_next, hr, hw]

theorem Heap.set_prev_spec {h : Heap α} {p : Nat} {nd : Node α} (v : Option Nat)
    (hr : h.read p = some nd) :
    ∃ h', h.set_prev p v = some h' ∧
      (∀ q, h'.read q = if q = p then some { nd with prev := v } else h.read q) ∧
      h'.cells.length = h.cells.length ∧ h'.limit = h.limit := by
  have hw : ∃ h', h.write p { nd with prev := v } = some h' := by
    simp [Heap.write, hr]
  obtain ⟨h', hw⟩ := hw
  refine ⟨h', ?_, Heap.read_write hw, Heap.write_shape hw⟩
  simp [Heap.set_prev, hr, hw]

theorem Heap.free_spec {h : Heap α} {p : Nat} {nd : Node α} (hr : h.read p = some nd) :
    ∃ h', h.free p = some h' ∧
      (∀ q, h'.read q = if q = p then none else h.read q) ∧
      h'.cells.length = h.cells.length ∧ h'.limit = h.limit := by
  refine ⟨{ h with cells := h.cells.set p none }, by simp [Heap.free, hr], ?_, by simp, rfl⟩
  intro q
  have hlt := Heap.read_lt hr
  by_cases hq : q = p
  · subst hq
    simp [Heap.read, hlt]
  · have : ¬ p = q := fun e => hq e.symm
    simp only [hq, if_false]
    unfold Heap.read
    simp [List.getElem?_set, this]

theorem node_create_spec (data : α) (h : Heap α) (hroom : h.cells.length < h.limit) :
    ∃ h', node_create data h = (some h.cells.length, h') ∧
      (∀ q, h'.read q =
        if q = h.cells.length then some { data := data, prev := none, next := none }
        else h.read q) ∧
      h'.cells.length = h.cells.length + 1 ∧ h'.limit = h.limit := by
  refine ⟨{ h with cells := h.cells ++ [some { data := data, prev := none, next := none }] },
    by simp [node_create, hroom], ?_, by simp, rfl⟩
  intro q
  by_cases hq : q = h.cells.length
  · subst hq
    simp [Heap.read]
  · simp only [hq, if_false]
    unfold Heap.read
    rcases Nat.lt_or_gt_of_ne hq with hlt | hgt
    · simp [List.getElem?_append_left, hlt]
    · have h1 : h.cells[q]? = none := by simp; omega
      have h2 : (h.cells ++ [some { data := data, prev := none, next := none }])[q]? = none := by
        simp; omega
      simp [h1, h2]

theorem node_create_full (data : α) (h : Heap α) (hfull : ¬ h.cells.length < h.limit) :
    node_create data h = (none, h) := by
  simp [node_create, hfull]


/-! ## Chains -/

@[simp] theorem headAddr_nil (d : Option Nat) : headAddr ([] : List (Nat × α)) d = d := rfl
@[simp] theorem headAddr_cons (a : Nat) (x : α) (l : List (Nat × α)) (d : Option Nat) :
    headAddr ((a, x) :: l) d = some a := rfl
@[simp] theorem lastAddr_nil (d : Option Nat) : lastAddr ([] : List (Nat × α)) d = d := rfl
@[simp] theorem lastAddr_cons (a : Nat) (x : α) (l : List (Nat × α)) (d : Option Nat) :
    lastAddr ((a, x) :: l) d = lastAddr l (some a) := rfl

theorem headAddr_append (l1 l2 : List (Nat × α)) (d : Option Nat) :
    headAddr (l1 ++ l2) d = headAddr l1 (headAddr l2 d) := by
  cases l1 with
  | nil => rfl
  | cons p l1 => cases p; rfl

theorem lastAddr_append (l1 l2 : List (Nat × α)) (d : Option Nat) :
    lastAddr (l1 ++ l2) d = lastAddr l2 (lastAddr l1 d) := by
  induction l1 generalizing d with
  | nil => rfl
  | cons p l1 ih => cases p; simp [ih]

theorem headAddr_reverse (l : List (Nat × α)) (d : Option Nat) :
    headAddr l.reverse d = lastAddr l d := by
  induction l generalizing d with
  | nil => rfl
  | cons p l ih => cases p; simp [headAddr_append, ih]

theorem lastAddr_reverse (l : List (Nat × α)) (d : Option Nat) :
    lastAddr l.reverse d = headAddr l d := by
  have := headAddr_reverse l.reverse d
  simpa using this.symm

theorem headAddr_eq_none {l : List (Nat × α)} (hl : headAddr l none = none) : l = [] := by
  cases l with
  | nil => rfl
  | cons p l => cases p; simp at hl

theorem lastAddr_cons_ne_none (p : Nat × α) (l : List (Nat × α)) (d : Option Nat) :
    ∃ b, lastAddr (p :: l) d = some b ∧ b ∈ (p :: l).map Prod.fst := by
  induction l generalizing p d with
  | nil => cases p; simp
  | cons q l ih =>
    obtain ⟨a, x⟩ := p
    obtain ⟨b, hb, hmem⟩ := ih q (some a)
    refine ⟨b, by simpa using hb, ?_⟩
    simp at hmem ⊢
    right; exact hmem

theorem Linked_iff (h : Heap α) (pv : Option Nat) (l : List (Nat × α)) (nx : Option Nat) :
    Linked h pv l nx ↔ NSeg h l nx ∧ PSeg h pv l := by
  induction l generalizing pv with
  | nil => simp [Linked, NSeg, PSeg]
  | cons p l ih =>
    obtain ⟨a, x⟩ := p
    simp only [Linked, NSeg, PSeg, ih]
    constructor
    · rintro ⟨hr, hn, hp⟩
      exact ⟨⟨⟨pv, hr⟩, hn⟩, ⟨_, hr⟩, hp⟩
    · rintro ⟨⟨⟨pv', hr⟩, hn⟩, ⟨nx', hr'⟩, hp⟩
      rw [hr] at hr'
      simp at hr'
      refine ⟨?_, hn, hp⟩
      rw [hr, hr'.1]

theorem Linked_append (h : Heap α) (pv : Option Nat) (l1 l2 : List (Nat × α)) (nx : Option Nat) :
    Linked h pv (l1 ++ l2) nx ↔
      Linked h pv l1 (headAddr l2 nx) ∧ Linked h (lastAddr l1 pv) l2 nx := by
  induction l1 generalizing pv with
  | nil => simp [Linked]
  | cons p l1 ih =>
    obtain ⟨a, x⟩ := p
    show (h.read a = some { data := x, prev := pv, next := headAddr (l1 ++ l2) nx } ∧
        Linked h (some a) (l1 ++ l2) nx) ↔
      (h.read a = some { data := x, prev := pv, next := headAddr l1 (headAddr l2 nx) } ∧
        Linked h (some a) l1 (headAddr l2 nx)) ∧ Linked h (lastAddr l1 (some a)) l2 nx
    rw [ih, headAddr_append]
    tauto

theorem NSeg_append (h : Heap α) (l1 l2 : List (Nat × α)) (nx : Option Nat) :
    NSeg h (l1 ++ l2) nx ↔ NSeg h l1 (headAddr l2 nx) ∧ NSeg h l2 nx := by
  induction l1 with
  | nil => simp [NSeg]
  | cons p l1 ih =>
    obtain ⟨a, x⟩ := p
    show ((∃ pv, h.read a = some { data := x, prev := pv, next := headAddr (l1 ++ l2) nx }) ∧
        NSeg h (l1 ++ l2) nx) ↔
      ((∃ pv, h.read a = some { data := x, prev := pv, next := headAddr l1 (headAddr l2 nx) }) ∧
        NSeg h l1 (headAddr l2 nx)) ∧ NSeg h l2 nx
    rw [ih, headAddr_append]
    tauto

theorem BSeg_append (h : Heap α) (r1 r2 : List (Nat × α)) (e : Option Nat) :
    BSeg h (r1 ++ r2) e ↔ BSeg h r1 (headAddr r2 e) ∧ BSeg h r2 e := by
  induction r1 with
  | nil => simp [BSeg]
  | cons p r1 ih =>
    obtain ⟨a, x⟩ := p
    show ((∃ nx, h.read a = some { data := x, prev := headAddr (r1 ++ r2) e, next := nx }) ∧
        BSeg h (r1 ++ r2) e) ↔
      ((∃ nx, h.read a = some { data := x, prev := headAddr r1 (headAddr r2 e), next := nx }) ∧
        BSeg h r1 (headAddr r2 e)) ∧ BSeg h r2 e
    rw [ih, headAddr_append]
    tauto

theorem BSeg_reverse (h : Heap α) (l : List (Nat × α)) (e : Option Nat) :
    BSeg h l.reverse e ↔ PSeg h e l := by
  induction l generalizing e with
  | nil => simp [BSeg, PSeg]
  | cons p l ih =>
    obtain ⟨a, x⟩ := p
    simp only [List.reverse_cons, BSeg_append, BSeg, PSeg, headAddr_cons, headAddr_nil, ih]
    tauto

/-- Frame rule: heaps that agree on the nodes of `l` link `l` alike. -/
theorem Linked_congr {h h' : Heap α} {pv : Option Nat} {l : List (Nat × α)} {nx : Option Nat}
    (hsame : ∀ a ∈ l.map Prod.fst, h'.read a = h.read a) (hl : Linked h pv l nx) :
    Linked h' pv l nx := by
  induction l generalizing pv with
  | nil => trivial
  | cons p l ih =>
    obtain ⟨a, x⟩ := p
    refine ⟨?_, ih (fun b hb => hsame b (by simp at hb ⊢; right; exact hb)) hl.2⟩
    rw [hsame a (by simp)]
    exact hl.1

theorem NSeg_congr {h h' : Heap α} {l : List (Nat × α)} {nx : Option Nat}
    (hsame : ∀ a ∈ l.map Prod.fst, h'.read a = h.read a) (hl : NSeg h l nx) :
    NSeg h' l nx := by
  induction l with
  | nil => trivial
  | cons p l ih =>
    obtain ⟨a, x⟩ := p
    refine ⟨?_, ih (fun b hb => hsame b (by simp at hb ⊢; right; exact hb)) hl.2⟩
    rw [hsame a (by simp)]
    exact hl.1

/-- Every node of a linked chain is live. -/
theorem NSeg_read {h : Heap α} {l : List (Nat × α)} {nx : Option Nat} (hl : NSeg h l nx)
    {a : Nat} (ha : a ∈ l.map Prod.fst) : ∃ nd, h.read a = some nd := by
  induction l with
  | nil => simp at ha
  | cons p l ih =>
    obtain ⟨b, x⟩ := p
    simp only [List.map_cons, List.mem_cons] at ha
    rcases ha with rfl | ha
    · obtain ⟨pv, hr⟩ := hl.1
      exact ⟨_, hr⟩
    · exact ih hl.2 ha

/-- A `next` chain ending in `NULL` is determined by its first address. -/
theorem NSeg_unique {h : Heap α} {l1 l2 : List (Nat × α)} (h1 : NSeg h l1 none)
    (h2 : NSeg h l2 none) (hhead : headAddr l1 none = headAddr l2 none) : l1 = l2 := by
  induction l1 generalizing l2 with
  | nil =>
    exact (headAddr_eq_none (by simpa using hhead.symm)).symm
  | cons p l1 ih =>
    obtain ⟨a, x⟩ := p
    cases l2 with
    | nil => simp at hhead
    | cons q l2 =>
      obtain ⟨b, y⟩ := q
      simp at hhead
      subst hhead
      obtain ⟨pv1, hr1⟩ := h1.1
      obtain ⟨pv2, hr2⟩ := h2.1
      rw [hr1] at hr2
      simp at hr2
      obtain ⟨hxy, -, hnext⟩ := hr2
      subst hxy
      rw [ih h1.2 h2.2 hnext]

/-- A `next` chain ending in `NULL` never meets a node twice. -/
theorem NSeg_nodup {h : Heap α} {l : List (Nat × α)} (hl : NSeg h l none) :
    (l.map Prod.fst).Nodup := by
  induction l with
  | nil => simp
  | cons p l ih =>
    obtain ⟨a, x⟩ := p
    simp only [List.map_cons, List.nodup_cons]
    refine ⟨?_, ih hl.2⟩
    intro hmem
    obtain ⟨⟨a', y⟩, hin, rfl⟩ := List.mem_map.1 hmem
    obtain ⟨s, t, hst⟩ := List.append_of_mem hin
    have hsuf : NSeg h ((a', y) :: t) none := by
      have := hl.2
      rw [hst, NSeg_append] at this
      exact this.2
    have heq := NSeg_unique hsuf hl (by simp)
    have hlen := congrArg List.length heq
    rw [hst] at hlen
    simp at hlen
    omega


/-! ## Reading the sequences -/

theorem forward_from_eq_some {h : Heap α} {n : Nat} {p : Option Nat} {l : List (Nat × α)} :
    forward_from h n p = some l ↔ p = headAddr l none ∧ NSeg h l none ∧ l.length ≤ n := by
  induction n generalizing p l with
  | zero =>
    cases p with
    | none =>
      cases l with
      | nil => simp [forward_from, NSeg]
      | cons q l => obtain ⟨a, x⟩ := q; simp [forward_from]
    | some p =>
      cases l with
      | nil => simp [forward_from]
      | cons q l => simp [forward_from]
  | succ n ih =>
    cases p with
    | none =>
      cases l with
      | nil => simp [forward_from, NSeg]
      | cons q l => obtain ⟨a, x⟩ := q; simp [forward_from]
    | some p =>
      cases l with
      | nil =>
        simp only [forward_from, headAddr_nil]
        cases h.read p <;> simp
        cases forward_from h n _ <;> simp
      | cons q l =>
        obtain ⟨a, x⟩ := q
        simp only [forward_from, headAddr_cons, NSeg, List.length_cons, Option.some.injEq]
        constructor
        · intro hf
          cases hr : h.read p with
          | none => simp [hr] at hf
          | some nd =>
            simp only [hr, Option.bind_eq_bind, Option.some_bind] at hf
            cases hrest : forward_from h n nd.next with
            | none => simp [hrest] at hf
            | some rest =>
              simp only [hrest, Option.some_bind, Option.some.injEq, List.cons.injEq,
                Prod.mk.injEq] at hf
              obtain ⟨⟨rfl, rfl⟩, rfl⟩ := hf
              obtain ⟨hh, hs, hlen⟩ := ih.1 hrest
              refine ⟨rfl, ⟨⟨nd.prev, ?_⟩, hs⟩, by omega⟩
              rw [hr, ← hh]
        · rintro ⟨rfl, ⟨⟨pv, hr⟩, hs⟩, hlen⟩
          have hrest : forward_from h n (headAddr l none) = some l :=
            ih.2 ⟨rfl, hs, by omega⟩
          simp [hr, hrest]

theorem backward_from_eq_some {h : Heap α} {n : Nat} {p : Option Nat} {r : List (Nat × α)} :
    backward_from h n p = some r ↔ p = headAddr r none ∧ BSeg h r none ∧ r.length ≤ n := by
  induction n generalizing p r with
  | zero =>
    cases p with
    | none =>
      cases r with
      | nil => simp [backward_from, BSeg]
      | cons q l => obtain ⟨a, x⟩ := q; simp [backward_from]
    | some p =>
      cases r with
      | nil => simp [backward_from]
      | cons q l => simp [backward_from]
  | succ n ih =>
    cases p with
    | none =>
      cases r with
      | nil => simp [backward_from, BSeg]
      | cons q l => obtain ⟨a, x⟩ := q; simp [backward_from]
    | some p =>
      cases r with
      | nil =>
        simp only [backward_from, headAddr_nil]
        cases h.read p <;> simp
        cases backward_from h n _ <;> simp
      | cons q l =>
        obtain ⟨a, x⟩ := q
        simp only [backward_from, headAddr_cons, BSeg, List.length_cons, Option.some.injEq]
        constructor
        · intro hf
          cases hr : h.read p with
          | none => simp [hr] at hf
          | some nd =>
            simp only [hr, Option.bind_eq_bind, Option.some_bind] at hf
            cases hrest : backward_from h n nd.prev with
            | none => simp [hrest] at hf
            | some rest =>
              simp only [hrest, Option.some_bind, Option.some.injEq, List.cons.injEq,
                Prod.mk.injEq] at hf
              obtain ⟨⟨rfl, rfl⟩, rfl⟩ := hf
              obtain ⟨hh, hs, hlen⟩ := ih.1 hrest
              refine ⟨rfl, ⟨⟨nd.next, ?_⟩, hs⟩, by omega⟩
              rw [hr, ← hh]
        · rintro ⟨rfl, ⟨⟨nx, hr⟩, hs⟩, hlen⟩
          have hrest : backward_from h n (headAddr l none) = some l :=
            ih.2 ⟨rfl, hs, by omega⟩
          simp [hr, hrest]

/-- Distinct live addresses are no more than the cells of the heap. -/
theorem length_le_cells {h : Heap α} {l : List (Nat × α)} (hnd : (l.map Prod.fst).Nodup)
    (hlive : ∀ a ∈ l.map Prod.fst, ∃ nd, h.read a = some nd) : l.length ≤ h.cells.length := by
  have hsub : l.map Prod.fst ⊆ List.range h.cells.length := by
    intro a ha
    obtain ⟨nd, hr⟩ := hlive a ha
    exact List.mem_range.2 (Heap.read_lt hr)
  have := (List.subperm_of_subset hnd hsub).length_le
  simpa using this

theorem IsList.nseg {list : DoublyLinkedList α} {h : Heap α} {l : List (Nat × α)}
    (hl : IsList list h l) : NSeg h l none := ((Linked_iff h none l none).1 hl.linked).1

theorem IsList.length_le {list : DoublyLinkedList α} {h : Heap α} {l : List (Nat × α)}
    (hl : IsList list h l) : l.length ≤ h.cells.length :=
  length_le_cells hl.nodup (fun _ ha => NSeg_read hl.nseg ha)

theorem IsList.forward_nodes_eq {list : DoublyLinkedList α} {h : Heap α} {l : List (Nat × α)}
    (hl : IsList list h l) : forward_nodes list h = some l :=
  forward_from_eq_some.2 ⟨hl.head_eq, hl.nseg, hl.length_le⟩

theorem IsList.backward_nodes_eq {list : DoublyLinkedList α} {h : Heap α} {l : List (Nat × α)}
    (hl : IsList list h l) : backward_nodes list h = some l.reverse := by
  refine backward_from_eq_some.2 ⟨?_, ?_, ?_⟩
  · rw [headAddr_reverse]; exact hl.tail_eq
  · rw [BSeg_reverse]; exact ((Linked_iff h none l none).1 hl.linked).2
  · simpa using hl.length_le

theorem IsList.wellFormed {list : DoublyLinkedList α} {h : Heap α} {l : List (Nat × α)}
    (hl : IsList list h l) : WellFormed list h :=
  ⟨l, hl.forward_nodes_eq, hl.size_eq, hl.backward_nodes_eq⟩

theorem WellFormed.isList {list : DoublyLinkedList α} {h : Heap α} (hwf : WellFormed list h) :
    ∃ l, IsList list h l := by
  obtain ⟨l, hf, hsize, hb⟩ := hwf
  obtain ⟨hhead, hn, -⟩ := forward_from_eq_some.1 hf
  obtain ⟨htail, hbs, -⟩ := backward_from_eq_some.1 hb
  refine ⟨l, ⟨?_, hhead, ?_, hsize, NSeg_nodup hn⟩⟩
  · exact (Linked_iff h none l none).2 ⟨hn, (BSeg_reverse h l none).1 hbs⟩
  · rw [htail, headAddr_reverse]

theorem IsList.unique {list : DoublyLinkedList α} {h : Heap α} {l l' : List (Nat × α)}
    (hl : IsList list h l) (hf : forward_nodes list h = some l') : l' = l := by
  rw [hl.forward_nodes_eq] at hf
  exact (Option.some.inj hf).symm


/-! ## `dll_reverse` -/

/-- Invariant of the loop of `dll_reverse`: with the nodes `l1` already swapped and
the nodes `l2` still to do, the loop ends with every node swapped, i.e. with the
nodes linked in the reverse order. -/
theorem reverse_loop_spec (l2 : List (Nat × α)) :
    ∀ (l1 : List (Nat × α)) (h : Heap α) (temp : Option Nat) (fuel : Nat),
      ((l1 ++ l2).map Prod.fst).Nodup →
      Linked h (headAddr l2 none) l1.reverse none →
      Linked h (lastAddr l1 none) l2 none →
      l2.length ≤ fuel →
      ∃ h' temp', reverse_loop fuel (headAddr l2 none) temp h = some (temp', h') ∧
        Linked h' none (l1 ++ l2).reverse none ∧
        (l2 = [] → temp' = temp) ∧
        (l2 ≠ [] → temp' = headAddr (l1 ++ l2).reverse.tail none) ∧
        h'.cells.length = h.cells.length ∧ h'.limit = h.limit := by
  induction l2 with
  | nil =>
    intro l1 h temp fuel _ hrev _ _
    refine ⟨h, temp, ?_, by simpa using hrev, fun _ => rfl, fun hne => absurd rfl hne, rfl, rfl⟩
    cases fuel <;> simp [reverse_loop]
  | cons p l2 ih =>
    obtain ⟨a, x⟩ := p
    intro l1 h temp fuel hnd hrev hrest hfuel
    obtain ⟨hra, hrest'⟩ := hrest
    cases fuel with
    | zero => simp at hfuel
    | succ fuel =>
      obtain ⟨h1, hs1, hr1, hlen1, hlim1⟩ := Heap.set_prev_spec (headAddr l2 none) hra
      have hra1 : h1.read a = some ⟨x, headAddr l2 none, headAddr l2 none⟩ := by
        rw [hr1]; simp
      obtain ⟨h2, hs2, hr2, hlen2, hlim2⟩ := Heap.set_next_spec (lastAddr l1 none) hra1
      have hra2 : h2.read a = some ⟨x, headAddr l2 none, lastAddr l1 none⟩ := by
        rw [hr2]; simp
      have hother : ∀ q, q ≠ a → h2.read q = h.read q := by
        intro q hq
        rw [hr2, hr1]; simp [hq]
      have hnd' : (((l1 ++ [(a, x)]) ++ l2).map Prod.fst).Nodup := by
        simpa using hnd
      have ha1 : a ∉ l1.map Prod.fst := by
        intro hmem
        simp only [List.map_append, List.map_cons] at hnd
        have := (List.nodup_append.1 hnd).2.2
        exact this hmem (by simp) 
      have ha2 : a ∉ l2.map Prod.fst := by
        simp only [List.map_append, List.map_cons] at hnd
        have := (List.nodup_append.1 hnd).2.1
        exact (List.nodup_cons.1 this).1
      have hrev2 : Linked h2 (headAddr l2 none) (l1 ++ [(a, x)]).reverse none := by
        rw [List.reverse_append]
        show Linked h2 (headAddr l2 none) ((a, x) :: l1.reverse) none
        refine ⟨?_, ?_⟩
        · rw [hra2, headAddr_reverse]
        · refine Linked_congr (fun b hb => hother b ?_) (by simpa using hrev)
          rintro rfl
          exact ha1 (by simpa using hb)
      have hrest2 : Linked h2 (lastAddr (l1 ++ [(a, x)]) none) l2 none := by
        rw [lastAddr_append]
        refine Linked_congr (fun b hb => hother b ?_) (by simpa using hrest')
        rintro rfl
        exact ha2 hb
      obtain ⟨h', temp', hloop, hlinked, hnil, hcons, hlen, hlim⟩ :=
        ih (l1 ++ [(a, x)]) h2 (lastAddr l1 none) fuel hnd' hrev2 hrest2 (by simpa using hfuel)
      refine ⟨h', temp', ?_, by simpa using hlinked, fun hn => by simp at hn, fun _ => ?_,
        by omega, by omega⟩
      · simp only [headAddr_cons, reverse_loop, hra, Option.bind_eq_bind, Option.some_bind,
          hs1, hs2, hra2]
        exact hloop
      · by_cases hl2 : l2 = []
        · subst hl2
          rw [hnil rfl]
          simp [headAddr_reverse]
        · rw [hcons hl2]
          simp


/-- What `dll_reverse` does to a well-formed list of at least two nodes: the nodes
end up linked in the reverse order, `head` is the old tail node, and `tail` is
set to the old tail node as well. -/
theorem dll_reverse_spec {list : DoublyLinkedList α} {h : Heap α} {l : List (Nat × α)}
    (hl : IsList list h l) (hlen : 2 ≤ l.length) (fuel : Nat) (hfuel : l.length ≤ fuel) :
    ∃ h', dll_reverse fuel list h =
        some (LMS_SUCCESS, { list with head := lastAddr l none, tail := lastAddr l none }, h') ∧
      Linked h' none l.reverse none ∧
      h'.cells.length = h.cells.length ∧ h'.limit = h.limit := by
  obtain ⟨h', temp', hloop, hlinked, -, htemp, hshape⟩ :=
    reverse_loop_spec l [] h none fuel (by simpa using hl.nodup) (by simp [Linked])
      (by simpa using hl.linked) hfuel
  have hne : l ≠ [] := by
    rintro rfl
    simp at hlen
  have htemp := htemp hne
  simp only [List.nil_append] at hlinked htemp
  refine ⟨h', ?_, hlinked, hshape⟩
  -- the reversed list starts with two nodes
  obtain ⟨⟨b, y⟩, r1, hr⟩ : ∃ p r1, l.reverse = p :: r1 := by
    cases hrev : l.reverse with
    | nil => simp at hrev; exact absurd hrev hne
    | cons p r1 => exact ⟨p, r1, rfl⟩
  obtain ⟨⟨c, z⟩, r2, hr1⟩ : ∃ p r2, r1 = p :: r2 := by
    cases hr1 : r1 with
    | nil =>
      have := congrArg List.length hr
      simp [hr1] at this
      omega
    | cons p r2 => exact ⟨p, r2, rfl⟩
  subst hr1
  rw [hr] at hlinked htemp
  have hlast : lastAddr l none = some b := by
    rw [← headAddr_reverse, hr]; rfl
  obtain ⟨-, hc, -⟩ := hlinked
  have hsize : ¬ list.size ≤ 1 := by
    rw [hl.size_eq]; omega
  rw [← hl.head_eq] at hloop
  simp only [List.tail_cons, headAddr_cons] at htemp
  subst htemp
  simp [dll_reverse, hsize, hloop, hc, hlast, hl.tail_eq]

/-- C6: on a well-formed list, with fuel for one loop turn per node, `dll_reverse`
returns `LMS_SUCCESS` and the forward sequence read from `head` afterwards is the
exact reverse of the one before (the same nodes and the same records); on a list
of size 0 or 1 nothing changes. -/
theorem dll_reverse_forward (list : DoublyLinkedList α) (h : Heap α) (fuel : Nat)
    (hwf : WellFormed list h) (hfuel : list.size ≤ fuel) :
    ∃ list' h' l,
      dll_reverse fuel list h = some (LMS_SUCCESS, list', h') ∧
      forward_nodes list h = some l ∧ forward_nodes list' h' = some l.reverse ∧
      forward_seq list h = some (l.map Prod.snd) ∧
      forward_seq list' h' = some (l.map Prod.snd).reverse ∧
      (list.size ≤ 1 → list' = list ∧ h' = h) := by
  obtain ⟨l, hl⟩ := hwf.isList
  by_cases hsize : list.size ≤ 1
  · have hlen : l.length ≤ 1 := by
      have := hl.size_eq
      omega
    have hrev : l.reverse = l := by
      match l, hlen with
      | [], _ => rfl
      | [_], _ => rfl
    refine ⟨list, h, l, by simp [dll_reverse, hsize], hl.forward_nodes_eq, ?_, ?_, ?_,
      fun _ => ⟨rfl, rfl⟩⟩
    · rw [hrev]; exact hl.forward_nodes_eq
    · simp [forward_seq, hl.forward_nodes_eq]
    · rw [← List.map_reverse, hrev]; simp [forward_seq, hl.forward_nodes_eq]
  · have hlen : 2 ≤ l.length := by
      have := hl.size_eq
      omega
    have hfuel' : l.length ≤ fuel := by
      have := hl.size_eq
      omega
    obtain ⟨h', hrun, hlinked, hcells, -⟩ := dll_reverse_spec hl hlen fuel hfuel'
    have hn : NSeg h' l.reverse none := ((Linked_iff h' none l.reverse none).1 hlinked).1
    have hnd : (l.reverse.map Prod.fst).Nodup := by
      rw [List.map_reverse]; exact List.nodup_reverse.2 hl.nodup
    have hfwd : forward_nodes { list with head := lastAddr l none, tail := lastAddr l none } h' =
        some l.reverse := by
      refine forward_from_eq_some.2 ⟨?_, hn, ?_⟩
      · rw [headAddr_reverse]
      · exact length_le_cells hnd (fun _ ha => NSeg_read hn ha)
    refine ⟨_, h', l, hrun, hl.forward_nodes_eq, hfwd, ?_, ?_, fun hc => absurd hc hsize⟩
    · simp [forward_seq, hl.forward_nodes_eq]
    · simp [forward_seq, hfwd]


theorem wellFormed_list_10_20 : WellFormed list_10_20 heap_10_20 :=
  ⟨[(0, 10), (1, 20)], by decide, by decide, by decide⟩

theorem wellFormed_list_10_20_30 : WellFormed list_10_20_30 heap_10_20_30 :=
  ⟨[(0, 10), (1, 20), (2, 30)], by decide, by decide, by decide⟩

/-- Witness of C6 on the list 10, 20, 30. -/
theorem dll_reverse_forward_witness :
    WellFormed list_10_20_30 heap_10_20_30 ∧ list_10_20_30.size ≤ (3 : Nat) ∧
    (∃ list' h' l,
      dll_reverse 3 list_10_20_30 heap_10_20_30 = some (LMS_SUCCESS, list', h') ∧
      forward_nodes list_10_20_30 heap_10_20_30 = some l ∧
      forward_nodes list' h' = some l.reverse ∧
      forward_seq list_10_20_30 heap_10_20_30 = some (l.map Prod.snd) ∧
      forward_seq list' h' = some (l.map Prod.snd).reverse ∧
      (list_10_20_30.size ≤ 1 → list' = list_10_20_30 ∧ h' = heap_10_20_30)) ∧
    ((dll_reverse 3 list_10_20_30 heap_10_20_30).bind fun r => forward_seq r.2.1 r.2.2) =
      some [30, 20, 10] :=
  ⟨wellFormed_list_10_20_30, by decide,
    dll_reverse_forward list_10_20_30 heap_10_20_30 3 wellFormed_list_10_20_30 (by decide),
    by decide⟩

/-- C4 at the list 10, 20: after two calls of `dll_reverse` the forward sequence
read from `head` is 20 alone, not 10, 20. The first call leaves `tail` on the old
tail node, and the second call takes that stale `tail` as the new head. -/
theorem dll_reverse_twice_10_20 :
    forward_seq list_10_20 heap_10_20 = some [10, 20] ∧
    ((dll_reverse 2 list_10_20 heap_10_20).bind fun r =>
      (dll_reverse 2 r.2.1 r.2.2).bind fun r2 => forward_seq r2.2.1 r2.2.2) = some [20] := by
  decide

/-- C5 at the list 10, 20, 30: after `dll_reverse` both `head` and `tail` reference
the old tail node (address 2), so the backward sequence read from `tail` is 30
alone while the forward sequence is 30, 20, 10 and `size` is 3. -/
theorem dll_reverse_tail_10_20_30 :
    observe (dll_reverse 3 list_10_20_30 heap_10_20_30) =
      some (LMS_SUCCESS, some 2, some 2, 3, some [30, 20, 10], some [30]) := by
  rfl


/-! ## Insertion -/

theorem SameHooks.refl (list : DoublyLinkedList α) : SameHooks list list := ⟨rfl, rfl, rfl, rfl⟩

theorem SameHooks.trans {l1 l2 l3 : DoublyLinkedList α} (h12 : SameHooks l1 l2)
    (h23 : SameHooks l2 l3) : SameHooks l1 l3 :=
  ⟨h23.1.trans h12.1, h23.2.1.trans h12.2.1, h23.2.2.1.trans h12.2.2.1,
    h23.2.2.2.trans h12.2.2.2⟩

/-- Changing the `next` field of the last node of a linked chain. -/
theorem Linked_set_last {h h' : Heap α} {pv nx : Option Nat} {l : List (Nat × α)} {p : Nat}
    {w : α} (nx' : Option Nat) (hl : Linked h pv (l ++ [(p, w)]) nx)
    (hp : h'.read p = some ⟨w, lastAddr l pv, nx'⟩)
    (hoth : ∀ q ∈ l.map Prod.fst, h'.read q = h.read q) : Linked h' pv (l ++ [(p, w)]) nx' := by
  rw [Linked_append] at hl ⊢
  exact ⟨Linked_congr hoth hl.1, hp, trivial⟩

/-- Changing the `prev` field of the first node of a linked chain. -/
theorem Linked_set_first {h h' : Heap α} {pv nx : Option Nat} {l : List (Nat × α)} {c : Nat}
    {z : α} (pv' : Option Nat) (hl : Linked h pv ((c, z) :: l) nx)
    (hc : h'.read c = some ⟨z, pv', headAddr l nx⟩)
    (hoth : ∀ q ∈ l.map Prod.fst, h'.read q = h.read q) : Linked h' pv' ((c, z) :: l) nx :=
  ⟨hc, Linked_congr hoth hl.2⟩

theorem IsList.addr_lt {list : DoublyLinkedList α} {h : Heap α} {l : List (Nat × α)}
    (hl : IsList list h l) {a : Nat} (ha : a ∈ l.map Prod.fst) : a < h.cells.length := by
  obtain ⟨nd, hr⟩ := NSeg_read hl.nseg ha
  exact Heap.read_lt hr

theorem IsList.fresh {list : DoublyLinkedList α} {h : Heap α} {l : List (Nat × α)}
    (hl : IsList list h l) : h.cells.length ∉ l.map Prod.fst :=
  fun ha => Nat.lt_irrefl _ (hl.addr_lt ha)

theorem IsList.size_eq_zero {list : DoublyLinkedList α} {h : Heap α} {l : List (Nat × α)}
    (hl : IsList list h l) : list.size = 0 ↔ l = [] := by
  rw [hl.size_eq]
  cases l <;> simp
  omega

/-- Function `dll_insert_front` with memory available: the new node comes first. -/
theorem dll_insert_front_spec {list : DoublyLinkedList α} {h : Heap α} {l : List (Nat × α)}
    (hl : IsList list h l) (x : α) (hroom : h.cells.length < h.limit) :
    ∃ list' h', dll_insert_front list x h = some (LMS_SUCCESS, list', h') ∧
      IsList list' h' ((h.cells.length, x) :: l) ∧ SameHooks list list' ∧
      h'.cells.length = h.cells.length + 1 ∧ h'.limit = h.limit := by
  obtain ⟨h1, hc, hr1, hlen1, hlim1⟩ := node_create_spec x h hroom
  have hfresh := hl.fresh
  have hold : ∀ q ∈ l.map Prod.fst, h1.read q = h.read q := by
    intro q hq
    rw [hr1]
    have : q ≠ h.cells.length := fun e => hfresh (e ▸ hq)
    simp [this]
  cases l with
  | nil =>
    have hsize : list.size = 0 := hl.size_eq_zero.2 rfl
    have hrun : dll_insert_front list x h = some (LMS_SUCCESS,
        { list with head := some h.cells.length, tail := some h.cells.length,
                    size := list.size + 1 }, h1) := by
      simp [dll_insert_front, hc, hsize]
    refine ⟨_, h1, hrun, ?_, ⟨rfl, rfl, rfl, rfl⟩, hlen1, hlim1⟩
    refine ⟨⟨?_, trivial⟩, rfl, rfl, by simp [hsize], by simp⟩
    rw [hr1]; simp
  | cons p l =>
    obtain ⟨c, z⟩ := p
    have hsize : list.size ≠ 0 := fun e => by simpa using hl.size_eq_zero.1 e
    have hhead : list.head = some c := hl.head_eq
    have hnew : h1.read h.cells.length = some ⟨x, none, none⟩ := by rw [hr1]; simp
    obtain ⟨h2, hs2, hr2, hlen2, hlim2⟩ := Heap.set_next_spec (some c) hnew
    have hca : c ≠ h.cells.length := fun e => hfresh (by simp [e])
    have hrc : h2.read c = some ⟨z, none, headAddr l none⟩ := by
      rw [hr2, hr1]; simp [hca]; exact hl.linked.1
    obtain ⟨h3, hs3, hr3, hlen3, hlim3⟩ := Heap.set_prev_spec (some h.cells.length) hrc
    have hrun : dll_insert_front list x h = some (LMS_SUCCESS,
        { list with head := some h.cells.length, size := list.size + 1 }, h3) := by
      simp [dll_insert_front, hc, hsize, hhead, hs2, hs3]
    refine ⟨_, h3, hrun, ?_, ⟨rfl, rfl, rfl, rfl⟩, by omega, by omega⟩
    have hcl : c ∉ l.map Prod.fst := by
      have := hl.nodup
      simp only [List.map_cons, List.nodup_cons] at this
      exact this.1
    refine ⟨⟨?_, ?_⟩, rfl, ?_, ?_, ?_⟩
    · rw [hr3, hr2]; simp [Ne.symm hca]
    · refine Linked_set_first (some h.cells.length) hl.linked ?_ ?_
      · rw [hr3]; simp
      · intro q hq
        have hqc : q ≠ c := fun e => hcl (e ▸ hq)
        have hqa : q ≠ h.cells.length := fun e => hfresh (by rw [← e]; simp; right; simpa using hq)
        rw [hr3, hr2, hr1]
        simp [hqc, hqa]
    · simpa using hl.tail_eq
    · simp [hl.size_eq]
    · simp only [List.map_cons, List.nodup_cons]
      exact ⟨by simpa using hfresh, by simpa using hl.nodup⟩


theorem nil_or_snoc (l : List (Nat × α)) : l = [] ∨ ∃ l0 p, l = l0 ++ [p] := by
  rcases List.eq_nil_or_concat l with h | ⟨l0, p, h⟩
  · exact Or.inl h
  · exact Or.inr ⟨l0, p, by rw [h, List.concat_eq_append]⟩

theorem lastAddr_concat (l : List (Nat × α)) (a : Nat) (x : α) (d : Option Nat) :
    lastAddr (l ++ [(a, x)]) d = some a := by
  rw [lastAddr_append]; rfl

/-- Function `dll_insert_rear` with memory available: the new node comes last. -/
theorem dll_insert_rear_spec {list : DoublyLinkedList α} {h : Heap α} {l : List (Nat × α)}
    (hl : IsList list h l) (x : α) (hroom : h.cells.length < h.limit) :
    ∃ list' h', dll_insert_rear list x h = some (LMS_SUCCESS, list', h') ∧
      IsList list' h' (l ++ [(h.cells.length, x)]) ∧ SameHooks list list' ∧
      h'.cells.length = h.cells.length + 1 ∧ h'.limit = h.limit := by
  obtain ⟨h1, hc, hr1, hlen1, hlim1⟩ := node_create_spec x h hroom
  have hfresh := hl.fresh
  rcases nil_or_snoc l with rfl | ⟨l0, ⟨t, w⟩, rfl⟩
  · have hsize : list.size = 0 := hl.size_eq_zero.2 rfl
    have hrun : dll_insert_rear list x h = some (LMS_SUCCESS,
        { list with head := some h.cells.length, tail := some h.cells.length,
                    size := list.size + 1 }, h1) := by
      simp [dll_insert_rear, hc, hsize]
    refine ⟨_, h1, hrun, ?_, ⟨rfl, rfl, rfl, rfl⟩, hlen1, hlim1⟩
    refine ⟨⟨?_, trivial⟩, rfl, rfl, by simp [hsize], by simp⟩
    rw [hr1]; simp
  · have hsize : list.size ≠ 0 := fun e => by simpa using hl.size_eq_zero.1 e
    have htail : list.tail = some t := by rw [hl.tail_eq, lastAddr_concat]
    have hnew : h1.read h.cells.length = some ⟨x, none, none⟩ := by rw [hr1]; simp
    obtain ⟨h2, hs2, hr2, hlen2, hlim2⟩ := Heap.set_prev_spec (some t) hnew
    have hta : t ≠ h.cells.length := fun e => hfresh (by simp [e])
    have hlink := hl.linked
    have htn : h.read t = some ⟨w, lastAddr l0 none, none⟩ :=
      ((Linked_append h none l0 [(t, w)] none).1 hlink).2.1
    have hrt : h2.read t = some ⟨w, lastAddr l0 none, none⟩ := by
      rw [hr2, hr1]; simp [hta]; exact htn
    obtain ⟨h3, hs3, hr3, hlen3, hlim3⟩ := Heap.set_next_spec (some h.cells.length) hrt
    have hrun : dll_insert_rear list x h = some (LMS_SUCCESS,
        { list with tail := some h.cells.length, size := list.size + 1 }, h3) := by
      simp [dll_insert_rear, hc, hsize, htail, hs2, hs3]
    refine ⟨_, h3, hrun, ?_, ⟨rfl, rfl, rfl, rfl⟩, by omega, by omega⟩
    have hnd := hl.nodup
    simp only [List.map_append, List.map_cons, List.map_nil] at hnd hfresh
    have htl : t ∉ l0.map Prod.fst := by
      intro hmem
      exact (List.nodup_append.1 hnd).2.2 hmem (by simp)
    refine ⟨?_, ?_, ?_, ?_, ?_⟩
    · rw [Linked_append]
      refine ⟨?_, ?_, trivial⟩
      · refine Linked_set_last (some h.cells.length) hlink ?_ ?_
        · rw [hr3]; simp
        · intro q hq
          have hqt : q ≠ t := fun e => htl (e ▸ hq)
          have hqa : q ≠ h.cells.length := fun e => hfresh (by rw [← e]; simp [hq])
          rw [hr3, hr2, hr1]
          simp [hqt, hqa]
      · rw [hr3, hr2, lastAddr_concat]; simp [Ne.symm hta]
    · show list.head = _
      rw [hl.head_eq, headAddr_append, headAddr_append]
      cases l0 with
      | nil => rfl
      | cons p l0 => cases p; rfl
    · show some h.cells.length = _
      rw [lastAddr_concat]
    · show list.size + 1 = _
      rw [hl.size_eq]; simp; omega
    · rw [List.map_append, List.nodup_append]
      refine ⟨hl.nodup, by simp, ?_⟩
      intro a ha hb
      simp at hb
      subst hb
      exact hl.fresh ha

/-- Function `dll_insert_front` and `dll_insert_rear` without memory: `LMS_ERROR_MEMORY`,
nothing changed. -/
theorem dll_insert_full (list : DoublyLinkedList α) (x : α) (h : Heap α)
    (hfull : ¬ h.cells.length < h.limit) :
    dll_insert_front list x h = some (LMS_ERROR_MEMORY, list, h) ∧
    dll_insert_rear list x h = some (LMS_ERROR_MEMORY, list, h) := by
  simp [dll_insert_front, dll_insert_rear, node_create_full x h hfull]


theorem walk_next_NSeg {h : Heap α} (l1 l2 : List (Nat × α)) (nx : Option Nat)
    (hn : NSeg h (l1 ++ l2) nx) :
    walk_next h l1.length (headAddr (l1 ++ l2) nx) = some (headAddr l2 nx) := by
  induction l1 with
  | nil => rfl
  | cons p l1 ih =>
    obtain ⟨a, x⟩ := p
    obtain ⟨⟨pv, hr⟩, hrest⟩ := hn
    have := ih hrest
    simp only [List.cons_append, headAddr_cons, List.length_cons, walk_next, Option.bind_eq_bind,
      Option.some_bind, hr]
    exact this

theorem nodup_split {l1 l2 : List (Nat × α)} {a : Nat} {x : α}
    (hnd : ((l1 ++ (a, x) :: l2).map Prod.fst).Nodup) :
    a ∉ l1.map Prod.fst ∧ a ∉ l2.map Prod.fst ∧ ((l1 ++ l2).map Prod.fst).Nodup := by
  simp only [List.map_append, List.map_cons, List.nodup_append, List.nodup_cons,
    List.disjoint_left, List.mem_cons, not_or] at hnd ⊢
  obtain ⟨h1, ⟨ha2, h2⟩, hd⟩ := hnd
  exact ⟨fun hm => (hd hm).1 rfl, ha2, h1, h2, fun b hb => (hd hb).2⟩

theorem nodup_mid {l0 l2 : List (Nat × α)} {p c : Nat} {w z : α}
    (hnd : (((l0 ++ [(p, w)]) ++ (c, z) :: l2).map Prod.fst).Nodup) :
    p ≠ c ∧ p ∉ l0.map Prod.fst ∧ c ∉ l0.map Prod.fst ∧ p ∉ l2.map Prod.fst ∧
      c ∉ l2.map Prod.fst := by
  simp only [List.map_append, List.map_cons, List.map_nil, List.nodup_append, List.nodup_cons,
    List.disjoint_left, List.mem_append, List.mem_cons, List.mem_singleton, List.not_mem_nil,
    or_false, not_or, List.nodup_nil, not_false_eq_true, true_and, and_true] at hnd
  obtain ⟨⟨-, hp0⟩, ⟨hc2, -⟩, hd⟩ := hnd
  exact ⟨(hd (Or.inr rfl)).1, fun hm => hp0 hm rfl, fun hm => (hd (Or.inl hm)).1 rfl,
    (hd (Or.inr rfl)).2, hc2⟩

/-- Function `dll_insert_at` strictly inside the list, with memory available. -/
theorem dll_insert_at_mid {list : DoublyLinkedList α} {h : Heap α}
    {l0 l2 : List (Nat × α)} {p c : Nat} {w z : α}
    (hl : IsList list h ((l0 ++ [(p, w)]) ++ (c, z) :: l2)) (x : α)
    (hroom : h.cells.length < h.limit) :
    ∃ list' h', dll_insert_at list ((l0 ++ [(p, w)]).length : Nat) x h =
        some (LMS_SUCCESS, list', h') ∧
      IsList list' h' ((l0 ++ [(p, w)]) ++ (h.cells.length, x) :: (c, z) :: l2) ∧
      SameHooks list list' ∧
      h'.cells.length = h.cells.length + 1 ∧ h'.limit = h.limit := by
  obtain ⟨h1, hc, hr1, hlen1, hlim1⟩ := node_create_spec x h hroom
  have hfresh := hl.fresh
  have hnd := hl.nodup
  have hlink := hl.linked
  rw [Linked_append] at hlink
  obtain ⟨hlinkA, hlinkB⟩ := hlink
  rw [lastAddr_concat] at hlinkB
  simp only [headAddr_cons] at hlinkA
  have hrp : h.read p = some ⟨w, lastAddr l0 none, some c⟩ :=
    ((Linked_append h none l0 [(p, w)] (some c)).1 hlinkA).2.1
  have hrc : h.read c = some ⟨z, some p, headAddr l2 none⟩ := hlinkB.1
  simp only [List.map_append, List.map_cons, List.map_nil, List.mem_append, List.mem_cons,
    List.mem_singleton, not_or, List.not_mem_nil, or_false] at hfresh
  obtain ⟨⟨hf0, hfp⟩, hfc, hf2⟩ := hfresh
  obtain ⟨hpc, hp0, hc0, hp2, hc2⟩ := nodup_mid hnd
  have hsize : list.size = ((l0 ++ [(p, w)]).length : Nat) + (l2.length + 1 : Nat) := by
    rw [hl.size_eq]; simp; omega
  have hidx1 : ¬ (((l0 ++ [(p, w)]).length : Nat) : Int) < 0 := by omega
  have hidx2 : ¬ (((l0 ++ [(p, w)]).length : Nat) : Int) > list.size := by omega
  have hidx3 : ¬ (((l0 ++ [(p, w)]).length : Nat) : Int) = 0 := by simp; omega
  have hidx4 : ¬ (((l0 ++ [(p, w)]).length : Nat) : Int) = list.size := by omega
  have hn1 : NSeg h1 ((l0 ++ [(p, w)]) ++ (c, z) :: l2) none := by
    refine NSeg_congr (fun q hq => ?_) hl.nseg
    have : q ≠ h.cells.length := fun e => hl.fresh (e ▸ hq)
    rw [hr1]; simp [this]
  have hwalk := walk_next_NSeg (l0 ++ [(p, w)]) ((c, z) :: l2) none hn1
  rw [← hl.head_eq] at hwalk
  simp only [headAddr_cons] at hwalk
  have hnew : h1.read h.cells.length = some ⟨x, none, none⟩ := by rw [hr1]; simp
  obtain ⟨h2, hs2, hr2, hlen2, hlim2⟩ := Heap.set_next_spec (some c) hnew
  have hrc2 : h2.read c = some ⟨z, some p, headAddr l2 none⟩ := by
    rw [hr2, hr1]; simp [hfc, Ne.symm hfc, hrc]
  have hnew2 : h2.read h.cells.length = some ⟨x, none, some c⟩ := by rw [hr2]; simp
  obtain ⟨h3, hs3, hr3, hlen3, hlim3⟩ := Heap.set_prev_spec (some p) hnew2
  have hrc3 : h3.read c = some ⟨z, some p, headAddr l2 none⟩ := by
    rw [hr3]; simp [hfc, Ne.symm hfc, hrc2]
  have hrp3 : h3.read p = some ⟨w, lastAddr l0 none, some c⟩ := by
    rw [hr3, hr2, hr1]; simp [hfp, Ne.symm hfp, hrp]
  obtain ⟨h4, hs4, hr4, hlen4, hlim4⟩ := Heap.set_next_spec (some h.cells.length) hrp3
  have hrc4 : h4.read c = some ⟨z, some p, headAddr l2 none⟩ := by
    rw [hr4]; simp [Ne.symm hpc, hrc3]
  obtain ⟨h5, hs5, hr5, hlen5, hlim5⟩ := Heap.set_prev_spec (some h.cells.length) hrc4
  have hrun : dll_insert_at list ((l0 ++ [(p, w)]).length : Nat) x h =
      some (LMS_SUCCESS, { list with size := list.size + 1 }, h5) := by
    simp only [dll_insert_at, hidx1, hidx2, hidx3, hidx4, or_self, if_false, hc, Int.toNat_ofNat,
      hwalk, Option.bind_eq_bind, Option.some_bind, hs2, hrc2, hs3, hrc3, hs4, hs5]
  refine ⟨_, h5, hrun, ?_, ⟨rfl, rfl, rfl, rfl⟩, by omega, by omega⟩
  have hold : ∀ q, q ≠ h.cells.length → q ≠ p → q ≠ c → h5.read q = h.read q := by
    intro q h1' h2' h3'
    rw [hr5, hr4, hr3, hr2, hr1]; simp [h1', h2', h3']
  refine ⟨?_, ?_, ?_, ?_, ?_⟩
  · rw [Linked_append]
    refine ⟨?_, ?_, ?_⟩
    · refine Linked_set_last (some h.cells.length) hlinkA ?_ ?_
      · rw [hr5, hr4]; simp [hpc]
      · intro q hq
        exact hold q (fun e => hf0 (e ▸ hq)) (fun e => hp0 (e ▸ hq)) (fun e => hc0 (e ▸ hq))
    · rw [lastAddr_concat, hr5, hr4, hr3]
      simp [hfc, hfp]
    · refine Linked_set_first (some h.cells.length) hlinkB ?_ ?_
      · rw [hr5]; simp
      · intro q hq
        exact hold q (fun e => hf2 (e ▸ hq)) (fun e => hp2 (e ▸ hq)) (fun e => hc2 (e ▸ hq))
  · show list.head = _
    rw [hl.head_eq]
    simp only [headAddr_append, headAddr_cons]
  · show list.tail = _
    rw [hl.tail_eq]
    simp only [lastAddr_append, lastAddr_cons]
  · show list.size + 1 = _
    rw [hl.size_eq]; simp; omega
  · simp only [List.map_append, List.map_cons, List.map_nil] at hnd ⊢
    rw [List.nodup_append] at hnd ⊢
    refine ⟨hnd.1, ?_, ?_⟩
    · rw [List.nodup_cons]
      refine ⟨?_, hnd.2.1⟩
      simp only [List.mem_cons, not_or]
      exact ⟨hfc, hf2⟩
    · intro a ha hb
      simp only [List.mem_cons] at hb
      rcases hb with rfl | hb
      · simp only [List.mem_append, List.mem_singleton] at ha
        rcases ha with ha | rfl
        · exact hf0 ha
        · exact hfp rfl
      · exact hnd.2.2 ha (by simpa using hb)


/-- Function `dll_insert_at` at a valid index, with memory available: the new node is put
before the node that was at `index`. -/
theorem dll_insert_at_spec {list : DoublyLinkedList α} {h : Heap α} {l : List (Nat × α)}
    (hl : IsList list h l) (i : Int) (x : α) (hi0 : 0 ≤ i) (hi1 : i ≤ list.size)
    (hroom : h.cells.length < h.limit) :
    ∃ list' h', dll_insert_at list i x h = some (LMS_SUCCESS, list', h') ∧
      IsList list' h' (l.take i.toNat ++ (h.cells.length, x) :: l.drop i.toNat) ∧
      SameHooks list list' ∧
      h'.cells.length = h.cells.length + 1 ∧ h'.limit = h.limit := by
  have hrange : ¬ (i < 0 ∨ i > list.size) := by omega
  by_cases h0 : i = 0
  · obtain ⟨list', h', hrun, hres⟩ := dll_insert_front_spec hl x hroom
    refine ⟨list', h', ?_, by simpa [h0] using hres⟩
    unfold dll_insert_at
    rw [if_neg hrange, if_pos h0, hrun]
  by_cases hn : i = list.size
  · obtain ⟨list', h', hrun, hres⟩ := dll_insert_rear_spec hl x hroom
    refine ⟨list', h', ?_, ?_⟩
    · unfold dll_insert_at
      rw [if_neg hrange, if_neg h0, if_pos hn, hrun]
    · have hlen : i.toNat = l.length := by
        rw [hn, hl.size_eq]; simp
      rw [hlen]
      simpa using hres
  · have hlt : i.toNat < l.length := by
      have := hl.size_eq
      omega
    have hpos : 0 < i.toNat := by omega
    have hsplit : l = l.take i.toNat ++ l.drop i.toNat := (List.take_append_drop _ _).symm
    have htl : (l.take i.toNat).length = i.toNat := by
      rw [List.length_take]; omega
    rcases nil_or_snoc (l.take i.toNat) with he | ⟨l0, ⟨p, w⟩, he⟩
    · rw [he] at htl; simp at htl; omega
    cases hd : l.drop i.toNat with
    | nil =>
      have := congrArg List.length hd
      simp at this
      omega
    | cons q l2 =>
      obtain ⟨c, z⟩ := q
      rw [he, hd] at hsplit
      rw [he]
      have hl' : IsList list h ((l0 ++ [(p, w)]) ++ (c, z) :: l2) := hsplit ▸ hl
      obtain ⟨list', h', hrun, hres⟩ := dll_insert_at_mid hl' x hroom
      refine ⟨list', h', ?_, hres⟩
      have hi : i = (((l0 ++ [(p, w)]).length : Nat) : Int) := by
        rw [← he, htl]; omega
      rw [hi]
      exact hrun

/-- Function `dll_insert_at` at a valid index without memory: `LMS_ERROR_MEMORY`, nothing
changed. -/
theorem dll_insert_at_full (list : DoublyLinkedList α) (i : Int) (x : α) (h : Heap α)
    (hi0 : 0 ≤ i) (hi1 : i ≤ list.size) (hfull : ¬ h.cells.length < h.limit) :
    dll_insert_at list i x h = some (LMS_ERROR_MEMORY, list, h) := by
  have hrange : ¬ (i < 0 ∨ i > list.size) := by omega
  have hf := dll_insert_full list x h hfull
  simp only [dll_insert_at, hrange, if_false, hf.1, hf.2, node_create_full x h hfull]
  split
  · rfl
  · split <;> rfl

theorem dll_insert_front_eq_rear_of_empty (list : DoublyLinkedList α) (x : α) (h : Heap α)
    (hsize : list.size = 0) : dll_insert_front list x h = dll_insert_rear list x h := by
  unfold dll_insert_front dll_insert_rear
  split <;> simp [hsize, *]

/-- C10: on a well-formed list with forward sequence `s`, for `0 ≤ i ≤ size` and
memory available, `dll_insert_at list i x` returns `LMS_SUCCESS` and the forward
sequence becomes the first `i` records of `s`, then `x`, then the remaining records
(it is the new node that sits at that place, and the list stays well formed);
index 0 is `dll_insert_front` and index `size` is `dll_insert_rear`. -/
theorem dll_insert_at_forward (list : DoublyLinkedList α) (h : Heap α) (i : Int) (x : α)
    (hwf : WellFormed list h) (hi0 : 0 ≤ i) (hi1 : i ≤ list.size)
    (hroom : h.cells.length < h.limit) :
    ∃ list' h' s,
      dll_insert_at list i x h = some (LMS_SUCCESS, list', h') ∧
      forward_seq list h = some s ∧
      forward_seq list' h' = some (s.take i.toNat ++ x :: s.drop i.toNat) ∧
      WellFormed list' h' ∧
      (i = 0 → dll_insert_at list i x h = dll_insert_front list x h) ∧
      (i = list.size → dll_insert_at list i x h = dll_insert_rear list x h) := by
  obtain ⟨l, hl⟩ := hwf.isList
  obtain ⟨list', h', hrun, hl', -⟩ := dll_insert_at_spec hl i x hi0 hi1 hroom
  have hrange : ¬ (i < 0 ∨ i > list.size) := by omega
  refine ⟨list', h', l.map Prod.snd, hrun, ?_, ?_, hl'.wellFormed, ?_, ?_⟩
  · simp [forward_seq, hl.forward_nodes_eq]
  · simp [forward_seq, hl'.forward_nodes_eq, List.map_take, List.map_drop]
  · intro h0
    unfold dll_insert_at
    rw [if_neg hrange, if_pos h0]
  · intro hn
    unfold dll_insert_at
    by_cases h0 : i = 0
    · have hsize : list.size = 0 := by omega
      rw [if_neg hrange, if_pos h0]
      exact dll_insert_front_eq_rear_of_empty list x h hsize
    · rw [if_neg hrange, if_neg h0, if_pos hn]

theorem wellFormed_list_20_10 : WellFormed list_20_10 heap_20_10 :=
  ⟨[(1, 20), (0, 10)], by decide, by decide, by decide⟩

/-- Witness of C10: the insertion test. Rear 10, front 20 on an empty list give
the list 20, 10; inserting 15 at index 1 gives 20, 15, 10, of size 3. -/
theorem dll_insert_at_forward_witness :
    (WellFormed list_20_10 heap_20_10 ∧ (0 : Int) ≤ 1 ∧ (1 : Int) ≤ list_20_10.size ∧
      heap_20_10.cells.length < heap_20_10.limit) ∧
    (∃ list' h' s,
      dll_insert_at list_20_10 1 15 heap_20_10 = some (LMS_SUCCESS, list', h') ∧
      forward_seq list_20_10 heap_20_10 = some s ∧
      forward_seq list' h' = some (s.take (1 : Int).toNat ++ 15 :: s.drop (1 : Int).toNat) ∧
      WellFormed list' h' ∧
      ((1 : Int) = 0 →
        dll_insert_at list_20_10 1 15 heap_20_10 = dll_insert_front list_20_10 15 heap_20_10) ∧
      ((1 : Int) = list_20_10.size →
        dll_insert_at list_20_10 1 15 heap_20_10 = dll_insert_rear list_20_10 15 heap_20_10)) ∧
    observe ((dll_insert_rear list_empty 10 heap_empty).bind fun r1 =>
        (dll_insert_front r1.2.1 20 r1.2.2).bind fun r2 => dll_insert_at r2.2.1 1 15 r2.2.2) =
      some (LMS_SUCCESS, some 1, some 0, 3, some [20, 15, 10], some [10, 15, 20]) :=
  ⟨⟨wellFormed_list_20_10, by decide, by decide, by decide⟩,
    dll_insert_at_forward list_20_10 heap_20_10 1 15 wellFormed_list_20_10 (by decide)
      (by decide) (by decide),
    by rfl⟩


/-! ## Deletion -/

/-- Function `dll_delete_front` on a non-empty list removes the first node. -/
theorem dll_delete_front_spec {list : DoublyLinkedList α} {h : Heap α} {a : Nat} {x : α}
    {l : List (Nat × α)} (hl : IsList list h ((a, x) :: l)) :
    ∃ list' h', dll_delete_front list h = some (LMS_SUCCESS, list', h') ∧
      IsList list' h' l ∧ SameHooks list list' ∧
      h'.cells.length = h.cells.length ∧ h'.limit = h.limit := by
  have hsize0 : list.size ≠ 0 := fun e => by simpa using hl.size_eq_zero.1 e
  have hhead : list.head = some a := hl.head_eq
  have hra := hl.linked.1
  have hal : a ∉ l.map Prod.fst := (List.nodup_cons.1 hl.nodup).1
  cases l with
  | nil =>
    have hsize1 : list.size = 1 := by rw [hl.size_eq]; simp
    obtain ⟨h', hf, hr', hshape⟩ := Heap.free_spec hra
    have hrun : dll_delete_front list h = some (LMS_SUCCESS,
        { list with head := none, tail := none, size := list.size - 1 }, h') := by
      simp [dll_delete_front, hsize1, hhead, node_destroy, hf]
    exact ⟨_, h', hrun, ⟨trivial, rfl, rfl, by simp [hsize1], by simp⟩, ⟨rfl, rfl, rfl, rfl⟩,
      hshape⟩
  | cons q l2 =>
    obtain ⟨c, z⟩ := q
    have hsize1 : list.size ≠ 1 := by rw [hl.size_eq]; simp; omega
    have hrc : h.read c = some ⟨z, some a, headAddr l2 none⟩ := hl.linked.2.1
    obtain ⟨h1, hs1, hr1, hlen1, hlim1⟩ := Heap.set_prev_spec none hrc
    have hac : a ≠ c := fun e => hal (by simp [e])
    have hra1 : h1.read a = some ⟨x, none, some c⟩ := by
      rw [hr1]; simp [hac]; exact hra
    obtain ⟨h', hf, hr', hlen', hlim'⟩ := Heap.free_spec hra1
    have hrun : dll_delete_front list h = some (LMS_SUCCESS,
        { list with head := some c, size := list.size - 1 }, h') := by
      simp [dll_delete_front, hsize0, hsize1, hhead, hra, hs1, node_destroy, hf]
    refine ⟨_, h', hrun, ?_, ⟨rfl, rfl, rfl, rfl⟩, by omega, by omega⟩
    have hnd2 := List.nodup_cons.1 hl.nodup
    have hcl : c ∉ l2.map Prod.fst := (List.nodup_cons.1 hnd2.2).1
    refine ⟨?_, rfl, ?_, ?_, hnd2.2⟩
    · refine Linked_set_first none hl.linked.2 ?_ ?_
      · rw [hr', hr1]; simp [Ne.symm hac]
      · intro q hq
        have hqc : q ≠ c := fun e => hcl (e ▸ hq)
        have hqa : q ≠ a := fun e => hal (by rw [← e]; simp [hq])
        rw [hr', hr1]; simp [hqc, hqa]
    · show list.tail = _
      rw [hl.tail_eq]; rfl
    · show list.size - 1 = _
      rw [hl.size_eq]; simp

/-- Function `dll_delete_rear` on a non-empty list removes the last node. -/
theorem dll_delete_rear_spec {list : DoublyLinkedList α} {h : Heap α} {a : Nat} {x : α}
    {l : List (Nat × α)} (hl : IsList list h (l ++ [(a, x)])) :
    ∃ list' h', dll_delete_rear list h = some (LMS_SUCCESS, list', h') ∧
      IsList list' h' l ∧ SameHooks list list' ∧
      h'.cells.length = h.cells.length ∧ h'.limit = h.limit := by
  have hsize0 : list.size ≠ 0 := fun e => by simpa using hl.size_eq_zero.1 e
  have htail : list.tail = some a := by rw [hl.tail_eq, lastAddr_concat]
  have hlink := (Linked_append h none l [(a, x)] none).1 hl.linked
  have hra : h.read a = some ⟨x, lastAddr l none, none⟩ := hlink.2.1
  obtain ⟨hal, -, hndl⟩ := nodup_split hl.nodup
  simp only [List.append_nil] at hndl
  rcases nil_or_snoc l with rfl | ⟨l0, ⟨p, w⟩, rfl⟩
  · have hsize1 : list.size = 1 := by rw [hl.size_eq]; simp
    obtain ⟨h', hf, hr', hshape⟩ := Heap.free_spec hra
    have hrun : dll_delete_rear list h = some (LMS_SUCCESS,
        { list with head := none, tail := none, size := list.size - 1 }, h') := by
      simp [dll_delete_rear, hsize1, htail, node_destroy, hf]
    exact ⟨_, h', hrun, ⟨trivial, rfl, rfl, by simp [hsize1], by simp⟩, ⟨rfl, rfl, rfl, rfl⟩,
      hshape⟩
  · have hsize1 : list.size ≠ 1 := by rw [hl.size_eq]; simp; omega
    rw [lastAddr_concat] at hra
    have hlinkA := hlink.1
    simp only [headAddr_cons] at hlinkA
    have hrp : h.read p = some ⟨w, lastAddr l0 none, some a⟩ :=
      ((Linked_append h none l0 [(p, w)] (some a)).1 hlinkA).2.1
    obtain ⟨h1, hs1, hr1, hlen1, hlim1⟩ := Heap.set_next_spec none hrp
    have hap : a ≠ p := fun e => hal (by simp [e])
    have hra1 : h1.read a = some ⟨x, some p, none⟩ := by
      rw [hr1]; simp [hap]; exact hra
    obtain ⟨h', hf, hr', hlen', hlim'⟩ := Heap.free_spec hra1
    have hrun : dll_delete_rear list h = some (LMS_SUCCESS,
        { list with tail := some p, size := list.size - 1 }, h') := by
      simp [dll_delete_rear, hsize0, hsize1, htail, hra, hs1, node_destroy, hf]
    refine ⟨_, h', hrun, ?_, ⟨rfl, rfl, rfl, rfl⟩, by omega, by omega⟩
    obtain ⟨hp0, -, -⟩ := nodup_split hndl
    refine ⟨?_, ?_, ?_, ?_, hndl⟩
    · refine Linked_set_last none hlinkA ?_ ?_
      · rw [hr', hr1]; simp [Ne.symm hap]
      · intro q hq
        have hqp : q ≠ p := fun e => hp0 (e ▸ hq)
        have hqa : q ≠ a := fun e => hal (by rw [← e]; simp [hq])
        rw [hr', hr1]; simp [hqp, hqa]
    · show list.head = _
      rw [hl.head_eq, headAddr_append, headAddr_append]
      cases l0 with
      | nil => rfl
      | cons q l0 => cases q; rfl
    · show some p = _
      rw [lastAddr_concat]
    · show list.size - 1 = _
      rw [hl.size_eq]; simp; omega

/-- Function `dll_delete_front` and `dll_delete_rear` on an empty list: `LMS_ERROR_NOT_FOUND`,
nothing changed. -/
theorem dll_delete_empty (list : DoublyLinkedList α) (h : Heap α) (hsize : list.size = 0) :
    dll_delete_front list h = some (LMS_ERROR_NOT_FOUND, list, h) ∧
    dll_delete_rear list h = some (LMS_ERROR_NOT_FOUND, list, h) := by
  simp [dll_delete_front, dll_delete_rear, hsize]


/-- On the head node `dll_delete_node` is `dll_delete_front`. -/
theorem dll_delete_node_head {list : DoublyLinkedList α} {h : Heap α} {a : Nat} {x : α}
    {l : List (Nat × α)} (hl : IsList list h ((a, x) :: l)) :
    dll_delete_node list (some a) h = dll_delete_front list h := by
  have hsize0 : list.size ≠ 0 := fun e => by simpa using hl.size_eq_zero.1 e
  have hhead : list.head = some a := hl.head_eq
  cases l with
  | nil =>
    have hsize1 : list.size = 1 := by rw [hl.size_eq]; simp
    have htail : list.tail = some a := hl.tail_eq
    simp [dll_delete_node, dll_delete_front, hsize1, hhead, htail]
  | cons q l2 =>
    have hsize1 : list.size ≠ 1 := by rw [hl.size_eq]; simp; omega
    have hal : a ∉ (q :: l2).map Prod.fst := (List.nodup_cons.1 hl.nodup).1
    have htail : list.tail ≠ some a := by
      rw [hl.tail_eq]
      obtain ⟨b, hb, hmem⟩ := lastAddr_cons_ne_none q l2 (some a)
      show lastAddr (q :: l2) (some a) ≠ some a
      rw [hb]
      intro e
      exact hal (Option.some.inj e ▸ hmem)
    have htail' : ¬ some a = list.tail := fun e => htail e.symm
    simp [dll_delete_node, dll_delete_front, hsize0, hsize1, hhead, htail']

/-- On the tail node `dll_delete_node` is `dll_delete_rear`. -/
theorem dll_delete_node_tail {list : DoublyLinkedList α} {h : Heap α} {a : Nat} {x : α}
    {l : List (Nat × α)} (hl : IsList list h (l ++ [(a, x)])) :
    dll_delete_node list (some a) h = dll_delete_rear list h := by
  have hsize0 : list.size ≠ 0 := fun e => by simpa using hl.size_eq_zero.1 e
  have htail : list.tail = some a := by rw [hl.tail_eq, lastAddr_concat]
  cases l with
  | nil =>
    have hsize1 : list.size = 1 := by rw [hl.size_eq]; simp
    have hhead : list.head = some a := hl.head_eq
    simp [dll_delete_node, dll_delete_rear, hsize1, hhead, htail]
  | cons q l2 =>
    obtain ⟨b, y⟩ := q
    have hsize1 : list.size ≠ 1 := by rw [hl.size_eq]; simp; omega
    have hhead : list.head = some b := hl.head_eq
    have hba : b ≠ a := by
      have := hl.nodup
      simp only [List.cons_append, List.map_cons, List.nodup_cons, List.map_append,
        List.mem_append, List.map_nil, List.mem_singleton, not_or] at this
      exact this.1.2
    have hne : ¬ some a = some b := fun e => hba (Option.some.inj e).symm
    simp [dll_delete_node, dll_delete_rear, hsize0, hsize1, hhead, htail, hne]

/-- Function `dll_delete_node` on an interior node unlinks it. -/
theorem dll_delete_node_mid {list : DoublyLinkedList α} {h : Heap α}
    {l0 l3 : List (Nat × α)} {p a c : Nat} {w x z : α}
    (hl : IsList list h ((l0 ++ [(p, w)]) ++ (a, x) :: (c, z) :: l3)) :
    ∃ list' h', dll_delete_node list (some a) h = some (LMS_SUCCESS, list', h') ∧
      IsList list' h' ((l0 ++ [(p, w)]) ++ (c, z) :: l3) ∧ SameHooks list list' ∧
      h'.cells.length = h.cells.length ∧ h'.limit = h.limit := by
  have hsize0 : list.size ≠ 0 := fun e => by simpa using hl.size_eq_zero.1 e
  obtain ⟨haL, haR, hnd'⟩ := nodup_split hl.nodup
  obtain ⟨hpc, hp0, hc0, hp3, hc3⟩ := nodup_mid hnd'
  simp only [List.map_append, List.map_cons, List.map_nil, List.mem_append, List.mem_cons,
    List.mem_singleton, List.not_mem_nil, or_false, not_or] at haL haR
  obtain ⟨ha0, hap⟩ := haL
  obtain ⟨hac, ha3⟩ := haR
  have hlink := (Linked_append h none (l0 ++ [(p, w)]) ((a, x) :: (c, z) :: l3) none).1 hl.linked
  obtain ⟨hlinkA, hra, hlinkC⟩ := hlink
  rw [lastAddr_concat] at hra
  simp only [headAddr_cons] at hlinkA hra
  have hrp : h.read p = some ⟨w, lastAddr l0 none, some a⟩ :=
    ((Linked_append h none l0 [(p, w)] (some a)).1 hlinkA).2.1
  have hrc : h.read c = some ⟨z, some a, headAddr l3 none⟩ := hlinkC.1
  have hhead : ¬ some a = list.head := by
    rw [hl.head_eq]
    simp only [headAddr_append, headAddr_cons]
    cases l0 with
    | nil => simpa using hap
    | cons q l0 =>
      obtain ⟨b, y⟩ := q
      simp only [List.map_cons, List.mem_cons, not_or] at ha0
      simpa using ha0.1
  have htail : ¬ some a = list.tail := by
    rw [hl.tail_eq]
    simp only [lastAddr_append, lastAddr_cons]
    obtain ⟨b, hb, hmem⟩ := lastAddr_cons_ne_none (c, z) l3 (some a)
    simp only [lastAddr_cons] at hb
    rw [hb]
    intro e
    have := Option.some.inj e
    subst this
    simp only [List.map_cons, List.mem_cons] at hmem
    rcases hmem with hm | hm
    · exact hac hm
    · exact ha3 hm
  obtain ⟨h1, hs1, hr1, hlen1, hlim1⟩ := Heap.set_next_spec (some c) hrp
  have hra1 : h1.read a = some ⟨x, some p, some c⟩ := by
    rw [hr1]; simp [hap, hra]
  have hrc1 : h1.read c = some ⟨z, some a, headAddr l3 none⟩ := by
    rw [hr1]; simp [Ne.symm hpc, hrc]
  obtain ⟨h2, hs2, hr2, hlen2, hlim2⟩ := Heap.set_prev_spec (some p) hrc1
  have hra2 : h2.read a = some ⟨x, some p, some c⟩ := by
    rw [hr2]; simp [hac, hra1]
  obtain ⟨h', hf, hr', hlen', hlim'⟩ := Heap.free_spec hra2
  have hrun : dll_delete_node list (some a) h = some (LMS_SUCCESS,
      { list with size := list.size - 1 }, h') := by
    simp [dll_delete_node, hsize0, hhead, htail, hra, hs1, hra1, hs2, node_destroy, hf]
  refine ⟨_, h', hrun, ?_, ⟨rfl, rfl, rfl, rfl⟩, by omega, by omega⟩
  have hold : ∀ q, q ≠ a → q ≠ p → q ≠ c → h'.read q = h.read q := by
    intro q h1' h2' h3'
    rw [hr', hr2, hr1]; simp [h1', h2', h3']
  refine ⟨?_, ?_, ?_, ?_, hnd'⟩
  · rw [Linked_append]
    refine ⟨?_, ?_⟩
    · refine Linked_set_last (some c) hlinkA ?_ ?_
      · rw [hr', hr2, hr1]; simp [Ne.symm hap, hpc]
      · intro q hq
        exact hold q (fun e => ha0 (e ▸ hq)) (fun e => hp0 (e ▸ hq)) (fun e => hc0 (e ▸ hq))
    · rw [lastAddr_concat]
      refine Linked_set_first (some p) hlinkC ?_ ?_
      · rw [hr', hr2]; simp [Ne.symm hac]
      · intro q hq
        exact hold q (fun e => ha3 (e ▸ hq)) (fun e => hp3 (e ▸ hq)) (fun e => hc3 (e ▸ hq))
  · show list.head = _
    rw [hl.head_eq]
    simp only [headAddr_append, headAddr_cons]
  · show list.tail = _
    rw [hl.tail_eq]
    simp only [lastAddr_append, lastAddr_cons]
  · show list.size - 1 = _
    rw [hl.size_eq]; simp; omega

/-- Function `dll_delete_node` on a node of the list removes exactly this node. -/
theorem dll_delete_node_spec {list : DoublyLinkedList α} {h : Heap α}
    {l1 l2 : List (Nat × α)} {a : Nat} {x : α} (hl : IsList list h (l1 ++ (a, x) :: l2)) :
    ∃ list' h', dll_delete_node list (some a) h = some (LMS_SUCCESS, list', h') ∧
      IsList list' h' (l1 ++ l2) ∧ SameHooks list list' ∧
      h'.cells.length = h.cells.length ∧ h'.limit = h.limit := by
  rcases nil_or_snoc l1 with rfl | ⟨l0, ⟨p, w⟩, rfl⟩
  · rw [dll_delete_node_head (by simpa using hl)]
    simpa using dll_delete_front_spec (by simpa using hl)
  · cases l2 with
    | nil =>
      rw [dll_delete_node_tail hl]
      simpa using dll_delete_rear_spec hl
    | cons q l3 =>
      obtain ⟨c, z⟩ := q
      exact dll_delete_node_mid hl


/-- Function `dll_delete_at` at a valid index removes the node at this index. -/
theorem dll_delete_at_spec {list : DoublyLinkedList α} {h : Heap α} {l : List (Nat × α)}
    (hl : IsList list h l) (i : Int) (hi0 : 0 ≤ i) (hi1 : i < list.size) :
    ∃ list' h', dll_delete_at list i h = some (LMS_SUCCESS, list', h') ∧
      IsList list' h' (l.take i.toNat ++ l.drop (i.toNat + 1)) ∧ SameHooks list list' ∧
      h'.cells.length = h.cells.length ∧ h'.limit = h.limit := by
  have hrange : ¬ (i < 0 ∨ i ≥ list.size) := by omega
  have hlt : i.toNat < l.length := by
    have := hl.size_eq
    omega
  have hsplit : l = l.take i.toNat ++ l[i.toNat] :: l.drop (i.toNat + 1) := by
    rw [← List.drop_eq_getElem_cons hlt, List.take_append_drop]
  obtain ⟨⟨a, x⟩, hax⟩ : ∃ q, l[i.toNat] = q := ⟨_, rfl⟩
  rw [hax] at hsplit
  have hl' : IsList list h (l.take i.toNat ++ (a, x) :: l.drop (i.toNat + 1)) := hsplit ▸ hl
  by_cases h0 : i = 0
  · have ht : l.take i.toNat = [] := by simp [h0]
    rw [ht] at hl' ⊢
    obtain ⟨list', h', hrun, hres⟩ := dll_delete_front_spec hl'
    refine ⟨list', h', ?_, hres⟩
    unfold dll_delete_at
    rw [if_neg hrange, if_pos h0, hrun]
  by_cases hn : i = list.size - 1
  · have hd : l.drop (i.toNat + 1) = [] := by
      apply List.drop_eq_nil_of_le
      have := hl.size_eq
      omega
    rw [hd] at hl' ⊢
    obtain ⟨list', h', hrun, hres⟩ := dll_delete_rear_spec hl'
    refine ⟨list', h', ?_, by simpa using hres⟩
    unfold dll_delete_at
    rw [if_neg hrange, if_neg h0, if_pos hn, hrun]
  · obtain ⟨list', h', hrun, hres⟩ := dll_delete_node_spec hl'
    refine ⟨list', h', ?_, hres⟩
    have hwalk := walk_next_NSeg (l.take i.toNat) ((a, x) :: l.drop (i.toNat + 1)) none hl'.nseg
    rw [← hl'.head_eq] at hwalk
    have htl : (l.take i.toNat).length = i.toNat := by
      rw [List.length_take]; omega
    rw [htl] at hwalk
    unfold dll_delete_at
    rw [if_neg hrange, if_neg h0, if_neg hn]
    simp only [hwalk, Option.bind_eq_bind, Option.some_bind, headAddr_cons]
    exact hrun

/-- Function `dll_delete_at` at an invalid index: `LMS_ERROR_INVALID_INPUT`, nothing changed. -/
theorem dll_delete_at_invalid (list : DoublyLinkedList α) (h : Heap α) (i : Int)
    (hi : i < 0 ∨ i ≥ list.size) :
    dll_delete_at list i h = some (LMS_ERROR_INVALID_INPUT, list, h) := by
  unfold dll_delete_at
  rw [if_pos hi]

/-- Function `dll_insert_at` at an invalid index: `LMS_ERROR_INVALID_INPUT`, nothing changed. -/
theorem dll_insert_at_invalid (list : DoublyLinkedList α) (h : Heap α) (i : Int) (x : α)
    (hi : i < 0 ∨ i > list.size) :
    dll_insert_at list i x h = some (LMS_ERROR_INVALID_INPUT, list, h) := by
  unfold dll_insert_at
  rw [if_pos hi]

/-! ## Search -/

/-- The loop of `dll_search` stops at the first node whose record compares equal. -/
theorem search_from_found {h : Heap α} (cmp : α → α → Int) (data : α)
    (l1 l2 : List (Nat × α)) (a : Nat) (x : α) (nx : Option Nat)
    (hn : NSeg h (l1 ++ (a, x) :: l2) nx) (hno : ∀ e ∈ l1, cmp e.2 data ≠ 0)
    (hyes : cmp x data = 0) (fuel : Nat) (hfuel : l1.length < fuel) :
    search_from cmp data h fuel (headAddr (l1 ++ (a, x) :: l2) nx) = some (some a) := by
  induction l1 generalizing fuel with
  | nil =>
    obtain ⟨⟨pv, hr⟩, -⟩ := hn
    cases fuel with
    | zero => simp at hfuel
    | succ fuel => simp [search_from, hr, hyes]
  | cons q l1 ih =>
    obtain ⟨b, y⟩ := q
    obtain ⟨⟨pv, hr⟩, hrest⟩ := hn
    cases fuel with
    | zero => simp at hfuel
    | succ fuel =>
      have hy : cmp y data ≠ 0 := hno (b, y) (by simp)
      have := ih hrest (fun e he => hno e (by simp [he])) fuel (by simpa using hfuel)
      simp only [List.cons_append, headAddr_cons, search_from, hr, Option.bind_eq_bind,
        Option.some_bind, hy, if_false]
      exact this

/-- The loop of `dll_search` returns `NULL` when no record compares equal. -/
theorem search_from_none {h : Heap α} (cmp : α → α → Int) (data : α)
    (l : List (Nat × α)) (hn : NSeg h l none) (hno : ∀ e ∈ l, cmp e.2 data ≠ 0)
    (fuel : Nat) (hfuel : l.length ≤ fuel) :
    search_from cmp data h fuel (headAddr l none) = some none := by
  induction l generalizing fuel with
  | nil => cases fuel <;> simp [search_from]
  | cons q l ih =>
    obtain ⟨b, y⟩ := q
    obtain ⟨⟨pv, hr⟩, hrest⟩ := hn
    cases fuel with
    | zero => simp at hfuel
    | succ fuel =>
      have hy : cmp y data ≠ 0 := hno (b, y) (by simp)
      have := ih hrest (fun e he => hno e (by simp [he])) fuel (by simpa using hfuel)
      simp only [headAddr_cons, search_from, hr, Option.bind_eq_bind,
        Option.some_bind, hy, if_false]
      exact this

/-- Function `dll_delete_data` removes the first node whose record compares equal to `data`. -/
theorem dll_delete_data_found {list : DoublyLinkedList α} {h : Heap α}
    {l1 l2 : List (Nat × α)} {a : Nat} {x : α} (cmp : α → α → Int) (data : α)
    (hl : IsList list h (l1 ++ (a, x) :: l2)) (hcmp : list.compare = some cmp)
    (hno : ∀ e ∈ l1, cmp e.2 data ≠ 0) (hyes : cmp x data = 0)
    (fuel : Nat) (hfuel : l1.length < fuel) :
    ∃ list' h', dll_delete_data fuel list data h = some (LMS_SUCCESS, list', h') ∧
      IsList list' h' (l1 ++ l2) ∧ SameHooks list list' ∧
      h'.cells.length = h.cells.length ∧ h'.limit = h.limit := by
  have hs := search_from_found cmp data l1 l2 a x none hl.nseg hno hyes fuel hfuel
  rw [← hl.head_eq] at hs
  obtain ⟨list', h', hrun, hres⟩ := dll_delete_node_spec hl
  refine ⟨list', h', ?_, hres⟩
  simp [dll_delete_data, dll_search, hcmp, hs, hrun]

/-- Function `dll_delete_data` when no record compares equal: `LMS_ERROR_NOT_FOUND`, nothing
changed. -/
theorem dll_delete_data_none {list : DoublyLinkedList α} {h : Heap α}
    {l : List (Nat × α)} (cmp : α → α → Int) (data : α)
    (hl : IsList list h l) (hcmp : list.compare = some cmp)
    (hno : ∀ e ∈ l, cmp e.2 data ≠ 0) (fuel : Nat) (hfuel : l.length ≤ fuel) :
    dll_delete_data fuel list data h = some (LMS_ERROR_NOT_FOUND, list, h) := by
  have hs := search_from_none cmp data l hl.nseg hno fuel hfuel
  rw [← hl.head_eq] at hs
  simp [dll_delete_data, dll_search, hcmp, hs]

/-- Function `dll_delete_data` on a list without comparator: `LMS_ERROR_NOT_FOUND`, nothing
changed. -/
theorem dll_delete_data_no_compare (list : DoublyLinkedList α) (h : Heap α) (data : α)
    (fuel : Nat) (hcmp : list.compare = none) :
    dll_delete_data fuel list data h = some (LMS_ERROR_NOT_FOUND, list, h) := by
  simp [dll_delete_data, dll_search, hcmp]


/-! ## Sorted insertion -/

theorem take_drop_takeWhile (P : Nat × α → Bool) (l : List (Nat × α)) :
    l.take (l.takeWhile P).length = l.takeWhile P ∧
    l.drop (l.takeWhile P).length = l.dropWhile P := by
  induction l with
  | nil => simp
  | cons q l ih =>
    cases hq : P q with
    | true => simp [List.takeWhile_cons, List.dropWhile_cons, hq, ih.1, ih.2]
    | false => simp [List.takeWhile_cons, List.dropWhile_cons, hq]

/-- The loop of `dll_insert_sorted` counts the leading records that `data` is
strictly greater than. -/
theorem insert_sorted_scan_spec {h : Heap α} (cmp : α → α → Int) (data : α)
    (l : List (Nat × α)) (hn : NSeg h l none) (fuel : Nat) (hfuel : l.length ≤ fuel)
    (idx : Int) :
    insert_sorted_scan cmp data h fuel (headAddr l none) idx =
      some (idx + ((l.takeWhile fun e => decide (cmp data e.2 > 0)).length : Nat)) := by
  induction l generalizing fuel idx with
  | nil => cases fuel <;> simp [insert_sorted_scan]
  | cons q l ih =>
    obtain ⟨b, y⟩ := q
    obtain ⟨⟨pv, hr⟩, hrest⟩ := hn
    cases fuel with
    | zero => simp at hfuel
    | succ fuel =>
      have := ih hrest fuel (by simpa using hfuel) (idx + 1)
      by_cases hy : cmp data y > 0
      · simp only [headAddr_cons, insert_sorted_scan, hr, Option.bind_eq_bind,
          Option.some_bind, hy, if_true, this, List.takeWhile_cons, decide_True,
          List.length_cons]
        congr 1
        push_cast
        ring
      · simp [insert_sorted_scan, hr, hy, List.takeWhile_cons]

/-- Function `dll_insert_sorted` with a comparator and memory available: the new node is put
after the leading nodes whose records `x` is strictly greater than. -/
theorem dll_insert_sorted_spec {list : DoublyLinkedList α} {h : Heap α} {l : List (Nat × α)}
    (cmp : α → α → Int) (hl : IsList list h l) (hcmp : list.compare = some cmp) (x : α)
    (hroom : h.cells.length < h.limit) (fuel : Nat) (hfuel : l.length ≤ fuel) :
    ∃ list' h', dll_insert_sorted fuel list x h = some (LMS_SUCCESS, list', h') ∧
      IsList list' h' ((l.takeWhile fun e => decide (cmp x e.2 > 0)) ++
        (h.cells.length, x) :: (l.dropWhile fun e => decide (cmp x e.2 > 0))) ∧
      SameHooks list list' ∧
      h'.cells.length = h.cells.length + 1 ∧ h'.limit = h.limit := by
  by_cases hsize : list.size = 0
  · have hnil := hl.size_eq_zero.1 hsize
    subst hnil
    obtain ⟨list', h', hrun, hres⟩ := dll_insert_front_spec hl x hroom
    refine ⟨list', h', ?_, by simpa using hres⟩
    simp [dll_insert_sorted, hcmp, hsize, hrun]
  · have hscan := insert_sorted_scan_spec cmp x l hl.nseg fuel hfuel 0
    rw [← hl.head_eq] at hscan
    have hk : (l.takeWhile fun e => decide (cmp x e.2 > 0)).length ≤ l.length :=
      (List.takeWhile_sublist _).length_le
    obtain ⟨list', h', hrun, hres⟩ := dll_insert_at_spec hl
      ((0 : Int) + ((l.takeWhile fun e => decide (cmp x e.2 > 0)).length : Nat)) x
      (by omega) (by rw [hl.size_eq]; omega) hroom
    refine ⟨list', h', ?_, ?_⟩
    · simp only [dll_insert_sorted, hcmp, hsize, if_false, hscan, Option.bind_eq_bind,
        Option.some_bind]
      exact hrun
    · have htd := take_drop_takeWhile (fun e => decide (cmp x e.2 > 0)) l
      simp only [zero_add, Int.toNat_ofNat, htd.1, htd.2] at hres
      exact hres

/-- Function `dll_insert_sorted` on a list with a comparator, without memory:
`LMS_ERROR_MEMORY`, nothing changed. -/
theorem dll_insert_sorted_full {list : DoublyLinkedList α} {h : Heap α} {l : List (Nat × α)}
    (cmp : α → α → Int) (hl : IsList list h l) (hcmp : list.compare = some cmp) (x : α)
    (hfull : ¬ h.cells.length < h.limit) (fuel : Nat) (hfuel : l.length ≤ fuel) :
    dll_insert_sorted fuel list x h = some (LMS_ERROR_MEMORY, list, h) := by
  by_cases hsize : list.size = 0
  · simp [dll_insert_sorted, hcmp, hsize, (dll_insert_full list x h hfull).1]
  · have hscan := insert_sorted_scan_spec cmp x l hl.nseg fuel hfuel 0
    rw [← hl.head_eq] at hscan
    have hk : (l.takeWhile fun e => decide (cmp x e.2 > 0)).length ≤ l.length :=
      (List.takeWhile_sublist _).length_le
    have hrun := dll_insert_at_full list
      ((0 : Int) + ((l.takeWhile fun e => decide (cmp x e.2 > 0)).length : Nat)) x h
      (by omega) (by rw [hl.size_eq]; omega) hfull
    simp only [dll_insert_sorted, hcmp, hsize, if_false, hscan, Option.bind_eq_bind,
      Option.some_bind]
    exact hrun

/-- Function `dll_insert_sorted` on a list without comparator: `LMS_ERROR_INVALID_INPUT`,
nothing changed. -/
theorem dll_insert_sorted_no_compare (list : DoublyLinkedList α) (h : Heap α) (x : α)
    (fuel : Nat) (hcmp : list.compare = none) :
    dll_insert_sorted fuel list x h = some (LMS_ERROR_INVALID_INPUT, list, h) := by
  simp [dll_insert_sorted, hcmp]


/-! ## The container invariants -/

theorem Linked_links_back {h : Heap α} {l1 l2 : List (Nat × α)} {a : Nat} {x : α}
    (hl : Linked h none (l1 ++ (a, x) :: l2) none) :
    h.read a = some ⟨x, lastAddr l1 none, headAddr l2 none⟩ ∧
    (∀ p, lastAddr l1 none = some p → ∃ pn, h.read p = some pn ∧ pn.next = some a) ∧
    (∀ n, headAddr l2 none = some n → ∃ nn, h.read n = some nn ∧ nn.prev = some a) := by
  obtain ⟨hA, hra, hB⟩ := (Linked_append h none l1 ((a, x) :: l2) none).1 hl
  refine ⟨hra, ?_, ?_⟩
  · intro p hp
    rcases nil_or_snoc l1 with rfl | ⟨l0, ⟨p', w⟩, rfl⟩
    · simp at hp
    · rw [lastAddr_concat] at hp
      have := Option.some.inj hp
      subst this
      exact ⟨_, ((Linked_append h none l0 [(p', w)] _).1 hA).2.1, rfl⟩
  · intro n hn
    cases l2 with
    | nil => simp at hn
    | cons q l3 =>
      obtain ⟨c, z⟩ := q
      simp only [headAddr_cons, Option.some.injEq] at hn
      subst hn
      exact ⟨_, hB.1, rfl⟩

theorem IsList.invariants {list : DoublyLinkedList α} {h : Heap α} {l : List (Nat × α)}
    (hl : IsList list h l) : Invariants list h := by
  refine ⟨hl.wellFormed, ⟨l, hl.forward_nodes_eq, hl.size_eq⟩,
    ⟨l.reverse, hl.backward_nodes_eq, by simpa using hl.size_eq⟩, ?_, ?_⟩
  · rw [hl.size_eq_zero, hl.head_eq, hl.tail_eq]
    constructor
    · rintro rfl; exact ⟨rfl, rfl⟩
    · rintro ⟨hh, -⟩; exact headAddr_eq_none hh
  · intro f a nd hf ha hr
    have hfl := hl.unique hf
    subst hfl
    obtain ⟨⟨a', x⟩, hin, rfl⟩ := List.mem_map.1 ha
    obtain ⟨l1, l2, rfl⟩ := List.append_of_mem hin
    obtain ⟨hra, hp, hn⟩ := Linked_links_back hl.linked
    rw [hra] at hr
    have := Option.some.inj hr
    subst this
    exact ⟨hp, hn⟩

theorem exists_first (P : Nat × α → Prop) (l : List (Nat × α)) (hex : ∃ e ∈ l, P e) :
    ∃ l1 e l2, l = l1 ++ e :: l2 ∧ P e ∧ ∀ e' ∈ l1, ¬ P e' := by
  induction l with
  | nil => simp at hex
  | cons q l ih =>
    by_cases hq : P q
    · exact ⟨[], q, l, rfl, hq, by simp⟩
    · obtain ⟨e, he, hpe⟩ := hex
      simp only [List.mem_cons] at he
      rcases he with rfl | he
      · exact absurd hpe hq
      · obtain ⟨l1, e', l2, hsplit, hpe', hno⟩ := ih ⟨e, he, hpe⟩
        refine ⟨q :: l1, e', l2, by rw [hsplit]; rfl, hpe', ?_⟩
        intro e'' he''
        simp only [List.mem_cons] at he''
        rcases he'' with rfl | he''
        · exact hq
        · exact hno e'' he''

/-- C7: each of `dll_insert_front`, `dll_insert_rear`, `dll_insert_at`,
`dll_insert_sorted`, `dll_delete_front`, `dll_delete_rear`, `dll_delete_at` and
`dll_delete_data`, called on a well-formed list (with fuel for one loop turn per
node), returns a result code and leaves a list that satisfies the container
invariants, whether the call succeeds or fails: the list is well formed, `size` is
the number of nodes reachable forward from `head` and backward from `tail`,
`size = 0` exactly when `head` and `tail` are both `NULL`, and the neighbours of
every node link back to it. -/
theorem dll_update_invariants (list : DoublyLinkedList α) (h : Heap α) (x : α) (i : Int)
    (fuel : Nat) (hwf : WellFormed list h) (hfuel : list.size ≤ fuel) :
    (∃ r list' h', dll_insert_front list x h = some (r, list', h') ∧ Invariants list' h') ∧
    (∃ r list' h', dll_insert_rear list x h = some (r, list', h') ∧ Invariants list' h') ∧
    (∃ r list' h', dll_insert_at list i x h = some (r, list', h') ∧ Invariants list' h') ∧
    (∃ r list' h', dll_insert_sorted fuel list x h = some (r, list', h') ∧
      Invariants list' h') ∧
    (∃ r list' h', dll_delete_front list h = some (r, list', h') ∧ Invariants list' h') ∧
    (∃ r list' h', dll_delete_rear list h = some (r, list', h') ∧ Invariants list' h') ∧
    (∃ r list' h', dll_delete_at list i h = some (r, list', h') ∧ Invariants list' h') ∧
    (∃ r list' h', dll_delete_data fuel list x h = some (r, list', h') ∧
      Invariants list' h') := by
  obtain ⟨l, hl⟩ := hwf.isList
  have hlen : l.length ≤ fuel := by
    have := hl.size_eq
    omega
  have hinv := hl.invariants
  refine ⟨?_, ?_, ?_, ?_, ?_, ?_, ?_, ?_⟩
  · by_cases hroom : h.cells.length < h.limit
    · obtain ⟨list', h', hrun, hl', -⟩ := dll_insert_front_spec hl x hroom
      exact ⟨_, list', h', hrun, hl'.invariants⟩
    · exact ⟨_, list, h, (dll_insert_full list x h hroom).1, hinv⟩
  · by_cases hroom : h.cells.length < h.limit
    · obtain ⟨list', h', hrun, hl', -⟩ := dll_insert_rear_spec hl x hroom
      exact ⟨_, list', h', hrun, hl'.invariants⟩
    · exact ⟨_, list, h, (dll_insert_full list x h hroom).2, hinv⟩
  · by_cases hi : i < 0 ∨ i > list.size
    · exact ⟨_, list, h, dll_insert_at_invalid list h i x hi, hinv⟩
    · by_cases hroom : h.cells.length < h.limit
      · obtain ⟨list', h', hrun, hl', -⟩ :=
          dll_insert_at_spec hl i x (by omega) (by omega) hroom
        exact ⟨_, list', h', hrun, hl'.invariants⟩
      · exact ⟨_, list, h, dll_insert_at_full list i x h (by omega) (by omega) hroom, hinv⟩
  · cases hcmp : list.compare with
    | none => exact ⟨_, list, h, dll_insert_sorted_no_compare list h x fuel hcmp, hinv⟩
    | some cmp =>
      by_cases hroom : h.cells.length < h.limit
      · obtain ⟨list', h', hrun, hl', -⟩ := dll_insert_sorted_spec cmp hl hcmp x hroom fuel hlen
        exact ⟨_, list', h', hrun, hl'.invariants⟩
      · exact ⟨_, list, h, dll_insert_sorted_full cmp hl hcmp x hroom fuel hlen, hinv⟩
  · cases l with
    | nil => exact ⟨_, list, h, (dll_delete_empty list h (hl.size_eq_zero.2 rfl)).1, hinv⟩
    | cons q l =>
      obtain ⟨a, y⟩ := q
      obtain ⟨list', h', hrun, hl', -⟩ := dll_delete_front_spec hl
      exact ⟨_, list', h', hrun, hl'.invariants⟩
  · rcases nil_or_snoc l with rfl | ⟨l0, ⟨a, y⟩, rfl⟩
    · exact ⟨_, list, h, (dll_delete_empty list h (hl.size_eq_zero.2 rfl)).2, hinv⟩
    · obtain ⟨list', h', hrun, hl', -⟩ := dll_delete_rear_spec hl
      exact ⟨_, list', h', hrun, hl'.invariants⟩
  · by_cases hi : i < 0 ∨ i ≥ list.size
    · exact ⟨_, list, h, dll_delete_at_invalid list h i hi, hinv⟩
    · obtain ⟨list', h', hrun, hl', -⟩ := dll_delete_at_spec hl i (by omega) (by omega)
      exact ⟨_, list', h', hrun, hl'.invariants⟩
  · cases hcmp : list.compare with
    | none => exact ⟨_, list, h, dll_delete_data_no_compare list h x fuel hcmp, hinv⟩
    | some cmp =>
      by_cases hex : ∃ e ∈ l, cmp e.2 x = 0
      · obtain ⟨l1, ⟨a, y⟩, l2, rfl, hyes, hno⟩ := exists_first (fun e => cmp e.2 x = 0) l hex
        have hf : l1.length < fuel := by
          simp at hlen
          omega
        obtain ⟨list', h', hrun, hl', -⟩ :=
          dll_delete_data_found cmp x hl hcmp hno hyes fuel hf
        exact ⟨_, list', h', hrun, hl'.invariants⟩
      · have hno : ∀ e ∈ l, cmp e.2 x ≠ 0 := fun e he hc => hex ⟨e, he, hc⟩
        exact ⟨_, list, h, dll_delete_data_none cmp x hl hcmp hno fuel hlen, hinv⟩


theorem dropWhile_head_not (P : Nat × α → Bool) (l : List (Nat × α)) :
    ∀ e ∈ (l.dropWhile P).head?, P e = false := by
  induction l with
  | nil => simp
  | cons q l ih =>
    cases hq : P q with
    | true => simpa [List.dropWhile_cons, hq] using ih
    | false => simp [List.dropWhile_cons, hq]

theorem compare_int_totalPreorder : TotalPreorder compare_int := by
  constructor
  · intro a b
    unfold compare_int
    split_ifs <;> omega
  · intro a b c
    unfold compare_int
    split_ifs <;> omega

/-- Putting `x` after the leading records it is strictly greater than keeps a
sorted sequence sorted; only the totality of the comparator is used. -/
theorem sorted_insert (cmp : α → α → Int) (htot : ∀ a b, cmp a b ≤ 0 ∨ cmp b a ≤ 0)
    (x : α) (a : Nat) (l : List (Nat × α)) (hs : SortedBy cmp (l.map Prod.snd)) :
    SortedBy cmp (((l.takeWhile fun e => decide (cmp x e.2 > 0)) ++
      (a, x) :: (l.dropWhile fun e => decide (cmp x e.2 > 0))).map Prod.snd) := by
  unfold SortedBy at hs ⊢
  rw [List.chain'_map] at hs ⊢
  have hsplit := List.takeWhile_append_dropWhile (fun e => decide (cmp x e.2 > 0)) l
  rw [← hsplit, List.chain'_append] at hs
  obtain ⟨htw, hdw, -⟩ := hs
  rw [List.chain'_append]
  refine ⟨htw, ?_, ?_⟩
  · rw [List.chain'_cons']
    refine ⟨?_, hdw⟩
    intro e he
    have := dropWhile_head_not (fun e => decide (cmp x e.2 > 0)) l e he
    simp only [decide_eq_false_iff_not, not_lt] at this
    exact this
  · intro e he e' he'
    simp only [List.head?_cons, Option.mem_def, Option.some.injEq] at he'
    subst he'
    have hmem : e ∈ l.takeWhile fun e => decide (cmp x e.2 > 0) :=
      List.mem_of_mem_getLast? he
    have := List.mem_takeWhile_imp hmem
    simp only [decide_eq_true_eq] at this
    rcases htot e.2 x with h1 | h1
    · exact h1
    · omega

/-- C9: on a well-formed list whose forward sequence `s` is sorted under its
total-preorder comparator, `dll_insert_sorted` (with fuel for one loop turn per
node) returns a result and the forward sequence afterwards is again sorted, the list
being still well formed. With memory available the result is `LMS_SUCCESS` and the
new sequence is `s` with `x` inserted at one position; without memory the result is
`LMS_ERROR_MEMORY` and the sequence is `s` itself. -/
theorem dll_insert_sorted_sorted (cmp : α → α → Int) (list : DoublyLinkedList α) (h : Heap α)
    (x : α) (fuel : Nat) (s : List α) (hwf : WellFormed list h)
    (hcmp : list.compare = some cmp) (hpre : TotalPreorder cmp)
    (hseq : forward_seq list h = some s) (hsorted : SortedBy cmp s)
    (hfuel : list.size ≤ fuel) :
    ∃ r list' h' s',
      dll_insert_sorted fuel list x h = some (r, list', h') ∧
      forward_seq list' h' = some s' ∧ SortedBy cmp s' ∧ WellFormed list' h' ∧
      (h.cells.length < h.limit →
        r = LMS_SUCCESS ∧ ∃ s1 s2, s = s1 ++ s2 ∧ s' = s1 ++ x :: s2) ∧
      (¬ h.cells.length < h.limit → r = LMS_ERROR_MEMORY ∧ s' = s) := by
  obtain ⟨l, hl⟩ := hwf.isList
  have hlen : l.length ≤ fuel := by
    have := hl.size_eq
    omega
  have hs : s = l.map Prod.snd := by
    simp only [forward_seq, hl.forward_nodes_eq, Option.map_some', Option.some.injEq] at hseq
    exact hseq.symm
  subst hs
  by_cases hroom : h.cells.length < h.limit
  · obtain ⟨list', h', hrun, hl', -⟩ := dll_insert_sorted_spec cmp hl hcmp x hroom fuel hlen
    refine ⟨_, list', h', _, hrun, by simp only [forward_seq, hl'.forward_nodes_eq]; rfl,
      sorted_insert cmp hpre.total x _ l hsorted, hl'.wellFormed, ?_,
      fun hc => absurd hroom hc⟩
    intro _
    refine ⟨rfl, (l.takeWhile fun e => decide (cmp x e.2 > 0)).map Prod.snd,
      (l.dropWhile fun e => decide (cmp x e.2 > 0)).map Prod.snd, ?_, by simp⟩
    rw [← List.map_append, List.takeWhile_append_dropWhile]
  · refine ⟨_, list, h, _, dll_insert_sorted_full cmp hl hcmp x hroom fuel hlen, hseq,
      hsorted, hl.wellFormed, fun hc => absurd hc hroom, fun _ => ⟨rfl, rfl⟩⟩

/-- C8, as the code has it: on a well-formed list with a comparator, with memory
available and fuel for one loop turn per node, `dll_insert_sorted` puts the new
node right after the leading nodes whose records `x` is strictly greater than
(`compare(x, e) > 0`), so in front of the first node whose record is not less than
`x`: every node already in the list whose record ties with `x`
(`compare(x, e) == 0`) comes after the new node. -/
theorem dll_insert_sorted_before_ties (cmp : α → α → Int) (list : DoublyLinkedList α)
    (h : Heap α) (x : α) (fuel : Nat) (hwf : WellFormed list h)
    (hcmp : list.compare = some cmp) (hroom : h.cells.length < h.limit)
    (hfuel : list.size ≤ fuel) :
    ∃ list' h' l1 l2,
      dll_insert_sorted fuel list x h = some (LMS_SUCCESS, list', h') ∧
      forward_nodes list h = some (l1 ++ l2) ∧
      forward_nodes list' h' = some (l1 ++ (h.cells.length, x) :: l2) ∧
      (∀ e ∈ l1, cmp x e.2 > 0) ∧ (∀ e ∈ l2.head?, cmp x e.2 ≤ 0) ∧
      (∀ e ∈ l1 ++ l2, cmp x e.2 = 0 →
        e ∈ l2 ∧ [(h.cells.length, x), e].Sublist (l1 ++ (h.cells.length, x) :: l2)) := by
  obtain ⟨l, hl⟩ := hwf.isList
  have hlen : l.length ≤ fuel := by
    have := hl.size_eq
    omega
  obtain ⟨list', h', hrun, hl', -⟩ := dll_insert_sorted_spec cmp hl hcmp x hroom fuel hlen
  have h1 : ∀ e ∈ l.takeWhile fun e => decide (cmp x e.2 > 0), cmp x e.2 > 0 := by
    intro e he
    simpa using List.mem_takeWhile_imp he
  refine ⟨list', h', _, _, hrun, ?_, hl'.forward_nodes_eq, h1, ?_, ?_⟩
  · rw [List.takeWhile_append_dropWhile]; exact hl.forward_nodes_eq
  · intro e he
    simpa using dropWhile_head_not (fun e => decide (cmp x e.2 > 0)) l e he
  · intro e he htie
    have he2 : e ∈ l.dropWhile fun e => decide (cmp x e.2 > 0) := by
      rcases List.mem_append.1 he with he1 | he2
      · have := h1 e he1
        omega
      · exact he2
    refine ⟨he2, ?_⟩
    have hsub1 : [(h.cells.length, x), e].Sublist
        ((h.cells.length, x) :: l.dropWhile fun e => decide (cmp x e.2 > 0)) :=
      List.Sublist.cons₂ _ (List.singleton_sublist.2 he2)
    exact hsub1.trans (List.sublist_append_right _ _)

/-- C8 fails as stated: inserting 20 into the sorted list 10, 20, 30 puts the new
node (address 3) in front of the node that already held 20 (address 1), although
`compare_int 20 20 = 0`; the old node does not precede the new one. -/
theorem dll_insert_sorted_tie_10_20_30 :
    ((dll_insert_sorted 3 list_10_20_30 20 heap_10_20_30).bind fun r =>
      forward_nodes r.2.1 r.2.2) = some [(0, 10), (3, 20), (1, 20), (2, 30)] ∧
    forward_nodes list_10_20_30 heap_10_20_30 = some [(0, 10), (1, 20), (2, 30)] ∧
    compare_int 20 20 = 0 ∧
    ¬ [((1 : Nat), (20 : Int)), (3, 20)].Sublist [(0, 10), (3, 20), (1, 20), (2, 30)] := by
  refine ⟨by rfl, by rfl, by rfl, by decide⟩


theorem wellFormed_list_sorted5 : WellFormed list_sorted5 heap_sorted5 :=
  ⟨[(1, 10), (3, 20), (2, 30), (4, 40), (0, 50)], by decide, by decide, by decide⟩

theorem wellFormed_list_unsorted5 : WellFormed list_unsorted5 heap_unsorted5 :=
  ⟨[(0, 50), (1, 10), (2, 30), (3, 20), (4, 40)], by decide, by decide, by decide⟩

theorem sortedBy_sorted5 : SortedBy compare_int [10, 20, 30, 40, 50] := by
  simp [SortedBy, compare_int]

/-- Witness of C7 on the list 10, 20, 30 with the record 20 and the index 1. -/
theorem dll_update_invariants_witness :
    (WellFormed list_10_20_30 heap_10_20_30 ∧ list_10_20_30.size ≤ (3 : Nat)) ∧
    ((∃ r list' h', dll_insert_front list_10_20_30 20 heap_10_20_30 = some (r, list', h') ∧
        Invariants list' h') ∧
     (∃ r list' h', dll_insert_rear list_10_20_30 20 heap_10_20_30 = some (r, list', h') ∧
        Invariants list' h') ∧
     (∃ r list' h', dll_insert_at list_10_20_30 1 20 heap_10_20_30 = some (r, list', h') ∧
        Invariants list' h') ∧
     (∃ r list' h', dll_insert_sorted 3 list_10_20_30 20 heap_10_20_30 = some (r, list', h') ∧
        Invariants list' h') ∧
     (∃ r list' h', dll_delete_front list_10_20_30 heap_10_20_30 = some (r, list', h') ∧
        Invariants list' h') ∧
     (∃ r list' h', dll_delete_rear list_10_20_30 heap_10_20_30 = some (r, list', h') ∧
        Invariants list' h') ∧
     (∃ r list' h', dll_delete_at list_10_20_30 1 heap_10_20_30 = some (r, list', h') ∧
        Invariants list' h') ∧
     (∃ r list' h', dll_delete_data 3 list_10_20_30 20 heap_10_20_30 = some (r, list', h') ∧
        Invariants list' h')) ∧
    observe (dll_delete_data 3 list_10_20_30 20 heap_10_20_30) =
      some (LMS_SUCCESS, some 0, some 2, 2, some [10, 30], some [30, 10]) :=
  ⟨⟨wellFormed_list_10_20_30, by decide⟩,
    dll_update_invariants list_10_20_30 heap_10_20_30 20 1 3 wellFormed_list_10_20_30
      (by decide),
    by rfl⟩

/-- Witness of the amended C8 on the list 10, 20, 30 and the record 20. -/
theorem dll_insert_sorted_before_ties_witness :
    (WellFormed list_10_20_30 heap_10_20_30 ∧ list_10_20_30.compare = some compare_int ∧
      heap_10_20_30.cells.length < heap_10_20_30.limit ∧ list_10_20_30.size ≤ (3 : Nat)) ∧
    (∃ list' h' l1 l2,
      dll_insert_sorted 3 list_10_20_30 20 heap_10_20_30 = some (LMS_SUCCESS, list', h') ∧
      forward_nodes list_10_20_30 heap_10_20_30 = some (l1 ++ l2) ∧
      forward_nodes list' h' = some (l1 ++ (heap_10_20_30.cells.length, 20) :: l2) ∧
      (∀ e ∈ l1, compare_int 20 e.2 > 0) ∧ (∀ e ∈ l2.head?, compare_int 20 e.2 ≤ 0) ∧
      (∀ e ∈ l1 ++ l2, compare_int 20 e.2 = 0 →
        e ∈ l2 ∧ [(heap_10_20_30.cells.length, 20), e].Sublist
          (l1 ++ (heap_10_20_30.cells.length, 20) :: l2))) :=
  ⟨⟨wellFormed_list_10_20_30, rfl, by decide, by decide⟩,
    dll_insert_sorted_before_ties compare_int list_10_20_30 heap_10_20_30 20 3
      wellFormed_list_10_20_30 rfl (by decide) (by decide)⟩

/-- Witness of C9: the sorted-insertion test. Inserting 25 into 10, 20, 30, 40, 50
gives 10, 20, 25, 30, 40, 50, of size 6. -/
theorem dll_insert_sorted_sorted_witness :
    (WellFormed list_sorted5 heap_sorted5 ∧ list_sorted5.compare = some compare_int ∧
      TotalPreorder compare_int ∧
      forward_seq list_sorted5 heap_sorted5 = some [10, 20, 30, 40, 50] ∧
      SortedBy compare_int [10, 20, 30, 40, 50] ∧ list_sorted5.size ≤ (5 : Nat)) ∧
    (∃ r list' h' s',
      dll_insert_sorted 5 list_sorted5 25 heap_sorted5 = some (r, list', h') ∧
      forward_seq list' h' = some s' ∧ SortedBy compare_int s' ∧ WellFormed list' h' ∧
      (heap_sorted5.cells.length < heap_sorted5.limit →
        r = LMS_SUCCESS ∧ ∃ s1 s2, [10, 20, 30, 40, 50] = s1 ++ s2 ∧ s' = s1 ++ 25 :: s2) ∧
      (¬ heap_sorted5.cells.length < heap_sorted5.limit →
        r = LMS_ERROR_MEMORY ∧ s' = [10, 20, 30, 40, 50])) ∧
    observe (dll_insert_sorted 5 list_sorted5 25 heap_sorted5) =
      some (LMS_SUCCESS, some 1, some 0, 6, some [10, 20, 25, 30, 40, 50],
        some [50, 40, 30, 25, 20, 10]) :=
  ⟨⟨wellFormed_list_sorted5, rfl, compare_int_totalPreorder, by rfl, sortedBy_sorted5,
      by decide⟩,
    dll_insert_sorted_sorted compare_int list_sorted5 heap_sorted5 25 5 [10, 20, 30, 40, 50]
      wellFormed_list_sorted5 rfl compare_int_totalPreorder (by rfl)
      sortedBy_sorted5 (by decide),
    by rfl⟩


/-! ## Merge sort on sequences -/

theorem msort_model_perm (cmp : α → α → Int) (fuel : Nat) (l : List (Nat × α)) :
    (msort_model cmp fuel l).Perm l := by
  induction fuel generalizing l with
  | zero => exact List.Perm.refl _
  | succ fuel ih =>
    unfold msort_model
    split
    · exact List.Perm.refl _
    · refine (List.merge_perm_append (node_le cmp)).trans ?_
      refine ((ih _).append (ih _)).trans ?_
      rw [List.take_append_drop]

theorem node_le_trans {cmp : α → α → Int} (hpre : TotalPreorder cmp) (a b c : Nat × α)
    (hab : node_le cmp a b = true) (hbc : node_le cmp b c = true) : node_le cmp a c = true := by
  simp only [node_le, decide_eq_true_eq] at *
  exact hpre.trans _ _ _ hab hbc

theorem node_le_total {cmp : α → α → Int} (hpre : TotalPreorder cmp) (a b : Nat × α) :
    (node_le cmp a b || node_le cmp b a) = true := by
  simp only [node_le, Bool.or_eq_true, decide_eq_true_eq]
  exact hpre.total _ _

/-- With a total preorder and enough fuel the model sorts. -/
theorem msort_model_sorted {cmp : α → α → Int} (hpre : TotalPreorder cmp) (fuel : Nat)
    (l : List (Nat × α)) (hfuel : l.length ≤ fuel) :
    (msort_model cmp fuel l).Pairwise fun a b => node_le cmp a b = true := by
  induction fuel generalizing l with
  | zero =>
    have : l = [] := List.length_eq_zero.1 (by omega)
    subst this
    simp [msort_model]
  | succ fuel ih =>
    unfold msort_model
    split
    · rename_i hlt
      match l, hlt with
      | [], _ => simp
      | [_], _ => simp
    · rename_i hge
      refine List.sorted_merge (node_le_trans hpre) (node_le_total hpre) _ _ (ih _ ?_) (ih _ ?_)
      · rw [List.length_take]; omega
      · rw [List.length_drop]; omega


/-- Merging keeps a sublist of the left part followed by a sublist of the right
part, when every element of the former is below every element of the latter and the
left part is sorted. -/
theorem merge_sublist {cmp : α → α → Int} (hpre : TotalPreorder cmp) :
    ∀ (l r c1 c2 : List (Nat × α)),
      l.Pairwise (fun a b => node_le cmp a b = true) →
      c1.Sublist l → c2.Sublist r →
      (∀ a ∈ c1, ∀ b ∈ c2, node_le cmp a b = true) →
      (c1 ++ c2).Sublist (List.merge l r (node_le cmp))
  | [], r, c1, c2, _, h1, h2, _ => by
    have : c1 = [] := List.sublist_nil.1 h1
    subst this
    simpa using h2
  | x :: l, [], c1, c2, _, h1, h2, _ => by
    have : c2 = [] := List.sublist_nil.1 h2
    subst this
    simpa using h1
  | x :: l, y :: r, c1, c2, hl, h1, h2, hle => by
    rw [List.cons_merge_cons]
    split
    · -- the left node is taken
      cases h1 with
      | cons _ h1' =>
        exact (merge_sublist hpre l (y :: r) c1 c2 hl.tail h1' h2 hle).cons _
      | cons₂ _ h1' =>
        rename_i c1'
        have := merge_sublist hpre l (y :: r) c1' c2 hl.tail h1' h2
          (fun a ha b hb => hle a (List.mem_cons_of_mem _ ha) b hb)
        exact this.cons₂ _
    · -- the right node is taken
      rename_i hxy
      cases h2 with
      | cons _ h2' =>
        exact (merge_sublist hpre (x :: l) r c1 c2 hl h1 h2' hle).cons _
      | cons₂ _ h2' =>
        rename_i c2'
        cases c1 with
        | nil =>
          have := merge_sublist hpre (x :: l) r [] c2' hl (List.nil_sublist _) h2'
            (fun a ha => by simp at ha)
          exact this.cons₂ _
        | cons a c1' =>
          exfalso
          have hay : node_le cmp a y = true :=
            hle a (List.mem_cons_self _ _) y (List.mem_cons_self _ _)
          have hmem : a ∈ x :: l := h1.subset (List.mem_cons_self _ _)
          rcases List.mem_cons.1 hmem with rfl | hmem
          · exact hxy hay
          · exact hxy (node_le_trans hpre x a y (List.rel_of_pairwise_cons hl hmem) hay)
termination_by l r => l.length + r.length

/-- Stability of the model: a sorted sublist of the input is a sublist of the
output. -/
theorem msort_model_sublist {cmp : α → α → Int} (hpre : TotalPreorder cmp) (fuel : Nat)
    (l c : List (Nat × α)) (hfuel : l.length ≤ fuel)
    (hc : c.Pairwise fun a b => node_le cmp a b = true) (hsub : c.Sublist l) :
    c.Sublist (msort_model cmp fuel l) := by
  induction fuel generalizing l c with
  | zero => simpa [msort_model] using hsub
  | succ fuel ih =>
    unfold msort_model
    split
    · exact hsub
    · rename_i hge
      rw [← List.take_append_drop (l.length / 2) l, List.sublist_append_iff] at hsub
      obtain ⟨c1, c2, rfl, h1, h2⟩ := hsub
      rw [List.pairwise_append] at hc
      obtain ⟨hc1, hc2, hc12⟩ := hc
      have hlt : (l.take (l.length / 2)).length ≤ fuel := by
        rw [List.length_take]; omega
      have hld : (l.drop (l.length / 2)).length ≤ fuel := by
        rw [List.length_drop]; omega
      exact merge_sublist hpre _ _ c1 c2 (msort_model_sorted hpre fuel _ hlt)
        (ih _ c1 hlt hc1 h1) (ih _ c2 hld hc2 h2) hc12


/-! ## `merge_sorted_nodes` -/

/-- Writing a `prev` field does not disturb a `next` chain. -/
theorem NSeg_set_prev {h h' : Heap α} {p : Nat} {nd : Node α} {v : Option Nat}
    (hr : h.read p = some nd)
    (hr' : ∀ q, h'.read q = if q = p then some { nd with prev := v } else h.read q)
    {l : List (Nat × α)} {nx : Option Nat} (hl : NSeg h l nx) : NSeg h' l nx := by
  induction l with
  | nil => trivial
  | cons e l ih =>
    obtain ⟨a, x⟩ := e
    obtain ⟨⟨pv, hra⟩, hrest⟩ := hl
    refine ⟨?_, ih hrest⟩
    by_cases hap : a = p
    · subst hap
      rw [hra] at hr
      have := Option.some.inj hr
      subst this
      exact ⟨v, by rw [hr']; simp⟩
    · exact ⟨pv, by rw [hr']; simp [hap, hra]⟩

/-- The three assignments after the recursive call of `merge_sorted_nodes`:
`result->next = merged`, `merged->prev = result` when `merged` is not `NULL`,
`result->prev = NULL`. -/
theorem merge_link_spec {h1 : Heap α} {M : List (Nat × α)} {a : Nat} {x : α}
    {pv nxt : Option Nat} (hM : NSeg h1 M none)
    (ha : h1.read a = some ⟨x, pv, nxt⟩) (haM : a ∉ M.map Prod.fst) :
    ∃ h2 h3 h4, h1.set_next a (headAddr M none) = some h2 ∧
      (match headAddr M none with
        | none => some h2
        | some nx => h2.set_prev nx (some a)) = some h3 ∧
      h3.set_prev a none = some h4 ∧
      NSeg h4 ((a, x) :: M) none ∧
      (∀ q, q ≠ a → q ∉ M.map Prod.fst → h4.read q = h1.read q) ∧
      h4.cells.length = h1.cells.length ∧ h4.limit = h1.limit := by
  obtain ⟨h2, hs2, hr2, hlen2, hlim2⟩ := Heap.set_next_spec (headAddr M none) ha
  have hM2 : NSeg h2 M none := by
    refine NSeg_congr (fun q hq => ?_) hM
    have : q ≠ a := fun e => haM (e ▸ hq)
    rw [hr2]; simp [this]
  have ha2 : h2.read a = some ⟨x, pv, headAddr M none⟩ := by rw [hr2]; simp
  cases M with
  | nil =>
    obtain ⟨h4, hs4, hr4, hlen4, hlim4⟩ := Heap.set_prev_spec none ha2
    refine ⟨h2, h2, h4, hs2, rfl, hs4, ⟨⟨none, by rw [hr4]; simp⟩, trivial⟩, ?_,
      by omega, by omega⟩
    intro q hqa _
    rw [hr4, hr2]; simp [hqa]
  | cons e M' =>
    obtain ⟨c, z⟩ := e
    have hca : c ≠ a := fun e => haM (by simp [e])
    obtain ⟨⟨pvc, hrc⟩, hM2'⟩ := hM2
    obtain ⟨h3, hs3, hr3, hlen3, hlim3⟩ := Heap.set_prev_spec (some a) hrc
    have hM3 : NSeg h3 ((c, z) :: M') none := NSeg_set_prev hrc hr3 ⟨⟨pvc, hrc⟩, hM2'⟩
    have ha3 : h3.read a = some ⟨x, pv, some c⟩ := by
      rw [hr3]; simp [Ne.symm hca, ha2]
    obtain ⟨h4, hs4, hr4, hlen4, hlim4⟩ := Heap.set_prev_spec none ha3
    have hM4 : NSeg h4 ((c, z) :: M') none := NSeg_set_prev ha3 hr4 hM3
    refine ⟨h2, h3, h4, hs2, hs3, hs4, ⟨⟨none, by rw [hr4]; simp⟩, hM4⟩, ?_,
      by omega, by omega⟩
    intro q hqa hqM
    have hqc : q ≠ c := fun e => hqM (by simp [e])
    rw [hr4, hr3, hr2]; simp [hqa, hqc]

/-- Function `merge_sorted_nodes` on two disjoint `next` chains, with fuel for every node,
returns the chain of the merged sequence; nodes outside the two chains are not
touched. -/
theorem merge_sorted_nodes_spec (cmp : α → α → Int) :
    ∀ (fuel : Nat) (la lb : List (Nat × α)) (h : Heap α),
      NSeg h la none → NSeg h lb none → ((la ++ lb).map Prod.fst).Nodup →
      la.length + lb.length ≤ fuel →
      ∃ h', merge_sorted_nodes cmp fuel (headAddr la none) (headAddr lb none) h =
          some (headAddr (List.merge la lb (node_le cmp)) none, h') ∧
        NSeg h' (List.merge la lb (node_le cmp)) none ∧
        (∀ q, q ∉ (la ++ lb).map Prod.fst → h'.read q = h.read q) ∧
        h'.cells.length = h.cells.length ∧ h'.limit = h.limit := by
  intro fuel
  induction fuel with
  | zero =>
    intro la lb h _ hb _ hfuel
    have hla : la = [] := List.length_eq_zero.1 (by omega)
    subst hla
    exact ⟨h, by simp [merge_sorted_nodes], by simpa using hb, fun _ _ => rfl, rfl, rfl⟩
  | succ fuel ih =>
    intro la lb h ha hb hnd hfuel
    cases la with
    | nil => exact ⟨h, by simp [merge_sorted_nodes], by simpa using hb, fun _ _ => rfl, rfl, rfl⟩
    | cons ea la' =>
      obtain ⟨a, x⟩ := ea
      cases lb with
      | nil =>
        exact ⟨h, by simp [merge_sorted_nodes], by simpa using ha, fun _ _ => rfl, rfl, rfl⟩
      | cons eb lb' =>
        obtain ⟨b, y⟩ := eb
        obtain ⟨⟨pva, hra⟩, ha'⟩ := ha
        obtain ⟨⟨pvb, hrb⟩, hb'⟩ := hb
        have hnd0 := hnd
        simp only [List.cons_append, List.map_cons, List.nodup_cons, List.map_append,
          List.mem_append, List.mem_cons, not_or] at hnd
        obtain ⟨⟨haa', hab, hab'⟩, hnd'⟩ := hnd
        obtain ⟨-, hbb', -⟩ := nodup_split hnd0
        by_cases hle : cmp x y ≤ 0
        · -- the left node is the result
          have hndr : ((la' ++ (b, y) :: lb').map Prod.fst).Nodup := by
            simpa using hnd'
          obtain ⟨h1, hrun1, hM, hframe, hlen1, hlim1⟩ :=
            ih la' ((b, y) :: lb') h ha' ⟨⟨pvb, hrb⟩, hb'⟩ hndr (by simp at hfuel ⊢; omega)
          have haM : a ∉ (List.merge la' ((b, y) :: lb') (node_le cmp)).map Prod.fst := by
            intro hmem
            obtain ⟨e, he, rfl⟩ := List.mem_map.1 hmem
            rcases List.mem_merge.1 he with he | he
            · exact haa' (List.mem_map.2 ⟨e, he, rfl⟩)
            · have := List.mem_map_of_mem Prod.fst he
              simp only [List.map_cons, List.mem_cons] at this
              rcases this with h0 | h0
              · exact hab h0
              · exact hab' h0
          have hra1 : h1.read a = some ⟨x, pva, headAddr la' none⟩ := by
            rw [hframe a ?_, hra]
            simp only [List.map_append, List.map_cons, List.mem_append, List.mem_cons, not_or]
            exact ⟨haa', hab, hab'⟩
          obtain ⟨h2, h3, h4, hs2, hs3, hs4, hres, hframe4, hlen4, hlim4⟩ :=
            merge_link_spec hM hra1 haM
          refine ⟨h4, ?_, ?_, ?_, by omega, by omega⟩
          · have hnl : node_le cmp (a, x) (b, y) = true := by simpa [node_le] using hle
            simp only [headAddr_cons] at hrun1
            simp only [headAddr_cons, merge_sorted_nodes, hra, hrb, Option.bind_eq_bind,
              Option.some_bind, hle, if_true, hrun1, hs2,
              List.cons_merge_cons_pos _ _ _ hnl]
            generalize headAddr (List.merge la' ((b, y) :: lb') (node_le cmp)) none = m at hs3 ⊢
            cases m with
            | none =>
              simp only [Option.some.injEq] at hs3
              subst hs3
              simp [hs4]
            | some nx =>
              have hs3' : h2.set_prev nx (some a) = some h3 := hs3
              simp [hs3', hs4]
          · have hnl : node_le cmp (a, x) (b, y) = true := by simpa [node_le] using hle
            rw [List.cons_merge_cons_pos _ _ _ hnl]
            exact hres
          · intro q hq
            simp only [List.cons_append, List.map_cons, List.map_append, List.mem_cons,
              List.mem_append, not_or] at hq
            obtain ⟨hqa, hqla, hqb, hqlb⟩ := hq
            have hqM : q ∉ (List.merge la' ((b, y) :: lb') (node_le cmp)).map Prod.fst := by
              intro hmem
              obtain ⟨e, he, rfl⟩ := List.mem_map.1 hmem
              rcases List.mem_merge.1 he with he | he
              · exact hqla (List.mem_map.2 ⟨e, he, rfl⟩)
              · have := List.mem_map_of_mem Prod.fst he
                simp only [List.map_cons, List.mem_cons] at this
                rcases this with h0 | h0
                · exact hqb h0
                · exact hqlb h0
            rw [hframe4 q hqa hqM, hframe q ?_]
            simp only [List.map_append, List.map_cons, List.mem_append, List.mem_cons, not_or]
            exact ⟨hqla, hqb, hqlb⟩
        · -- the right node is the result
          have hndr : (((a, x) :: la' ++ lb').map Prod.fst).Nodup := by
            have := (nodup_split hnd0).2.2
            simpa using this
          obtain ⟨h1, hrun1, hM, hframe, hlen1, hlim1⟩ :=
            ih ((a, x) :: la') lb' h ⟨⟨pva, hra⟩, ha'⟩ hb' hndr (by simp at hfuel ⊢; omega)
          have hbM : b ∉ (List.merge ((a, x) :: la') lb' (node_le cmp)).map Prod.fst := by
            intro hmem
            obtain ⟨e, he, rfl⟩ := List.mem_map.1 hmem
            rcases List.mem_merge.1 he with he | he
            · have := List.mem_map_of_mem Prod.fst he
              simp only [List.map_cons, List.mem_cons] at this
              rcases this with h0 | h0
              · exact hab h0.symm
              · exact (nodup_split hnd0).1 (by simpa using Or.inr h0)
            · exact hbb' (List.mem_map.2 ⟨e, he, rfl⟩)
          have hrb1 : h1.read b = some ⟨y, pvb, headAddr lb' none⟩ := by
            rw [hframe b ?_, hrb]
            simp only [List.cons_append, List.map_cons, List.map_append, List.mem_cons,
              List.mem_append, not_or]
            refine ⟨fun e => hab e.symm, fun hm => (nodup_split hnd0).1 ?_, hbb'⟩
            simpa using Or.inr hm
          obtain ⟨h2, h3, h4, hs2, hs3, hs4, hres, hframe4, hlen4, hlim4⟩ :=
            merge_link_spec hM hrb1 hbM
          have hnl : ¬ node_le cmp (a, x) (b, y) = true := by simpa [node_le] using hle
          refine ⟨h4, ?_, ?_, ?_, by omega, by omega⟩
          · simp only [headAddr_cons] at hrun1
            simp only [headAddr_cons, merge_sorted_nodes, hra, hrb, Option.bind_eq_bind,
              Option.some_bind, hle, if_false, hrun1, hs2,
              List.cons_merge_cons_neg _ _ _ hnl]
            generalize headAddr (List.merge ((a, x) :: la') lb' (node_le cmp)) none = m at hs3 ⊢
            cases m with
            | none =>
              simp only [Option.some.injEq] at hs3
              subst hs3
              simp [hs4]
            | some nx =>
              have hs3' : h2.set_prev nx (some b) = some h3 := hs3
              simp [hs3', hs4]
          · rw [List.cons_merge_cons_neg _ _ _ hnl]
            exact hres
          · intro q hq
            simp only [List.cons_append, List.map_cons, List.map_append, List.mem_cons,
              List.mem_append, not_or] at hq
            obtain ⟨hqa, hqla, hqb, hqlb⟩ := hq
            have hqM : q ∉ (List.merge ((a, x) :: la') lb' (node_le cmp)).map Prod.fst := by
              intro hmem
              obtain ⟨e, he, rfl⟩ := List.mem_map.1 hmem
              rcases List.mem_merge.1 he with he | he
              · have := List.mem_map_of_mem Prod.fst he
                simp only [List.map_cons, List.mem_cons] at this
                rcases this with h0 | h0
                · exact hqa h0
                · exact hqla h0
              · exact hqlb (List.mem_map.2 ⟨e, he, rfl⟩)
            rw [hframe4 q hqb hqM, hframe q ?_]
            simp only [List.cons_append, List.map_cons, List.map_append, List.mem_cons,
              List.mem_append, not_or]
            exact ⟨hqa, hqla, hqlb⟩


/-! ## `split_list` -/

theorem NSeg_drop {h : Heap α} {l : List (Nat × α)} {nx : Option Nat} (hl : NSeg h l nx)
    (k : Nat) : NSeg h (l.drop k) nx := by
  rw [← List.take_append_drop k l, NSeg_append] at hl
  exact hl.2

theorem NSeg_take {h : Heap α} {l : List (Nat × α)} {nx : Option Nat} (hl : NSeg h l nx)
    (k : Nat) : NSeg h (l.take k) (headAddr (l.drop k) nx) := by
  rw [← List.take_append_drop k l, NSeg_append] at hl
  exact hl.1

/-- The node at position `k` of a `next` chain. -/
theorem NSeg_at {h : Heap α} {l : List (Nat × α)} {nx : Option Nat} (hl : NSeg h l nx)
    (k : Nat) (hk : k < l.length) :
    ∃ a x pv, l.drop k = (a, x) :: l.drop (k + 1) ∧
      h.read a = some ⟨x, pv, headAddr (l.drop (k + 1)) nx⟩ ∧
      lastAddr (l.take (k + 1)) none = some a := by
  obtain ⟨⟨a, x⟩, hax⟩ : ∃ q, l[k] = q := ⟨_, rfl⟩
  have hd : l.drop k = (a, x) :: l.drop (k + 1) := by
    rw [List.drop_eq_getElem_cons hk, hax]
  have hn := NSeg_drop hl k
  rw [hd] at hn
  obtain ⟨⟨pv, hr⟩, -⟩ := hn
  refine ⟨a, x, pv, hd, hr, ?_⟩
  have ht : l.take (k + 1) = l.take k ++ [(a, x)] := by
    rw [List.take_succ, List.getElem?_eq_getElem hk, hax]
    rfl
  rw [ht, lastAddr_concat]

/-- The loop of `split_list`: with `slow` on node `k` and `fast` on node `2k` it
ends with `slow` on node `⌊n/2⌋` and `prev` on the node before. -/
theorem split_scan_spec {h : Heap α} {l : List (Nat × α)} (hl : NSeg h l none) :
    ∀ (fuel k : Nat), 2 * k ≤ l.length → l.length / 2 + 1 ≤ fuel + k →
      split_scan h fuel (headAddr (l.drop (2 * k)) none) (headAddr (l.drop k) none)
          (lastAddr (l.take k) none) =
        some (headAddr (l.drop (l.length / 2)) none, lastAddr (l.take (l.length / 2)) none) := by
  intro fuel
  induction fuel with
  | zero => intro k h1 h2; omega
  | succ fuel ih =>
    intro k h1 h2
    by_cases hfast : 2 * k < l.length
    · obtain ⟨f, xf, pvf, hdf, hrf, -⟩ := NSeg_at hl (2 * k) hfast
      by_cases hfast1 : 2 * k + 1 < l.length
      · obtain ⟨f1, xf1, pvf1, hdf1, hrf1, -⟩ := NSeg_at hl (2 * k + 1) hfast1
        obtain ⟨s, xs, pvs, hds, hrs, hlast⟩ := NSeg_at hl k (by omega)
        have := ih (k + 1) (by omega) (by omega)
        rw [hlast, show 2 * (k + 1) = 2 * k + 1 + 1 by ring] at this
        rw [hdf1] at hrf
        simp only [hdf, hds, headAddr_cons, split_scan, hrf, Option.bind_eq_bind,
          Option.some_bind, hrs, hrf1]
        exact this
      · have hn : l.length = 2 * k + 1 := by omega
        have hk : l.length / 2 = k := by omega
        have hnil : l.drop (2 * k + 1) = [] := List.drop_eq_nil_of_le (by omega)
        rw [hnil] at hrf
        simp only [hdf, headAddr_cons, split_scan, hrf, Option.bind_eq_bind,
          Option.some_bind, headAddr_nil, hk]
    · have hn : l.length = 2 * k := by omega
      have hk : l.length / 2 = k := by omega
      have hnil : l.drop (2 * k) = [] := List.drop_eq_nil_of_le (by omega)
      simp only [hnil, headAddr_nil, split_scan, hk]

/-- Function `split_list` on a `next` chain of at least two nodes cuts it after the first
`⌊n/2⌋` nodes: `front` is the chain of these, `back` the chain of the remaining
`⌈n/2⌉` nodes; nodes outside the chain are not touched. -/
theorem split_list_spec {h : Heap α} {l : List (Nat × α)} (hl : NSeg h l none)
    (hnd : (l.map Prod.fst).Nodup) (hlen : 2 ≤ l.length) (fuel : Nat)
    (hfuel : l.length / 2 + 1 ≤ fuel) :
    ∃ h', split_list fuel (headAddr l none) h =
        some (headAddr (l.take (l.length / 2)) none, headAddr (l.drop (l.length / 2)) none,
          h') ∧
      NSeg h' (l.take (l.length / 2)) none ∧ NSeg h' (l.drop (l.length / 2)) none ∧
      (∀ q, q ∉ l.map Prod.fst → h'.read q = h.read q) ∧
      h'.cells.length = h.cells.length ∧ h'.limit = h.limit := by
  have hscan := split_scan_spec hl fuel 0 (by omega) (by omega)
  simp only [Nat.mul_zero, List.drop_zero, List.take_zero, lastAddr_nil] at hscan
  have hm1 : 1 ≤ l.length / 2 := by omega
  have hm2 : l.length / 2 < l.length := by omega
  have hsplit := List.take_append_drop (l.length / 2) l
  rcases nil_or_snoc (l.take (l.length / 2)) with he | ⟨l0, ⟨p, w⟩, he⟩
  · have : (l.take (l.length / 2)).length = 0 := by rw [he]; rfl
    rw [List.length_take] at this
    omega
  obtain ⟨s, xs, pvs, hds, hrs, -⟩ := NSeg_at hl (l.length / 2) hm2
  have hfront := NSeg_take hl (l.length / 2)
  rw [he, hds] at hfront hsplit
  rw [he, hds] at hscan
  rw [he, hds]
  simp only [headAddr_cons, lastAddr_concat] at hscan hfront
  have hndl : (((l0 ++ [(p, w)]) ++ (s, xs) :: l.drop (l.length / 2 + 1)).map Prod.fst).Nodup := by
    rw [hsplit]; exact hnd
  obtain ⟨hps, hp0, hs0, hpd, hsd⟩ := nodup_mid hndl
  obtain ⟨hfront0, ⟨pvp, hrp⟩, -⟩ := (NSeg_append h l0 [(p, w)] (some s)).1 hfront
  simp only [headAddr_cons, headAddr_nil] at hfront0 hrp
  obtain ⟨h1, hs1, hr1, hlen1, hlim1⟩ := Heap.set_next_spec none hrp
  have hrs1 : h1.read s = some ⟨xs, pvs, headAddr (l.drop (l.length / 2 + 1)) none⟩ := by
    rw [hr1]; simp [Ne.symm hps, hrs]
  obtain ⟨h2, hs2, hr2, hlen2, hlim2⟩ := Heap.set_prev_spec none hrs1
  have hhead : headAddr l none = headAddr (l0 ++ [(p, w)]) none := by
    rw [← hsplit, headAddr_append, headAddr_append, headAddr_append]
    simp
  rw [hhead] at hscan
  refine ⟨h2, ?_, ?_, ?_, ?_, by omega, by omega⟩
  · simp only [split_list, hhead, hscan, Option.bind_eq_bind, Option.some_bind, hs1, hs2,
      headAddr_cons]
  · refine NSeg_set_prev hrs1 hr2 ?_
    rw [NSeg_append]
    refine ⟨?_, ⟨pvp, by rw [hr1]; simp⟩, trivial⟩
    refine NSeg_congr (fun q hq => ?_) hfront0
    have : q ≠ p := fun e => hp0 (e ▸ hq)
    rw [hr1]; simp [this]
  · refine NSeg_set_prev hrs1 hr2 ?_
    have hback := NSeg_drop hl (l.length / 2)
    rw [hds] at hback
    refine NSeg_congr (fun q hq => ?_) hback
    have : q ≠ p := by
      rintro rfl
      simp only [List.map_cons, List.mem_cons] at hq
      rcases hq with hq | hq
      · exact hps hq
      · exact hpd hq
    rw [hr1]; simp [this]
  · intro q hq
    rw [← hsplit] at hq
    simp only [List.map_append, List.map_cons, List.map_nil, List.mem_append, List.mem_cons,
      List.mem_singleton, List.not_mem_nil, or_false, not_or] at hq
    rw [hr2, hr1]; simp [hq.1.2, hq.2.1]


/-! ## `merge_sort_nodes` -/

theorem mem_msort_model_fst (cmp : α → α → Int) (fuel : Nat) (l : List (Nat × α)) (q : Nat) :
    q ∈ (msort_model cmp fuel l).map Prod.fst ↔ q ∈ l.map Prod.fst :=
  ((msort_model_perm cmp fuel l).map Prod.fst).mem_iff

theorem mem_fst_of_take {l : List (Nat × α)} {k q : Nat} (hq : q ∈ (l.take k).map Prod.fst) :
    q ∈ l.map Prod.fst := by
  obtain ⟨e, he, rfl⟩ := List.mem_map.1 hq
  exact List.mem_map.2 ⟨e, List.mem_of_mem_take he, rfl⟩

theorem mem_fst_of_drop {l : List (Nat × α)} {k q : Nat} (hq : q ∈ (l.drop k).map Prod.fst) :
    q ∈ l.map Prod.fst := by
  obtain ⟨e, he, rfl⟩ := List.mem_map.1 hq
  exact List.mem_map.2 ⟨e, List.mem_of_mem_drop he, rfl⟩

theorem take_drop_disjoint {l : List (Nat × α)} (hnd : (l.map Prod.fst).Nodup) (k q : Nat)
    (h1 : q ∈ (l.take k).map Prod.fst) (h2 : q ∈ (l.drop k).map Prod.fst) : False := by
  rw [← List.take_append_drop k l, List.map_append, List.nodup_append] at hnd
  exact hnd.2.2 h1 h2

/-- Function `merge_sort_nodes` on a `next` chain, with fuel for every node, returns the chain
of the sorted sequence `msort_model`; nodes outside the chain are not touched. -/
theorem merge_sort_nodes_spec (cmp : α → α → Int) :
    ∀ (fuel : Nat) (l : List (Nat × α)) (h : Heap α),
      NSeg h l none → (l.map Prod.fst).Nodup → l.length ≤ fuel → 1 ≤ fuel →
      ∃ h', merge_sort_nodes cmp fuel (headAddr l none) h =
          some (headAddr (msort_model cmp fuel l) none, h') ∧
        NSeg h' (msort_model cmp fuel l) none ∧
        (∀ q, q ∉ l.map Prod.fst → h'.read q = h.read q) ∧
        h'.cells.length = h.cells.length ∧ h'.limit = h.limit := by
  intro fuel
  induction fuel with
  | zero => intro l h _ _ _ h1; omega
  | succ fuel ih =>
    intro l h hl hnd hlen _
    match l, hl, hnd, hlen with
    | [], hl, _, _ =>
      exact ⟨h, by simp [merge_sort_nodes, msort_model], by simpa [msort_model] using hl,
        fun _ _ => rfl, rfl, rfl⟩
    | [(a, x)], hl, _, _ =>
      obtain ⟨⟨pv, hr⟩, -⟩ := hl
      simp only [headAddr_nil] at hr
      refine ⟨h, by simp [merge_sort_nodes, msort_model, hr], ?_, fun _ _ => rfl, rfl, rfl⟩
      simp only [msort_model, List.length_singleton, Nat.one_lt_ofNat, if_true]
      exact ⟨⟨pv, hr⟩, trivial⟩
    | (a, x) :: (b, y) :: l', hl, hnd, hlen =>
      have hra := hl.1
      obtain ⟨pv, hra⟩ := hra
      simp only [headAddr_cons] at hra
      generalize hL : (a, x) :: (b, y) :: l' = L at hl hnd hlen ⊢
      have hn2 : 2 ≤ L.length := by rw [← hL]; simp
      have hnot : ¬ L.length < 2 := by omega
      have hheadL : headAddr L none = some a := by rw [← hL]; rfl
      obtain ⟨h1, hsplit, hfront, hback, hframe1, hlen1, hlim1⟩ :=
        split_list_spec hl hnd hn2 (fuel + 1) (by omega)
      have hndF : ((L.take (L.length / 2)).map Prod.fst).Nodup := by
        rw [← List.take_append_drop (L.length / 2) L, List.map_append, List.nodup_append] at hnd
        exact hnd.1
      have hndB : ((L.drop (L.length / 2)).map Prod.fst).Nodup := by
        rw [← List.take_append_drop (L.length / 2) L, List.map_append, List.nodup_append] at hnd
        exact hnd.2.1
      have hlF : (L.take (L.length / 2)).length ≤ fuel := by
        rw [List.length_take]; omega
      have hlB : (L.drop (L.length / 2)).length ≤ fuel := by
        rw [List.length_drop]; omega
      obtain ⟨h2, hrunF, hsF, hframe2, hlen2, hlim2⟩ :=
        ih (L.take (L.length / 2)) h1 hfront hndF hlF (by omega)
      have hback2 : NSeg h2 (L.drop (L.length / 2)) none :=
        NSeg_congr (fun q hq => hframe2 q (fun hq' => take_drop_disjoint hnd _ q hq' hq)) hback
      obtain ⟨h3, hrunB, hsB, hframe3, hlen3, hlim3⟩ :=
        ih (L.drop (L.length / 2)) h2 hback2 hndB hlB (by omega)
      have hsF3 : NSeg h3 (msort_model cmp fuel (L.take (L.length / 2))) none := by
        refine NSeg_congr (fun q hq => hframe3 q (fun hq' => ?_)) hsF
        rw [mem_msort_model_fst] at hq
        exact take_drop_disjoint hnd _ q hq hq'
      have hperm : (msort_model cmp fuel (L.take (L.length / 2)) ++
          msort_model cmp fuel (L.drop (L.length / 2))).Perm L := by
        refine ((msort_model_perm cmp fuel _).append (msort_model_perm cmp fuel _)).trans ?_
        rw [List.take_append_drop]
      have hndM : ((msort_model cmp fuel (L.take (L.length / 2)) ++
          msort_model cmp fuel (L.drop (L.length / 2))).map Prod.fst).Nodup :=
        (hperm.map Prod.fst).nodup_iff.2 hnd
      have hlenM : (msort_model cmp fuel (L.take (L.length / 2))).length +
          (msort_model cmp fuel (L.drop (L.length / 2))).length ≤ fuel + 1 := by
        have := hperm.length_eq
        simp only [List.length_append] at this
        omega
      obtain ⟨h4, hrunM, hsM, hframe4, hlen4, hlim4⟩ :=
        merge_sorted_nodes_spec cmp (fuel + 1) _ _ h3 hsF3 hsB hndM hlenM
      have hmodel : msort_model cmp (fuel + 1) L =
          List.merge (msort_model cmp fuel (L.take (L.length / 2)))
            (msort_model cmp fuel (L.drop (L.length / 2))) (node_le cmp) := by
        rw [msort_model, if_neg hnot]
      refine ⟨h4, ?_, by rw [hmodel]; exact hsM, ?_, by omega, by omega⟩
      · rw [hmodel]
        rw [hheadL] at hsplit ⊢
        simp only [merge_sort_nodes, hra, Option.bind_eq_bind, Option.some_bind, hsplit,
          hrunF, hrunB, hrunM]
      · intro q hq
        have hqM : q ∉ (msort_model cmp fuel (L.take (L.length / 2)) ++
            msort_model cmp fuel (L.drop (L.length / 2))).map Prod.fst := by
          intro hm
          exact hq ((hperm.map Prod.fst).mem_iff.1 hm)
        rw [hframe4 q hqM, hframe3 q (fun hm => hq (mem_fst_of_drop hm)),
          hframe2 q (fun hm => hq (mem_fst_of_take hm)), hframe1 q hq]


/-! ## `dll_sort` and `dll_sort_with` -/

/-- The repair loop of `dll_sort`: walking a `next` chain from its first node, whose
`prev` is `pv`, it sets every `prev` link and ends on the last node. -/
theorem fix_links_spec :
    ∀ (l : List (Nat × α)) (a : Nat) (x : α) (pv : Option Nat) (h : Heap α) (fuel : Nat),
      NSeg h ((a, x) :: l) none → (((a, x) :: l).map Prod.fst).Nodup →
      (∃ nx, h.read a = some ⟨x, pv, nx⟩) → l.length + 1 ≤ fuel →
      ∃ last h', fix_links fuel a h = some (last, h') ∧
        lastAddr ((a, x) :: l) none = some last ∧
        Linked h' pv ((a, x) :: l) none ∧
        (∀ q, q ∉ ((a, x) :: l).map Prod.fst → h'.read q = h.read q) ∧
        h'.cells.length = h.cells.length ∧ h'.limit = h.limit := by
  intro l
  induction l with
  | nil =>
    intro a x pv h fuel hl _ hpv hfuel
    obtain ⟨⟨pv', hr'⟩, -⟩ := hl
    obtain ⟨nx, hr⟩ := hpv
    rw [hr] at hr'
    simp only [headAddr_nil, Option.some.injEq, Node.mk.injEq, true_and] at hr'
    obtain ⟨-, rfl⟩ := hr'
    cases fuel with
    | zero => omega
    | succ fuel =>
      exact ⟨a, h, by simp [fix_links, hr], rfl, ⟨hr, trivial⟩, fun _ _ => rfl, rfl, rfl⟩
  | cons e l ih =>
    obtain ⟨b, y⟩ := e
    intro a x pv h fuel hl hnd hpv hfuel
    obtain ⟨⟨pv', hr'⟩, hl'⟩ := hl
    obtain ⟨nx, hr⟩ := hpv
    rw [hr] at hr'
    simp only [headAddr_cons, Option.some.injEq, Node.mk.injEq, true_and] at hr'
    obtain ⟨-, rfl⟩ := hr'
    obtain ⟨⟨pvb, hrb⟩, hl''⟩ := hl'
    obtain ⟨h1, hs1, hr1, hlen1, hlim1⟩ := Heap.set_prev_spec (some a) hrb
    have hl1 : NSeg h1 ((b, y) :: l) none := NSeg_set_prev hrb hr1 ⟨⟨pvb, hrb⟩, hl''⟩
    have hnd' := List.nodup_cons.1 hnd
    cases fuel with
    | zero => omega
    | succ fuel =>
      obtain ⟨last, h', hrun, hlast, hlinked, hframe, hlen', hlim'⟩ :=
        ih b y (some a) h1 fuel hl1 hnd'.2 ⟨headAddr l none, by rw [hr1]; simp⟩
          (by simpa using hfuel)
      have hab : a ≠ b := fun e => hnd'.1 (by simp [e])
      refine ⟨last, h', ?_, by simpa using hlast, ⟨?_, hlinked⟩, ?_, by omega, by omega⟩
      · simp only [fix_links, hr, Option.bind_eq_bind, Option.some_bind, hs1]
        exact hrun
      · rw [hframe a hnd'.1, hr1]
        simp [hab, hr]
      · intro q hq
        simp only [List.map_cons, List.mem_cons, not_or] at hq
        rw [hframe q (by simpa using hq.2), hr1]
        simp [hq.2.1]

/-- What the common body of `dll_sort` and `dll_sort_with` does to a well-formed list
of at least two nodes: the nodes end up linked, in both directions, in the order
`msort_model`, with `head` and `tail` on the two ends. -/
theorem sort_body_spec {list : DoublyLinkedList α} {h : Heap α} {l : List (Nat × α)}
    (cmp : α → α → Int) (hl : IsList list h l) (hlen : 2 ≤ l.length) (fuel : Nat)
    (hfuel : l.length ≤ fuel) :
    ∃ list' h', sort_body fuel cmp list h = some (LMS_SUCCESS, list', h') ∧
      IsList list' h' (msort_model cmp fuel l) ∧ SameHooks list list' ∧
      list'.size = list.size ∧
      h'.cells.length = h.cells.length ∧ h'.limit = h.limit := by
  have hsize : ¬ list.size ≤ 1 := by rw [hl.size_eq]; omega
  obtain ⟨h1, hrun1, hM, hframe1, hlen1, hlim1⟩ :=
    merge_sort_nodes_spec cmp fuel l h hl.nseg hl.nodup hfuel (by omega)
  rw [← hl.head_eq] at hrun1
  have hperm := msort_model_perm cmp fuel l
  have hndM : ((msort_model cmp fuel l).map Prod.fst).Nodup :=
    (hperm.map Prod.fst).nodup_iff.2 hl.nodup
  have hlenM : (msort_model cmp fuel l).length = l.length := hperm.length_eq
  generalize msort_model cmp fuel l = M at hrun1 hM hndM hlenM ⊢
  cases M with
  | nil => simp at hlenM; omega
  | cons e M' =>
    obtain ⟨a, x⟩ := e
    obtain ⟨⟨pv, hra⟩, hM'⟩ := hM
    obtain ⟨h2, hs2, hr2, hlen2, hlim2⟩ := Heap.set_prev_spec none hra
    have hM2 : NSeg h2 ((a, x) :: M') none := NSeg_set_prev hra hr2 ⟨⟨pv, hra⟩, hM'⟩
    obtain ⟨last, h3, hrun3, hlast, hlinked, hframe3, hlen3, hlim3⟩ :=
      fix_links_spec M' a x none h2 fuel hM2 hndM ⟨headAddr M' none, by rw [hr2]; simp⟩
        (by simp at hlenM; omega)
    have hrun : sort_body fuel cmp list h = some (LMS_SUCCESS,
        { list with head := some a, tail := some last }, h3) := by
      simp only [headAddr_cons] at hrun1
      simp only [sort_body, hsize, if_false, hrun1, Option.bind_eq_bind, Option.some_bind,
        hs2, hrun3]
    refine ⟨_, h3, hrun, ⟨hlinked, rfl, hlast.symm, ?_, hndM⟩, ⟨rfl, rfl, rfl, rfl⟩, rfl,
      by omega, by omega⟩
    show list.size = _
    rw [hl.size_eq, hlenM]

/-- On a list of size at most 1 the body of the sorts returns `LMS_SUCCESS` and
changes nothing. -/
theorem sort_body_small (list : DoublyLinkedList α) (h : Heap α) (cmp : α → α → Int)
    (fuel : Nat) (hsize : list.size ≤ 1) :
    sort_body fuel cmp list h = some (LMS_SUCCESS, list, h) := by
  simp [sort_body, hsize]


theorem lastAddr_eq_getLast? (l : List (Nat × α)) :
    lastAddr l none = l.getLast?.map Prod.fst := by
  rw [← headAddr_reverse, List.getLast?_eq_head?_reverse]
  cases l.reverse with
  | nil => rfl
  | cons e r => cases e; rfl

theorem sortedBy_of_pairwise {cmp : α → α → Int} {l : List (Nat × α)}
    (hp : l.Pairwise fun a b => node_le cmp a b = true) : SortedBy cmp (l.map Prod.snd) := by
  unfold SortedBy
  rw [List.chain'_map]
  refine (List.Pairwise.chain' hp).imp ?_
  intro a b hab
  simpa [node_le] using hab

/-- The body of the sorts, on any well-formed list with fuel for every node: the
result is `LMS_SUCCESS` and the list holds the same nodes in the order
`msort_model`, correctly linked. -/
theorem sort_body_isList {list : DoublyLinkedList α} {h : Heap α} {l : List (Nat × α)}
    (cmp : α → α → Int) (hl : IsList list h l) (fuel : Nat) (hfuel : l.length ≤ fuel) :
    ∃ list' h', sort_body fuel cmp list h = some (LMS_SUCCESS, list', h') ∧
      IsList list' h' (msort_model cmp fuel l) ∧ list'.size = list.size := by
  by_cases hlen : 2 ≤ l.length
  · obtain ⟨list', h', hrun, hl', -, hsize, -⟩ := sort_body_spec cmp hl hlen fuel hfuel
    exact ⟨list', h', hrun, hl', hsize⟩
  · have hsize : list.size ≤ 1 := by rw [hl.size_eq]; omega
    refine ⟨list, h, sort_body_small list h cmp fuel hsize, ?_, rfl⟩
    have : msort_model cmp fuel l = l := by
      cases fuel with
      | zero => rfl
      | succ fuel => rw [msort_model, if_pos (by omega)]
    rw [this]
    exact hl

/-- C1: on a well-formed list, with fuel for every node and a comparator that is a
total preorder, `dll_sort` (the comparator being the one bound to the list) and
`dll_sort_with` return `LMS_SUCCESS` and every adjacent pair `(a, b)` of the
forward sequence afterwards satisfies `compare(a, b) <= 0`. -/
theorem dll_sort_sorted (cmp : α → α → Int) (list : DoublyLinkedList α) (h : Heap α)
    (fuel : Nat) (hwf : WellFormed list h) (hpre : TotalPreorder cmp)
    (hfuel : list.size ≤ fuel) :
    (list.compare = some cmp →
      ∃ list' h' s, dll_sort fuel list h = some (LMS_SUCCESS, list', h') ∧
        forward_seq list' h' = some s ∧ SortedBy cmp s) ∧
    (∃ list' h' s, dll_sort_with fuel list (some cmp) h = some (LMS_SUCCESS, list', h') ∧
        forward_seq list' h' = some s ∧ SortedBy cmp s) := by
  obtain ⟨l, hl⟩ := hwf.isList
  have hlen : l.length ≤ fuel := by
    have := hl.size_eq
    omega
  obtain ⟨list', h', hrun, hl', -⟩ := sort_body_isList cmp hl fuel hlen
  have hseq : forward_seq list' h' = some ((msort_model cmp fuel l).map Prod.snd) := by
    simp [forward_seq, hl'.forward_nodes_eq]
  have hsorted := sortedBy_of_pairwise (msort_model_sorted hpre fuel l hlen)
  refine ⟨fun hcmp => ⟨list', h', _, ?_, hseq, hsorted⟩, ⟨list', h', _, ?_, hseq, hsorted⟩⟩
  · simp only [dll_sort, hcmp]
    exact hrun
  · simp only [dll_sort_with]
    exact hrun

/-- C2: `dll_sort` is stable. On a well-formed list whose comparator is a total
preorder, with fuel for every node, `dll_sort` returns `LMS_SUCCESS`; the forward
sequence of nodes afterwards is a permutation of the one before (same nodes, same
records), and whenever a node `e1` precedes a node `e2` before the sort and their
records compare equal, `e1` precedes `e2` after it. -/
theorem dll_sort_stable (cmp : α → α → Int) (list : DoublyLinkedList α) (h : Heap α)
    (fuel : Nat) (hwf : WellFormed list h) (hcmp : list.compare = some cmp)
    (hpre : TotalPreorder cmp) (hfuel : list.size ≤ fuel) :
    ∃ list' h' l l', dll_sort fuel list h = some (LMS_SUCCESS, list', h') ∧
      forward_nodes list h = some l ∧ forward_nodes list' h' = some l' ∧
      (l.map Prod.fst).Nodup ∧ l'.Perm l ∧
      ∀ e1 e2, [e1, e2].Sublist l → cmp e1.2 e2.2 = 0 → [e1, e2].Sublist l' := by
  obtain ⟨l, hl⟩ := hwf.isList
  have hlen : l.length ≤ fuel := by
    have := hl.size_eq
    omega
  obtain ⟨list', h', hrun, hl', -⟩ := sort_body_isList cmp hl fuel hlen
  refine ⟨list', h', l, _, ?_, hl.forward_nodes_eq, hl'.forward_nodes_eq, hl.nodup,
    msort_model_perm cmp fuel l, ?_⟩
  · simp only [dll_sort, hcmp]
    exact hrun
  · intro e1 e2 hsub heq
    refine msort_model_sublist hpre fuel l [e1, e2] hlen ?_ hsub
    simp [node_le, heq]

/-- C3: after `dll_sort` (the comparator being the one bound to the list) or
`dll_sort_with`, with any comparator, on a well-formed list of at least two records
and with fuel for every node, the result is `LMS_SUCCESS` and the list is well
formed again: the `prev` of the head node is `NULL`, `tail` is the last node of the
forward chain, the backward sequence read from `tail` is the reverse of the forward
sequence read from `head`, and `size` is unchanged. -/
theorem dll_sort_wellFormed (cmp : α → α → Int) (list : DoublyLinkedList α) (h : Heap α)
    (fuel : Nat) (hwf : WellFormed list h) (hsize : 2 ≤ list.size)
    (hfuel : list.size ≤ fuel) :
    (list.compare = some cmp →
      ∃ list' h' f hd nd, dll_sort fuel list h = some (LMS_SUCCESS, list', h') ∧
        WellFormed list' h' ∧ list'.size = list.size ∧
        list'.head = some hd ∧ h'.read hd = some nd ∧ nd.prev = none ∧
        forward_nodes list' h' = some f ∧ list'.tail = f.getLast?.map Prod.fst ∧
        backward_nodes list' h' = some f.reverse) ∧
    (∃ list' h' f hd nd,
        dll_sort_with fuel list (some cmp) h = some (LMS_SUCCESS, list', h') ∧
        WellFormed list' h' ∧ list'.size = list.size ∧
        list'.head = some hd ∧ h'.read hd = some nd ∧ nd.prev = none ∧
        forward_nodes list' h' = some f ∧ list'.tail = f.getLast?.map Prod.fst ∧
        backward_nodes list' h' = some f.reverse) := by
  obtain ⟨l, hl⟩ := hwf.isList
  have hlen : l.length ≤ fuel := by
    have := hl.size_eq
    omega
  obtain ⟨list', h', hrun, hl', hsz⟩ := sort_body_isList cmp hl fuel hlen
  have hlenM : (msort_model cmp fuel l).length = l.length :=
    (msort_model_perm cmp fuel l).length_eq
  have hfacts : ∃ hd nd, list'.head = some hd ∧ h'.read hd = some nd ∧ nd.prev = none := by
    have hlk := hl'.linked
    have hhd := hl'.head_eq
    generalize msort_model cmp fuel l = M at hlk hhd hlenM
    cases M with
    | nil =>
      have := hl.size_eq
      simp at hlenM
      omega
    | cons e M' =>
      obtain ⟨a, x⟩ := e
      exact ⟨a, _, hhd, hlk.1, rfl⟩
  obtain ⟨hd, nd, h1, h2, h3⟩ := hfacts
  have htail : list'.tail = (msort_model cmp fuel l).getLast?.map Prod.fst := by
    rw [hl'.tail_eq, lastAddr_eq_getLast?]
  refine ⟨fun hcmp => ⟨list', h', _, hd, nd, ?_, hl'.wellFormed, hsz, h1, h2, h3,
    hl'.forward_nodes_eq, htail, hl'.backward_nodes_eq⟩,
    ⟨list', h', _, hd, nd, ?_, hl'.wellFormed, hsz, h1, h2, h3,
    hl'.forward_nodes_eq, htail, hl'.backward_nodes_eq⟩⟩
  · simp only [dll_sort, hcmp]
    exact hrun
  · simp only [dll_sort_with]
    exact hrun


theorem compare_key_totalPreorder : TotalPreorder compare_key :=
  ⟨fun a b => compare_int_totalPreorder.total a.1 b.1,
    fun a b c => compare_int_totalPreorder.trans a.1 b.1 c.1⟩

theorem wellFormed_list_keyed : WellFormed list_keyed heap_keyed :=
  ⟨[(0, (1, "x")), (1, (1, "y")), (2, (2, "z"))], by rfl, by rfl, by rfl⟩

/-- Witness of C1: the sort test. 50, 10, 30, 20, 40 becomes 10, 20, 30, 40, 50. -/
theorem dll_sort_sorted_witness :
    (WellFormed list_unsorted5 heap_unsorted5 ∧ TotalPreorder compare_int ∧
      list_unsorted5.size ≤ (5 : Nat)) ∧
    ((list_unsorted5.compare = some compare_int →
      ∃ list' h' s, dll_sort 5 list_unsorted5 heap_unsorted5 = some (LMS_SUCCESS, list', h') ∧
        forward_seq list' h' = some s ∧ SortedBy compare_int s) ∧
    (∃ list' h' s,
      dll_sort_with 5 list_unsorted5 (some compare_int) heap_unsorted5 =
        some (LMS_SUCCESS, list', h') ∧
      forward_seq list' h' = some s ∧ SortedBy compare_int s)) ∧
    observe (dll_sort 5 list_unsorted5 heap_unsorted5) =
      some (LMS_SUCCESS, some 1, some 0, 5, some [10, 20, 30, 40, 50],
        some [50, 40, 30, 20, 10]) ∧
    observe (dll_sort_with 5 list_unsorted5 (some compare_int) heap_unsorted5) =
      some (LMS_SUCCESS, some 1, some 0, 5, some [10, 20, 30, 40, 50],
        some [50, 40, 30, 20, 10]) :=
  ⟨⟨wellFormed_list_unsorted5, compare_int_totalPreorder, by decide⟩,
    dll_sort_sorted compare_int list_unsorted5 heap_unsorted5 5 wellFormed_list_unsorted5
      compare_int_totalPreorder (by decide),
    by rfl, by rfl⟩

/-- Witness of C2: the records `(1, "x")`, `(1, "y")`, `(2, "z")` sorted by key keep
the tag order x, y, z; so do the records `(2, "z")`, `(1, "x")`, `(1, "y")`. -/
theorem dll_sort_stable_witness :
    (WellFormed list_keyed heap_keyed ∧ list_keyed.compare = some compare_key ∧
      TotalPreorder compare_key ∧ list_keyed.size ≤ (3 : Nat)) ∧
    (∃ list' h' l l', dll_sort 3 list_keyed heap_keyed = some (LMS_SUCCESS, list', h') ∧
      forward_nodes list_keyed heap_keyed = some l ∧ forward_nodes list' h' = some l' ∧
      (l.map Prod.fst).Nodup ∧ l'.Perm l ∧
      ∀ e1 e2, [e1, e2].Sublist l → compare_key e1.2 e2.2 = 0 → [e1, e2].Sublist l') ∧
    observe (dll_sort 3 list_keyed heap_keyed) =
      some (LMS_SUCCESS, some 0, some 2, 3, some [(1, "x"), (1, "y"), (2, "z")],
        some [(2, "z"), (1, "y"), (1, "x")]) ∧
    observe (dll_sort 3 list_keyed heap_keyed_mixed) =
      some (LMS_SUCCESS, some 1, some 0, 3, some [(1, "x"), (1, "y"), (2, "z")],
        some [(2, "z"), (1, "y"), (1, "x")]) :=
  ⟨⟨wellFormed_list_keyed, rfl, compare_key_totalPreorder, by decide⟩,
    dll_sort_stable compare_key list_keyed heap_keyed 3 wellFormed_list_keyed rfl
      compare_key_totalPreorder (by decide),
    by rfl, by rfl⟩

/-- Witness of C3 on the list 50, 10, 30, 20, 40 of the sort test. -/
theorem dll_sort_wellFormed_witness :
    (WellFormed list_unsorted5 heap_unsorted5 ∧ (2 : Int) ≤ list_unsorted5.size ∧
      list_unsorted5.size ≤ (5 : Nat)) ∧
    ((list_unsorted5.compare = some compare_int →
      ∃ list' h' f hd nd,
        dll_sort 5 list_unsorted5 heap_unsorted5 = some (LMS_SUCCESS, list', h') ∧
        WellFormed list' h' ∧ list'.size = list_unsorted5.size ∧
        list'.head = some hd ∧ h'.read hd = some nd ∧ nd.prev = none ∧
        forward_nodes list' h' = some f ∧ list'.tail = f.getLast?.map Prod.fst ∧
        backward_nodes list' h' = some f.reverse) ∧
    (∃ list' h' f hd nd,
        dll_sort_with 5 list_unsorted5 (some compare_int) heap_unsorted5 =
          some (LMS_SUCCESS, list', h') ∧
        WellFormed list' h' ∧ list'.size = list_unsorted5.size ∧
        list'.head = some hd ∧ h'.read hd = some nd ∧ nd.prev = none ∧
        forward_nodes list' h' = some f ∧ list'.tail = f.getLast?.map Prod.fst ∧
        backward_nodes list' h' = some f.reverse)) ∧
    (dll_sort 5 list_unsorted5 heap_unsorted5).map (fun r => r.2.2) = some heap_sorted5 :=
  ⟨⟨wellFormed_list_unsorted5, by decide, by decide⟩,
    dll_sort_wellFormed compare_int list_unsorted5 heap_unsorted5 5 wellFormed_list_unsorted5
      (by decide) (by decide),
    by rfl⟩


/-! ## The stale `tail` of `dll_reverse` -/

/-- The defect of `dll_reverse` on every input: on a well-formed list of at least two
nodes the call returns `LMS_SUCCESS` with both `head` and `tail` on the old tail
node, and the list it leaves is not well formed (the backward walk from `tail` stops
after one node). -/
theorem dll_reverse_stale_tail (list : DoublyLinkedList α) (h : Heap α) (fuel : Nat)
    (hwf : WellFormed list h) (hsize : 2 ≤ list.size) (hfuel : list.size ≤ fuel) :
    ∃ list' h', dll_reverse fuel list h = some (LMS_SUCCESS, list', h') ∧
      list'.head = list.tail ∧ list'.tail = list.tail ∧ ¬ WellFormed list' h' := by
  obtain ⟨l, hl⟩ := hwf.isList
  have hlen : 2 ≤ l.length := by
    have := hl.size_eq
    omega
  have hfuel' : l.length ≤ fuel := by
    have := hl.size_eq
    omega
  obtain ⟨h', hrun, hlinked, hcells, -⟩ := dll_reverse_spec hl hlen fuel hfuel'
  refine ⟨_, h', hrun, hl.tail_eq.symm, hl.tail_eq.symm, ?_⟩
  rintro ⟨f, hf, -, hb⟩
  have hn : NSeg h' l.reverse none := ((Linked_iff h' none l.reverse none).1 hlinked).1
  have hnd : (l.reverse.map Prod.fst).Nodup := by
    rw [List.map_reverse]; exact List.nodup_reverse.2 hl.nodup
  have hfwd : forward_nodes { list with head := lastAddr l none, tail := lastAddr l none } h' =
      some l.reverse := by
    refine forward_from_eq_some.2 ⟨?_, hn, ?_⟩
    · rw [headAddr_reverse]
    · exact length_le_cells hnd (fun _ ha => NSeg_read hn ha)
  rw [hfwd] at hf
  have hfl : f = l.reverse := (Option.some.inj hf).symm
  subst hfl
  rw [List.reverse_reverse] at hb
  have htail := (backward_from_eq_some.1 hb).1
  change lastAddr l none = headAddr l none at htail
  match l, hlen, hl.nodup, htail with
  | (a, x) :: p :: l1, _, hnd0, htail =>
    obtain ⟨b, hb1, hmem⟩ := lastAddr_cons_ne_none p l1 (some a)
    simp only [lastAddr_cons, headAddr_cons] at htail
    have hb2 : lastAddr (p :: l1) (some a) = some a := by
      obtain ⟨c, z⟩ := p
      simpa using htail
    rw [hb1] at hb2
    have hba := Option.some.inj hb2
    subst hba
    exact (List.nodup_cons.1 hnd0).1 hmem


/-! ## Positional access -/

theorem walk_prev_BSeg {h : Heap α} (r1 r2 : List (Nat × α)) (e : Option Nat)
    (hb : BSeg h (r1 ++ r2) e) :
    walk_prev h r1.length (headAddr (r1 ++ r2) e) = some (headAddr r2 e) := by
  induction r1 with
  | nil => rfl
  | cons p r1 ih =>
    obtain ⟨a, x⟩ := p
    obtain ⟨⟨nx, hr⟩, hrest⟩ := hb
    have := ih hrest
    simp only [List.cons_append, headAddr_cons, List.length_cons, walk_prev, Option.bind_eq_bind,
      Option.some_bind, hr]
    exact this

theorem IsList.bseg {list : DoublyLinkedList α} {h : Heap α} {l : List (Nat × α)}
    (hl : IsList list h l) : BSeg h l.reverse none :=
  (BSeg_reverse h l none).2 ((Linked_iff h none l none).1 hl.linked).2

theorem headAddr_drop (l : List (Nat × α)) (k : Nat) (d : Option Nat) (hk : k < l.length) :
    headAddr (l.drop k) d = (l[k]?).map Prod.fst := by
  rw [List.drop_eq_getElem_cons hk, List.getElem?_eq_getElem hk]
  cases l[k]
  rfl

/-- Every node of the list is live and holds its record. -/
theorem IsList.read_at {list : DoublyLinkedList α} {h : Heap α} {l : List (Nat × α)}
    (hl : IsList list h l) (k : Nat) (hk : k < l.length) :
    ∃ nd, h.read (l[k]).1 = some nd ∧ nd.data = (l[k]).2 := by
  obtain ⟨a, x, pv, hd, hr, -⟩ := NSeg_at hl.nseg k hk
  have : l[k] = (a, x) := by
    have h1 := List.drop_eq_getElem_cons hk
    rw [hd] at h1
    exact (List.cons.inj h1).1.symm
  rw [this]
  exact ⟨_, hr, rfl⟩

/-- The walk from `head` over `k` `next` links reaches node `k`. -/
theorem IsList.walk_next_eq {list : DoublyLinkedList α} {h : Heap α} {l : List (Nat × α)}
    (hl : IsList list h l) (k : Nat) (hk : k < l.length) :
    walk_next h k list.head = some ((l[k]?).map Prod.fst) := by
  have hw := walk_next_NSeg (l.take k) (l.drop k) none
    (by rw [List.take_append_drop]; exact hl.nseg)
  rw [List.take_append_drop, ← hl.head_eq, List.length_take, Nat.min_eq_left (by omega),
    headAddr_drop l k none hk] at hw
  exact hw

/-- The walk from `tail` over `n - 1 - k` `prev` links reaches node `k`. -/
theorem IsList.walk_prev_eq {list : DoublyLinkedList α} {h : Heap α} {l : List (Nat × α)}
    (hl : IsList list h l) (k : Nat) (hk : k < l.length) :
    walk_prev h (l.length - 1 - k) list.tail = some ((l[k]?).map Prod.fst) := by
  have hlen : l.length - 1 - k < l.reverse.length := by simp; omega
  have hw := walk_prev_BSeg (l.reverse.take (l.length - 1 - k))
    (l.reverse.drop (l.length - 1 - k)) none
    (by rw [List.take_append_drop]; exact hl.bseg)
  rw [List.take_append_drop, headAddr_reverse, ← hl.tail_eq, List.length_take,
    Nat.min_eq_left (by omega), headAddr_drop l.reverse _ none hlen] at hw
  rw [hw, List.getElem?_eq_getElem hlen, List.getElem?_eq_getElem hk, List.getElem_reverse]
  have hidx : l.length - 1 - (l.length - 1 - k) = k := by omega
  simp only [hidx]

/-- Function `dll_get_node_at` on a well-formed list returns node `i` for a valid
index. -/
theorem dll_get_node_at_spec {list : DoublyLinkedList α} {h : Heap α} {l : List (Nat × α)}
    (hl : IsList list h l) (i : Int) (hi0 : 0 ≤ i) (hi1 : i < list.size) :
    dll_get_node_at list i h = some ((l[i.toNat]?).map Prod.fst) := by
  have hrange : ¬ (i < 0 ∨ i ≥ list.size) := by omega
  have hk : i.toNat < l.length := by
    have := hl.size_eq
    omega
  unfold dll_get_node_at
  rw [if_neg hrange]
  split
  · exact hl.walk_next_eq _ hk
  · have : (list.size - 1 - i).toNat = l.length - 1 - i.toNat := by
      have := hl.size_eq
      omega
    rw [this]
    exact hl.walk_prev_eq _ hk

/-- Function `dll_get_at` on a well-formed list returns record `i` for a valid index. -/
theorem dll_get_at_spec {list : DoublyLinkedList α} {h : Heap α} {l : List (Nat × α)}
    (hl : IsList list h l) (i : Int) (hi0 : 0 ≤ i) (hi1 : i < list.size) :
    dll_get_at list i h = some ((l[i.toNat]?).map Prod.snd) := by
  have hk : i.toNat < l.length := by
    have := hl.size_eq
    omega
  obtain ⟨nd, hr, hd⟩ := hl.read_at _ hk
  simp only [dll_get_at, dll_get_node_at_spec hl i hi0 hi1, List.getElem?_eq_getElem hk,
    Option.map_some', Option.bind_eq_bind, Option.some_bind, hr, hd]

/-- Functions `dll_get_node_at` and `dll_get_at` return `NULL` for an index out of
range. -/
theorem dll_get_at_invalid (list : DoublyLinkedList α) (h : Heap α) (i : Int)
    (hi : i < 0 ∨ i ≥ list.size) :
    dll_get_node_at list i h = some none ∧ dll_get_at list i h = some none := by
  have h1 : dll_get_node_at list i h = some none := by
    unfold dll_get_node_at
    rw [if_pos hi]
  exact ⟨h1, by simp [dll_get_at, h1]⟩


/-- C11: on a well-formed list with forward sequence `s`, for `0 ≤ i < size`,
`dll_get_at list i` returns the `i`-th record of `s` (and `dll_get_node_at` the
`i`-th node); the walk over `i` `next` links from `head` and the walk over
`size - 1 - i` `prev` links from `tail` both end on this node, so the branch taken
does not matter. For `i < 0` or `i ≥ size` the result is `NULL`. -/
theorem dll_get_at_forward (list : DoublyLinkedList α) (h : Heap α) (i : Int)
    (hwf : WellFormed list h) :
    ∃ l s, forward_nodes list h = some l ∧ forward_seq list h = some s ∧
      (0 ≤ i → i < list.size →
        ∃ e, l[i.toNat]? = some e ∧ s[i.toNat]? = some e.2 ∧
          dll_get_node_at list i h = some (some e.1) ∧
          dll_get_at list i h = some (some e.2) ∧
          walk_next h i.toNat list.head = some (some e.1) ∧
          walk_prev h (list.size - 1 - i).toNat list.tail = some (some e.1)) ∧
      (i < 0 ∨ i ≥ list.size → dll_get_at list i h = some none) := by
  obtain ⟨l, hl⟩ := hwf.isList
  refine ⟨l, l.map Prod.snd, hl.forward_nodes_eq, by simp [forward_seq, hl.forward_nodes_eq],
    ?_, fun hi => (dll_get_at_invalid list h i hi).2⟩
  intro hi0 hi1
  have hk : i.toNat < l.length := by
    have := hl.size_eq
    omega
  have hsz : (list.size - 1 - i).toNat = l.length - 1 - i.toNat := by
    have := hl.size_eq
    omega
  have hget : l[i.toNat]? = some l[i.toNat] := List.getElem?_eq_getElem hk
  refine ⟨l[i.toNat], hget, by simp [List.getElem?_map, hget], ?_, ?_, ?_, ?_⟩
  · rw [dll_get_node_at_spec hl i hi0 hi1, hget]; rfl
  · rw [dll_get_at_spec hl i hi0 hi1, hget]; rfl
  · rw [hl.walk_next_eq _ hk, hget]; rfl
  · rw [hsz, hl.walk_prev_eq _ hk, hget]; rfl

theorem wellFormed_list_10_to_50 : WellFormed list_10_to_50 heap_10_to_50 :=
  ⟨[(0, 10), (1, 20), (2, 30), (3, 40), (4, 50)], by decide, by decide, by decide⟩

/-- Witness of C11 on the list 10, 20, 30, 40, 50 of the search test: index 2 (walk
from `tail`) gives 30, index 1 (walk from `head`) gives 20, index 5 and index -1
give `NULL`. -/
theorem dll_get_at_forward_witness :
    WellFormed list_10_to_50 heap_10_to_50 ∧
    (∃ l s, forward_nodes list_10_to_50 heap_10_to_50 = some l ∧
      forward_seq list_10_to_50 heap_10_to_50 = some s ∧
      ((0 : Int) ≤ 2 → (2 : Int) < list_10_to_50.size →
        ∃ e, l[(2 : Int).toNat]? = some e ∧ s[(2 : Int).toNat]? = some e.2 ∧
          dll_get_node_at list_10_to_50 2 heap_10_to_50 = some (some e.1) ∧
          dll_get_at list_10_to_50 2 heap_10_to_50 = some (some e.2) ∧
          walk_next heap_10_to_50 (2 : Int).toNat list_10_to_50.head = some (some e.1) ∧
          walk_prev heap_10_to_50 (list_10_to_50.size - 1 - 2).toNat list_10_to_50.tail =
            some (some e.1)) ∧
      ((2 : Int) < 0 ∨ (2 : Int) ≥ list_10_to_50.size →
        dll_get_at list_10_to_50 2 heap_10_to_50 = some none)) ∧
    dll_get_at list_10_to_50 2 heap_10_to_50 = some (some 30) ∧
    dll_get_at list_10_to_50 1 heap_10_to_50 = some (some 20) ∧
    dll_get_at list_10_to_50 5 heap_10_to_50 = some none ∧
    dll_get_at list_10_to_50 (-1) heap_10_to_50 = some none :=
  ⟨wellFormed_list_10_to_50,
    dll_get_at_forward list_10_to_50 heap_10_to_50 2 wellFormed_list_10_to_50,
    by rfl, by rfl, by rfl, by rfl⟩


/-! ## `dll_index_of` -/

/-- The loop of `dll_index_of` stops at the first node whose record compares equal
and returns its position. -/
theorem index_of_from_found {h : Heap α} (cmp : α → α → Int) (data : α)
    (l1 l2 : List (Nat × α)) (a : Nat) (x : α) (nx : Option Nat)
    (hn : NSeg h (l1 ++ (a, x) :: l2) nx) (hno : ∀ e ∈ l1, cmp e.2 data ≠ 0)
    (hyes : cmp x data = 0) (fuel : Nat) (hfuel : l1.length < fuel) (idx : Int) :
    index_of_from cmp data h fuel (headAddr (l1 ++ (a, x) :: l2) nx) idx =
      some (idx + (l1.length : Nat)) := by
  induction l1 generalizing fuel idx with
  | nil =>
    obtain ⟨⟨pv, hr⟩, -⟩ := hn
    cases fuel with
    | zero => simp at hfuel
    | succ fuel => simp [index_of_from, hr, hyes]
  | cons q l1 ih =>
    obtain ⟨b, y⟩ := q
    obtain ⟨⟨pv, hr⟩, hrest⟩ := hn
    cases fuel with
    | zero => simp at hfuel
    | succ fuel =>
      have hy : cmp y data ≠ 0 := hno (b, y) (by simp)
      have := ih hrest (fun e he => hno e (by simp [he])) fuel (by simpa using hfuel) (idx + 1)
      have e1 : index_of_from cmp data h (fuel + 1) (some b) idx =
          index_of_from cmp data h fuel (headAddr (l1 ++ (a, x) :: l2) nx) (idx + 1) := by
        simp only [index_of_from, hr, Option.bind_eq_bind, Option.some_bind, hy, if_false]
        rfl
      show index_of_from cmp data h (fuel + 1) (some b) idx = _
      rw [e1, this]
      congr 1
      simp only [List.length_cons]
      push_cast
      ring

/-- The loop of `dll_index_of` returns `-1` when no record compares equal. -/
theorem index_of_from_none {h : Heap α} (cmp : α → α → Int) (data : α)
    (l : List (Nat × α)) (hn : NSeg h l none) (hno : ∀ e ∈ l, cmp e.2 data ≠ 0)
    (fuel : Nat) (hfuel : l.length ≤ fuel) (idx : Int) :
    index_of_from cmp data h fuel (headAddr l none) idx = some (-1) := by
  induction l generalizing fuel idx with
  | nil => cases fuel <;> simp [index_of_from]
  | cons q l ih =>
    obtain ⟨b, y⟩ := q
    obtain ⟨⟨pv, hr⟩, hrest⟩ := hn
    cases fuel with
    | zero => simp at hfuel
    | succ fuel =>
      have hy : cmp y data ≠ 0 := hno (b, y) (by simp)
      have := ih hrest (fun e he => hno e (by simp [he])) fuel (by simpa using hfuel) (idx + 1)
      simp only [headAddr_cons, index_of_from, hr, Option.bind_eq_bind,
        Option.some_bind, hy, if_false]
      exact this

/-- Function `dll_index_of` returns the position of the first node whose record
compares equal to `data`. -/
theorem dll_index_of_found {list : DoublyLinkedList α} {h : Heap α}
    {l1 l2 : List (Nat × α)} {a : Nat} {x : α} (cmp : α → α → Int) (data : α)
    (hl : IsList list h (l1 ++ (a, x) :: l2)) (hcmp : list.compare = some cmp)
    (hno : ∀ e ∈ l1, cmp e.2 data ≠ 0) (hyes : cmp x data = 0)
    (fuel : Nat) (hfuel : l1.length < fuel) :
    dll_index_of fuel list (some data) h = some ((l1.length : Nat) : Int) := by
  have hs := index_of_from_found cmp data l1 l2 a x none hl.nseg hno hyes fuel hfuel 0
  rw [← hl.head_eq] at hs
  simp [dll_index_of, hcmp, hs]

/-- Function `dll_index_of` returns `-1` when no record compares equal to `data`. -/
theorem dll_index_of_none {list : DoublyLinkedList α} {h : Heap α}
    {l : List (Nat × α)} (cmp : α → α → Int) (data : α)
    (hl : IsList list h l) (hcmp : list.compare = some cmp)
    (hno : ∀ e ∈ l, cmp e.2 data ≠ 0) (fuel : Nat) (hfuel : l.length ≤ fuel) :
    dll_index_of fuel list (some data) h = some (-1) := by
  have hs := index_of_from_none cmp data l hl.nseg hno fuel hfuel 0
  rw [← hl.head_eq] at hs
  simp [dll_index_of, hcmp, hs]

/-- Function `dll_index_of` returns `-1` on a list without comparator and for a `NULL`
record. -/
theorem dll_index_of_absent (list : DoublyLinkedList α) (h : Heap α) (fuel : Nat) :
    dll_index_of fuel list none h = some (-1) ∧
    (list.compare = none → ∀ d, dll_index_of fuel list d h = some (-1)) := by
  refine ⟨rfl, fun hcmp d => ?_⟩
  cases d <;> simp [dll_index_of, hcmp]

/-- Splitting the sequence of records splits the sequence of nodes. -/
theorem split_of_map_snd {l : List (Nat × α)} {s1 s2 : List α} {y : α}
    (hs : l.map Prod.snd = s1 ++ y :: s2) :
    ∃ l1 a l2, l = l1 ++ (a, y) :: l2 ∧ l1.map Prod.snd = s1 ∧ l2.map Prod.snd = s2 := by
  obtain ⟨l1, l2', rfl, h1, h2⟩ := List.map_eq_append_iff.1 hs
  obtain ⟨⟨a, y'⟩, l2, rfl, hy, h3⟩ := List.map_eq_cons_iff.1 h2
  simp only at hy
  subst hy
  exact ⟨l1, a, l2, rfl, h1, h3⟩

/-- C12: on a well-formed list with forward sequence `s` and fuel for one loop turn
per node, `dll_index_of` returns the position of the first record of `s` that
compares equal to the record sought (`compare(r, x) == 0`), and `-1` when no record
does, when the comparator is absent or when the record is `NULL`. Hence, when the
record at a valid index `i` compares equal to itself and no record at an index below
`i` compares equal to it, `dll_index_of(list, dll_get_at(list, i)) == i`. -/
theorem dll_index_of_get_at (cmp : α → α → Int) (list : DoublyLinkedList α) (h : Heap α)
    (fuel : Nat) (hwf : WellFormed list h) (hfuel : list.size ≤ fuel) :
    ∃ s, forward_seq list h = some s ∧
      (list.compare = some cmp →
        (∀ x s1 y s2, s = s1 ++ y :: s2 → (∀ z ∈ s1, cmp z x ≠ 0) → cmp y x = 0 →
          dll_index_of fuel list (some x) h = some ((s1.length : Nat) : Int)) ∧
        (∀ x, (∀ z ∈ s, cmp z x ≠ 0) → dll_index_of fuel list (some x) h = some (-1)) ∧
        (∀ i r, 0 ≤ i → i < list.size → s[i.toNat]? = some r → cmp r r = 0 →
          (∀ j z, j < i.toNat → s[j]? = some z → cmp z r ≠ 0) →
          ((dll_get_at list i h).bind fun d => dll_index_of fuel list d h) = some i)) ∧
      (list.compare = none → ∀ d, dll_index_of fuel list d h = some (-1)) ∧
      dll_index_of fuel list none h = some (-1) := by
  obtain ⟨l, hl⟩ := hwf.isList
  have hlen : l.length ≤ fuel := by
    have := hl.size_eq
    omega
  have habs := dll_index_of_absent list h fuel
  refine ⟨l.map Prod.snd, by simp [forward_seq, hl.forward_nodes_eq], ?_, habs.2, habs.1⟩
  intro hcmp
  have hfound : ∀ x s1 y s2, l.map Prod.snd = s1 ++ y :: s2 → (∀ z ∈ s1, cmp z x ≠ 0) →
      cmp y x = 0 → dll_index_of fuel list (some x) h = some ((s1.length : Nat) : Int) := by
    intro x s1 y s2 hs hno hyes
    obtain ⟨l1, a, l2, rfl, h1, -⟩ := split_of_map_snd hs
    have hlt : l1.length < fuel := by
      simp at hlen
      omega
    have := dll_index_of_found cmp x hl hcmp
      (fun e he => hno e.2 (h1 ▸ List.mem_map_of_mem Prod.snd he)) hyes fuel hlt
    rw [this, ← h1, List.length_map]
  refine ⟨hfound, ?_, ?_⟩
  · intro x hno
    exact dll_index_of_none cmp x hl hcmp
      (fun e he => hno e.2 (List.mem_map_of_mem Prod.snd he)) fuel hlen
  · intro i r hi0 hi1 hr hrefl hbelow
    have hk : i.toNat < l.length := by
      have := hl.size_eq
      omega
    have hget := dll_get_at_spec hl i hi0 hi1
    rw [List.getElem?_map] at hr
    rw [hget, hr, Option.some_bind]
    have hsplit : l.map Prod.snd =
        (l.map Prod.snd).take i.toNat ++ r :: (l.map Prod.snd).drop (i.toNat + 1) := by
      have hk' : i.toNat < (l.map Prod.snd).length := by simpa using hk
      have hir : (l.map Prod.snd)[i.toNat] = r := by
        have := List.getElem?_eq_getElem hk'
        rw [List.getElem?_map, hr] at this
        exact (Option.some.inj this).symm
      rw [← hir, ← List.drop_eq_getElem_cons hk', List.take_append_drop]
    have := hfound r _ r _ hsplit ?_ hrefl
    · rw [this, List.length_take, List.length_map, Nat.min_eq_left (by omega),
        Int.toNat_of_nonneg hi0]
    · intro z hz
      obtain ⟨j, hj, hjz⟩ := List.mem_take_iff_getElem.1 hz
      have hj1 : j < i.toNat := by omega
      have hj2 : j < (l.map Prod.snd).length := by omega
      have : (l.map Prod.snd)[j]? = some z := by
        rw [List.getElem?_eq_getElem hj2, hjz]
      exact hbelow j z hj1 this


/-- Witness of C12 on the list 10, 20, 30, 40, 50 of the search test: the index of 40
is 3, the index of 99 is -1, and the index of the record at index 2 is 2. -/
theorem dll_index_of_get_at_witness :
    (WellFormed list_10_to_50 heap_10_to_50 ∧ list_10_to_50.size ≤ (5 : Nat)) ∧
    (∃ s, forward_seq list_10_to_50 heap_10_to_50 = some s ∧
      (list_10_to_50.compare = some compare_int →
        (∀ x s1 y s2, s = s1 ++ y :: s2 → (∀ z ∈ s1, compare_int z x ≠ 0) →
          compare_int y x = 0 →
          dll_index_of 5 list_10_to_50 (some x) heap_10_to_50 =
            some ((s1.length : Nat) : Int)) ∧
        (∀ x, (∀ z ∈ s, compare_int z x ≠ 0) →
          dll_index_of 5 list_10_to_50 (some x) heap_10_to_50 = some (-1)) ∧
        (∀ i r, 0 ≤ i → i < list_10_to_50.size → s[i.toNat]? = some r →
          compare_int r r = 0 →
          (∀ j z, j < i.toNat → s[j]? = some z → compare_int z r ≠ 0) →
          ((dll_get_at list_10_to_50 i heap_10_to_50).bind fun d =>
            dll_index_of 5 list_10_to_50 d heap_10_to_50) = some i)) ∧
      (list_10_to_50.compare = none →
        ∀ d, dll_index_of 5 list_10_to_50 d heap_10_to_50 = some (-1)) ∧
      dll_index_of 5 list_10_to_50 none heap_10_to_50 = some (-1)) ∧
    dll_index_of 5 list_10_to_50 (some 40) heap_10_to_50 = some 3 ∧
    dll_index_of 5 list_10_to_50 (some 99) heap_10_to_50 = some (-1) ∧
    ((dll_get_at list_10_to_50 2 heap_10_to_50).bind fun d =>
      dll_index_of 5 list_10_to_50 d heap_10_to_50) = some 2 :=
  ⟨⟨wellFormed_list_10_to_50, by decide⟩,
    dll_index_of_get_at compare_int list_10_to_50 heap_10_to_50 5 wellFormed_list_10_to_50
      (by decide),
    by rfl, by rfl, by rfl⟩

/-! ## Iterators -/

/-- The iteration loop with a forward iterator on the first node of a `next` chain
returns the records of the chain and ends exhausted. -/
theorem iterator_drain_next {h : Heap α} (l : List (Nat × α)) (hn : NSeg h l none)
    (fuel : Nat) (hfuel : l.length ≤ fuel) :
    iterator_drain h fuel { current := headAddr l none, direction := 1 } =
      some (l.map fun e => some e.2, { current := none, direction := 1 }) := by
  induction l generalizing fuel with
  | nil => cases fuel <;> simp [iterator_drain, iterator_has_next]
  | cons q l ih =>
    obtain ⟨a, x⟩ := q
    obtain ⟨⟨pv, hr⟩, hrest⟩ := hn
    cases fuel with
    | zero => simp at hfuel
    | succ fuel =>
      have := ih hrest fuel (by simpa using hfuel)
      simp only [iterator_drain, iterator_has_next, headAddr_cons, Option.isSome_some, if_true,
        iterator_next, hr, Option.bind_eq_bind, Option.some_bind, this, List.map_cons]

/-- The iteration loop with a backward iterator on the first node of a `prev` chain
returns the records of the chain and ends exhausted. -/
theorem iterator_drain_prev {h : Heap α} (r : List (Nat × α)) (hb : BSeg h r none)
    (d : Int) (hd : d ≠ 1) (fuel : Nat) (hfuel : r.length ≤ fuel) :
    iterator_drain h fuel { current := headAddr r none, direction := d } =
      some (r.map fun e => some e.2, { current := none, direction := d }) := by
  induction r generalizing fuel with
  | nil => cases fuel <;> simp [iterator_drain, iterator_has_next]
  | cons q r ih =>
    obtain ⟨a, x⟩ := q
    obtain ⟨⟨nx, hr⟩, hrest⟩ := hb
    cases fuel with
    | zero => simp at hfuel
    | succ fuel =>
      have := ih hrest fuel (by simpa using hfuel)
      simp only [iterator_drain, iterator_has_next, headAddr_cons, Option.isSome_some, if_true,
        iterator_next, hr, Option.bind_eq_bind, Option.some_bind, hd, if_false, this,
        List.map_cons]

/-- C13: on a well-formed list with forward sequence `s`, the loop that calls
`iterator_next` while `iterator_has_next` holds (fuel for one turn per node) returns,
on a fresh forward iterator, exactly the records of `s` in order and, on a fresh
reverse iterator, exactly the records of `s` reversed; each loop makes `size` calls,
every call returns a record, and the iterator is exhausted at the end. -/
theorem iterator_drain_sequences (list : DoublyLinkedList α) (h : Heap α) (fuel : Nat)
    (hwf : WellFormed list h) (hfuel : list.size ≤ fuel) :
    ∃ s it1 it2, forward_seq list h = some s ∧
      iterator_drain h fuel (dll_iterator_create list) = some (s.map some, it1) ∧
      iterator_drain h fuel (dll_reverse_iterator_create list) =
        some (s.reverse.map some, it2) ∧
      iterator_has_next it1 = false ∧ iterator_has_next it2 = false ∧
      ((s.map some).length : Int) = list.size ∧
      ((s.reverse.map some).length : Int) = list.size := by
  obtain ⟨l, hl⟩ := hwf.isList
  have hlen : l.length ≤ fuel := by
    have := hl.size_eq
    omega
  refine ⟨l.map Prod.snd, { current := none, direction := 1 },
    { current := none, direction := -1 }, by simp [forward_seq, hl.forward_nodes_eq], ?_, ?_,
    rfl, rfl, by simp [hl.size_eq], by simp [hl.size_eq]⟩
  · have := iterator_drain_next l hl.nseg fuel hlen
    rw [← hl.head_eq] at this
    simp only [dll_iterator_create, this, List.map_map]
    rfl
  · have := iterator_drain_prev l.reverse hl.bseg (-1) (by decide) fuel (by simpa using hlen)
    rw [headAddr_reverse, ← hl.tail_eq] at this
    simp only [dll_reverse_iterator_create, this, ← List.map_reverse, List.map_map]
    rfl

/-- Witness of C13: the iterator test on the list 10, 20, 30, 40, 50. -/
theorem iterator_drain_sequences_witness :
    (WellFormed list_10_to_50 heap_10_to_50 ∧ list_10_to_50.size ≤ (5 : Nat)) ∧
    (∃ s it1 it2, forward_seq list_10_to_50 heap_10_to_50 = some s ∧
      iterator_drain heap_10_to_50 5 (dll_iterator_create list_10_to_50) =
        some (s.map some, it1) ∧
      iterator_drain heap_10_to_50 5 (dll_reverse_iterator_create list_10_to_50) =
        some (s.reverse.map some, it2) ∧
      iterator_has_next it1 = false ∧ iterator_has_next it2 = false ∧
      ((s.map some).length : Int) = list_10_to_50.size ∧
      ((s.reverse.map some).length : Int) = list_10_to_50.size) ∧
    iterator_drain heap_10_to_50 5 (dll_iterator_create list_10_to_50) =
      some ([some 10, some 20, some 30, some 40, some 50], { current := none, direction := 1 }) ∧
    iterator_drain heap_10_to_50 5 (dll_reverse_iterator_create list_10_to_50) =
      some ([some 50, some 40, some 30, some 20, some 10],
        { current := none, direction := -1 }) :=
  ⟨⟨wellFormed_list_10_to_50, by decide⟩,
    iterator_drain_sequences list_10_to_50 heap_10_to_50 5 wellFormed_list_10_to_50
      (by decide),
    by rfl, by rfl⟩


/-! ## Deletion and search on the forward sequence -/

/-- C14: on a well-formed list with forward sequence `s`, for `0 ≤ i < size`,
`dll_delete_at list i` returns `LMS_SUCCESS` and the forward sequence becomes `s`
without its `i`-th record, the other records in order (the list stays well formed);
for `i < 0` or `i ≥ size` it returns `LMS_ERROR_INVALID_INPUT` and changes nothing. -/
theorem dll_delete_at_forward (list : DoublyLinkedList α) (h : Heap α) (i : Int)
    (hwf : WellFormed list h) :
    ∃ s, forward_seq list h = some s ∧
      (0 ≤ i → i < list.size →
        ∃ list' h', dll_delete_at list i h = some (LMS_SUCCESS, list', h') ∧
          forward_seq list' h' = some (s.eraseIdx i.toNat) ∧ WellFormed list' h') ∧
      (i < 0 ∨ i ≥ list.size →
        dll_delete_at list i h = some (LMS_ERROR_INVALID_INPUT, list, h)) := by
  obtain ⟨l, hl⟩ := hwf.isList
  refine ⟨l.map Prod.snd, by simp [forward_seq, hl.forward_nodes_eq], ?_,
    dll_delete_at_invalid list h i⟩
  intro hi0 hi1
  obtain ⟨list', h', hrun, hl', -⟩ := dll_delete_at_spec hl i hi0 hi1
  refine ⟨list', h', hrun, ?_, hl'.wellFormed⟩
  simp [forward_seq, hl'.forward_nodes_eq, List.eraseIdx_eq_take_drop_succ, List.map_take,
    List.map_drop]

/-- Witness of C14: the delete test. From 10, 20, 30, 40, 50, deleting at index 1
gives 10, 30, 40, 50; delete-front, delete-rear, delete-at(1) in a row give 20, 40,
and delete-by-value(40) then gives 20. -/
theorem dll_delete_at_forward_witness :
    WellFormed list_10_to_50 heap_10_to_50 ∧
    (∃ s, forward_seq list_10_to_50 heap_10_to_50 = some s ∧
      ((0 : Int) ≤ 1 → (1 : Int) < list_10_to_50.size →
        ∃ list' h', dll_delete_at list_10_to_50 1 heap_10_to_50 =
            some (LMS_SUCCESS, list', h') ∧
          forward_seq list' h' = some (s.eraseIdx (1 : Int).toNat) ∧ WellFormed list' h') ∧
      ((1 : Int) < 0 ∨ (1 : Int) ≥ list_10_to_50.size →
        dll_delete_at list_10_to_50 1 heap_10_to_50 =
          some (LMS_ERROR_INVALID_INPUT, list_10_to_50, heap_10_to_50))) ∧
    observe (dll_delete_at list_10_to_50 1 heap_10_to_50) =
      some (LMS_SUCCESS, some 0, some 4, 4, some [10, 30, 40, 50], some [50, 40, 30, 10]) ∧
    observe ((dll_delete_front list_10_to_50 heap_10_to_50).bind fun r1 =>
        (dll_delete_rear r1.2.1 r1.2.2).bind fun r2 => dll_delete_at r2.2.1 1 r2.2.2) =
      some (LMS_SUCCESS, some 1, some 3, 2, some [20, 40], some [40, 20]) ∧
    observe ((dll_delete_front list_10_to_50 heap_10_to_50).bind fun r1 =>
        (dll_delete_rear r1.2.1 r1.2.2).bind fun r2 =>
          (dll_delete_at r2.2.1 1 r2.2.2).bind fun r3 => dll_delete_data 5 r3.2.1 40 r3.2.2) =
      some (LMS_SUCCESS, some 1, some 1, 1, some [20], some [20]) ∧
    observe (dll_delete_at list_10_to_50 5 heap_10_to_50) =
      some (LMS_ERROR_INVALID_INPUT, some 0, some 4, 5, some [10, 20, 30, 40, 50],
        some [50, 40, 30, 20, 10]) :=
  ⟨wellFormed_list_10_to_50,
    dll_delete_at_forward list_10_to_50 heap_10_to_50 1 wellFormed_list_10_to_50,
    by rfl, by rfl, by rfl, by rfl⟩

/-- C15: on a well-formed list with forward sequence `s` and fuel for one loop turn
per node, `dll_delete_data list x` removes exactly the first record `r` of `s` with
`compare(r, x) == 0` and returns `LMS_SUCCESS` (the list stays well formed); when no
record compares equal, or the list has no comparator, it returns
`LMS_ERROR_NOT_FOUND` and changes nothing. -/
theorem dll_delete_data_first (list : DoublyLinkedList α) (h : Heap α) (x : α) (fuel : Nat)
    (hwf : WellFormed list h) (hfuel : list.size ≤ fuel) :
    ∃ s, forward_seq list h = some s ∧
      (∀ cmp, list.compare = some cmp →
        (∀ s1 r s2, s = s1 ++ r :: s2 → (∀ z ∈ s1, cmp z x ≠ 0) → cmp r x = 0 →
          ∃ list' h', dll_delete_data fuel list x h = some (LMS_SUCCESS, list', h') ∧
            forward_seq list' h' = some (s1 ++ s2) ∧ WellFormed list' h') ∧
        ((∀ z ∈ s, cmp z x ≠ 0) →
          dll_delete_data fuel list x h = some (LMS_ERROR_NOT_FOUND, list, h))) ∧
      (list.compare = none →
        dll_delete_data fuel list x h = some (LMS_ERROR_NOT_FOUND, list, h)) := by
  obtain ⟨l, hl⟩ := hwf.isList
  have hlen : l.length ≤ fuel := by
    have := hl.size_eq
    omega
  refine ⟨l.map Prod.snd, by simp [forward_seq, hl.forward_nodes_eq], ?_,
    dll_delete_data_no_compare list h x fuel⟩
  intro cmp hcmp
  refine ⟨?_, ?_⟩
  · intro s1 r s2 hs hno hyes
    obtain ⟨l1, a, l2, rfl, h1, h2⟩ := split_of_map_snd hs
    have hlt : l1.length < fuel := by
      simp at hlen
      omega
    obtain ⟨list', h', hrun, hl', -⟩ := dll_delete_data_found cmp x hl hcmp
      (fun e he => hno e.2 (h1 ▸ List.mem_map_of_mem Prod.snd he)) hyes fuel hlt
    refine ⟨list', h', hrun, ?_, hl'.wellFormed⟩
    simp [forward_seq, hl'.forward_nodes_eq, h1, h2]
  · intro hno
    exact dll_delete_data_none cmp x hl hcmp
      (fun e he => hno e.2 (List.mem_map_of_mem Prod.snd he)) fuel hlen

/-- Witness of C15 on the list 10, 20, 30, 40, 50: deleting 40 leaves 10, 20, 30, 50,
deleting 99 returns `LMS_ERROR_NOT_FOUND`. -/
theorem dll_delete_data_first_witness :
    (WellFormed list_10_to_50 heap_10_to_50 ∧ list_10_to_50.size ≤ (5 : Nat)) ∧
    (∃ s, forward_seq list_10_to_50 heap_10_to_50 = some s ∧
      (∀ cmp, list_10_to_50.compare = some cmp →
        (∀ s1 r s2, s = s1 ++ r :: s2 → (∀ z ∈ s1, cmp z 40 ≠ 0) → cmp r 40 = 0 →
          ∃ list' h', dll_delete_data 5 list_10_to_50 40 heap_10_to_50 =
              some (LMS_SUCCESS, list', h') ∧
            forward_seq list' h' = some (s1 ++ s2) ∧ WellFormed list' h') ∧
        ((∀ z ∈ s, cmp z 40 ≠ 0) →
          dll_delete_data 5 list_10_to_50 40 heap_10_to_50 =
            some (LMS_ERROR_NOT_FOUND, list_10_to_50, heap_10_to_50))) ∧
      (list_10_to_50.compare = none →
        dll_delete_data 5 list_10_to_50 40 heap_10_to_50 =
          some (LMS_ERROR_NOT_FOUND, list_10_to_50, heap_10_to_50))) ∧
    observe (dll_delete_data 5 list_10_to_50 40 heap_10_to_50) =
      some (LMS_SUCCESS, some 0, some 4, 4, some [10, 20, 30, 50], some [50, 30, 20, 10]) ∧
    observe (dll_delete_data 5 list_10_to_50 99 heap_10_to_50) =
      some (LMS_ERROR_NOT_FOUND, some 0, some 4, 5, some [10, 20, 30, 40, 50],
        some [50, 40, 30, 20, 10]) ∧
    observe (dll_delete_data 3 list_10_20_30_plain 20 heap_10_20_30) =
      some (LMS_ERROR_NOT_FOUND, some 0, some 2, 3, some [10, 20, 30], some [30, 20, 10]) :=
  ⟨⟨wellFormed_list_10_to_50, by decide⟩,
    dll_delete_data_first list_10_to_50 heap_10_to_50 40 5 wellFormed_list_10_to_50
      (by decide),
    by rfl, by rfl, by rfl⟩

/-- C16: on a list of size 0, `dll_delete_front` and `dll_delete_rear` return
`LMS_ERROR_NOT_FOUND` and change nothing (a well-formed list of size 0 has the empty
forward sequence before and after); on a non-empty well-formed list with forward
sequence `s` they return `LMS_SUCCESS` and the forward sequence becomes `s` without
its first, respectively its last, record, the list staying well formed. -/
theorem dll_delete_front_rear (list : DoublyLinkedList α) (h : Heap α)
    (hwf : WellFormed list h) :
    ∃ s, forward_seq list h = some s ∧
      (list.size = 0 →
        s = [] ∧ dll_delete_front list h = some (LMS_ERROR_NOT_FOUND, list, h) ∧
        dll_delete_rear list h = some (LMS_ERROR_NOT_FOUND, list, h)) ∧
      (list.size ≠ 0 →
        (∃ list' h', dll_delete_front list h = some (LMS_SUCCESS, list', h') ∧
          forward_seq list' h' = some s.tail ∧ WellFormed list' h') ∧
        (∃ list' h', dll_delete_rear list h = some (LMS_SUCCESS, list', h') ∧
          forward_seq list' h' = some s.dropLast ∧ WellFormed list' h')) := by
  obtain ⟨l, hl⟩ := hwf.isList
  refine ⟨l.map Prod.snd, by simp [forward_seq, hl.forward_nodes_eq], ?_, ?_⟩
  · intro hsize
    have := hl.size_eq_zero.1 hsize
    subst this
    exact ⟨rfl, dll_delete_empty list h hsize⟩
  · intro hsize
    have hne : l ≠ [] := fun e => hsize (hl.size_eq_zero.2 e)
    refine ⟨?_, ?_⟩
    · cases l with
      | nil => exact absurd rfl hne
      | cons q l1 =>
        obtain ⟨a, x⟩ := q
        obtain ⟨list', h', hrun, hl', -⟩ := dll_delete_front_spec hl
        exact ⟨list', h', hrun, by simp [forward_seq, hl'.forward_nodes_eq], hl'.wellFormed⟩
    · rcases nil_or_snoc l with rfl | ⟨l0, ⟨a, x⟩, rfl⟩
      · exact absurd rfl hne
      · obtain ⟨list', h', hrun, hl', -⟩ := dll_delete_rear_spec hl
        exact ⟨list', h', hrun, by simp [forward_seq, hl'.forward_nodes_eq], hl'.wellFormed⟩

theorem wellFormed_list_empty : WellFormed list_empty heap_empty :=
  ⟨[], by rfl, by rfl, by rfl⟩

/-- Witness of C16: on the list 10, 20, 30, 40, 50 `dll_delete_front` leaves 20, 30,
40, 50 and `dll_delete_rear` leaves 10, 20, 30, 40; on the empty list both return
`LMS_ERROR_NOT_FOUND`. -/
theorem dll_delete_front_rear_witness :
    WellFormed list_10_to_50 heap_10_to_50 ∧
    (∃ s, forward_seq list_10_to_50 heap_10_to_50 = some s ∧
      (list_10_to_50.size = 0 →
        s = [] ∧
        dll_delete_front list_10_to_50 heap_10_to_50 =
          some (LMS_ERROR_NOT_FOUND, list_10_to_50, heap_10_to_50) ∧
        dll_delete_rear list_10_to_50 heap_10_to_50 =
          some (LMS_ERROR_NOT_FOUND, list_10_to_50, heap_10_to_50)) ∧
      (list_10_to_50.size ≠ 0 →
        (∃ list' h', dll_delete_front list_10_to_50 heap_10_to_50 =
            some (LMS_SUCCESS, list', h') ∧
          forward_seq list' h' = some s.tail ∧ WellFormed list' h') ∧
        (∃ list' h', dll_delete_rear list_10_to_50 heap_10_to_50 =
            some (LMS_SUCCESS, list', h') ∧
          forward_seq list' h' = some s.dropLast ∧ WellFormed list' h'))) ∧
    observe (dll_delete_front list_10_to_50 heap_10_to_50) =
      some (LMS_SUCCESS, some 1, some 4, 4, some [20, 30, 40, 50], some [50, 40, 30, 20]) ∧
    observe (dll_delete_rear list_10_to_50 heap_10_to_50) =
      some (LMS_SUCCESS, some 0, some 3, 4, some [10, 20, 30, 40], some [40, 30, 20, 10]) ∧
    observe (dll_delete_front list_empty heap_empty) =
      some (LMS_ERROR_NOT_FOUND, none, none, 0, some [], some []) ∧
    observe (dll_delete_rear list_empty heap_empty) =
      some (LMS_ERROR_NOT_FOUND, none, none, 0, some [], some []) :=
  ⟨wellFormed_list_10_to_50,
    dll_delete_front_rear list_10_to_50 heap_10_to_50 wellFormed_list_10_to_50,
    by rfl, by rfl, by rfl, by rfl⟩


/-- C19: on a well-formed list with fuel for one loop turn per node,
`dll_search list x` returns the first node of the forward sequence whose record `r`
satisfies `compare(r, x) == 0`; with a comparator it returns `NULL` exactly when no
record of the list does, and without comparator it always returns `NULL`. -/
theorem dll_search_first (list : DoublyLinkedList α) (h : Heap α) (x : α) (fuel : Nat)
    (hwf : WellFormed list h) (hfuel : list.size ≤ fuel) :
    ∃ l, forward_nodes list h = some l ∧
      (∀ cmp, list.compare = some cmp →
        (∀ l1 e l2, l = l1 ++ e :: l2 → (∀ z ∈ l1, cmp z.2 x ≠ 0) → cmp e.2 x = 0 →
          dll_search fuel list x h = some (some e.1)) ∧
        (dll_search fuel list x h = some none ↔ ∀ z ∈ l, cmp z.2 x ≠ 0)) ∧
      (list.compare = none → dll_search fuel list x h = some none) := by
  obtain ⟨l, hl⟩ := hwf.isList
  have hlen : l.length ≤ fuel := by
    have := hl.size_eq
    omega
  refine ⟨l, hl.forward_nodes_eq, ?_, fun hcmp => by simp [dll_search, hcmp]⟩
  intro cmp hcmp
  have hfound : ∀ l1 e l2, l = l1 ++ e :: l2 → (∀ z ∈ l1, cmp z.2 x ≠ 0) → cmp e.2 x = 0 →
      dll_search fuel list x h = some (some e.1) := by
    intro l1 e l2 hsplit hno hyes
    obtain ⟨a, y⟩ := e
    subst hsplit
    have hlt : l1.length < fuel := by
      simp at hlen
      omega
    have hs := search_from_found cmp x l1 l2 a y none hl.nseg hno hyes fuel hlt
    rw [← hl.head_eq] at hs
    simp [dll_search, hcmp, hs]
  refine ⟨hfound, ?_, ?_⟩
  · intro hnone z hz hzx
    obtain ⟨l1, e, l2, hsplit, hyes, hno⟩ :=
      exists_first (fun e => cmp e.2 x = 0) l ⟨z, hz, hzx⟩
    rw [hfound l1 e l2 hsplit hno hyes] at hnone
    simp at hnone
  · intro hno
    have hs := search_from_none cmp x l hl.nseg hno fuel hlen
    rw [← hl.head_eq] at hs
    simp [dll_search, hcmp, hs]

/-- Witness of C19: the search test. In 10, 20, 30, 40, 50 searching 30 finds the node
at address 2, which holds 30, and searching 99 returns `NULL`. -/
theorem dll_search_first_witness :
    (WellFormed list_10_to_50 heap_10_to_50 ∧ list_10_to_50.size ≤ (5 : Nat)) ∧
    (∃ l, forward_nodes list_10_to_50 heap_10_to_50 = some l ∧
      (∀ cmp, list_10_to_50.compare = some cmp →
        (∀ l1 e l2, l = l1 ++ e :: l2 → (∀ z ∈ l1, cmp z.2 30 ≠ 0) → cmp e.2 30 = 0 →
          dll_search 5 list_10_to_50 30 heap_10_to_50 = some (some e.1)) ∧
        (dll_search 5 list_10_to_50 30 heap_10_to_50 = some none ↔
          ∀ z ∈ l, cmp z.2 30 ≠ 0)) ∧
      (list_10_to_50.compare = none →
        dll_search 5 list_10_to_50 30 heap_10_to_50 = some none)) ∧
    dll_search 5 list_10_to_50 30 heap_10_to_50 = some (some 2) ∧
    (heap_10_to_50.read 2).map (fun nd => nd.data) = some 30 ∧
    dll_search 5 list_10_to_50 99 heap_10_to_50 = some none ∧
    dll_search 3 list_10_20_30_plain 20 heap_10_20_30 = some none :=
  ⟨⟨wellFormed_list_10_to_50, by decide⟩,
    dll_search_first list_10_to_50 heap_10_to_50 30 5 wellFormed_list_10_to_50 (by decide),
    by rfl, by rfl, by rfl, by rfl⟩

/-- C20: on a container without comparator, `dll_insert_sorted` returns
`LMS_ERROR_INVALID_INPUT` for every record, whatever the list, the heap and the fuel,
and returns the container and the heap as they were: `size` is unchanged, no node is
created, the forward sequence is the same. A container made by `dll_create` without
comparator is such a container. -/
theorem dll_insert_sorted_without_comparator (list : DoublyLinkedList α) (h : Heap α)
    (x : α) (fuel : Nat) (hcmp : list.compare = none) :
    ∃ list' h', dll_insert_sorted fuel list x h = some (LMS_ERROR_INVALID_INPUT, list', h') ∧
      list' = list ∧ h' = h ∧ list'.size = list.size ∧ h'.cells = h.cells ∧
      forward_seq list' h' = forward_seq list h ∧
      ∀ p : Option Nat, (dll_create (none : Option (α → α → Int)) p).compare = none :=
  ⟨list, h, dll_insert_sorted_no_compare list h x fuel hcmp, rfl, rfl, rfl, rfl, rfl,
    fun _ => rfl⟩

/-- Witness of C20 on the list 10, 20, 30 held by a container without comparator,
and on a freshly created one. -/
theorem dll_insert_sorted_without_comparator_witness :
    list_10_20_30_plain.compare = none ∧
    (∃ list' h', dll_insert_sorted 3 list_10_20_30_plain 25 heap_10_20_30 =
        some (LMS_ERROR_INVALID_INPUT, list', h') ∧
      list' = list_10_20_30_plain ∧ h' = heap_10_20_30 ∧
      list'.size = list_10_20_30_plain.size ∧ h'.cells = heap_10_20_30.cells ∧
      forward_seq list' h' = forward_seq list_10_20_30_plain heap_10_20_30 ∧
      ∀ p : Option Nat, (dll_create (none : Option (Int → Int → Int)) p).compare = none) ∧
    observe (dll_insert_sorted 3 list_10_20_30_plain 25 heap_10_20_30) =
      some (LMS_ERROR_INVALID_INPUT, some 0, some 2, 3, some [10, 20, 30], some [30, 20, 10]) ∧
    observe (dll_insert_sorted 0 (dll_create none none) 25 heap_empty) =
      some (LMS_ERROR_INVALID_INPUT, none, none, 0, some [], some []) :=
  ⟨rfl,
    dll_insert_sorted_without_comparator list_10_20_30_plain heap_10_20_30 25 3 rfl,
    by rfl, by rfl⟩


theorem SizeStep.of_success {d : Int} {list list' : DoublyLinkedList α} {h' : Heap α}
    {out : Option (LMS_Result × DoublyLinkedList α × Heap α)}
    (hrun : out = some (LMS_SUCCESS, list', h')) (hsize : list'.size = list.size + d) :
    SizeStep d list out :=
  ⟨LMS_SUCCESS, list', h', hrun, fun _ => hsize, fun hne => absurd rfl hne⟩

theorem SizeStep.of_failure {d : Int} {list : DoublyLinkedList α} {h' : Heap α}
    {r : LMS_Result} {out : Option (LMS_Result × DoublyLinkedList α × Heap α)}
    (hrun : out = some (r, list, h')) (hr : r ≠ LMS_SUCCESS) :
    SizeStep d list out :=
  ⟨r, list, h', hrun, fun he => absurd he hr, fun _ => rfl⟩

/-- Function `dll_search` returns on a list with fuel for one loop turn per node. -/
theorem dll_search_returns {list : DoublyLinkedList α} {h : Heap α} {l : List (Nat × α)}
    (hl : IsList list h l) (x : α) (fuel : Nat) (hfuel : l.length ≤ fuel) :
    ∃ v, dll_search fuel list x h = some v := by
  cases hcmp : list.compare with
  | none => exact ⟨none, by simp [dll_search, hcmp]⟩
  | some cmp =>
    by_cases hex : ∃ e ∈ l, cmp e.2 x = 0
    · obtain ⟨l1, ⟨a, y⟩, l2, rfl, hyes, hno⟩ := exists_first (fun e => cmp e.2 x = 0) l hex
      have hf : l1.length < fuel := by
        simp at hfuel
        omega
      have hs := search_from_found cmp x l1 l2 a y none hl.nseg hno hyes fuel hf
      rw [← hl.head_eq] at hs
      exact ⟨some a, by simp [dll_search, hcmp, hs]⟩
    · have hno : ∀ e ∈ l, cmp e.2 x ≠ 0 := fun e he hc => hex ⟨e, he, hc⟩
      have hs := search_from_none cmp x l hl.nseg hno fuel hfuel
      rw [← hl.head_eq] at hs
      exact ⟨none, by simp [dll_search, hcmp, hs]⟩

/-- Function `dll_index_of` returns on a list with fuel for one loop turn per node. -/
theorem dll_index_of_returns {list : DoublyLinkedList α} {h : Heap α} {l : List (Nat × α)}
    (hl : IsList list h l) (d : Option α) (fuel : Nat) (hfuel : l.length ≤ fuel) :
    ∃ v, dll_index_of fuel list d h = some v := by
  cases d with
  | none => exact ⟨-1, (dll_index_of_absent list h fuel).1⟩
  | some x =>
    cases hcmp : list.compare with
    | none => exact ⟨-1, (dll_index_of_absent list h fuel).2 hcmp (some x)⟩
    | some cmp =>
      by_cases hex : ∃ e ∈ l, cmp e.2 x = 0
      · obtain ⟨l1, ⟨a, y⟩, l2, rfl, hyes, hno⟩ :=
          exists_first (fun e => cmp e.2 x = 0) l hex
        have hf : l1.length < fuel := by
          simp at hfuel
          omega
        exact ⟨_, dll_index_of_found cmp x hl hcmp hno hyes fuel hf⟩
      · have hno : ∀ e ∈ l, cmp e.2 x ≠ 0 := fun e he hc => hex ⟨e, he, hc⟩
        exact ⟨_, dll_index_of_none cmp x hl hcmp hno fuel hfuel⟩

theorem size_of_isList_cons {list list' : DoublyLinkedList α} {h h' : Heap α}
    {l l' : List (Nat × α)} (hl : IsList list h l) (hl' : IsList list' h' l')
    (d : Int) (hlen : (l'.length : Int) = l.length + d) : list'.size = list.size + d := by
  rw [hl.size_eq, hl'.size_eq, hlen]

/-- C17, the four inserts and the five deletes: on a well-formed list, with fuel for
one loop turn per node, each of them returns; a run that returns `LMS_SUCCESS` leaves
`size` one higher (insert) or one lower (delete), a run that returns another code
leaves `size` as it was. `dll_delete_node` is given `NULL` or a node of the list.
`dll_reverse`, `dll_sort` and `dll_sort_with` return with `size` as it was, whatever
the code. `dll_search`, `dll_get_at` and `dll_index_of` return a value; they read the
container and the nodes and write neither, so `size` after them is `size` before. -/
theorem dll_size_steps (list : DoublyLinkedList α) (h : Heap α) (x : α) (i : Int)
    (c : Option (α → α → Int)) (fuel : Nat) (hwf : WellFormed list h)
    (hfuel : list.size ≤ fuel) :
    SizeStep 1 list (dll_insert_front list x h) ∧
    SizeStep 1 list (dll_insert_rear list x h) ∧
    SizeStep 1 list (dll_insert_at list i x h) ∧
    SizeStep 1 list (dll_insert_sorted fuel list x h) ∧
    SizeStep (-1) list (dll_delete_front list h) ∧
    SizeStep (-1) list (dll_delete_rear list h) ∧
    SizeStep (-1) list (dll_delete_at list i h) ∧
    SizeStep (-1) list (dll_delete_data fuel list x h) ∧
    SizeStep (-1) list (dll_delete_node list none h) ∧
    (∀ l e, forward_nodes list h = some l → e ∈ l →
      SizeStep (-1) list (dll_delete_node list (some e.1) h)) ∧
    SizeStep 0 list (dll_reverse fuel list h) ∧
    SizeStep 0 list (dll_sort fuel list h) ∧
    SizeStep 0 list (dll_sort_with fuel list c h) ∧
    (∃ v, dll_search fuel list x h = some v) ∧
    (∃ v, dll_get_at list i h = some v) ∧
    (∃ v, dll_index_of fuel list (some x) h = some v) := by
  obtain ⟨l, hl⟩ := hwf.isList
  have hlen : l.length ≤ fuel := by
    have := hl.size_eq
    omega
  have hsort : ∀ cmp : α → α → Int, SizeStep 0 list (sort_body fuel cmp list h) := by
    intro cmp
    obtain ⟨list', h', hrun, -, hsize⟩ := sort_body_isList cmp hl fuel hlen
    exact SizeStep.of_success hrun (by rw [hsize]; ring)
  refine ⟨?_, ?_, ?_, ?_, ?_, ?_, ?_, ?_, ?_, ?_, ?_, ?_, ?_, ?_, ?_, ?_⟩
  · by_cases hroom : h.cells.length < h.limit
    · obtain ⟨list', h', hrun, hl', -⟩ := dll_insert_front_spec hl x hroom
      exact SizeStep.of_success hrun (size_of_isList_cons hl hl' 1 (by simp))
    · exact SizeStep.of_failure (dll_insert_full list x h hroom).1 (by decide)
  · by_cases hroom : h.cells.length < h.limit
    · obtain ⟨list', h', hrun, hl', -⟩ := dll_insert_rear_spec hl x hroom
      exact SizeStep.of_success hrun (size_of_isList_cons hl hl' 1 (by simp))
    · exact SizeStep.of_failure (dll_insert_full list x h hroom).2 (by decide)
  · by_cases hi : i < 0 ∨ i > list.size
    · exact SizeStep.of_failure (dll_insert_at_invalid list h i x hi) (by decide)
    · by_cases hroom : h.cells.length < h.limit
      · obtain ⟨list', h', hrun, hl', -⟩ :=
          dll_insert_at_spec hl i x (by omega) (by omega) hroom
        refine SizeStep.of_success hrun (size_of_isList_cons hl hl' 1 ?_)
        have := hl.size_eq
        simp
        omega
      · exact SizeStep.of_failure
          (dll_insert_at_full list i x h (by omega) (by omega) hroom) (by decide)
  · cases hcmp : list.compare with
    | none =>
      exact SizeStep.of_failure (dll_insert_sorted_no_compare list h x fuel hcmp) (by decide)
    | some cmp =>
      by_cases hroom : h.cells.length < h.limit
      · obtain ⟨list', h', hrun, hl', -⟩ := dll_insert_sorted_spec cmp hl hcmp x hroom fuel hlen
        refine SizeStep.of_success hrun (size_of_isList_cons hl hl' 1 ?_)
        have e : (l.takeWhile fun e => decide (cmp x e.2 > 0)).length +
            (l.dropWhile fun e => decide (cmp x e.2 > 0)).length = l.length := by
          rw [← List.length_append, List.takeWhile_append_dropWhile]
        simp only [List.length_append, List.length_cons]
        push_cast
        omega
      · exact SizeStep.of_failure
          (dll_insert_sorted_full cmp hl hcmp x hroom fuel hlen) (by decide)
  · cases l with
    | nil =>
      exact SizeStep.of_failure (dll_delete_empty list h (hl.size_eq_zero.2 rfl)).1 (by decide)
    | cons q l =>
      obtain ⟨a, y⟩ := q
      obtain ⟨list', h', hrun, hl', -⟩ := dll_delete_front_spec hl
      exact SizeStep.of_success hrun (size_of_isList_cons hl hl' (-1) (by simp))
  · rcases nil_or_snoc l with rfl | ⟨l0, ⟨a, y⟩, rfl⟩
    · exact SizeStep.of_failure (dll_delete_empty list h (hl.size_eq_zero.2 rfl)).2 (by decide)
    · obtain ⟨list', h', hrun, hl', -⟩ := dll_delete_rear_spec hl
      exact SizeStep.of_success hrun (size_of_isList_cons hl hl' (-1) (by simp))
  · by_cases hi : i < 0 ∨ i ≥ list.size
    · exact SizeStep.of_failure (dll_delete_at_invalid list h i hi) (by decide)
    · obtain ⟨list', h', hrun, hl', -⟩ := dll_delete_at_spec hl i (by omega) (by omega)
      refine SizeStep.of_success hrun (size_of_isList_cons hl hl' (-1) ?_)
      have := hl.size_eq
      simp
      omega
  · cases hcmp : list.compare with
    | none =>
      exact SizeStep.of_failure (dll_delete_data_no_compare list h x fuel hcmp) (by decide)
    | some cmp =>
      by_cases hex : ∃ e ∈ l, cmp e.2 x = 0
      · obtain ⟨l1, ⟨a, y⟩, l2, rfl, hyes, hno⟩ := exists_first (fun e => cmp e.2 x = 0) l hex
        have hf : l1.length < fuel := by
          simp at hlen
          omega
        obtain ⟨list', h', hrun, hl', -⟩ :=
          dll_delete_data_found cmp x hl hcmp hno hyes fuel hf
        refine SizeStep.of_success hrun (size_of_isList_cons hl hl' (-1) ?_)
        simp
        omega
      · have hno : ∀ e ∈ l, cmp e.2 x ≠ 0 := fun e he hc => hex ⟨e, he, hc⟩
        exact SizeStep.of_failure (dll_delete_data_none cmp x hl hcmp hno fuel hlen) (by decide)
  · exact SizeStep.of_failure (show dll_delete_node list none h = _ from rfl) (by decide)
  · intro l0 e hfw he
    have hl0 : l0 = l := by
      have := hl.forward_nodes_eq
      rw [this] at hfw
      exact (Option.some.inj hfw).symm
    subst hl0
    obtain ⟨l1, l2, rfl⟩ := List.append_of_mem he
    obtain ⟨a, y⟩ := e
    obtain ⟨list', h', hrun, hl', -⟩ := dll_delete_node_spec hl
    refine SizeStep.of_success hrun (size_of_isList_cons hl hl' (-1) ?_)
    simp
    omega
  · by_cases hsmall : list.size ≤ 1
    · exact SizeStep.of_success (show dll_reverse fuel list h = some (LMS_SUCCESS, list, h) by
        simp [dll_reverse, hsmall]) (by ring)
    · have h2 : 2 ≤ l.length := by
        have := hl.size_eq
        omega
      obtain ⟨h', hrun, -⟩ := dll_reverse_spec hl h2 fuel hlen
      exact SizeStep.of_success hrun (by simp)
  · cases hcmp : list.compare with
    | none =>
      exact SizeStep.of_failure (show dll_sort fuel list h = some (LMS_ERROR_NULL_POINTER, list, h) by
        simp [dll_sort, hcmp]) (by decide)
    | some cmp =>
      have : dll_sort fuel list h = sort_body fuel cmp list h := by simp [dll_sort, hcmp]
      rw [this]
      exact hsort cmp
  · cases c with
    | none =>
      exact SizeStep.of_failure
        (show dll_sort_with fuel list none h = some (LMS_ERROR_NULL_POINTER, list, h) from rfl)
        (by decide)
    | some cmp => exact hsort cmp
  · exact dll_search_returns hl x fuel hlen
  · by_cases hi : i < 0 ∨ i ≥ list.size
    · exact ⟨_, (dll_get_at_invalid list h i hi).2⟩
    · exact ⟨_, dll_get_at_spec hl i (by omega) (by omega)⟩
  · exact dll_index_of_returns hl (some x) fuel hlen

/-- Witness of C17 on the list 10, 20, 30, 40, 50 with record 25 and index 2, and the
result code and `size` of each run: 6 after the inserts, 4 after the deletes, 5 after
a refused insert, a delete that finds nothing, `dll_reverse` and `dll_sort`. -/
theorem dll_size_steps_witness :
    (WellFormed list_10_to_50 heap_10_to_50 ∧ list_10_to_50.size ≤ (5 : Nat)) ∧
    (SizeStep 1 list_10_to_50 (dll_insert_front list_10_to_50 25 heap_10_to_50) ∧
    SizeStep 1 list_10_to_50 (dll_insert_rear list_10_to_50 25 heap_10_to_50) ∧
    SizeStep 1 list_10_to_50 (dll_insert_at list_10_to_50 2 25 heap_10_to_50) ∧
    SizeStep 1 list_10_to_50 (dll_insert_sorted 5 list_10_to_50 25 heap_10_to_50) ∧
    SizeStep (-1) list_10_to_50 (dll_delete_front list_10_to_50 heap_10_to_50) ∧
    SizeStep (-1) list_10_to_50 (dll_delete_rear list_10_to_50 heap_10_to_50) ∧
    SizeStep (-1) list_10_to_50 (dll_delete_at list_10_to_50 2 heap_10_to_50) ∧
    SizeStep (-1) list_10_to_50 (dll_delete_data 5 list_10_to_50 25 heap_10_to_50) ∧
    SizeStep (-1) list_10_to_50 (dll_delete_node list_10_to_50 none heap_10_to_50) ∧
    (∀ l e, forward_nodes list_10_to_50 heap_10_to_50 = some l → e ∈ l →
      SizeStep (-1) list_10_to_50 (dll_delete_node list_10_to_50 (some e.1) heap_10_to_50)) ∧
    SizeStep 0 list_10_to_50 (dll_reverse 5 list_10_to_50 heap_10_to_50) ∧
    SizeStep 0 list_10_to_50 (dll_sort 5 list_10_to_50 heap_10_to_50) ∧
    SizeStep 0 list_10_to_50
      (dll_sort_with 5 list_10_to_50 (some compare_int) heap_10_to_50) ∧
    (∃ v, dll_search 5 list_10_to_50 25 heap_10_to_50 = some v) ∧
    (∃ v, dll_get_at list_10_to_50 2 heap_10_to_50 = some v) ∧
    (∃ v, dll_index_of 5 list_10_to_50 (some 25) heap_10_to_50 = some v)) ∧
    list_10_to_50.size = 5 ∧
    observe_size (dll_insert_front list_10_to_50 25 heap_10_to_50) = some (LMS_SUCCESS, 6) ∧
    observe_size (dll_insert_rear list_10_to_50 25 heap_10_to_50) = some (LMS_SUCCESS, 6) ∧
    observe_size (dll_insert_at list_10_to_50 2 25 heap_10_to_50) = some (LMS_SUCCESS, 6) ∧
    observe_size (dll_insert_at list_10_to_50 7 25 heap_10_to_50) =
      some (LMS_ERROR_INVALID_INPUT, 5) ∧
    observe_size (dll_insert_sorted 5 list_10_to_50 25 heap_10_to_50) =
      some (LMS_SUCCESS, 6) ∧
    observe_size (dll_insert_sorted 5 list_10_to_50 25 { heap_10_to_50 with limit := 5 }) =
      some (LMS_ERROR_MEMORY, 5) ∧
    observe_size (dll_delete_front list_10_to_50 heap_10_to_50) = some (LMS_SUCCESS, 4) ∧
    observe_size (dll_delete_rear list_10_to_50 heap_10_to_50) = some (LMS_SUCCESS, 4) ∧
    observe_size (dll_delete_at list_10_to_50 2 heap_10_to_50) = some (LMS_SUCCESS, 4) ∧
    observe_size (dll_delete_data 5 list_10_to_50 30 heap_10_to_50) = some (LMS_SUCCESS, 4) ∧
    observe_size (dll_delete_data 5 list_10_to_50 25 heap_10_to_50) =
      some (LMS_ERROR_NOT_FOUND, 5) ∧
    observe_size (dll_delete_node list_10_to_50 (some 3) heap_10_to_50) =
      some (LMS_SUCCESS, 4) ∧
    observe_size (dll_reverse 5 list_10_to_50 heap_10_to_50) = some (LMS_SUCCESS, 5) ∧
    observe_size (dll_sort 5 list_10_to_50 heap_10_to_50) = some (LMS_SUCCESS, 5) :=
  ⟨⟨wellFormed_list_10_to_50, by decide⟩,
    dll_size_steps list_10_to_50 heap_10_to_50 25 2 (some compare_int) 5
      wellFormed_list_10_to_50 (by decide),
    by rfl, by rfl, by rfl, by rfl, by rfl, by rfl, by rfl, by rfl, by rfl, by rfl, by rfl,
    by rfl, by rfl, by rfl, by rfl⟩


/-- Function `dll_insert_rear` writes the fresh node and the old tail only. -/
theorem dll_insert_rear_frame {list : DoublyLinkedList α} {h : Heap α} {l : List (Nat × α)}
    (hl : IsList list h l) (x : α) (hroom : h.cells.length < h.limit)
    {r : LMS_Result} {list' : DoublyLinkedList α} {h' : Heap α}
    (hrun : dll_insert_rear list x h = some (r, list', h')) :
    ∀ q, q ∉ l.map Prod.fst → q ≠ h.cells.length → h'.read q = h.read q := by
  obtain ⟨h1, hc, hr1, hlen1, hlim1⟩ := node_create_spec x h hroom
  have hfresh := hl.fresh
  rcases nil_or_snoc l with rfl | ⟨l0, ⟨t, w⟩, rfl⟩
  · have hsize : list.size = 0 := hl.size_eq_zero.2 rfl
    have hrun1 : dll_insert_rear list x h = some (LMS_SUCCESS,
        { list with head := some h.cells.length, tail := some h.cells.length,
                    size := list.size + 1 }, h1) := by
      simp [dll_insert_rear, hc, hsize]
    rw [hrun1] at hrun
    simp only [Option.some.injEq, Prod.mk.injEq] at hrun
    obtain ⟨-, -, rfl⟩ := hrun
    intro q _ hq
    rw [hr1]; simp [hq]
  · have hsize : list.size ≠ 0 := fun e => by simpa using hl.size_eq_zero.1 e
    have htail : list.tail = some t := by rw [hl.tail_eq, lastAddr_concat]
    have hnew : h1.read h.cells.length = some ⟨x, none, none⟩ := by rw [hr1]; simp
    obtain ⟨h2, hs2, hr2, hlen2, hlim2⟩ := Heap.set_prev_spec (some t) hnew
    have hta : t ≠ h.cells.length := fun e => hfresh (by simp [e])
    have hlink := hl.linked
    have htn : h.read t = some ⟨w, lastAddr l0 none, none⟩ :=
      ((Linked_append h none l0 [(t, w)] none).1 hlink).2.1
    have hrt : h2.read t = some ⟨w, lastAddr l0 none, none⟩ := by
      rw [hr2, hr1]; simp [hta]; exact htn
    obtain ⟨h3, hs3, hr3, hlen3, hlim3⟩ := Heap.set_next_spec (some h.cells.length) hrt
    have hrun1 : dll_insert_rear list x h = some (LMS_SUCCESS,
        { list with tail := some h.cells.length, size := list.size + 1 }, h3) := by
      simp [dll_insert_rear, hc, hsize, htail, hs2, hs3]
    rw [hrun1] at hrun
    simp only [Option.some.injEq, Prod.mk.injEq] at hrun
    obtain ⟨-, -, rfl⟩ := hrun
    intro q hq hqa
    have hqt : q ≠ t := fun e => hq (by simp [e])
    rw [hr3, hr2, hr1]
    simp [hqt, hqa]

theorem IsList.congr {list : DoublyLinkedList α} {h h' : Heap α} {l : List (Nat × α)}
    (hl : IsList list h l) (hsame : ∀ a ∈ l.map Prod.fst, h'.read a = h.read a) :
    IsList list h' l :=
  ⟨Linked_congr hsame hl.linked, hl.head_eq, hl.tail_eq, hl.size_eq, hl.nodup⟩

/-- The loop of `dll_clone` with room for every remaining record: the records of `l2`
are appended to the clone `c` in order, in fresh nodes, and no node below `n0` is
written. -/
theorem clone_loop_spec (dfuel n0 : Nat) :
    ∀ (l2 : List (Nat × α)) (fuel : Nat) (clone : DoublyLinkedList α) (h : Heap α)
      (c : List (Nat × α)),
      NSeg h l2 none → (∀ a ∈ l2.map Prod.fst, a < n0) → IsList clone h c →
      (∀ a ∈ c.map Prod.fst, n0 ≤ a) → n0 ≤ h.cells.length →
      h.cells.length + l2.length ≤ h.limit → l2.length ≤ fuel →
      ∃ clone' h' c', clone_loop dfuel fuel (headAddr l2 none) clone h =
          some (some clone', h') ∧
        IsList clone' h' c' ∧ c'.map Prod.snd = c.map Prod.snd ++ l2.map Prod.snd ∧
        (∀ a ∈ c'.map Prod.fst, n0 ≤ a) ∧ SameHooks clone clone' ∧
        (∀ q, q < n0 → h'.read q = h.read q) ∧
        h'.cells.length = h.cells.length + l2.length ∧ h'.limit = h.limit := by
  intro l2
  induction l2 with
  | nil =>
    intro fuel clone h c _ _ hc hge _ _ _
    refine ⟨clone, h, c, ?_, hc, by simp, hge, SameHooks.refl clone, fun _ _ => rfl, rfl, rfl⟩
    cases fuel <;> rfl
  | cons e l2 ih =>
    obtain ⟨a, x⟩ := e
    intro fuel clone h c hseg hlt hc hge hn0 hroom hfuel
    cases fuel with
    | zero => simp at hfuel
    | succ fuel =>
      obtain ⟨⟨pv, hra⟩, hseg2⟩ := hseg
      have hroom1 : h.cells.length < h.limit := by
        simp at hroom
        omega
      obtain ⟨clone1, h1, hrun, hc1, hhooks, hlen1, hlim1⟩ := dll_insert_rear_spec hc x hroom1
      have hframe := dll_insert_rear_frame hc x hroom1 hrun
      have hsame : ∀ q, q < n0 → h1.read q = h.read q := by
        intro q hq
        refine hframe q ?_ (by omega)
        intro hmem
        have := hge q hmem
        omega
      have han0 : a < n0 := hlt a (by simp)
      have hra1 : h1.read a = some ⟨x, pv, headAddr l2 none⟩ := by rw [hsame a han0, hra]
      have hseg1 : NSeg h1 l2 none :=
        NSeg_congr (fun q hq => hsame q (hlt q (by simp [hq]))) hseg2
      have hge1 : ∀ q ∈ (c ++ [(h.cells.length, x)]).map Prod.fst, n0 ≤ q := by
        intro q hq
        simp only [List.map_append, List.map_cons, List.map_nil, List.mem_append,
          List.mem_singleton] at hq
        rcases hq with hq | rfl
        · exact hge q hq
        · exact hn0
      obtain ⟨clone', h', c', hloop, hc', hmap, hge', hhooks', hsame', hlen', hlim'⟩ :=
        ih fuel clone1 h1 (c ++ [(h.cells.length, x)]) hseg1
          (fun q hq => hlt q (by simp [hq])) hc1 hge1 (by omega)
          (by simp at hroom ⊢; omega) (by simp at hfuel; omega)
      refine ⟨clone', h', c', ?_, hc', ?_, hge', SameHooks.trans hhooks hhooks', ?_, ?_, ?_⟩
      · show clone_loop dfuel (fuel + 1) (some a) clone h = _
        simp only [clone_loop, hra, hrun, hra1, Option.bind_eq_bind, Option.some_bind]
        simpa using hloop
      · rw [hmap]; simp
      · intro q hq
        rw [hsame' q hq, hsame q hq]
      · rw [hlen', hlen1]
        simp
        omega
      · rw [hlim', hlim1]


/-- C18: for a well-formed list, with fuel for one loop turn per node and room in
memory for one node per record, `dll_clone` returns a list that is well formed, has
the `size`, the comparator and the hooks of the original, and whose forward sequence
of records is that of the original, in the same order. The clone is made of new
nodes only, every node that existed before the call reads as before, and the original
is still well formed with the same nodes in both directions. -/
theorem dll_clone_forward (list : DoublyLinkedList α) (h : Heap α) (fuel : Nat)
    (hwf : WellFormed list h) (hfuel : list.size ≤ fuel)
    (hroom : (h.cells.length : Int) + list.size ≤ h.limit) :
    ∃ clone h' s, dll_clone fuel list h = some (some clone, h') ∧
      WellFormed clone h' ∧ clone.size = list.size ∧ SameHooks list clone ∧
      forward_seq list h = some s ∧ forward_seq clone h' = some s ∧
      (∀ c, forward_nodes clone h' = some c → ∀ a ∈ c.map Prod.fst, h.cells.length ≤ a) ∧
      (∀ q, q < h.cells.length → h'.read q = h.read q) ∧
      WellFormed list h' ∧ forward_nodes list h' = forward_nodes list h ∧
      backward_nodes list h' = backward_nodes list h ∧
      forward_seq list h' = some s := by
  obtain ⟨l, hl⟩ := hwf.isList
  have hsz := hl.size_eq
  have hc0 : IsList ({ dll_create list.compare list.print with
      free_data := list.free_data, copy_data := list.copy_data } : DoublyLinkedList α) h [] :=
    ⟨trivial, rfl, rfl, rfl, by simp⟩
  obtain ⟨clone, h', c, hrun, hc, hmap, hge, hhooks, hsame, hlen, hlim⟩ :=
    clone_loop_spec fuel h.cells.length l fuel _ h [] hl.nseg
      (fun a ha => hl.addr_lt ha) hc0 (by simp) (le_refl _) (by omega) (by omega)
  rw [← hl.head_eq] at hrun
  have hl' : IsList list h' l := hl.congr (fun a ha => hsame a (hl.addr_lt ha))
  have hfs : forward_seq list h = some (l.map Prod.snd) := by
    simp [forward_seq, hl.forward_nodes_eq]
  refine ⟨clone, h', l.map Prod.snd, hrun, hc.wellFormed, ?_, ?_, hfs, ?_, ?_, hsame,
    hl'.wellFormed, ?_, ?_, ?_⟩
  · rw [hc.size_eq, hsz]
    have := congrArg List.length hmap
    simp at this
    rw [this]
  · obtain ⟨h1, h2, h3, h4⟩ := hhooks
    exact ⟨h1, h2, h3, h4⟩
  · simp [forward_seq, hc.forward_nodes_eq, hmap]
  · intro c1 hc1 a ha
    rw [hc.forward_nodes_eq] at hc1
    obtain rfl := Option.some.inj hc1
    exact hge a ha
  · rw [hl'.forward_nodes_eq, hl.forward_nodes_eq]
  · rw [hl'.backward_nodes_eq, hl.backward_nodes_eq]
  · simp [forward_seq, hl'.forward_nodes_eq]

/-- Witness of C18: the clone of 10, 20, 30, 40, 50 in a heap with room for 16 nodes
is made of the nodes 5 to 9, holds 10, 20, 30, 40, 50 forwards and 50, 40, 30, 20, 10
backwards, and the original still reads 10, 20, 30, 40, 50. -/
theorem dll_clone_forward_witness :
    (WellFormed list_10_to_50 heap_10_to_50 ∧ list_10_to_50.size ≤ (5 : Nat) ∧
      (heap_10_to_50.cells.length : Int) + list_10_to_50.size ≤ heap_10_to_50.limit) ∧
    (∃ clone h' s, dll_clone 5 list_10_to_50 heap_10_to_50 = some (some clone, h') ∧
      WellFormed clone h' ∧ clone.size = list_10_to_50.size ∧
      SameHooks list_10_to_50 clone ∧
      forward_seq list_10_to_50 heap_10_to_50 = some s ∧ forward_seq clone h' = some s ∧
      (∀ c, forward_nodes clone h' = some c →
        ∀ a ∈ c.map Prod.fst, heap_10_to_50.cells.length ≤ a) ∧
      (∀ q, q < heap_10_to_50.cells.length → h'.read q = heap_10_to_50.read q) ∧
      WellFormed list_10_to_50 h' ∧
      forward_nodes list_10_to_50 h' = forward_nodes list_10_to_50 heap_10_to_50 ∧
      backward_nodes list_10_to_50 h' = backward_nodes list_10_to_50 heap_10_to_50 ∧
      forward_seq list_10_to_50 h' = some s) ∧
    observe_clone list_10_to_50 (dll_clone 5 list_10_to_50 heap_10_to_50) =
      some (some (some 5, some 9, 5, some [10, 20, 30, 40, 50], some [50, 40, 30, 20, 10]),
        some [10, 20, 30, 40, 50]) :=
  ⟨⟨wellFormed_list_10_to_50, by decide, by decide⟩,
    dll_clone_forward list_10_to_50 heap_10_to_50 5 wellFormed_list_10_to_50
      (by decide) (by decide),
    by rfl⟩


/-- C21: for every list, heap and record, `dll_insert_at` with `index < 0` or
`index > size` returns `LMS_ERROR_INVALID_INPUT` and hands back the container and the
heap as they were: no node is created, `size` and the forward sequence are as before. -/
theorem dll_insert_at_out_of_range (list : DoublyLinkedList α) (h : Heap α) (i : Int) (x : α)
    (hi : i < 0 ∨ i > list.size) :
    ∃ list' h', dll_insert_at list i x h = some (LMS_ERROR_INVALID_INPUT, list', h') ∧
      list' = list ∧ h' = h ∧ list'.size = list.size ∧ h'.cells = h.cells ∧
      forward_seq list' h' = forward_seq list h :=
  ⟨list, h, dll_insert_at_invalid list h i x hi, rfl, rfl, rfl, rfl, rfl⟩

/-- Witness of C21 on the list 10, 20, 30 with index 4, and the run with index -1. -/
theorem dll_insert_at_out_of_range_witness :
    ((4 : Int) < 0 ∨ (4 : Int) > list_10_20_30.size) ∧
    (∃ list' h', dll_insert_at list_10_20_30 4 25 heap_10_20_30 =
        some (LMS_ERROR_INVALID_INPUT, list', h') ∧
      list' = list_10_20_30 ∧ h' = heap_10_20_30 ∧ list'.size = list_10_20_30.size ∧
      h'.cells = heap_10_20_30.cells ∧
      forward_seq list' h' = forward_seq list_10_20_30 heap_10_20_30) ∧
    observe (dll_insert_at list_10_20_30 4 25 heap_10_20_30) =
      some (LMS_ERROR_INVALID_INPUT, some 0, some 2, 3, some [10, 20, 30], some [30, 20, 10]) ∧
    observe (dll_insert_at list_10_20_30 (-1) 25 heap_10_20_30) =
      some (LMS_ERROR_INVALID_INPUT, some 0, some 2, 3, some [10, 20, 30], some [30, 20, 10]) ∧
    observe (dll_insert_at list_10_20_30 3 25 heap_10_20_30) =
      some (LMS_SUCCESS, some 0, some 3, 4, some [10, 20, 30, 25], some [25, 30, 20, 10]) :=
  ⟨by decide, dll_insert_at_out_of_range list_10_20_30 heap_10_20_30 4 25 (by decide),
    by rfl, by rfl, by rfl⟩

/-- C22: `dll_sort` on a list without comparator and `dll_sort_with` called with a
`NULL` comparator return `LMS_ERROR_NULL_POINTER`, a result other than `LMS_SUCCESS`,
and hand back the container and the heap as they were, whatever the size of the list.
With a comparator, on a list of `size <= 1` both return `LMS_SUCCESS` and hand back the
container and the heap as they were. -/
theorem dll_sort_refused_or_small (list : DoublyLinkedList α) (h : Heap α) (fuel : Nat) :
    (list.compare = none →
      dll_sort fuel list h = some (LMS_ERROR_NULL_POINTER, list, h)) ∧
    dll_sort_with fuel list none h = some (LMS_ERROR_NULL_POINTER, list, h) ∧
    LMS_ERROR_NULL_POINTER ≠ LMS_SUCCESS ∧
    (list.size ≤ 1 →
      (∀ cmp, list.compare = some cmp → dll_sort fuel list h = some (LMS_SUCCESS, list, h)) ∧
      (∀ cmp, dll_sort_with fuel list (some cmp) h = some (LMS_SUCCESS, list, h))) := by
  refine ⟨fun hcmp => by simp [dll_sort, hcmp], rfl, by decide, fun hsize => ⟨?_, ?_⟩⟩
  · intro cmp hcmp
    have : dll_sort fuel list h = sort_body fuel cmp list h := by simp [dll_sort, hcmp]
    rw [this]
    exact sort_body_small list h cmp fuel hsize
  · intro cmp
    exact sort_body_small list h cmp fuel hsize

/-- Witness of C22: the list 10, 20, 30 without comparator is refused and left as it
was by `dll_sort` and by `dll_sort_with` without comparator; the empty list with a
comparator is sorted with `LMS_SUCCESS`. -/
theorem dll_sort_refused_or_small_witness :
    observe (dll_sort 3 list_10_20_30_plain heap_10_20_30) =
      some (LMS_ERROR_NULL_POINTER, some 0, some 2, 3, some [10, 20, 30], some [30, 20, 10]) ∧
    observe (dll_sort_with 3 list_10_20_30 none heap_10_20_30) =
      some (LMS_ERROR_NULL_POINTER, some 0, some 2, 3, some [10, 20, 30], some [30, 20, 10]) ∧
    observe (dll_sort 0 list_empty heap_empty) =
      some (LMS_SUCCESS, none, none, 0, some [], some []) ∧
    observe (dll_sort_with 0 list_empty (some compare_int) heap_empty) =
      some (LMS_SUCCESS, none, none, 0, some [], some []) ∧
    ((list_empty.compare = none →
      dll_sort 0 list_empty heap_empty = some (LMS_ERROR_NULL_POINTER, list_empty, heap_empty)) ∧
    dll_sort_with 0 list_empty none heap_empty =
      some (LMS_ERROR_NULL_POINTER, list_empty, heap_empty) ∧
    LMS_ERROR_NULL_POINTER ≠ LMS_SUCCESS ∧
    (list_empty.size ≤ 1 →
      (∀ cmp, list_empty.compare = some cmp →
        dll_sort 0 list_empty heap_empty = some (LMS_SUCCESS, list_empty, heap_empty)) ∧
      (∀ cmp, dll_sort_with 0 list_empty (some cmp) heap_empty =
        some (LMS_SUCCESS, list_empty, heap_empty)))) :=
  ⟨by rfl, by rfl, by rfl, by rfl, dll_sort_refused_or_small list_empty heap_empty 0⟩

/-- An exhausted iterator answers `NULL` to every call of `iterator_next` and stays as
it is. -/
theorem iterator_next_calls_exhausted (h : Heap α) (iter : Iterator)
    (hex : iterator_has_next iter = false) (n : Nat) :
    iterator_next_calls h n iter = some (List.replicate n none, iter) := by
  have hcur : iter.current = none := by
    cases hc : iter.current with
    | none => rfl
    | some p => simp [iterator_has_next, hc] at hex
  induction n with
  | zero => rfl
  | succ n ih =>
    simp [iterator_next_calls, iterator_next, hcur, ih, List.replicate_succ]

/-- C23: once `iterator_has_next` is false, each of any number of further calls of
`iterator_next` returns `NULL` and leaves the iterator, cursor included, as it was, so
`iterator_has_next` stays false; `iterator_current` returns `NULL` too.
`iterator_reset` puts the cursor on `head` for a forward iterator (`direction == 1`)
and on `tail` for a reverse one, keeps the direction, and the iterator is active again
exactly when that end of the list is a node. -/
theorem iterator_exhausted_stays (h : Heap α) (list : DoublyLinkedList α) (iter : Iterator)
    (hex : iterator_has_next iter = false) :
    iterator_next iter h = some (none, iter) ∧
    (∀ n, iterator_next_calls h n iter = some (List.replicate n none, iter)) ∧
    iterator_current iter h = some none ∧
    (iterator_reset iter list).direction = iter.direction ∧
    (iter.direction = 1 → (iterator_reset iter list).current = list.head ∧
      (iterator_has_next (iterator_reset iter list) = true ↔ list.head ≠ none)) ∧
    (iter.direction ≠ 1 → (iterator_reset iter list).current = list.tail ∧
      (iterator_has_next (iterator_reset iter list) = true ↔ list.tail ≠ none)) := by
  have hcur : iter.current = none := by
    cases hc : iter.current with
    | none => rfl
    | some p => simp [iterator_has_next, hc] at hex
  refine ⟨by simp [iterator_next, hcur], iterator_next_calls_exhausted h iter hex,
    by simp [iterator_current, hcur], ?_, ?_, ?_⟩
  · unfold iterator_reset
    split <;> rfl
  · intro hd
    simp [iterator_reset, hd, iterator_has_next, Option.isSome_iff_ne_none]
  · intro hd
    simp [iterator_reset, hd, iterator_has_next, Option.isSome_iff_ne_none]

/-- Witness of C23 on the forward iterator of 10, 20, 30, 40, 50 after the draining
loop: three more calls of `iterator_next` return `NULL`, `iterator_reset` puts the
cursor back on node 0, the head; for the drained reverse iterator on node 4, the
tail. -/
theorem iterator_exhausted_stays_witness :
    iterator_has_next ({ current := none, direction := 1 } : Iterator) = false ∧
    (iterator_next ({ current := none, direction := 1 } : Iterator) heap_10_to_50 =
        some (none, { current := none, direction := 1 }) ∧
      (∀ n, iterator_next_calls heap_10_to_50 n { current := none, direction := 1 } =
        some (List.replicate n none, { current := none, direction := 1 })) ∧
      iterator_current { current := none, direction := 1 } heap_10_to_50 = some none ∧
      (iterator_reset { current := none, direction := 1 } list_10_to_50).direction =
        ({ current := none, direction := 1 } : Iterator).direction ∧
      (({ current := none, direction := 1 } : Iterator).direction = 1 →
        (iterator_reset { current := none, direction := 1 } list_10_to_50).current =
          list_10_to_50.head ∧
        (iterator_has_next (iterator_reset { current := none, direction := 1 } list_10_to_50)
          = true ↔ list_10_to_50.head ≠ none)) ∧
      (({ current := none, direction := 1 } : Iterator).direction ≠ 1 →
        (iterator_reset { current := none, direction := 1 } list_10_to_50).current =
          list_10_to_50.tail ∧
        (iterator_has_next (iterator_reset { current := none, direction := 1 } list_10_to_50)
          = true ↔ list_10_to_50.tail ≠ none))) ∧
    (iterator_drain heap_10_to_50 5 (dll_iterator_create list_10_to_50)).map Prod.snd =
      some { current := none, direction := 1 } ∧
    iterator_next_calls heap_10_to_50 3 { current := none, direction := 1 } =
      some ([none, none, none], { current := none, direction := 1 }) ∧
    iterator_reset { current := none, direction := 1 } list_10_to_50 =
      { current := some 0, direction := 1 } ∧
    (iterator_drain heap_10_to_50 5 (dll_reverse_iterator_create list_10_to_50)).map Prod.snd =
      some { current := none, direction := -1 } ∧
    iterator_reset { current := none, direction := -1 } list_10_to_50 =
      { current := some 4, direction := -1 } ∧
    (iterator_next_calls heap_10_to_50 2
        (iterator_reset { current := none, direction := -1 } list_10_to_50)).map Prod.fst =
      some [some 50, some 40] :=
  ⟨rfl, iterator_exhausted_stays heap_10_to_50 list_10_to_50
      { current := none, direction := 1 } rfl,
    by rfl, by rfl, by rfl, by rfl, by rfl, by rfl⟩

theorem char_code_digits : char_code '0' = 48 ∧ char_code '9' = 57 ∧ char_code '-' = 45 :=
  ⟨rfl, rfl, rfl⟩

theorem length_eq_13 (s : List Char) (hlen : s.length = 13) :
    ∃ c0 c1 c2 c3 c4 c5 c6 c7 c8 c9 c10 c11 c12,
      s = [c0, c1, c2, c3, c4, c5, c6, c7, c8, c9, c10, c11, c12] := by
  match s, hlen with
  | [c0, c1, c2, c3, c4, c5, c6, c7, c8, c9, c10, c11, c12], _ =>
    exact ⟨c0, c1, c2, c3, c4, c5, c6, c7, c8, c9, c10, c11, c12, rfl⟩

theorem validate_isbn_13 (c0 c1 c2 c3 c4 c5 c6 c7 c8 c9 c10 c11 c12 : Char) :
    validate_isbn [c0, c1, c2, c3, c4, c5, c6, c7, c8, c9, c10, c11, c12] = true ↔
      (∀ c ∈ [c0, c1, c2, c3, c4, c5, c6, c7, c8, c9, c10, c11, c12], is_decimal_digit c = true) ∧
      isbn13_weighted_sum [c0, c1, c2, c3, c4, c5, c6, c7, c8, c9, c10, c11, c12] % 10 = 0 := by
  simp only [validate_isbn, isbn13_weighted_sum, is_decimal_digit, char_code_digits.1,
    char_code_digits.2.1, List.range_succ, List.range_zero, List.nil_append, List.cons_append,
    List.any_cons, List.any_nil, List.foldl_cons, List.foldl_nil, char_at, char_code,
    List.length_cons, List.length_nil, List.getElem?_cons_succ, List.getElem?_cons_zero,
    List.mem_cons, List.mem_singleton, forall_eq_or_imp, forall_eq]
  simp only [Nat.reduceAdd, ne_eq, not_true_eq_false, if_false, Bool.or_false,
    Bool.or_eq_true, decide_eq_true_eq, Nat.reduceMod, Nat.zero_mod, if_true,
    Nat.succ_ne_zero, List.not_mem_nil, false_implies, and_true, zero_add, OfNat.ofNat_ne_zero,
    one_ne_zero, not_false_eq_true, imp_self, Bool.false_eq_true, Nat.one_ne_zero]
  have h0 : '0'.toNat = 48 := rfl
  have h9 : '9'.toNat = 57 := rfl
  simp only [h0, h9, Nat.cast_ofNat]
  generalize c0.toNat = n0
  generalize c1.toNat = n1
  generalize c2.toNat = n2
  generalize c3.toNat = n3
  generalize c4.toNat = n4
  generalize c5.toNat = n5
  generalize c6.toNat = n6
  generalize c7.toNat = n7
  generalize c8.toNat = n8
  generalize c9.toNat = n9
  generalize c10.toNat = n10
  generalize c11.toNat = n11
  generalize c12.toNat = n12
  by_cases hd : (48 ≤ n0 ∧ n0 ≤ 57) ∧ (48 ≤ n1 ∧ n1 ≤ 57) ∧ (48 ≤ n2 ∧ n2 ≤ 57) ∧
      (48 ≤ n3 ∧ n3 ≤ 57) ∧ (48 ≤ n4 ∧ n4 ≤ 57) ∧ (48 ≤ n5 ∧ n5 ≤ 57) ∧
      (48 ≤ n6 ∧ n6 ≤ 57) ∧ (48 ≤ n7 ∧ n7 ≤ 57) ∧ (48 ≤ n8 ∧ n8 ≤ 57) ∧
      (48 ≤ n9 ∧ n9 ≤ 57) ∧ (48 ≤ n10 ∧ n10 ≤ 57) ∧ (48 ≤ n11 ∧ n11 ≤ 57) ∧
      (48 ≤ n12 ∧ n12 ≤ 57)
  · rw [if_neg (by omega), decide_eq_true_eq]
    have key : ∀ S : Int, 0 ≤ S → (10 - S.tmod 10).tmod 10 = (10 - S % 10) % 10 := by
      intro S hS
      rw [Int.tmod_eq_emod hS (by norm_num)]
      rw [Int.tmod_eq_emod (by omega) (by norm_num)]
    rw [key _ (by omega)]
    constructor
    · intro h
      exact ⟨by simpa using hd, by omega⟩
    · intro h
      omega
  · rw [if_pos (by omega)]
    constructor
    · intro h
      exact absurd h (by simp)
    · rintro ⟨h, -⟩
      exact absurd (by simpa using h) hd

theorem length_eq_12 (s : List Char) (hlen : s.length = 12) :
    ∃ c0 c1 c2 c3 c4 c5 c6 c7 c8 c9 c10 c11,
      s = [c0, c1, c2, c3, c4, c5, c6, c7, c8, c9, c10, c11] := by
  match s, hlen with
  | [c0, c1, c2, c3, c4, c5, c6, c7, c8, c9, c10, c11], _ =>
    exact ⟨c0, c1, c2, c3, c4, c5, c6, c7, c8, c9, c10, c11, rfl⟩

theorem char_eq_of_toNat {c d : Char} (hcd : c.toNat = d.toNat) : c = d := by
  rw [← Char.ofNat_toNat c, ← Char.ofNat_toNat d, hcd]

theorem exists_digit_char (k : Nat) (hk : k < 10) : ∃ c : Char, c.toNat = 48 + k := by
  interval_cases k
  · exact ⟨'0', rfl⟩
  · exact ⟨'1', rfl⟩
  · exact ⟨'2', rfl⟩
  · exact ⟨'3', rfl⟩
  · exact ⟨'4', rfl⟩
  · exact ⟨'5', rfl⟩
  · exact ⟨'6', rfl⟩
  · exact ⟨'7', rfl⟩
  · exact ⟨'8', rfl⟩
  · exact ⟨'9', rfl⟩

theorem validate_isbn_iff (isbn : List Char) :
    validate_isbn isbn = true ↔
      isbn.length = 13 ∧ (∀ c ∈ isbn, is_decimal_digit c = true) ∧
      isbn13_weighted_sum isbn % 10 = 0 := by
  by_cases hlen : isbn.length = 13
  · obtain ⟨c0, c1, c2, c3, c4, c5, c6, c7, c8, c9, c10, c11, c12, rfl⟩ :=
      length_eq_13 isbn hlen
    rw [validate_isbn_13]
    simp
  · constructor
    · intro h
      simp [validate_isbn, hlen] at h
    · intro h
      exact absurd h.1 hlen

theorem validate_isbn_last_digit (p : List Char) (hlen : p.length = 12)
    (hdig : ∀ c ∈ p, is_decimal_digit c = true) :
    ∃! c : Char, validate_isbn (p ++ [c]) = true := by
  obtain ⟨c0, c1, c2, c3, c4, c5, c6, c7, c8, c9, c10, c11, rfl⟩ := length_eq_12 p hlen
  have hd : ∀ c : Char, validate_isbn ([c0, c1, c2, c3, c4, c5, c6, c7, c8, c9, c10, c11] ++ [c])
      = true ↔ (48 ≤ c.toNat ∧ c.toNat ≤ 57) ∧
        (isbn13_weighted_sum [c0, c1, c2, c3, c4, c5, c6, c7, c8, c9, c10, c11, '0'] +
          ((c.toNat : Int) - 48)) % 10 = 0 := by
    intro c
    show validate_isbn [c0, c1, c2, c3, c4, c5, c6, c7, c8, c9, c10, c11, c] = true ↔ _
    rw [validate_isbn_13]
    have h0 : '0'.toNat = 48 := rfl
    simp only [isbn13_weighted_sum, char_at, char_code, List.getElem?_cons_succ,
      List.getElem?_cons_zero, h0]
    simp only [List.mem_cons, List.mem_singleton, forall_eq_or_imp, forall_eq,
      is_decimal_digit, decide_eq_true_eq] at hdig ⊢
    simp only [List.not_mem_nil, false_implies, implies_true, and_true] at hdig ⊢
    constructor
    · rintro ⟨h1, h2⟩
      refine ⟨by tauto, ?_⟩
      rw [← h2]
      congr 1
      push_cast
      ring
    · rintro ⟨h1, h2⟩
      refine ⟨by tauto, ?_⟩
      rw [← h2]
      congr 1
      push_cast
      ring
  set S := isbn13_weighted_sum [c0, c1, c2, c3, c4, c5, c6, c7, c8, c9, c10, c11, '0'] with hS
  obtain ⟨c, hc⟩ := exists_digit_char ((10 - S % 10) % 10).toNat (by omega)
  refine ⟨c, (hd c).2 ⟨by omega, by omega⟩, ?_⟩
  intro d hdv
  have := (hd d).1 hdv
  apply char_eq_of_toNat
  omega

/-- C30: `validate_isbn` accepts a string exactly when it has 13 characters, all of
them decimal digits, and the ISBN-13 weighted sum `d0 + 3*d1 + d2 + ... + 3*d11 + d12`
is divisible by 10. It accepts "9780132350884", rejects the 12-character
"123456789012", and after every prefix of 12 digits it accepts exactly one final
character. -/
theorem validate_isbn_checksum (isbn : List Char) :
    (validate_isbn isbn = true ↔
      isbn.length = 13 ∧ (∀ c ∈ isbn, is_decimal_digit c = true) ∧
      isbn13_weighted_sum isbn % 10 = 0) ∧
    validate_isbn "9780132350884".toList = true ∧
    validate_isbn "123456789012".toList = false ∧
    (∀ p : List Char, p.length = 12 → (∀ c ∈ p, is_decimal_digit c = true) →
      ∃! c : Char, validate_isbn (p ++ [c]) = true) :=
  ⟨validate_isbn_iff isbn, by decide, by decide, validate_isbn_last_digit⟩

/-- Witness of C30 on "9780132350884": weighted sum 100, and after the prefix
"978013235088" the final digit 4 is accepted and the nine others are rejected. -/
theorem validate_isbn_checksum_witness :
    ((validate_isbn "9780132350884".toList = true ↔
      "9780132350884".toList.length = 13 ∧
      (∀ c ∈ "9780132350884".toList, is_decimal_digit c = true) ∧
      isbn13_weighted_sum "9780132350884".toList % 10 = 0) ∧
    validate_isbn "9780132350884".toList = true ∧
    validate_isbn "123456789012".toList = false ∧
    (∀ p : List Char, p.length = 12 → (∀ c ∈ p, is_decimal_digit c = true) →
      ∃! c : Char, validate_isbn (p ++ [c]) = true)) ∧
    isbn13_weighted_sum "9780132350884".toList = 100 ∧
    "0123456789".toList.map (fun c => validate_isbn ("978013235088".toList ++ [c])) =
      [false, false, false, false, true, false, false, false, false, false] ∧
    validate_isbn "978013235088X".toList = false ∧
    validate_isbn "97801323508840".toList = false :=
  ⟨validate_isbn_checksum "9780132350884".toList, by decide, by decide, by decide, by decide⟩

theorem strcmp_self (a : List Char) : strcmp a a = 0 := by
  induction a with
  | nil => rfl
  | cons c a ih => simp [strcmp, ih]

theorem strcmp_eq_zero_iff (a b : List Char) : strcmp a b = 0 ↔ a = b := by
  induction a generalizing b with
  | nil =>
    cases b with
    | nil => simp [strcmp]
    | cons d b => simp [strcmp]
  | cons c a ih =>
    cases b with
    | nil => simp [strcmp]
    | cons d b =>
      by_cases hcd : c = d
      · subst hcd
        simp [strcmp, ih]
      · simp only [strcmp, if_neg hcd]
        constructor
        · intro h
          split at h <;> omega
        · intro h
          exact absurd (List.cons.inj h).1 hcd

theorem strcmp_neg_iff (a b : List Char) : strcmp a b < 0 ↔ 0 < strcmp b a := by
  induction a generalizing b with
  | nil =>
    cases b with
    | nil => simp [strcmp]
    | cons d b => simp [strcmp]
  | cons c a ih =>
    cases b with
    | nil => simp [strcmp]
    | cons d b =>
      by_cases hcd : c = d
      · subst hcd
        simp [strcmp, ih]
      · have hdc : ¬ d = c := fun e => hcd e.symm
        have hne : c.toNat ≠ d.toNat := fun e => hcd (char_eq_of_toNat e)
        simp only [strcmp, if_neg hcd, if_neg hdc]
        by_cases hlt : c.toNat < d.toNat
        · have : ¬ d.toNat < c.toNat := by omega
          simp [hlt, this]
        · have : d.toNat < c.toNat := by omega
          simp [hlt, this]

theorem strcmp_neg_trans (a b c : List Char) (hab : strcmp a b < 0) (hbc : strcmp b c < 0) :
    strcmp a c < 0 := by
  induction a generalizing b c with
  | nil =>
    cases c with
    | nil =>
      cases b with
      | nil => simp [strcmp] at hab
      | cons e b => simp [strcmp] at hbc
    | cons f c => simp [strcmp]
  | cons d a ih =>
    cases b with
    | nil => simp [strcmp] at hab
    | cons e b =>
      cases c with
      | nil => simp [strcmp] at hbc
      | cons f c =>
        simp only [strcmp] at hab hbc ⊢
        by_cases hde : d = e
        · subst hde
          rw [if_pos rfl] at hab
          by_cases hdf : d = f
          · subst hdf
            rw [if_pos rfl] at hbc ⊢
            exact ih b c hab hbc
          · rw [if_neg hdf] at hbc ⊢
            exact hbc
        · rw [if_neg hde] at hab
          have h1 : d.toNat < e.toNat := by
            by_contra hcon
            rw [if_neg hcon] at hab
            omega
          by_cases hef : e = f
          · subst hef
            rw [if_neg hde, if_pos h1]
            decide
          · rw [if_neg hef] at hbc
            have h2 : e.toNat < f.toNat := by
              by_contra hcon
              rw [if_neg hcon] at hbc
              omega
            have hdf : ¬ d = f := by
              intro e1
              subst e1
              omega
            rw [if_neg hdf, if_pos (by omega)]
            decide

theorem update_first_split (p : α → Bool) (f : α → α) (s1 s2 : List α) (b : α)
    (hno : ∀ z ∈ s1, p z = false) (hyes : p b = true) :
    update_first p f (s1 ++ b :: s2) = s1 ++ f b :: s2 := by
  induction s1 with
  | nil => simp [update_first, hyes]
  | cons x s1 ih =>
    have hx : p x = false := hno x (by simp)
    simp [update_first, hx, ih (fun z hz => hno z (by simp [hz]))]

theorem update_first_length (p : α → Bool) (f : α → α) (s : List α) :
    (update_first p f s).length = s.length := by
  induction s with
  | nil => rfl
  | cons x s ih =>
    unfold update_first
    split <;> simp [ih]

theorem find_split {p : α → Bool} {s : List α} {b : α} (hf : s.find? p = some b) :
    ∃ s1 s2, s = s1 ++ b :: s2 ∧ (∀ z ∈ s1, p z = false) ∧ p b = true := by
  obtain ⟨hb, s1, s2, hs, hno⟩ := List.find?_eq_some.1 hf
  exact ⟨s1, s2, hs, fun z hz => by simpa using hno z hz, hb⟩

theorem find_of_split (p : α → Bool) (s1 s2 : List α) (b : α)
    (hno : ∀ z ∈ s1, p z = false) (hyes : p b = true) :
    (s1 ++ b :: s2).find? p = some b := by
  induction s1 with
  | nil => simp [hyes]
  | cons x s1 ih =>
    have hx : p x = false := hno x (by simp)
    simp only [List.cons_append, List.find?_cons, hx]
    exact ih (fun z hz => hno z (by simp [hz]))

theorem stored_iff {list : DoublyLinkedList α} {h : Heap α} {s : List α} :
    Stored list h s ↔ ∃ l, IsList list h l ∧ l.map Prod.snd = s := by
  constructor
  · rintro ⟨hwf, hfs⟩
    obtain ⟨l, hl⟩ := hwf.isList
    refine ⟨l, hl, ?_⟩
    simpa [forward_seq, hl.forward_nodes_eq] using hfs
  · rintro ⟨l, hl, rfl⟩
    exact ⟨hl.wellFormed, by simp [forward_seq, hl.forward_nodes_eq]⟩

theorem Stored.size_eq_length {list : DoublyLinkedList α} {h : Heap α} {s : List α}
    (hs : Stored list h s) : list.size = s.length := by
  obtain ⟨l, hl, rfl⟩ := stored_iff.1 hs
  simp [hl.size_eq]

theorem IsList.write_data {list : DoublyLinkedList α} {h : Heap α}
    {l1 l2 : List (Nat × α)} {a : Nat} {y : α} (hl : IsList list h (l1 ++ (a, y) :: l2))
    (z : α) :
    ∃ nd h', h.read a = some nd ∧ nd.data = y ∧
      h.write a { nd with data := z } = some h' ∧ IsList list h' (l1 ++ (a, z) :: l2) ∧
      (∀ q, h'.read q = if q = a then some { nd with data := z } else h.read q) ∧
      h'.cells.length = h.cells.length ∧ h'.limit = h.limit := by
  have hlink := (Linked_append h none l1 ((a, y) :: l2) none).1 hl.linked
  obtain ⟨h1, h2, h3⟩ := hlink
  have hra : h.read a = some ⟨y, lastAddr l1 none, headAddr l2 none⟩ := h2
  have hw : ∃ h', h.write a ⟨z, lastAddr l1 none, headAddr l2 none⟩ = some h' := by
    simp [Heap.write, hra]
  obtain ⟨h', hw⟩ := hw
  have hr := Heap.read_write hw
  have hshape := Heap.write_shape hw
  have hnd := hl.nodup
  simp only [List.map_append, List.map_cons] at hnd
  have hnd1 := List.nodup_append.1 hnd
  have ha1 : a ∉ l1.map Prod.fst := fun hm => hnd1.2.2 hm (by simp)
  have ha2 : a ∉ l2.map Prod.fst := (List.nodup_cons.1 hnd1.2.1).1
  refine ⟨_, h', hra, rfl, hw, ⟨?_, ?_, ?_, ?_, ?_⟩, hr, hshape.1, hshape.2⟩
  · rw [Linked_append]
    refine ⟨?_, ?_, ?_⟩
    · refine Linked_congr (fun q hq => ?_) h1
      rw [hr]
      have : q ≠ a := fun e => ha1 (e ▸ hq)
      simp [this]
    · show h'.read a = _
      rw [hr]
      simp
    · refine Linked_congr (fun q hq => ?_) h3
      rw [hr]
      have : q ≠ a := fun e => ha2 (e ▸ hq)
      simp [this]
  · rw [hl.head_eq, headAddr_append, headAddr_append]
    rfl
  · rw [hl.tail_eq, lastAddr_append, lastAddr_append]
    rfl
  · rw [hl.size_eq]
    simp
  · simpa using hl.nodup

/-- Function `dll_search` on a stored sequence: `NULL` when no record compares equal,
otherwise the node of the first such record, whose record can be read and overwritten
in place. -/
theorem dll_search_stored {list : DoublyLinkedList α} {h : Heap α} {s : List α}
    (hs : Stored list h s) (cmp : α → α → Int) (hcmp : list.compare = some cmp) (x : α)
    (fuel : Nat) (hfuel : list.size ≤ fuel) :
    (s.find? (fun b => decide (cmp b x = 0)) = none → dll_search fuel list x h = some none) ∧
    (∀ b, s.find? (fun b => decide (cmp b x = 0)) = some b →
      ∃ a nd, dll_search fuel list x h = some (some a) ∧ h.read a = some nd ∧ nd.data = b ∧
        ∀ z, ∃ h', h.write a { nd with data := z } = some h' ∧
          Stored list h' (update_first (fun b => decide (cmp b x = 0)) (fun _ => z) s) ∧
          h'.cells.length = h.cells.length ∧ h'.limit = h.limit) := by
  obtain ⟨l, hl, rfl⟩ := stored_iff.1 hs
  have hlen : l.length ≤ fuel := by
    have := hl.size_eq
    omega
  constructor
  · intro hnone
    have hno : ∀ e ∈ l, cmp e.2 x ≠ 0 := by
      intro e he
      have := List.find?_eq_none.1 hnone e.2 (List.mem_map_of_mem _ he)
      simpa using this
    have hsr := search_from_none cmp x l hl.nseg hno fuel hlen
    rw [← hl.head_eq] at hsr
    simp [dll_search, hcmp, hsr]
  · intro b hb
    obtain ⟨s1, s2, hsplit, hno, hyes⟩ := find_split hb
    obtain ⟨l1, a, l2, rfl, rfl, rfl⟩ := split_of_map_snd hsplit
    have hno1 : ∀ e ∈ l1, cmp e.2 x ≠ 0 := by
      intro e he
      have := hno e.2 (List.mem_map_of_mem _ he)
      simpa using this
    have hyes1 : cmp b x = 0 := by simpa using hyes
    have hf : l1.length < fuel := by
      simp at hlen
      omega
    have hsr := search_from_found cmp x l1 l2 a b none hl.nseg hno1 hyes1 fuel hf
    rw [← hl.head_eq] at hsr
    obtain ⟨nd, -, hra, hdata, -⟩ := hl.write_data b
    refine ⟨a, nd, by simp [dll_search, hcmp, hsr], hra, hdata, ?_⟩
    intro z
    obtain ⟨nd1, h', hra1, -, hw, hl', -, hlen', hlim'⟩ := hl.write_data z
    rw [hra] at hra1
    obtain rfl := Option.some.inj hra1
    refine ⟨h', hw, stored_iff.2 ⟨_, hl', ?_⟩, hlen', hlim'⟩
    rw [hsplit, update_first_split _ _ _ _ _ hno hyes]
    simp

/-- Function `dll_insert_sorted` on a stored sequence. -/
theorem dll_insert_sorted_stored {list : DoublyLinkedList α} {h : Heap α} {s : List α}
    (hs : Stored list h s) (cmp : α → α → Int) (hcmp : list.compare = some cmp) (x : α)
    (fuel : Nat) (hfuel : list.size ≤ fuel) :
    (h.cells.length < h.limit →
      ∃ list' h', dll_insert_sorted fuel list x h = some (LMS_SUCCESS, list', h') ∧
        Stored list' h' ((s.takeWhile fun e => decide (cmp x e > 0)) ++
          x :: (s.dropWhile fun e => decide (cmp x e > 0))) ∧
        SameHooks list list' ∧ list'.size = list.size + 1 ∧
        h'.cells.length = h.cells.length + 1 ∧ h'.limit = h.limit) ∧
    (¬ h.cells.length < h.limit →
      dll_insert_sorted fuel list x h = some (LMS_ERROR_MEMORY, list, h)) := by
  obtain ⟨l, hl, rfl⟩ := stored_iff.1 hs
  have hlen : l.length ≤ fuel := by
    have := hl.size_eq
    omega
  constructor
  · intro hroom
    obtain ⟨list', h', hrun, hl', hhooks, hlen', hlim'⟩ :=
      dll_insert_sorted_spec cmp hl hcmp x hroom fuel hlen
    refine ⟨list', h', hrun, stored_iff.2 ⟨_, hl', ?_⟩, hhooks, ?_, hlen', hlim'⟩
    · rw [List.map_append, List.map_cons, List.takeWhile_map, List.dropWhile_map]
      rfl
    · have e : (l.takeWhile fun e => decide (cmp x e.2 > 0)).length +
          (l.dropWhile fun e => decide (cmp x e.2 > 0)).length = l.length := by
        rw [← List.length_append, List.takeWhile_append_dropWhile]
      rw [hl'.size_eq, hl.size_eq]
      simp only [List.length_append, List.length_cons]
      push_cast
      omega
  · intro hfull
    exact dll_insert_sorted_full cmp hl hcmp x hfull fuel hlen

/-- Function `dll_delete_data` on a stored sequence. -/
theorem dll_delete_data_stored {list : DoublyLinkedList α} {h : Heap α} {s : List α}
    (hs : Stored list h s) (cmp : α → α → Int) (hcmp : list.compare = some cmp) (x : α)
    (fuel : Nat) (hfuel : list.size ≤ fuel) :
    (s.find? (fun b => decide (cmp b x = 0)) = none →
      dll_delete_data fuel list x h = some (LMS_ERROR_NOT_FOUND, list, h)) ∧
    (∀ b, s.find? (fun b => decide (cmp b x = 0)) = some b →
      ∃ list' h', dll_delete_data fuel list x h = some (LMS_SUCCESS, list', h') ∧
        Stored list' h' (s.eraseP fun b => decide (cmp b x = 0)) ∧
        SameHooks list list' ∧ list'.size = list.size - 1 ∧
        h'.cells.length = h.cells.length ∧ h'.limit = h.limit) := by
  obtain ⟨l, hl, rfl⟩ := stored_iff.1 hs
  have hlen : l.length ≤ fuel := by
    have := hl.size_eq
    omega
  constructor
  · intro hnone
    have hno : ∀ e ∈ l, cmp e.2 x ≠ 0 := by
      intro e he
      have := List.find?_eq_none.1 hnone e.2 (List.mem_map_of_mem _ he)
      simpa using this
    exact dll_delete_data_none cmp x hl hcmp hno fuel hlen
  · intro b hb
    obtain ⟨s1, s2, hsplit, hno, hyes⟩ := find_split hb
    obtain ⟨l1, a, l2, rfl, rfl, rfl⟩ := split_of_map_snd hsplit
    have hno1 : ∀ e ∈ l1, cmp e.2 x ≠ 0 := by
      intro e he
      have := hno e.2 (List.mem_map_of_mem _ he)
      simpa using this
    have hyes1 : cmp b x = 0 := by simpa using hyes
    have hf : l1.length < fuel := by
      simp at hlen
      omega
    obtain ⟨list', h', hrun, hl', hhooks, hlen', hlim'⟩ :=
      dll_delete_data_found cmp x hl hcmp hno1 hyes1 fuel hf
    refine ⟨list', h', hrun, stored_iff.2 ⟨_, hl', ?_⟩, hhooks, ?_, hlen', hlim'⟩
    · rw [List.map_append, List.map_append, List.map_cons,
        List.eraseP_append_right _ (fun z hz => by simpa using hno z hz)]
      simp [hyes1]
    · rw [hl'.size_eq, hl.size_eq]
      simp only [List.length_append, List.length_cons]
      push_cast
      omega

theorem insert_sorted_model_length (cmp : α → α → Int) (x : α) (s : List α) :
    (insert_sorted_model cmp x s).length = s.length + 1 := by
  have e : (s.takeWhile fun e => decide (cmp x e > 0)).length +
      (s.dropWhile fun e => decide (cmp x e > 0)).length = s.length := by
    rw [← List.length_append, List.takeWhile_append_dropWhile]
  simp only [insert_sorted_model, List.length_append, List.length_cons]
  omega

theorem has_isbn_eq (isbn : List Char) :
    (fun b : Book => decide (compare_book_isbn b { book_init with isbn := strncpy isbn 13 } = 0))
      = has_isbn isbn := by
  funext b
  simp [compare_book_isbn, has_isbn, strcmp_eq_zero_iff]

theorem has_member_id_eq (member_id : List Char) :
    (fun b : Member =>
      decide (compare_member_id b { member_init with member_id := strncpy member_id 10 } = 0))
      = has_member_id member_id := by
  funext b
  simp [compare_member_id, has_member_id, strcmp_eq_zero_iff]

theorem has_loan_id_eq (loan_id : List Char) :
    (fun b : Loan => decide (compare_loan_id b { loan_init with loan_id := strncpy loan_id 10 } = 0))
      = has_loan_id loan_id := by
  funext b
  simp [compare_loan_id, has_loan_id, strcmp_eq_zero_iff]

theorem update_first_congr (p : α → Bool) (f g : α → α) (s : List α)
    (hfg : ∀ b, s.find? p = some b → f b = g b) : update_first p f s = update_first p g s := by
  induction s with
  | nil => rfl
  | cons x s ih =>
    by_cases hx : p x = true
    · have := hfg x (by simp [hx])
      simp [update_first, hx, this]
    · have hx1 : p x = false := by simpa using hx
      have hih := ih (fun b hb => hfg b (by simpa [List.find?_cons, hx1] using hb))
      simp [update_first, hx1, hih]

/-- Function `book_repo_find_by_isbn` on the stored books. -/
theorem book_repo_find_by_isbn_stored {repo : BookRepository} {h : Heap Book} {s : List Book}
    (hs : Stored repo.books h s) (hcmp : repo.books.compare = some compare_book_isbn)
    (isbn : List Char) (fuel : Nat) (hfuel : repo.books.size ≤ fuel) :
    (s.find? (has_isbn isbn) = none → book_repo_find_by_isbn fuel repo isbn h = some none) ∧
    (∀ b, s.find? (has_isbn isbn) = some b →
      ∃ a nd, book_repo_find_by_isbn fuel repo isbn h = some (some a) ∧
        h.read a = some nd ∧ nd.data = b ∧
        ∀ z, ∃ h', h.write a { nd with data := z } = some h' ∧
          Stored repo.books h' (update_first (has_isbn isbn) (fun _ => z) s) ∧
          h'.cells.length = h.cells.length ∧ h'.limit = h.limit) := by
  have := dll_search_stored hs compare_book_isbn hcmp
    { book_init with isbn := strncpy isbn 13 } fuel hfuel
  rw [has_isbn_eq] at this
  exact this

/-- Function `member_repo_find_by_id` on the stored members. -/
theorem member_repo_find_by_id_stored {repo : MemberRepository} {h : Heap Member}
    {s : List Member} (hs : Stored repo.members h s)
    (hcmp : repo.members.compare = some compare_member_id)
    (member_id : List Char) (fuel : Nat) (hfuel : repo.members.size ≤ fuel) :
    (s.find? (has_member_id member_id) = none →
      member_repo_find_by_id fuel repo member_id h = some none) ∧
    (∀ b, s.find? (has_member_id member_id) = some b →
      ∃ a nd, member_repo_find_by_id fuel repo member_id h = some (some a) ∧
        h.read a = some nd ∧ nd.data = b ∧
        ∀ z, ∃ h', h.write a { nd with data := z } = some h' ∧
          Stored repo.members h' (update_first (has_member_id member_id) (fun _ => z) s) ∧
          h'.cells.length = h.cells.length ∧ h'.limit = h.limit) := by
  have := dll_search_stored hs compare_member_id hcmp
    { member_init with member_id := strncpy member_id 10 } fuel hfuel
  rw [has_member_id_eq] at this
  exact this

/-- Function `loan_repo_find_by_id` on the stored loans. -/
theorem loan_repo_find_by_id_stored {repo : LoanRepository} {h : Heap Loan}
    {s : List Loan} (hs : Stored repo.loans h s)
    (hcmp : repo.loans.compare = some compare_loan_id)
    (loan_id : List Char) (fuel : Nat) (hfuel : repo.loans.size ≤ fuel) :
    (s.find? (has_loan_id loan_id) = none →
      loan_repo_find_by_id fuel repo loan_id h = some none) ∧
    (∀ b, s.find? (has_loan_id loan_id) = some b →
      ∃ a nd, loan_repo_find_by_id fuel repo loan_id h = some (some a) ∧
        h.read a = some nd ∧ nd.data = b ∧
        ∀ z, ∃ h', h.write a { nd with data := z } = some h' ∧
          Stored repo.loans h' (update_first (has_loan_id loan_id) (fun _ => z) s) ∧
          h'.cells.length = h.cells.length ∧ h'.limit = h.limit) := by
  have := dll_search_stored hs compare_loan_id hcmp
    { loan_init with loan_id := strncpy loan_id 10 } fuel hfuel
  rw [has_loan_id_eq] at this
  exact this

/-- Function `book_repo_update_availability` on the stored books. -/
theorem book_repo_update_availability_stored {repo : BookRepository} {h : Heap Book}
    {s : List Book} (hs : Stored repo.books h s)
    (hcmp : repo.books.compare = some compare_book_isbn)
    (isbn : List Char) (change : Int) (fuel : Nat) (hfuel : repo.books.size ≤ fuel) :
    ∃ h', book_repo_update_availability fuel repo isbn change h =
        some ((availability_model isbn change s).1, h') ∧
      Stored repo.books h' (availability_model isbn change s).2 ∧
      ((availability_model isbn change s).1 ≠ LMS_SUCCESS → h' = h) ∧
      h'.cells.length = h.cells.length ∧ h'.limit = h.limit := by
  obtain ⟨hnone, hsome⟩ := book_repo_find_by_isbn_stored hs hcmp isbn fuel hfuel
  cases hf : s.find? (has_isbn isbn) with
  | none =>
    refine ⟨h, ?_, ?_, fun _ => rfl, rfl, rfl⟩
    · simp [book_repo_update_availability, hnone hf, availability_model, hf]
    · simpa [availability_model, hf] using hs
  | some b =>
    obtain ⟨a, nd, hfind, hra, hdata, hwrite⟩ := hsome b hf
    subst hdata
    by_cases hb : nd.data.available_copies + change < 0 ∨
        nd.data.available_copies + change > nd.data.total_copies
    · refine ⟨h, ?_, ?_, fun _ => rfl, rfl, rfl⟩
      · simp [book_repo_update_availability, hfind, hra, availability_model, hf, hb]
      · simpa [availability_model, hf, hb] using hs
    · obtain ⟨h', hw, hs', hlen', hlim'⟩ :=
        hwrite { nd.data with available_copies := nd.data.available_copies + change }
      refine ⟨h', ?_, ?_, ?_, hlen', hlim'⟩
      · simp [book_repo_update_availability, hfind, hra, availability_model, hf, hb, hw]
      · have e := update_first_congr (has_isbn isbn)
          (fun _ => { nd.data with available_copies := nd.data.available_copies + change })
          (fun b => { b with available_copies := b.available_copies + change }) s
          (fun b' hb' => by
            rw [hf] at hb'
            obtain rfl := Option.some.inj hb'
            rfl)
        rw [e] at hs'
        simpa [availability_model, hf, hb] using hs'
      · intro hne
        simp [availability_model, hf, hb] at hne

/-- Function `member_repo_update_loan_count` on the stored members. -/
theorem member_repo_update_loan_count_stored {repo : MemberRepository} {h : Heap Member}
    {s : List Member} (hs : Stored repo.members h s)
    (hcmp : repo.members.compare = some compare_member_id)
    (member_id : List Char) (change : Int) (fuel : Nat) (hfuel : repo.members.size ≤ fuel) :
    ∃ h', member_repo_update_loan_count fuel repo member_id change h =
        some ((loan_count_model member_id change s).1, h') ∧
      Stored repo.members h' (loan_count_model member_id change s).2 ∧
      ((loan_count_model member_id change s).1 ≠ LMS_SUCCESS → h' = h) ∧
      h'.cells.length = h.cells.length ∧ h'.limit = h.limit := by
  obtain ⟨hnone, hsome⟩ := member_repo_find_by_id_stored hs hcmp member_id fuel hfuel
  cases hf : s.find? (has_member_id member_id) with
  | none =>
    refine ⟨h, ?_, ?_, fun _ => rfl, rfl, rfl⟩
    · simp [member_repo_update_loan_count, hnone hf, loan_count_model, hf]
    · simpa [loan_count_model, hf] using hs
  | some b =>
    obtain ⟨a, nd, hfind, hra, hdata, hwrite⟩ := hsome b hf
    subst hdata
    by_cases hb : nd.data.loan_count + change < 0
    · refine ⟨h, ?_, ?_, fun _ => rfl, rfl, rfl⟩
      · simp [member_repo_update_loan_count, hfind, hra, loan_count_model, hf, hb]
      · simpa [loan_count_model, hf, hb] using hs
    · obtain ⟨h', hw, hs', hlen', hlim'⟩ :=
        hwrite { nd.data with loan_count := nd.data.loan_count + change }
      refine ⟨h', ?_, ?_, ?_, hlen', hlim'⟩
      · simp [member_repo_update_loan_count, hfind, hra, loan_count_model, hf, hb, hw]
      · have e := update_first_congr (has_member_id member_id)
          (fun _ => { nd.data with loan_count := nd.data.loan_count + change })
          (fun b => { b with loan_count := b.loan_count + change }) s
          (fun b' hb' => by
            rw [hf] at hb'
            obtain rfl := Option.some.inj hb'
            rfl)
        rw [e] at hs'
        simpa [loan_count_model, hf, hb] using hs'
      · intro hne
        simp [loan_count_model, hf, hb] at hne

/-- Function `book_repo_add` on the stored books. -/
theorem book_repo_add_stored {repo : BookRepository} {h : Heap Book} {s : List Book}
    (hs : Stored repo.books h s) (hcmp : repo.books.compare = some compare_book_isbn)
    (book : Book) (fuel : Nat) (hfuel : repo.books.size ≤ fuel) :
    ∃ repo' h', book_repo_add fuel repo book h =
        some ((book_add_model (decide (h.cells.length < h.limit)) book s).1, repo', h') ∧
      Stored repo'.books h' (book_add_model (decide (h.cells.length < h.limit)) book s).2 ∧
      repo'.books.compare = some compare_book_isbn ∧
      ((book_add_model (decide (h.cells.length < h.limit)) book s).1 ≠ LMS_SUCCESS →
        repo' = repo ∧ h' = h) ∧
      ((book_add_model (decide (h.cells.length < h.limit)) book s).1 = LMS_SUCCESS →
        repo'.books.size = repo.books.size + 1) := by
  by_cases hv : validate_book book = true
  · obtain ⟨hnone, hsome⟩ := book_repo_find_by_isbn_stored hs hcmp book.isbn fuel hfuel
    cases hf : s.find? (has_isbn book.isbn) with
    | some b =>
      obtain ⟨a, nd, hfind, -⟩ := hsome b hf
      refine ⟨repo, h, ?_, ?_, hcmp, fun _ => ⟨rfl, rfl⟩, ?_⟩
      · simp [book_repo_add, hv, hfind, book_add_model, hf]
      · simpa [book_add_model, hv, hf] using hs
      · simp [book_add_model, hv, hf]
    | none =>
      obtain ⟨hok, hfull⟩ := dll_insert_sorted_stored hs compare_book_isbn hcmp book fuel hfuel
      by_cases hroom : h.cells.length < h.limit
      · obtain ⟨list', h', hrun, hs', hhooks, hsize, -⟩ := hok hroom
        refine ⟨{ repo with books := list' }, h', ?_, ?_, ?_, ?_, ?_⟩
        · simp [book_repo_add, hv, hnone hf, hrun, book_add_model, hf, hroom]
        · simpa [book_add_model, hv, hf, hroom, insert_sorted_model] using hs'
        · show list'.compare = _
          rw [hhooks.1, hcmp]
        · simp [book_add_model, hv, hf, hroom]
        · intro _
          exact hsize
      · refine ⟨repo, h, ?_, ?_, hcmp, fun _ => ⟨rfl, rfl⟩, ?_⟩
        · simp [book_repo_add, hv, hnone hf, hfull hroom, book_add_model, hf, hroom]
        · simpa [book_add_model, hv, hf, hroom] using hs
        · simp [book_add_model, hv, hf, hroom]
  · refine ⟨repo, h, ?_, ?_, hcmp, fun _ => ⟨rfl, rfl⟩, ?_⟩
    · simp [book_repo_add, hv, book_add_model]
    · simpa [book_add_model, hv] using hs
    · simp [book_add_model, hv]

/-- Function `book_repo_delete` on the stored books. -/
theorem book_repo_delete_stored {repo : BookRepository} {h : Heap Book} {s : List Book}
    (hs : Stored repo.books h s) (hcmp : repo.books.compare = some compare_book_isbn)
    (isbn : List Char) (fuel : Nat) (hfuel : repo.books.size ≤ fuel) :
    ∃ repo' h', book_repo_delete fuel repo isbn h =
        some ((book_delete_model isbn s).1, repo', h') ∧
      Stored repo'.books h' (book_delete_model isbn s).2 ∧
      repo'.books.compare = some compare_book_isbn ∧
      ((book_delete_model isbn s).1 ≠ LMS_SUCCESS → repo' = repo ∧ h' = h) ∧
      ((book_delete_model isbn s).1 = LMS_SUCCESS →
        repo'.books.size = repo.books.size - 1) := by
  have := dll_delete_data_stored hs compare_book_isbn hcmp
    { book_init with isbn := strncpy isbn 13 } fuel hfuel
  rw [has_isbn_eq] at this
  obtain ⟨hnone, hsome⟩ := this
  cases hf : s.find? (has_isbn isbn) with
  | none =>
    refine ⟨repo, h, ?_, ?_, hcmp, fun _ => ⟨rfl, rfl⟩, ?_⟩
    · simp [book_repo_delete, hnone hf, book_delete_model, hf]
    · simpa [book_delete_model, hf] using hs
    · simp [book_delete_model, hf]
  | some b =>
    obtain ⟨list', h', hrun, hs', hhooks, hsize, -⟩ := hsome b hf
    refine ⟨{ repo with books := list' }, h', ?_, ?_, ?_, ?_, ?_⟩
    · simp [book_repo_delete, hrun, book_delete_model, hf]
    · simpa [book_delete_model, hf] using hs'
    · show list'.compare = _
      rw [hhooks.1, hcmp]
    · simp [book_delete_model, hf]
    · intro _
      exact hsize

/-- Function `loan_repo_add` on the stored loans. -/
theorem loan_repo_add_stored {repo : LoanRepository} {h : Heap Loan} {s : List Loan}
    (hs : Stored repo.loans h s) (hcmp : repo.loans.compare = some compare_loan_id)
    (loan : Loan) (fuel : Nat) (hfuel : repo.loans.size ≤ fuel) :
    ∃ repo' h', loan_repo_add fuel repo loan h =
        some ((loan_add_model (decide (h.cells.length < h.limit)) loan s).1, repo', h') ∧
      Stored repo'.loans h' (loan_add_model (decide (h.cells.length < h.limit)) loan s).2 ∧
      repo'.loans.compare = some compare_loan_id ∧
      ((loan_add_model (decide (h.cells.length < h.limit)) loan s).1 ≠ LMS_SUCCESS →
        repo' = repo ∧ h' = h) ∧
      ((loan_add_model (decide (h.cells.length < h.limit)) loan s).1 = LMS_SUCCESS →
        repo'.loans.size = repo.loans.size + 1) := by
  by_cases hv : validate_loan loan = true
  · obtain ⟨hnone, hsome⟩ := loan_repo_find_by_id_stored hs hcmp loan.loan_id fuel hfuel
    cases hf : s.find? (has_loan_id loan.loan_id) with
    | some b =>
      obtain ⟨a, nd, hfind, -⟩ := hsome b hf
      refine ⟨repo, h, ?_, ?_, hcmp, fun _ => ⟨rfl, rfl⟩, ?_⟩
      · simp [loan_repo_add, hv, hfind, loan_add_model, hf]
      · simpa [loan_add_model, hv, hf] using hs
      · simp [loan_add_model, hv, hf]
    | none =>
      obtain ⟨hok, hfull⟩ := dll_insert_sorted_stored hs compare_loan_id hcmp loan fuel hfuel
      by_cases hroom : h.cells.length < h.limit
      · obtain ⟨list', h', hrun, hs', hhooks, hsize, -⟩ := hok hroom
        refine ⟨{ repo with loans := list' }, h', ?_, ?_, ?_, ?_, ?_⟩
        · simp [loan_repo_add, hv, hnone hf, hrun, loan_add_model, hf, hroom]
        · simpa [loan_add_model, hv, hf, hroom, insert_sorted_model] using hs'
        · show list'.compare = _
          rw [hhooks.1, hcmp]
        · simp [loan_add_model, hv, hf, hroom]
        · intro _
          exact hsize
      · refine ⟨repo, h, ?_, ?_, hcmp, fun _ => ⟨rfl, rfl⟩, ?_⟩
        · simp [loan_repo_add, hv, hnone hf, hfull hroom, loan_add_model, hf, hroom]
        · simpa [loan_add_model, hv, hf, hroom] using hs
        · simp [loan_add_model, hv, hf, hroom]
  · refine ⟨repo, h, ?_, ?_, hcmp, fun _ => ⟨rfl, rfl⟩, ?_⟩
    · simp [loan_repo_add, hv, loan_add_model]
    · simpa [loan_add_model, hv] using hs
    · simp [loan_add_model, hv]

theorem validate_book_isbn {book : Book} (hv : validate_book book = true) :
    validate_isbn book.isbn = true ∧ book.isbn.length = 13 ∧ strncpy book.isbn 13 = book.isbn := by
  have h1 : validate_isbn book.isbn = true := by
    by_contra hcon
    simp [validate_book, hcon] at hv
  have h2 := ((validate_isbn_iff book.isbn).1 h1).1
  refine ⟨h1, h2, ?_⟩
  unfold strncpy
  exact List.take_of_length_le (by omega)

theorem dll_insert_sorted_returns {list : DoublyLinkedList α} {h : Heap α} {s : List α}
    (hs : Stored list h s) (x : α) (fuel : Nat) (hfuel : list.size ≤ fuel) :
    ∃ r list' h', dll_insert_sorted fuel list x h = some (r, list', h') := by
  cases hcmp : list.compare with
  | none => exact ⟨_, _, _, dll_insert_sorted_no_compare list h x fuel hcmp⟩
  | some cmp =>
    obtain ⟨hok, hfull⟩ := dll_insert_sorted_stored hs cmp hcmp x fuel hfuel
    by_cases hroom : h.cells.length < h.limit
    · obtain ⟨list', h', hrun, -⟩ := hok hroom
      exact ⟨_, _, _, hrun⟩
    · exact ⟨_, _, _, hfull hroom⟩

theorem strictlyByIsbn_insert {s : List Book} (hs : StrictlyByIsbn s) (book : Book)
    (hnew : ∀ b ∈ s, b.isbn ≠ book.isbn) :
    StrictlyByIsbn (insert_sorted_model compare_book_isbn book s) := by
  unfold StrictlyByIsbn insert_sorted_model at *
  have hsplit := List.takeWhile_append_dropWhile
    (fun e => decide (compare_book_isbn book e > 0)) s
  have htake : ∀ e ∈ s.takeWhile (fun e => decide (compare_book_isbn book e > 0)),
      strcmp e.isbn book.isbn < 0 := by
    intro e he
    have := List.mem_takeWhile_imp he
    simp only [compare_book_isbn, decide_eq_true_eq] at this
    exact (strcmp_neg_iff e.isbn book.isbn).2 this
  have hpair : (s.takeWhile (fun e => decide (compare_book_isbn book e > 0)) ++
      s.dropWhile (fun e => decide (compare_book_isbn book e > 0))).Pairwise
        (fun a b => strcmp a.isbn b.isbn < 0) := by
    rw [hsplit]
    exact hs
  obtain ⟨hp1, hp2, hp3⟩ := List.pairwise_append.1 hpair
  have hdrop : ∀ e ∈ s.dropWhile (fun e => decide (compare_book_isbn book e > 0)),
      strcmp book.isbn e.isbn < 0 := by
    cases hd : s.dropWhile (fun e => decide (compare_book_isbn book e > 0)) with
    | nil => simp
    | cons d t =>
      have hdn : (fun e => decide (compare_book_isbn book e > 0)) d = false := by
        have := List.head_dropWhile_not (fun e => decide (compare_book_isbn book e > 0)) s
          (by rw [hd]; simp)
        simpa [hd] using this
      have hdmem : d ∈ s := (List.dropWhile_sublist _).subset (by rw [hd]; simp)
      have hd0 : strcmp book.isbn d.isbn < 0 := by
        have h1 : ¬ compare_book_isbn book d > 0 := by simpa using hdn
        have h2 : strcmp book.isbn d.isbn ≠ 0 := fun e0 =>
          hnew d hdmem ((strcmp_eq_zero_iff _ _).1 e0).symm
        simp only [compare_book_isbn] at h1
        omega
      rw [hd] at hp2
      intro e he
      rcases List.mem_cons.1 he with rfl | het
      · exact hd0
      · exact strcmp_neg_trans _ _ _ hd0 ((List.pairwise_cons.1 hp2).1 e het)
  rw [List.pairwise_append]
  refine ⟨hp1, List.pairwise_cons.2 ⟨hdrop, hp2⟩, ?_⟩
  intro a ha b hb
  rcases List.mem_cons.1 hb with rfl | hbt
  · exact htake a ha
  · exact hp3 a ha b hbt

/-- The invariant of a built book repository: the list is well formed with the ISBN
comparator, every stored book passed `validate_book`, and the books are in strictly
increasing order of ISBN. -/
theorem BookRepoBuilt.invariant {repo : BookRepository} {h : Heap Book}
    (hb : BookRepoBuilt repo h) :
    ∃ s, Stored repo.books h s ∧ repo.books.compare = some compare_book_isbn ∧
      (∀ b ∈ s, validate_book b = true) ∧ StrictlyByIsbn s := by
  induction hb with
  | create h =>
    refine ⟨[], stored_iff.2 ⟨[], ⟨trivial, rfl, rfl, rfl, by simp⟩, rfl⟩, rfl, by simp, ?_⟩
    exact List.Pairwise.nil
  | @add repo h fuel book r repo' h' hfuel _ hrun ih =>
    obtain ⟨s, hs, hcmp, hval, hord⟩ := ih
    obtain ⟨repo1, h1, hrun1, hs1, hcmp1, hfail, -⟩ :=
      book_repo_add_stored hs hcmp book fuel hfuel
    rw [hrun1] at hrun
    simp only [Option.some.injEq, Prod.mk.injEq] at hrun
    obtain ⟨hr, rfl, rfl⟩ := hrun
    refine ⟨_, hs1, hcmp1, ?_⟩
    by_cases hv : validate_book book = true
    · cases hf : s.find? (has_isbn book.isbn) with
      | some b => simpa [book_add_model, hv, hf] using ⟨hval, hord⟩
      | none =>
        by_cases hroom : h.cells.length < h.limit
        · have hnew : ∀ b ∈ s, b.isbn ≠ book.isbn := by
            intro b hb
            have := List.find?_eq_none.1 hf b hb
            simpa [has_isbn, (validate_book_isbn hv).2.2] using this
          simp only [book_add_model, hv, hf, hroom, not_true_eq_false, if_false,
            Option.isSome_none, Bool.false_eq_true, decide_True]
          refine ⟨?_, strictlyByIsbn_insert hord book hnew⟩
          intro b hb
          simp only [insert_sorted_model, List.mem_append, List.mem_cons] at hb
          rcases hb with hb | rfl | hb
          · exact hval b ((List.takeWhile_sublist _).subset hb)
          · exact hv
          · exact hval b ((List.dropWhile_sublist _).subset hb)
        · simpa [book_add_model, hv, hf, hroom] using ⟨hval, hord⟩
    · simpa [book_add_model, hv] using ⟨hval, hord⟩
  | @delete repo h fuel isbn r repo' h' hfuel _ hrun ih =>
    obtain ⟨s, hs, hcmp, hval, hord⟩ := ih
    obtain ⟨repo1, h1, hrun1, hs1, hcmp1, -⟩ :=
      book_repo_delete_stored hs hcmp isbn fuel hfuel
    rw [hrun1] at hrun
    simp only [Option.some.injEq, Prod.mk.injEq] at hrun
    obtain ⟨hr, rfl, rfl⟩ := hrun
    refine ⟨_, hs1, hcmp1, ?_⟩
    cases hf : s.find? (has_isbn isbn) with
    | none => simpa [book_delete_model, hf] using ⟨hval, hord⟩
    | some b =>
      simp only [book_delete_model, hf]
      exact ⟨fun b hb => hval b ((List.eraseP_sublist s).subset hb),
        List.Pairwise.sublist (List.eraseP_sublist s) hord⟩

theorem strictlyByIsbn_nodup {s : List Book} (hs : StrictlyByIsbn s) :
    (s.map fun b => b.isbn).Nodup := by
  unfold List.Nodup
  rw [List.pairwise_map]
  refine List.Pairwise.imp ?_ hs
  intro a b hab e
  rw [e, strcmp_self] at hab
  omega

theorem strictlyByIsbn_sorted {s : List Book} (hs : StrictlyByIsbn s) :
    SortedBy compare_book_isbn s := by
  unfold SortedBy
  refine List.Chain'.imp ?_ (List.Pairwise.chain' hs)
  intro a b hab
  simp only [compare_book_isbn]
  omega

/-- The repository of the tests is built from the empty one by one `book_repo_add`. -/
theorem bookRepoBuilt_clean_code :
    BookRepoBuilt book_repo_clean_code (heap_single book_clean_code) :=
  BookRepoBuilt.add 0 book_clean_code LMS_SUCCESS book_repo_clean_code
    (heap_single book_clean_code) (by decide) (BookRepoBuilt.create { cells := [], limit := 16 })
    (by rfl)

/-- Counterexample to C27 as stated: the repository holds "Clean Code" under ISBN
9780132350884; `book_repo_add` of a book with this ISBN and an empty title returns
`LMS_ERROR_INVALID_INPUT`, not `LMS_ERROR_DUPLICATE` (the repository is unchanged). -/
theorem book_repo_add_invalid_duplicate :
    BookRepoBuilt book_repo_clean_code (heap_single book_clean_code) ∧
    forward_seq book_repo_clean_code.books (heap_single book_clean_code) =
      some [book_clean_code] ∧
    ({ book_clean_code with title := [] } : Book).isbn = book_clean_code.isbn ∧
    observe_books (book_repo_add 1 book_repo_clean_code { book_clean_code with title := [] }
      (heap_single book_clean_code)) =
      some (LMS_ERROR_INVALID_INPUT, 1, some [book_clean_code]) ∧
    LMS_ERROR_INVALID_INPUT ≠ LMS_ERROR_DUPLICATE :=
  ⟨bookRepoBuilt_clean_code, by rfl, rfl, by rfl, by decide⟩

/-- C27, amended: in a repository built from empty by `book_repo_add` and
`book_repo_delete`, `book_repo_add` of a book whose ISBN is already stored returns
`LMS_ERROR_DUPLICATE` when the book passes `validate_book` and
`LMS_ERROR_INVALID_INPUT` when it does not (the validation comes first), and hands
back the repository and the heap as they were; the stored ISBNs are pairwise distinct
and the book list is sorted by ISBN, strictly. -/
theorem book_repo_add_duplicate (repo : BookRepository) (h : Heap Book)
    (hb : BookRepoBuilt repo h) (book : Book) (fuel : Nat) (hfuel : repo.books.size ≤ fuel) :
    ∃ s, forward_seq repo.books h = some s ∧
      ((∃ b ∈ s, b.isbn = book.isbn) →
        (validate_book book = true →
          book_repo_add fuel repo book h = some (LMS_ERROR_DUPLICATE, repo, h)) ∧
        (validate_book book = false →
          book_repo_add fuel repo book h = some (LMS_ERROR_INVALID_INPUT, repo, h))) ∧
      (s.map fun b => b.isbn).Nodup ∧ SortedBy compare_book_isbn s ∧ StrictlyByIsbn s := by
  obtain ⟨s, hs, hcmp, hval, hord⟩ := hb.invariant
  refine ⟨s, hs.2, ?_, strictlyByIsbn_nodup hord, strictlyByIsbn_sorted hord, hord⟩
  rintro ⟨b, hbs, hbi⟩
  constructor
  · intro hv
    obtain ⟨repo1, h1, hrun1, -, -, hfail, -⟩ := book_repo_add_stored hs hcmp book fuel hfuel
    have hfound : (s.find? (has_isbn book.isbn)).isSome = true := by
      rw [List.find?_isSome]
      exact ⟨b, hbs, by simp [has_isbn, hbi, (validate_book_isbn hv).2.2]⟩
    have hm : book_add_model (decide (h.cells.length < h.limit)) book s =
        (LMS_ERROR_DUPLICATE, s) := by
      simp [book_add_model, hv, hfound]
    rw [hm] at hrun1 hfail
    obtain ⟨rfl, rfl⟩ := hfail (by simp)
    exact hrun1
  · intro hv
    simp [book_repo_add, hv]

/-- Witness of C27: the book "Clean Code" is added twice; the second call returns
`LMS_ERROR_DUPLICATE` and leaves the one stored book. -/
theorem book_repo_add_duplicate_witness :
    (BookRepoBuilt book_repo_clean_code (heap_single book_clean_code) ∧
      book_repo_clean_code.books.size ≤ (1 : Nat)) ∧
    (∃ s, forward_seq book_repo_clean_code.books (heap_single book_clean_code) = some s ∧
      ((∃ b ∈ s, b.isbn = book_clean_code.isbn) →
        (validate_book book_clean_code = true →
          book_repo_add 1 book_repo_clean_code book_clean_code (heap_single book_clean_code) =
            some (LMS_ERROR_DUPLICATE, book_repo_clean_code, heap_single book_clean_code)) ∧
        (validate_book book_clean_code = false →
          book_repo_add 1 book_repo_clean_code book_clean_code (heap_single book_clean_code) =
            some (LMS_ERROR_INVALID_INPUT, book_repo_clean_code,
              heap_single book_clean_code))) ∧
      (s.map fun b => b.isbn).Nodup ∧ SortedBy compare_book_isbn s ∧ StrictlyByIsbn s) ∧
    validate_book book_clean_code = true ∧
    observe_books (book_repo_add 0 book_repository_create book_clean_code
      { cells := [], limit := 16 }) = some (LMS_SUCCESS, 1, some [book_clean_code]) ∧
    observe_books (book_repo_add 1 book_repo_clean_code book_clean_code
      (heap_single book_clean_code)) = some (LMS_ERROR_DUPLICATE, 1, some [book_clean_code]) :=
  ⟨⟨bookRepoBuilt_clean_code, by decide⟩,
    book_repo_add_duplicate book_repo_clean_code (heap_single book_clean_code)
      bookRepoBuilt_clean_code book_clean_code 1 (by decide),
    by decide, by rfl, by rfl⟩

theorem find_insert_sorted_model (cmp : α → α → Int) (p : α → Bool) (x : α) (s : List α)
    (hnone : s.find? p = none) (hx : p x = true) :
    (insert_sorted_model cmp x s).find? p = some x := by
  unfold insert_sorted_model
  refine find_of_split p _ _ x ?_ hx
  intro z hz
  have := List.find?_eq_none.1 hnone z ((List.takeWhile_sublist _).subset hz)
  simpa using this

theorem find_eraseP_strictlyByIsbn {s : List Book} (hs : StrictlyByIsbn s) (isbn : List Char) :
    (s.eraseP (has_isbn isbn)).find? (has_isbn isbn) = none := by
  cases hf : s.find? (has_isbn isbn) with
  | none =>
    rw [List.eraseP_of_forall_not (fun a ha => by
      simpa using List.find?_eq_none.1 hf a ha)]
    exact hf
  | some b =>
    obtain ⟨s1, s2, rfl, hno, hyes⟩ := find_split hf
    rw [List.eraseP_append_right _ (fun z hz => by simpa using hno z hz)]
    simp only [List.eraseP_cons_of_pos hyes]
    rw [List.find?_eq_none]
    intro z hz
    rcases List.mem_append.1 hz with hz1 | hz2
    · simpa using hno z hz1
    · have hpair := (List.pairwise_append.1 hs).2.1
      have hbz := (List.pairwise_cons.1 hpair).1 z hz2
      simp only [has_isbn, decide_eq_true_eq] at hyes ⊢
      intro e
      rw [hyes, e, strcmp_self] at hbz
      omega

/-- C28: in a book repository built from empty by `book_repo_add` and
`book_repo_delete`, both calls return; after a `book_repo_add` that returns
`LMS_SUCCESS` the total count is one higher and `book_repo_find_by_isbn` of the ISBN of
the book returns a stored record equal to the book; after a `book_repo_delete` that
returns `LMS_SUCCESS` the total count is one lower and `book_repo_find_by_isbn` of the
same string returns `NULL`. -/
theorem book_repo_add_delete_find (repo : BookRepository) (h : Heap Book)
    (hb : BookRepoBuilt repo h) (fuel : Nat) (hfuel : repo.books.size ≤ fuel) :
    (∀ book, ∃ r repo' h', book_repo_add fuel repo book h = some (r, repo', h') ∧
      (r = LMS_SUCCESS →
        book_repo_get_total_count repo' = book_repo_get_total_count repo + 1 ∧
        ∃ a nd, book_repo_find_by_isbn (fuel + 1) repo' book.isbn h' = some (some a) ∧
          h'.read a = some nd ∧ nd.data = book)) ∧
    (∀ isbn, ∃ r repo' h', book_repo_delete fuel repo isbn h = some (r, repo', h') ∧
      (r = LMS_SUCCESS →
        book_repo_get_total_count repo' = book_repo_get_total_count repo - 1 ∧
        book_repo_find_by_isbn fuel repo' isbn h' = some none)) := by
  obtain ⟨s, hs, hcmp, hval, hord⟩ := hb.invariant
  constructor
  · intro book
    obtain ⟨repo', h', hrun, hs', hcmp', -, hsize⟩ :=
      book_repo_add_stored hs hcmp book fuel hfuel
    refine ⟨_, repo', h', hrun, ?_⟩
    intro hr
    have hsz := hsize hr
    refine ⟨hsz, ?_⟩
    have hv : validate_book book = true := by
      by_contra hcon
      simp [book_add_model, hcon] at hr
    cases hf : s.find? (has_isbn book.isbn) with
    | some b => simp [book_add_model, hv, hf] at hr
    | none =>
      by_cases hroom : h.cells.length < h.limit
      · have hm : (book_add_model (decide (h.cells.length < h.limit)) book s).2 =
            insert_sorted_model compare_book_isbn book s := by
          simp [book_add_model, hv, hf, hroom]
        rw [hm] at hs'
        have hfind := find_insert_sorted_model compare_book_isbn (has_isbn book.isbn) book s hf
          (by simp [has_isbn, (validate_book_isbn hv).2.2])
        obtain ⟨a, nd, hrun2, hra, hdata, -⟩ :=
          (book_repo_find_by_isbn_stored hs' hcmp' book.isbn (fuel + 1)
            (by rw [hsz]; push_cast; omega)).2 book hfind
        exact ⟨a, nd, hrun2, hra, hdata⟩
      · simp [book_add_model, hv, hf, hroom] at hr
  · intro isbn
    obtain ⟨repo', h', hrun, hs', hcmp', -, hsize⟩ :=
      book_repo_delete_stored hs hcmp isbn fuel hfuel
    refine ⟨_, repo', h', hrun, ?_⟩
    intro hr
    have hsz := hsize hr
    refine ⟨hsz, ?_⟩
    cases hf : s.find? (has_isbn isbn) with
    | none => simp [book_delete_model, hf] at hr
    | some b =>
      have hm : (book_delete_model isbn s).2 = s.eraseP (has_isbn isbn) := by
        simp [book_delete_model, hf]
      rw [hm] at hs'
      exact (book_repo_find_by_isbn_stored hs' hcmp' isbn fuel
        (by rw [hsz]; omega)).1 (find_eraseP_strictlyByIsbn hord isbn)

/-- Witness of C28, the CRUD test: "Clean Code" is added to the empty repository (count
1, found under its ISBN at node 0), then deleted (count 0, no longer found). -/
theorem book_repo_add_delete_find_witness :
    (BookRepoBuilt book_repository_create ({ cells := [], limit := 16 } : Heap Book) ∧
      (book_repository_create).books.size ≤ (0 : Nat)) ∧
    ((∀ book, ∃ r repo' h', book_repo_add 0 book_repository_create book
        { cells := [], limit := 16 } = some (r, repo', h') ∧
      (r = LMS_SUCCESS →
        book_repo_get_total_count repo' = book_repo_get_total_count book_repository_create + 1 ∧
        ∃ a nd, book_repo_find_by_isbn (0 + 1) repo' book.isbn h' = some (some a) ∧
          h'.read a = some nd ∧ nd.data = book)) ∧
    (∀ isbn, ∃ r repo' h', book_repo_delete 0 book_repository_create isbn
        { cells := [], limit := 16 } = some (r, repo', h') ∧
      (r = LMS_SUCCESS →
        book_repo_get_total_count repo' = book_repo_get_total_count book_repository_create - 1 ∧
        book_repo_find_by_isbn 0 repo' isbn h' = some none))) ∧
    observe_books (book_repo_add 0 book_repository_create book_clean_code
      { cells := [], limit := 16 }) = some (LMS_SUCCESS, 1, some [book_clean_code]) ∧
    book_repo_find_by_isbn 1 book_repo_clean_code "9780132350884".toList
      (heap_single book_clean_code) = some (some 0) ∧
    ((heap_single book_clean_code).read 0).map (fun nd => nd.data) = some book_clean_code ∧
    observe_books (book_repo_delete 1 book_repo_clean_code "9780132350884".toList
      (heap_single book_clean_code)) = some (LMS_SUCCESS, 0, some []) ∧
    (book_repo_delete 1 book_repo_clean_code "9780132350884".toList
      (heap_single book_clean_code)).bind
        (fun r => book_repo_find_by_isbn 1 r.2.1 "9780132350884".toList r.2.2) = some none :=
  ⟨⟨BookRepoBuilt.create _, by decide⟩,
    book_repo_add_delete_find book_repository_create { cells := [], limit := 16 }
      (BookRepoBuilt.create _) 0 (by decide),
    by rfl, by rfl, by rfl, by rfl, by rfl⟩

theorem update_first_id (p : α → Bool) (f : α → α) (s : List α)
    (hf : ∀ b, s.find? p = some b → f b = b) : update_first p f s = s := by
  induction s with
  | nil => rfl
  | cons x s ih =>
    by_cases hx : p x = true
    · have := hf x (by simp [hx])
      simp [update_first, hx, this]
    · have hx1 : p x = false := by simpa using hx
      have hih := ih (fun b hb => hf b (by simpa [List.find?_cons, hx1] using hb))
      simp [update_first, hx1, hih]

theorem update_first_twice (p : α → Bool) (f g : α → α) (s : List α)
    (hp : ∀ b, p b = true → p (f b) = true) :
    update_first p g (update_first p f s) = update_first p (fun b => g (f b)) s := by
  induction s with
  | nil => rfl
  | cons x s ih =>
    by_cases hx : p x = true
    · simp [update_first, hx, hp x hx]
    · have hx1 : p x = false := by simpa using hx
      simp [update_first, hx1, ih]

theorem find_update_first (p : α → Bool) (f : α → α) (s : List α)
    (hp : ∀ b, p b = true → p (f b) = true) :
    (update_first p f s).find? p = (s.find? p).map f := by
  induction s with
  | nil => rfl
  | cons x s ih =>
    by_cases hx : p x = true
    · simp [update_first, hx, hp x hx]
    · have hx1 : p x = false := by simpa using hx
      simp [update_first, hx1, ih]

/-- Function `book_service_get_available_count` on the stored books. -/
theorem book_service_get_available_count_stored {service : BookService} {h : Heap Book}
    {s : List Book} (hs : Stored service.book_repo.books h s)
    (hcmp : service.book_repo.books.compare = some compare_book_isbn)
    (isbn : List Char) (fuel : Nat) (hfuel : service.book_repo.books.size ≤ fuel) :
    book_service_get_available_count fuel service isbn h =
      some (match s.find? (has_isbn isbn) with
        | none => 0
        | some b => b.available_copies) := by
  obtain ⟨hnone, hsome⟩ := book_repo_find_by_isbn_stored hs hcmp isbn fuel hfuel
  cases hf : s.find? (has_isbn isbn) with
  | none => simp [book_service_get_available_count, hnone hf]
  | some b =>
    obtain ⟨a, nd, hfind, hra, hdata, -⟩ := hsome b hf
    simp [book_service_get_available_count, hfind, hra, hdata]

/-- Function `book_service_is_available_for_loan` on the stored books. -/
theorem book_service_is_available_for_loan_stored {service : BookService} {h : Heap Book}
    {s : List Book} (hs : Stored service.book_repo.books h s)
    (hcmp : service.book_repo.books.compare = some compare_book_isbn)
    (isbn : List Char) (fuel : Nat) (hfuel : service.book_repo.books.size ≤ fuel) :
    book_service_is_available_for_loan fuel service isbn h =
      some (match s.find? (has_isbn isbn) with
        | none => false
        | some b => decide (b.available_copies > 0 ∧ b.status = 'A')) := by
  obtain ⟨hnone, hsome⟩ := book_repo_find_by_isbn_stored hs hcmp isbn fuel hfuel
  cases hf : s.find? (has_isbn isbn) with
  | none => simp [book_service_is_available_for_loan, hnone hf]
  | some b =>
    obtain ⟨a, nd, hfind, hra, hdata, -⟩ := hsome b hf
    simp [book_service_is_available_for_loan, hfind, hra, hdata]

/-- C29: let `b` be the stored book that the repository finds under `isbn`, in a well
formed book list with the ISBN comparator. If `b` has status 'A' and
`0 < available_copies <= total_copies`, `book_service_reserve_book` returns
`LMS_SUCCESS` and the available count read back is one lower, and a following
`book_service_release_reservation` returns `LMS_SUCCESS` and the stored books are
again what they were, the available count included. If `available_copies == 0`,
reserving returns `LMS_ERROR_BOOK_UNAVAILABLE`; if `available_copies == total_copies`,
releasing returns `LMS_ERROR_INVALID_INPUT`; both hand back the heap as it was. -/
theorem book_service_reserve_release (service : BookService) (h : Heap Book) (s : List Book)
    (isbn : List Char) (b : Book) (fuel : Nat)
    (hwf : WellFormed service.book_repo.books h)
    (hseq : forward_seq service.book_repo.books h = some s)
    (hcmp : service.book_repo.books.compare = some compare_book_isbn)
    (hfuel : service.book_repo.books.size ≤ fuel)
    (hfind : s.find? (has_isbn isbn) = some b) :
    book_service_get_available_count fuel service isbn h = some b.available_copies ∧
    (b.status = 'A' → 0 < b.available_copies → b.available_copies ≤ b.total_copies →
      ∃ h1 h2, book_service_reserve_book fuel service isbn h = some (LMS_SUCCESS, h1) ∧
        book_service_get_available_count fuel service isbn h1 =
          some (b.available_copies - 1) ∧
        book_service_release_reservation fuel service isbn h1 = some (LMS_SUCCESS, h2) ∧
        book_service_get_available_count fuel service isbn h2 = some b.available_copies ∧
        WellFormed service.book_repo.books h2 ∧
        forward_seq service.book_repo.books h2 = some s) ∧
    (b.available_copies = 0 →
      book_service_reserve_book fuel service isbn h = some (LMS_ERROR_BOOK_UNAVAILABLE, h)) ∧
    (b.available_copies = b.total_copies →
      book_service_release_reservation fuel service isbn h =
        some (LMS_ERROR_INVALID_INPUT, h)) := by
  have hs : Stored service.book_repo.books h s := ⟨hwf, hseq⟩
  have hcount := book_service_get_available_count_stored hs hcmp isbn fuel hfuel
  have havail := book_service_is_available_for_loan_stored hs hcmp isbn fuel hfuel
  rw [hfind] at hcount havail
  refine ⟨hcount, ?_, ?_, ?_⟩
  · intro hst hpos hle
    obtain ⟨h1, hrun1, hs1, -, -, -⟩ :=
      book_repo_update_availability_stored hs hcmp isbn (-1) fuel hfuel
    have hm1 : availability_model isbn (-1) s = (LMS_SUCCESS, update_first (has_isbn isbn)
        (fun b => { b with available_copies := b.available_copies + -1 }) s) := by
      have : ¬ (b.available_copies + -1 < 0 ∨ b.available_copies + -1 > b.total_copies) := by
        omega
      simp only [availability_model, hfind]
      rw [if_neg this]
    rw [hm1] at hrun1 hs1
    have hkeep : ∀ c : Int, ∀ b : Book, has_isbn isbn b = true →
        has_isbn isbn { b with available_copies := b.available_copies + c } = true := by
      intro c b hb
      simpa [has_isbn] using hb
    have hfind1 := find_update_first (has_isbn isbn)
      (fun b => { b with available_copies := b.available_copies + -1 }) s (hkeep (-1))
    rw [hfind] at hfind1
    have hcount1 := book_service_get_available_count_stored hs1 hcmp isbn fuel hfuel
    rw [hfind1] at hcount1
    obtain ⟨h2, hrun2, hs2, -, -, -⟩ :=
      book_repo_update_availability_stored hs1 hcmp isbn 1 fuel hfuel
    have hback : update_first (has_isbn isbn)
        (fun b => { b with available_copies := b.available_copies + 1 })
        (update_first (has_isbn isbn)
          (fun b => { b with available_copies := b.available_copies + -1 }) s) = s := by
      rw [update_first_twice _ _ _ _ (hkeep (-1))]
      refine update_first_id _ _ _ ?_
      intro b' _
      cases b'
      simp
    have hm2 : availability_model isbn 1 (update_first (has_isbn isbn)
        (fun b => { b with available_copies := b.available_copies + -1 }) s) =
        (LMS_SUCCESS, s) := by
      have : ¬ (b.available_copies + -1 + 1 < 0 ∨
          b.available_copies + -1 + 1 > b.total_copies) := by omega
      simp only [availability_model, hfind1, Option.map_some']
      rw [if_neg this, hback]
    rw [hm2] at hrun2 hs2
    have hcount2 := book_service_get_available_count_stored hs2 hcmp isbn fuel hfuel
    rw [hfind] at hcount2
    refine ⟨h1, h2, ?_, ?_, hrun2, hcount2, hs2.1, hs2.2⟩
    · simp only [book_service_reserve_book, havail, Option.bind_eq_bind, Option.some_bind]
      simp [hst, hpos, hrun1]
    · simpa [sub_eq_add_neg] using hcount1
  · intro h0
    simp only [book_service_reserve_book, havail, Option.bind_eq_bind, Option.some_bind]
    simp [h0]
  · intro htot
    obtain ⟨h1, hrun1, -, hsame, -, -⟩ :=
      book_repo_update_availability_stored hs hcmp isbn 1 fuel hfuel
    have hm1 : availability_model isbn 1 s = (LMS_ERROR_INVALID_INPUT, s) := by
      have : b.available_copies + 1 < 0 ∨ b.available_copies + 1 > b.total_copies := by
        omega
      simp only [availability_model, hfind]
      rw [if_pos this]
    rw [hm1] at hrun1 hsame
    obtain rfl := hsame (by simp)
    exact hrun1

theorem wellFormed_book_repo_clean_code :
    WellFormed book_repo_clean_code.books (heap_single book_clean_code) :=
  ⟨[(0, book_clean_code)], by rfl, by rfl, by rfl⟩

/-- Witness of C29, the book service test: "Clean Code" has 5 of 5 copies available;
reserving gives 4, releasing gives 5 again; releasing at 5 of 5 is refused with
`LMS_ERROR_INVALID_INPUT`, and reserving a book with no available copy is refused with
`LMS_ERROR_BOOK_UNAVAILABLE`. -/
theorem book_service_reserve_release_witness :
    (WellFormed book_service_test.book_repo.books (heap_single book_clean_code) ∧
      forward_seq book_service_test.book_repo.books (heap_single book_clean_code) =
        some [book_clean_code] ∧
      book_service_test.book_repo.books.compare = some compare_book_isbn ∧
      book_service_test.book_repo.books.size ≤ (1 : Nat) ∧
      [book_clean_code].find? (has_isbn "9780132350884".toList) = some book_clean_code) ∧
    (book_service_get_available_count 1 book_service_test "9780132350884".toList
        (heap_single book_clean_code) = some book_clean_code.available_copies ∧
      (book_clean_code.status = 'A' → 0 < book_clean_code.available_copies →
        book_clean_code.available_copies ≤ book_clean_code.total_copies →
        ∃ h1 h2, book_service_reserve_book 1 book_service_test "9780132350884".toList
            (heap_single book_clean_code) = some (LMS_SUCCESS, h1) ∧
          book_service_get_available_count 1 book_service_test "9780132350884".toList h1 =
            some (book_clean_code.available_copies - 1) ∧
          book_service_release_reservation 1 book_service_test "9780132350884".toList h1 =
            some (LMS_SUCCESS, h2) ∧
          book_service_get_available_count 1 book_service_test "9780132350884".toList h2 =
            some book_clean_code.available_copies ∧
          WellFormed book_service_test.book_repo.books h2 ∧
          forward_seq book_service_test.book_repo.books h2 = some [book_clean_code]) ∧
      (book_clean_code.available_copies = 0 →
        book_service_reserve_book 1 book_service_test "9780132350884".toList
          (heap_single book_clean_code) =
            some (LMS_ERROR_BOOK_UNAVAILABLE, heap_single book_clean_code)) ∧
      (book_clean_code.available_copies = book_clean_code.total_copies →
        book_service_release_reservation 1 book_service_test "9780132350884".toList
          (heap_single book_clean_code) =
            some (LMS_ERROR_INVALID_INPUT, heap_single book_clean_code))) ∧
    (book_service_reserve_book 1 book_service_test "9780132350884".toList
        (heap_single book_clean_code)).bind
      (fun r => book_service_get_available_count 1 book_service_test
        "9780132350884".toList r.2) = some 4 ∧
    ((book_service_reserve_book 1 book_service_test "9780132350884".toList
        (heap_single book_clean_code)).bind
      (fun r => book_service_release_reservation 1 book_service_test
        "9780132350884".toList r.2)) =
      some (LMS_SUCCESS, heap_single book_clean_code) ∧
    book_service_release_reservation 1 book_service_test "9780132350884".toList
      (heap_single book_clean_code) =
        some (LMS_ERROR_INVALID_INPUT, heap_single book_clean_code) ∧
    book_service_reserve_book 1 book_service_test "9780132350884".toList
      (heap_single { book_clean_code with available_copies := 0 }) =
        some (LMS_ERROR_BOOK_UNAVAILABLE,
          heap_single { book_clean_code with available_copies := 0 }) :=
  ⟨⟨wellFormed_book_repo_clean_code, by rfl, rfl, by decide, by decide⟩,
    book_service_reserve_release book_service_test (heap_single book_clean_code)
      [book_clean_code] "9780132350884".toList book_clean_code 1
      wellFormed_book_repo_clean_code (by rfl) rfl (by decide) (by decide),
    by rfl, by rfl, by rfl, by rfl⟩

/-- Function `loan_service_can_borrow` on the stored records. -/
theorem loan_service_can_borrow_stored {service : LoanService} {m : Memory} {st : Records}
    (hrep : Represents service m st) (member_id isbn : List Char) (fuel : Nat)
    (hfuel : FuelFor fuel service) :
    loan_service_can_borrow fuel service member_id isbn m =
      some (can_borrow_model member_id isbn st) := by
  obtain ⟨hsb, hcb, hsm, hcm, -⟩ := hrep
  obtain ⟨hmnone, hmsome⟩ := member_repo_find_by_id_stored hsm hcm member_id fuel hfuel.2.1
  obtain ⟨hbnone, hbsome⟩ := book_repo_find_by_isbn_stored hsb hcb isbn fuel hfuel.1
  cases hfm : st.members.find? (has_member_id member_id) with
  | none => simp [loan_service_can_borrow, hmnone hfm, can_borrow_model, hfm]
  | some mb =>
    obtain ⟨a, nd, hfind, hra, hdata, -⟩ := hmsome mb hfm
    subst hdata
    by_cases hst : nd.data.status ≠ 'A'
    · simp [loan_service_can_borrow, hfind, hra, can_borrow_model, hfm, hst]
    · by_cases hlim : nd.data.loan_count ≥ (if nd.data.membership_type = 'P' then 5 else 3)
      · simp only [loan_service_can_borrow, hfind, hra, can_borrow_model, hfm,
          Option.bind_eq_bind, Option.some_bind]
        rw [if_neg hst, if_pos hlim, if_neg hst, if_pos hlim]
      · cases hfb : st.books.find? (has_isbn isbn) with
        | none =>
          simp only [loan_service_can_borrow, hfind, hra, can_borrow_model, hfm, hfb,
            Option.bind_eq_bind, Option.some_bind, hbnone hfb]
          rw [if_neg hst, if_neg hlim, if_neg hst, if_neg hlim]
        | some b =>
          obtain ⟨a2, nd2, hfind2, hra2, hdata2, -⟩ := hbsome b hfb
          subst hdata2
          simp only [loan_service_can_borrow, hfind, hra, can_borrow_model, hfm, hfb,
            Option.bind_eq_bind, Option.some_bind, hfind2, hra2]
          rw [if_neg hst, if_neg hlim, if_neg hst, if_neg hlim]
          split <;> rfl

/-- Function `loan_service_get_loan_period` on the stored members. -/
theorem loan_service_get_loan_period_stored {service : LoanService} {h : Heap Member}
    {s : List Member} (hs : Stored service.member_repo.members h s)
    (hcmp : service.member_repo.members.compare = some compare_member_id)
    (member_id : List Char) (fuel : Nat) (hfuel : service.member_repo.members.size ≤ fuel) :
    loan_service_get_loan_period fuel service member_id h =
      some (match s.find? (has_member_id member_id) with
        | none => DEFAULT_LOAN_PERIOD_DAYS
        | some mb => if mb.membership_type = 'P' then 21 else DEFAULT_LOAN_PERIOD_DAYS) := by
  obtain ⟨hnone, hsome⟩ := member_repo_find_by_id_stored hs hcmp member_id fuel hfuel
  cases hf : s.find? (has_member_id member_id) with
  | none => simp [loan_service_get_loan_period, hnone hf]
  | some b =>
    obtain ⟨a, nd, hfind, hra, hdata, -⟩ := hsome b hf
    simp [loan_service_get_loan_period, hfind, hra, hdata]

/-- Function `loan_service_calculate_due_date` on the stored members: the loan date
itself, cut to 10 characters, whatever the loan period. -/
theorem loan_service_calculate_due_date_stored {service : LoanService} {h : Heap Member}
    {s : List Member} (hs : Stored service.member_repo.members h s)
    (hcmp : service.member_repo.members.compare = some compare_member_id)
    (alloc : Bool) (loan_date member_id : List Char) (fuel : Nat)
    (hfuel : service.member_repo.members.size ≤ fuel) :
    loan_service_calculate_due_date fuel service alloc loan_date member_id h =
      some (if alloc then some (strncpy loan_date 10) else none) := by
  have := loan_service_get_loan_period_stored hs hcmp member_id fuel hfuel
  cases alloc <;> simp [loan_service_calculate_due_date, this]

/-- Function `loan_service_borrow_book` on the stored records. -/
theorem loan_service_borrow_book_stored {service : LoanService} {m : Memory} {st : Records}
    (hrep : Represents service m st) (member_id isbn now : List Char)
    (id_alloc due_alloc : Bool) (fuel : Nat) (hfuel : FuelFor fuel service) :
    ∃ service' m', loan_service_borrow_book fuel service member_id isbn now id_alloc
        due_alloc m =
        some ((borrow_model member_id isbn now id_alloc due_alloc
          (decide (m.loans.cells.length < m.loans.limit)) st).1, service', m') ∧
      Represents service' m' (borrow_model member_id isbn now id_alloc due_alloc
        (decide (m.loans.cells.length < m.loans.limit)) st).2 ∧
      service'.book_repo = service.book_repo ∧ service'.member_repo = service.member_repo := by
  have hcan := loan_service_can_borrow_stored hrep member_id isbn fuel hfuel
  obtain ⟨hsb, hcb, hsm, hcm, hsl, hcl, hctr⟩ := hrep
  obtain ⟨hfb, hfm, hfl⟩ := hfuel
  by_cases hc : can_borrow_model member_id isbn st = true
  swap
  · refine ⟨service, m, ?_, ?_, rfl, rfl⟩
    · simp [loan_service_borrow_book, hcan, hc, borrow_model]
    · simpa [borrow_model, hc] using ⟨hsb, hcb, hsm, hcm, hsl, hcl, hctr⟩
  obtain ⟨hb1, hrunb1, hsb1, -, -, -⟩ :=
    book_repo_update_availability_stored hsb hcb isbn (-1) fuel hfb
  by_cases hr1 : (availability_model isbn (-1) st.books).1 = LMS_SUCCESS
  swap
  · refine ⟨service, { m with books := hb1 }, ?_, ?_, rfl, rfl⟩
    · simp [loan_service_borrow_book, hcan, hc, borrow_model, hrunb1, hr1]
    · simpa [borrow_model, hc, hr1] using ⟨hsb1, hcb, hsm, hcm, hsl, hcl, hctr⟩
  obtain ⟨hm1, hrunm1, hsm1, -, -, -⟩ :=
    member_repo_update_loan_count_stored hsm hcm member_id 1 fuel hfm
  obtain ⟨hb2, hrunb2, hsb2, -, -, -⟩ :=
    book_repo_update_availability_stored hsb1 hcb isbn 1 fuel hfb
  obtain ⟨hm2, hrunm2, hsm2, -, -, -⟩ :=
    member_repo_update_loan_count_stored hsm1 hcm member_id (-1) fuel hfm
  by_cases hr2 : (loan_count_model member_id 1 st.members).1 = LMS_SUCCESS
  swap
  · refine ⟨service, { m with books := hb2, members := hm1 }, ?_, ?_, rfl, rfl⟩
    · simp [loan_service_borrow_book, hcan, hc, borrow_model, hrunb1, hr1, hrunm1, hr2,
        hrunb2]
    · simpa [borrow_model, hc, hr1, hr2] using ⟨hsb2, hcb, hsm1, hcm, hsl, hcl, hctr⟩
  cases id_alloc with
  | false =>
    refine ⟨service, { m with books := hb2, members := hm2, loan_counter := m.loan_counter },
      ?_, ?_, rfl, rfl⟩
    · simp [loan_service_borrow_book, hcan, hc, borrow_model, hrunb1, hr1, hrunm1, hr2,
        hrunb2, hrunm2, loan_service_generate_loan_id]
    · simpa [borrow_model, hc, hr1, hr2, loan_service_generate_loan_id] using
        ⟨hsb2, hcb, hsm2, hcm, hsl, hcl, hctr⟩
  | true =>
    have hdue := loan_service_calculate_due_date_stored hsm1 hcm due_alloc now member_id
      fuel hfm
    obtain ⟨lr1, hl1, hrunl, hsl1, hcl1, -, -⟩ :=
      loan_repo_add_stored hsl hcl
        (borrowed_loan (format_loan_id m.loan_counter) member_id isbn now due_alloc) fuel hfl
    have hbl : ∀ d : Bool, borrowed_loan (format_loan_id m.loan_counter) member_id isbn now d =
        { loan_id := strncpy (format_loan_id m.loan_counter) 10,
          member_id := strncpy member_id 10, isbn := strncpy isbn 13,
          loan_date := strncpy now 10,
          due_date := if d then strncpy (strncpy now 10) 10 else [],
          return_date := [], overdue_days := 0, fine_amount := 0, status := 'L' } := by
      intro d
      cases d <;> rfl
    by_cases hr3 : (loan_add_model (decide (m.loans.cells.length < m.loans.limit))
        (borrowed_loan (format_loan_id m.loan_counter) member_id isbn now due_alloc)
        st.loans).1 = LMS_SUCCESS
    · refine ⟨{ service with loan_repo := lr1 },
        { books := hb1, members := hm1, loans := hl1, loan_counter := m.loan_counter + 1 },
        ?_, ?_, rfl, rfl⟩
      · rw [hbl] at hrunl hr3
        cases due_alloc <;>
          simp only [Bool.false_eq_true, if_false, if_true] at hrunl hr3 <;>
          simp [loan_service_borrow_book, hcan, hc, borrow_model, hrunb1, hr1, hrunm1, hr2,
            loan_service_generate_loan_id, hdue, loan_init, hrunl, hr3, hbl, ← hctr]
      · simpa [borrow_model, hc, hr1, hr2, loan_service_generate_loan_id, hr3, ← hctr] using
          ⟨hsb1, hcb, hsm1, hcm, hsl1, hcl1, rfl⟩
    · refine ⟨{ service with loan_repo := lr1 },
        { books := hb2, members := hm2, loans := hl1, loan_counter := m.loan_counter + 1 },
        ?_, ?_, rfl, rfl⟩
      · rw [hbl] at hrunl hr3
        cases due_alloc <;>
          simp only [Bool.false_eq_true, if_false, if_true] at hrunl hr3 <;>
          simp [loan_service_borrow_book, hcan, hc, borrow_model, hrunb1, hr1, hrunm1, hr2,
            loan_service_generate_loan_id, hdue, loan_init, hrunl, hr3, hbl, ← hctr,
            hrunb2, hrunm2]
      · simpa [borrow_model, hc, hr1, hr2, loan_service_generate_loan_id, hr3, ← hctr] using
          ⟨hsb2, hcb, hsm2, hcm, hsl1, hcl1, rfl⟩

/-- Function `loan_service_return_book` on the stored records. -/
theorem loan_service_return_book_stored {service : LoanService} {m : Memory} {st : Records}
    (hrep : Represents service m st) (loan_id now : List Char) (fuel : Nat)
    (hfuel : FuelFor fuel service) :
    ∃ m', loan_service_return_book fuel service loan_id now m =
        some ((return_model loan_id now st).1, m') ∧
      Represents service m' (return_model loan_id now st).2 := by
  obtain ⟨hsb, hcb, hsm, hcm, hsl, hcl, hctr⟩ := hrep
  obtain ⟨hfb, hfm, hfl⟩ := hfuel
  obtain ⟨hlnone, hlsome⟩ := loan_repo_find_by_id_stored hsl hcl loan_id fuel hfl
  cases hfind : st.loans.find? (has_loan_id loan_id) with
  | none =>
    refine ⟨m, ?_, ?_⟩
    · simp [loan_service_return_book, hlnone hfind, return_model, hfind]
    · simpa [return_model, hfind] using ⟨hsb, hcb, hsm, hcm, hsl, hcl, hctr⟩
  | some loan =>
    obtain ⟨a, nd, hrunf, hra, hdata, hwrite⟩ := hlsome loan hfind
    subst hdata
    by_cases hst : nd.data.status ≠ 'L'
    · refine ⟨m, ?_, ?_⟩
      · simp [loan_service_return_book, hrunf, hra, return_model, hfind, hst]
      · simpa [return_model, hfind, hst] using ⟨hsb, hcb, hsm, hcm, hsl, hcl, hctr⟩
    obtain ⟨hb1, hrunb1, hsb1, -, -, -⟩ :=
      book_repo_update_availability_stored hsb hcb nd.data.isbn 1 fuel hfb
    by_cases hr1 : (availability_model nd.data.isbn 1 st.books).1 = LMS_SUCCESS
    swap
    · refine ⟨{ m with books := hb1 }, ?_, ?_⟩
      · simp [loan_service_return_book, hrunf, hra, return_model, hfind, hst, hrunb1, hr1]
      · simpa [return_model, hfind, hst, hr1] using ⟨hsb1, hcb, hsm, hcm, hsl, hcl, hctr⟩
    obtain ⟨hm1, hrunm1, hsm1, -, -, -⟩ :=
      member_repo_update_loan_count_stored hsm hcm nd.data.member_id (-1) fuel hfm
    obtain ⟨hb2, hrunb2, hsb2, -, -, -⟩ :=
      book_repo_update_availability_stored hsb1 hcb nd.data.isbn (-1) fuel hfb
    by_cases hr2 : (loan_count_model nd.data.member_id (-1) st.members).1 = LMS_SUCCESS
    swap
    · refine ⟨{ m with books := hb2, members := hm1 }, ?_, ?_⟩
      · simp [loan_service_return_book, hrunf, hra, return_model, hfind, hst, hrunb1, hr1,
          hrunm1, hr2, hrunb2]
      · simpa [return_model, hfind, hst, hr1, hr2] using
          ⟨hsb2, hcb, hsm1, hcm, hsl, hcl, hctr⟩
    obtain ⟨hl1, hw, hsl1, -, -⟩ := hwrite (returned_loan now nd.data)
    have e := update_first_congr (has_loan_id loan_id) (fun _ => returned_loan now nd.data)
      (returned_loan now) st.loans
      (fun b' hb' => by
        rw [hfind] at hb'
        obtain rfl := Option.some.inj hb'
        rfl)
    rw [e] at hsl1
    refine ⟨{ m with books := hb1, members := hm1, loans := hl1 }, ?_, ?_⟩
    · simp only [returned_loan] at hw
      simp [loan_service_return_book, hrunf, hra, return_model, hfind, hst, hrunb1, hr1,
        hrunm1, hr2, hw]
    · simpa [return_model, hfind, hst, hr1, hr2] using
        ⟨hsb1, hcb, hsm1, hcm, hsl1, hcl, hctr⟩

theorem availability_model_cases (isbn : List Char) (c : Int) (s : List Book) :
    ((availability_model isbn c s).1 = LMS_SUCCESS →
      ∃ s1 b s2, s = s1 ++ b :: s2 ∧ (∀ z ∈ s1, has_isbn isbn z = false) ∧
        has_isbn isbn b = true ∧ 0 ≤ b.available_copies + c ∧
        b.available_copies + c ≤ b.total_copies ∧
        (availability_model isbn c s).2 =
          s1 ++ { b with available_copies := b.available_copies + c } :: s2) ∧
    ((availability_model isbn c s).1 ≠ LMS_SUCCESS → (availability_model isbn c s).2 = s) ∧
    ((availability_model isbn c s).1 = LMS_SUCCESS ∨
      (availability_model isbn c s).1 = LMS_ERROR_NOT_FOUND ∨
      (availability_model isbn c s).1 = LMS_ERROR_INVALID_INPUT) := by
  cases hf : s.find? (has_isbn isbn) with
  | none => simp [availability_model, hf]
  | some b =>
    by_cases hb : b.available_copies + c < 0 ∨ b.available_copies + c > b.total_copies
    · simp only [availability_model, hf]
      rw [if_pos hb]
      simp
    · obtain ⟨s1, s2, rfl, hno, hyes⟩ := find_split hf
      simp only [availability_model, hf]
      rw [if_neg hb]
      refine ⟨fun _ => ⟨s1, b, s2, rfl, hno, hyes, by omega, by omega, ?_⟩, by simp, by simp⟩
      exact update_first_split _ _ _ _ _ hno hyes

theorem loan_count_model_cases (member_id : List Char) (c : Int) (s : List Member) :
    ((loan_count_model member_id c s).1 = LMS_SUCCESS →
      ∃ s1 b s2, s = s1 ++ b :: s2 ∧ (∀ z ∈ s1, has_member_id member_id z = false) ∧
        has_member_id member_id b = true ∧ 0 ≤ b.loan_count + c ∧
        (loan_count_model member_id c s).2 =
          s1 ++ { b with loan_count := b.loan_count + c } :: s2) ∧
    ((loan_count_model member_id c s).1 ≠ LMS_SUCCESS → (loan_count_model member_id c s).2 = s) ∧
    ((loan_count_model member_id c s).1 = LMS_SUCCESS ∨
      (loan_count_model member_id c s).1 = LMS_ERROR_NOT_FOUND ∨
      (loan_count_model member_id c s).1 = LMS_ERROR_INVALID_INPUT) := by
  cases hf : s.find? (has_member_id member_id) with
  | none => simp [loan_count_model, hf]
  | some b =>
    by_cases hb : b.loan_count + c < 0
    · simp only [loan_count_model, hf]
      rw [if_pos hb]
      simp
    · obtain ⟨s1, s2, rfl, hno, hyes⟩ := find_split hf
      simp only [loan_count_model, hf]
      rw [if_neg hb]
      refine ⟨fun _ => ⟨s1, b, s2, rfl, hno, hyes, by omega, ?_⟩, by simp, by simp⟩
      exact update_first_split _ _ _ _ _ hno hyes

theorem loan_add_model_cases (room : Bool) (loan : Loan) (s : List Loan) :
    ((loan_add_model room loan s).1 = LMS_SUCCESS →
      validate_loan loan = true ∧ s.find? (has_loan_id loan.loan_id) = none ∧ room = true ∧
      (loan_add_model room loan s).2 = insert_sorted_model compare_loan_id loan s) ∧
    ((loan_add_model room loan s).1 ≠ LMS_SUCCESS → (loan_add_model room loan s).2 = s) ∧
    ((loan_add_model room loan s).1 = LMS_SUCCESS ∨
      (loan_add_model room loan s).1 = LMS_ERROR_INVALID_INPUT ∨
      (loan_add_model room loan s).1 = LMS_ERROR_DUPLICATE ∨
      (loan_add_model room loan s).1 = LMS_ERROR_MEMORY) := by
  by_cases hv : validate_loan loan = true
  · cases hf : s.find? (has_loan_id loan.loan_id) with
    | some b => simp [loan_add_model, hv, hf]
    | none =>
      cases room <;> simp [loan_add_model, hv, hf]
  · simp [loan_add_model, hv]

theorem can_borrow_model_iff (member_id isbn : List Char) (st : Records) :
    can_borrow_model member_id isbn st = true ↔
      ∃ mb b, st.members.find? (has_member_id member_id) = some mb ∧ mb.status = 'A' ∧
        mb.loan_count < (if mb.membership_type = 'P' then 5 else 3) ∧
        st.books.find? (has_isbn isbn) = some b ∧ b.status = 'A' ∧ b.available_copies > 0 := by
  unfold can_borrow_model
  cases hfm : st.members.find? (has_member_id member_id) with
  | none => simp
  | some mb =>
    cases hfb : st.books.find? (has_isbn isbn) with
    | none => simp
    | some b =>
      simp only [Option.some.injEq, exists_and_left, exists_eq_left']
      by_cases h1 : mb.status = 'A'
      · by_cases h2 : mb.loan_count ≥ (if mb.membership_type = 'P' then 5 else 3)
        · have h2' : ¬ mb.loan_count < (if mb.membership_type = 'P' then 5 else 3) := by omega
          simp [h1, h2, h2']
        · by_cases h3 : b.available_copies ≤ 0
          · have h3' : ¬ b.available_copies > 0 := by omega
            simp [h1, h2, h3, h3']
          · have h3' : b.available_copies > 0 := by omega
            have h2' : mb.loan_count < (if mb.membership_type = 'P' then 5 else 3) := by omega
            by_cases h4 : b.status = 'A'
            · simp [h1, h2, h3, h4, h3', h2']
            · simp [h1, h2, h3, h4]
      · simp [h1]

/-- The result of `loan_service_borrow_book` is `LMS_ERROR_LOAN_LIMIT` exactly when the
check of `loan_service_can_borrow` fails. -/
theorem borrow_model_loan_limit (member_id isbn now : List Char)
    (id_alloc due_alloc room : Bool) (st : Records) :
    (borrow_model member_id isbn now id_alloc due_alloc room st).1 = LMS_ERROR_LOAN_LIMIT ↔
      can_borrow_model member_id isbn st = false := by
  by_cases hc : can_borrow_model member_id isbn st = true
  swap
  · simp [borrow_model, hc]
  have h1 := (availability_model_cases isbn (-1) st.books).2.2
  have h2 := (loan_count_model_cases member_id 1 st.members).2.2
  have h3 := fun l => (loan_add_model_cases room l st.loans).2.2
  simp only [hc, Bool.true_eq_false, iff_false]
  unfold borrow_model
  simp only [hc, not_true_eq_false, if_false]
  by_cases hr1 : (availability_model isbn (-1) st.books).1 = LMS_SUCCESS
  swap
  · simp only [hr1, ne_eq, not_false_eq_true, if_true]
    rcases h1 with h | h | h
    · exact absurd h hr1
    · rw [h]; decide
    · rw [h]; decide
  simp only [hr1, ne_eq, not_true_eq_false, if_false]
  by_cases hr2 : (loan_count_model member_id 1 st.members).1 = LMS_SUCCESS
  swap
  · simp only [hr2, not_false_eq_true, if_true]
    rcases h2 with h | h | h
    · exact absurd h hr2
    · rw [h]; decide
    · rw [h]; decide
  simp only [hr2, not_true_eq_false, if_false]
  cases id_alloc with
  | false => simp [loan_service_generate_loan_id]
  | true =>
    have hid : loan_service_generate_loan_id true st.loan_counter =
        (some (format_loan_id st.loan_counter), st.loan_counter + 1) := by
      simp [loan_service_generate_loan_id]
    simp only [hid]
    split
    · rename_i hr3
      rcases h3 (borrowed_loan (format_loan_id st.loan_counter) member_id isbn now due_alloc)
        with h | h | h | h
      · exact absurd h hr3
      · rw [h]; decide
      · rw [h]; decide
      · rw [h]; decide
    · simp

/-- Function `member_service_get_max_loan_limit` and function
`member_service_get_remaining_loan_limit` on the stored members. -/
theorem member_service_limits_stored {service : MemberService} {h : Heap Member}
    {s : List Member} (hs : Stored service.member_repo.members h s)
    (hcmp : service.member_repo.members.compare = some compare_member_id)
    (member_id : List Char) (fuel : Nat) (hfuel : service.member_repo.members.size ≤ fuel) :
    member_service_get_max_loan_limit fuel service member_id h =
      some (match s.find? (has_member_id member_id) with
        | none => 0
        | some mb => if mb.membership_type = 'P' then 5 else 3) ∧
    member_service_get_remaining_loan_limit fuel service member_id h =
      some (match s.find? (has_member_id member_id) with
        | none => 0
        | some mb => (if mb.membership_type = 'P' then 5 else 3) - mb.loan_count) := by
  obtain ⟨hnone, hsome⟩ := member_repo_find_by_id_stored hs hcmp member_id fuel hfuel
  cases hf : s.find? (has_member_id member_id) with
  | none =>
    simp [member_service_get_max_loan_limit, member_service_get_remaining_loan_limit,
      hnone hf]
  | some b =>
    obtain ⟨a, nd, hfind, hra, hdata, -⟩ := hsome b hf
    simp [member_service_get_max_loan_limit, member_service_get_remaining_loan_limit,
      hfind, hra, hdata, MAX_LOANS_PREMIUM, MAX_LOANS_REGULAR]

/-- C26: on well-formed repositories `loan_service_can_borrow` returns true exactly
when the member found under `member_id` has status 'A' and a `loan_count` below the
limit, and the book found under `isbn` has status 'A' and `available_copies > 0`. The
limit, 5 for membership type 'P' and 3 otherwise, is the value that
`member_service_get_max_loan_limit` returns for this member, and
`member_service_get_remaining_loan_limit` returns the limit minus `loan_count`.
`loan_service_borrow_book` returns, and its result is `LMS_ERROR_LOAN_LIMIT` exactly
when the check is false. -/
theorem loan_service_can_borrow_check (service : LoanService) (members : MemberService)
    (m : Memory) (st : Records) (member_id isbn now : List Char) (id_alloc due_alloc : Bool)
    (fuel : Nat) (hrep : Represents service m st) (hfuel : FuelFor fuel service)
    (hsame : members.member_repo = service.member_repo) :
    ∃ ok r service' m',
      loan_service_can_borrow fuel service member_id isbn m = some ok ∧
      (ok = true ↔
        ∃ mb b limit, st.members.find? (has_member_id member_id) = some mb ∧
          mb.status = 'A' ∧
          member_service_get_max_loan_limit fuel members member_id m.members = some limit ∧
          mb.loan_count < limit ∧
          st.books.find? (has_isbn isbn) = some b ∧ b.status = 'A' ∧
          b.available_copies > 0) ∧
      (∀ mb, st.members.find? (has_member_id member_id) = some mb →
        member_service_get_max_loan_limit fuel members member_id m.members =
          some (if mb.membership_type = 'P' then 5 else 3) ∧
        member_service_get_remaining_loan_limit fuel members member_id m.members =
          some ((if mb.membership_type = 'P' then 5 else 3) - mb.loan_count)) ∧
      loan_service_borrow_book fuel service member_id isbn now id_alloc due_alloc m =
        some (r, service', m') ∧
      (r = LMS_ERROR_LOAN_LIMIT ↔ ok = false) := by
  have hcan := loan_service_can_borrow_stored hrep member_id isbn fuel hfuel
  obtain ⟨service', m', hrun, -, -, -⟩ :=
    loan_service_borrow_book_stored hrep member_id isbn now id_alloc due_alloc fuel hfuel
  have hlim := @member_service_limits_stored members m.members st.members
    (by rw [hsame]; exact hrep.2.2.1) (by rw [hsame]; exact hrep.2.2.2.1)
    member_id fuel (by rw [hsame]; exact hfuel.2.1)
  refine ⟨_, _, service', m', hcan, ?_, ?_, hrun, borrow_model_loan_limit _ _ _ _ _ _ _⟩
  · rw [can_borrow_model_iff]
    constructor
    · rintro ⟨mb, b, hm, hst, hlt, hb, hbs, hba⟩
      refine ⟨mb, b, _, hm, hst, ?_, hlt, hb, hbs, hba⟩
      rw [hlim.1, hm]
    · rintro ⟨mb, b, limit, hm, hst, hl, hlt, hb, hbs, hba⟩
      rw [hlim.1, hm] at hl
      obtain rfl := Option.some.inj hl
      exact ⟨mb, b, hm, hst, hlt, hb, hbs, hba⟩
  · intro mb hm
    rw [hlim.1, hlim.2, hm]
    exact ⟨rfl, rfl⟩

theorem stored_single (list : DoublyLinkedList α) (x : α)
    (hhead : list.head = some 0) (htail : list.tail = some 0) (hsize : list.size = 1) :
    Stored list (heap_single x) [x] := by
  refine stored_iff.2 ⟨[(0, x)], ⟨⟨rfl, trivial⟩, ?_, ?_, ?_, by simp⟩, rfl⟩
  · rw [hhead]; rfl
  · rw [htail]; rfl
  · rw [hsize]; rfl

theorem stored_empty (list : DoublyLinkedList α) (h : Heap α)
    (hhead : list.head = none) (htail : list.tail = none) (hsize : list.size = 0) :
    Stored list h [] := by
  refine stored_iff.2 ⟨[], ⟨trivial, ?_, ?_, ?_, by simp⟩, rfl⟩
  · rw [hhead]; rfl
  · rw [htail]; rfl
  · rw [hsize]; rfl

/-- The state of the loan service test stores the records of `records_test`. -/
theorem represents_test : Represents loan_service_test memory_test records_test :=
  ⟨stored_single _ _ rfl rfl rfl, rfl, stored_single _ _ rfl rfl rfl, rfl,
    stored_empty _ _ rfl rfl rfl, rfl, rfl⟩

/-- Witness of C26, the loan service test: John Doe (regular, no loan) may borrow "Clean
Code" (5 copies available), his limit is 3 and so is his remaining limit, and the loan
is not refused with `LMS_ERROR_LOAN_LIMIT`; with 3 loans he may not, and the loan is
refused with `LMS_ERROR_LOAN_LIMIT`. -/
theorem loan_service_can_borrow_check_witness :
    (Represents loan_service_test memory_test records_test ∧
      FuelFor 1 loan_service_test ∧
      member_service_test.member_repo = loan_service_test.member_repo) ∧
    (∃ ok r service' m',
      loan_service_can_borrow 1 loan_service_test "M001".toList "9780132350884".toList
        memory_test = some ok ∧
      (ok = true ↔
        ∃ mb b limit, records_test.members.find? (has_member_id "M001".toList) = some mb ∧
          mb.status = 'A' ∧
          member_service_get_max_loan_limit 1 member_service_test "M001".toList
            memory_test.members = some limit ∧
          mb.loan_count < limit ∧
          records_test.books.find? (has_isbn "9780132350884".toList) = some b ∧
          b.status = 'A' ∧ b.available_copies > 0) ∧
      (∀ mb, records_test.members.find? (has_member_id "M001".toList) = some mb →
        member_service_get_max_loan_limit 1 member_service_test "M001".toList
          memory_test.members = some (if mb.membership_type = 'P' then 5 else 3) ∧
        member_service_get_remaining_loan_limit 1 member_service_test "M001".toList
          memory_test.members =
            some ((if mb.membership_type = 'P' then 5 else 3) - mb.loan_count)) ∧
      loan_service_borrow_book 1 loan_service_test "M001".toList "9780132350884".toList
        "2024-05-01".toList true true memory_test = some (r, service', m') ∧
      (r = LMS_ERROR_LOAN_LIMIT ↔ ok = false)) ∧
    loan_service_can_borrow 1 loan_service_test "M001".toList "9780132350884".toList
      memory_test = some true ∧
    member_service_get_max_loan_limit 1 member_service_test "M001".toList
      memory_test.members = some 3 ∧
    member_service_get_remaining_loan_limit 1 member_service_test "M001".toList
      memory_test.members = some 3 ∧
    (loan_service_borrow_book 1 loan_service_test "M001".toList "9780132350884".toList
      "2024-05-01".toList true true memory_test).map (fun r => r.1) = some LMS_SUCCESS ∧
    loan_service_can_borrow 1 loan_service_test "M001".toList "9780132350884".toList
      { memory_test with members := heap_single { member_john with loan_count := 3 } } =
        some false ∧
    (loan_service_borrow_book 1 loan_service_test "M001".toList "9780132350884".toList
      "2024-05-01".toList true true
      { memory_test with members := heap_single { member_john with loan_count := 3 } }).map
        (fun r => r.1) = some LMS_ERROR_LOAN_LIMIT ∧
    loan_service_can_borrow 1 loan_service_test "M002".toList "9780132350884".toList
      memory_test = some false :=
  ⟨⟨represents_test, ⟨by decide, by decide, by decide⟩, rfl⟩,
    loan_service_can_borrow_check loan_service_test member_service_test memory_test
      records_test "M001".toList "9780132350884".toList "2024-05-01".toList true true 1
      represents_test ⟨by decide, by decide, by decide⟩ rfl,
    by rfl, by rfl, by rfl, by rfl, by rfl, by rfl, by rfl⟩

theorem strncpy_idem (x : List Char) (n : Nat) : strncpy (strncpy x n) n = strncpy x n := by
  simp [strncpy, List.take_take]

theorem split_unique (p : α → Bool) {s1 s2 t1 t2 : List α} {b c : α}
    (he : s1 ++ b :: s2 = t1 ++ c :: t2)
    (hs1 : ∀ z ∈ s1, p z = false) (hb : p b = true)
    (ht1 : ∀ z ∈ t1, p z = false) (hc : p c = true) : s1 = t1 ∧ b = c ∧ s2 = t2 := by
  induction s1 generalizing t1 with
  | nil =>
    cases t1 with
    | nil =>
      simp only [List.nil_append, List.cons.injEq] at he
      exact ⟨rfl, he.1, he.2⟩
    | cons x t1 =>
      simp only [List.nil_append, List.cons_append, List.cons.injEq] at he
      have := ht1 x (by simp)
      rw [← he.1, hb] at this
      exact absurd this (by simp)
  | cons y s1 ih =>
    cases t1 with
    | nil =>
      simp only [List.nil_append, List.cons_append, List.cons.injEq] at he
      have := hs1 y (by simp)
      rw [he.1, hc] at this
      exact absurd this (by simp)
    | cons x t1 =>
      simp only [List.cons_append, List.cons.injEq] at he
      obtain ⟨h1, h2, h3⟩ := ih he.2 (fun z hz => hs1 z (by simp [hz]))
        (fun z hz => ht1 z (by simp [hz]))
      exact ⟨by rw [he.1, h1], h2, h3⟩

/-- A successful `loan_service_borrow_book` on the stored records: the member and the
book found, the loan created, and the records afterwards. -/
theorem borrow_model_success (member_id isbn now : List Char)
    (id_alloc due_alloc room : Bool) (st : Records)
    (hs : (borrow_model member_id isbn now id_alloc due_alloc room st).1 = LMS_SUCCESS) :
    ∃ s1 b s2 t1 mb t2,
      st.books = s1 ++ b :: s2 ∧ (∀ z ∈ s1, has_isbn isbn z = false) ∧
      has_isbn isbn b = true ∧
      st.members = t1 ++ mb :: t2 ∧ (∀ z ∈ t1, has_member_id member_id z = false) ∧
      has_member_id member_id mb = true ∧
      b.status = 'A' ∧ 0 < b.available_copies ∧ mb.status = 'A' ∧
      mb.loan_count < (if mb.membership_type = 'P' then 5 else 3) ∧
      id_alloc = true ∧ room = true ∧
      validate_loan (borrowed_loan (format_loan_id st.loan_counter) member_id isbn now
        due_alloc) = true ∧
      st.loans.find? (has_loan_id (borrowed_loan (format_loan_id st.loan_counter) member_id
        isbn now due_alloc).loan_id) = none ∧
      (borrow_model member_id isbn now id_alloc due_alloc room st).2 =
        { books := s1 ++ { b with available_copies := b.available_copies + -1 } :: s2,
          members := t1 ++ { mb with loan_count := mb.loan_count + 1 } :: t2,
          loans := insert_sorted_model compare_loan_id
            (borrowed_loan (format_loan_id st.loan_counter) member_id isbn now due_alloc)
            st.loans,
          loan_counter := st.loan_counter + 1 } := by
  have hc : can_borrow_model member_id isbn st = true := by
    by_contra hcon
    have hcf : can_borrow_model member_id isbn st = false := by simpa using hcon
    have := (borrow_model_loan_limit member_id isbn now id_alloc due_alloc room st).2 hcf
    rw [this] at hs
    exact absurd hs (by decide)
  obtain ⟨mb, b, hfm, hmst, hmlim, hfb, hbst, hbav⟩ := (can_borrow_model_iff _ _ _).1 hc
  unfold borrow_model at hs ⊢
  simp only [hc, not_true_eq_false, if_false] at hs ⊢
  by_cases hr1 : (availability_model isbn (-1) st.books).1 = LMS_SUCCESS
  swap
  · simp only [hr1, ne_eq, not_false_eq_true, if_true] at hs
  simp only [hr1, ne_eq, not_true_eq_false, if_false] at hs ⊢
  by_cases hr2 : (loan_count_model member_id 1 st.members).1 = LMS_SUCCESS
  swap
  · simp only [hr2, not_false_eq_true, if_true] at hs
  simp only [hr2, not_true_eq_false, if_false] at hs ⊢
  cases id_alloc with
  | false => simp [loan_service_generate_loan_id] at hs
  | true =>
    have hid : loan_service_generate_loan_id true st.loan_counter =
        (some (format_loan_id st.loan_counter), st.loan_counter + 1) := by
      simp [loan_service_generate_loan_id]
    simp only [hid] at hs ⊢
    by_cases hr3 : (loan_add_model room
        (borrowed_loan (format_loan_id st.loan_counter) member_id isbn now due_alloc)
        st.loans).1 = LMS_SUCCESS
    swap
    · simp only [hr3, not_false_eq_true, if_true] at hs
    simp only [hr3, not_true_eq_false, if_false]
    obtain ⟨s1, b', s2, hsb, hno1, hyes1, -, -, hbooks⟩ :=
      (availability_model_cases isbn (-1) st.books).1 hr1
    obtain ⟨t1, mb', t2, hsm, hno2, hyes2, -, hmembers⟩ :=
      (loan_count_model_cases member_id 1 st.members).1 hr2
    obtain ⟨hval, hdup, hroom, hloans⟩ := (loan_add_model_cases room _ st.loans).1 hr3
    have eb : b' = b := by
      have := find_of_split (has_isbn isbn) s1 s2 b' hno1 hyes1
      rw [← hsb, hfb] at this
      exact (Option.some.inj this).symm
    have em : mb' = mb := by
      have := find_of_split (has_member_id member_id) t1 t2 mb' hno2 hyes2
      rw [← hsm, hfm] at this
      exact (Option.some.inj this).symm
    subst eb em
    refine ⟨s1, b', s2, t1, mb', t2, hsb, hno1, hyes1, hsm, hno2, hyes2, hbst, hbav, hmst,
      hmlim, trivial, hroom, hval, hdup, ?_⟩
    rw [hbooks, hmembers, hloans]

/-- Function `loan_service_borrow_book` returning `LMS_SUCCESS`, on the stored
records (shared by the claims on a successful loan). -/
theorem loan_service_borrow_book_effect {service : LoanService} {m : Memory} {st : Records}
    (hrep : Represents service m st) (member_id isbn now : List Char)
    (id_alloc due_alloc : Bool) (fuel : Nat) (hfuel : FuelFor fuel service)
    (service' : LoanService) (m' : Memory)
    (hrun : loan_service_borrow_book fuel service member_id isbn now id_alloc due_alloc m =
      some (LMS_SUCCESS, service', m')) :
    ∃ s1 b s2 t1 mb t2 u1 loan u2,
      st.books = s1 ++ b :: s2 ∧ (∀ z ∈ s1, z.isbn ≠ strncpy isbn 13) ∧
      b.isbn = strncpy isbn 13 ∧
      st.members = t1 ++ mb :: t2 ∧ (∀ z ∈ t1, z.member_id ≠ strncpy member_id 10) ∧
      mb.member_id = strncpy member_id 10 ∧
      st.loans = u1 ++ u2 ∧
      Represents service' m'
        { books := s1 ++ { b with available_copies := b.available_copies - 1 } :: s2,
          members := t1 ++ { mb with loan_count := mb.loan_count + 1 } :: t2,
          loans := u1 ++ loan :: u2,
          loan_counter := st.loan_counter + 1 } ∧
      loan = borrowed_loan (format_loan_id st.loan_counter) member_id isbn now due_alloc ∧
      (∀ z ∈ u1 ++ u2, z.loan_id ≠ loan.loan_id) ∧
      validate_loan loan = true ∧
      b.status = 'A' ∧ 0 < b.available_copies ∧ mb.status = 'A' ∧
      mb.loan_count < (if mb.membership_type = 'P' then 5 else 3) ∧
      service'.book_repo = service.book_repo ∧ service'.member_repo = service.member_repo ∧
      service'.loan_repo.loans.size = service.loan_repo.loans.size + 1 := by
  obtain ⟨service1, m1, hrun1, hrep1, hsb, hsm⟩ :=
    loan_service_borrow_book_stored hrep member_id isbn now id_alloc due_alloc fuel hfuel
  rw [hrun1] at hrun
  simp only [Option.some.injEq, Prod.mk.injEq] at hrun
  obtain ⟨hres, rfl, rfl⟩ := hrun
  obtain ⟨s1, b, s2, t1, mb, t2, hbooks, hno1, hyes1, hmembers, hno2, hyes2, hbst, hbav, hmst,
    hmlim, -, -, hval, hdup, hst'⟩ := borrow_model_success _ _ _ _ _ _ _ hres
  rw [hst'] at hrep1
  have hsplit : st.loans =
      (st.loans.takeWhile fun e => decide (compare_loan_id
        (borrowed_loan (format_loan_id st.loan_counter) member_id isbn now due_alloc) e > 0)) ++
      (st.loans.dropWhile fun e => decide (compare_loan_id
        (borrowed_loan (format_loan_id st.loan_counter) member_id isbn now due_alloc) e > 0)) :=
    (List.takeWhile_append_dropWhile _ _).symm
  refine ⟨s1, b, s2, t1, mb, t2, _, _, _, hbooks, ?_, by simpa [has_isbn] using hyes1,
    hmembers, ?_, by simpa [has_member_id] using hyes2, hsplit, ?_, rfl, ?_, hval, hbst, hbav,
    hmst, hmlim, hsb, hsm, ?_⟩
  · intro z hz
    simpa [has_isbn] using hno1 z hz
  · intro z hz
    simpa [has_member_id] using hno2 z hz
  · simpa [insert_sorted_model, sub_eq_add_neg] using hrep1
  · intro z hz
    rw [← hsplit] at hz
    have := List.find?_eq_none.1 hdup z hz
    have e10 : strncpy (borrowed_loan (format_loan_id st.loan_counter) member_id isbn now
        due_alloc).loan_id 10 = (borrowed_loan (format_loan_id st.loan_counter) member_id isbn
        now due_alloc).loan_id := by
      cases due_alloc <;> exact strncpy_idem _ _
    simpa [has_loan_id, e10] using this
  · have h1 := hrep1.2.2.2.2.1.size_eq_length
    have h2 := hrep.2.2.2.2.1.size_eq_length
    rw [h1, h2]
    simp only [insert_sorted_model]
    rw [List.length_append, List.length_cons]
    have e := congrArg List.length hsplit
    rw [List.length_append] at e
    push_cast
    omega

/-- C24: on well-formed repositories, whenever `loan_service_borrow_book` returns
`LMS_SUCCESS`, the stored books are the books before with `available_copies` of the
book found under `isbn` one lower, the stored members are the members before with
`loan_count` of the member found under `member_id` one higher, and the stored loans are
the loans before with one loan inserted, whose status is 'L', whose member id is that
of the member and whose ISBN is that of the book, and whose loan id no earlier loan
has; the total loan count is one higher. -/
theorem loan_service_borrow_book_success (service : LoanService) (m : Memory) (st : Records)
    (member_id isbn now : List Char) (id_alloc due_alloc : Bool) (fuel : Nat)
    (service' : LoanService) (m' : Memory)
    (hrep : Represents service m st) (hfuel : FuelFor fuel service)
    (hrun : loan_service_borrow_book fuel service member_id isbn now id_alloc due_alloc m =
      some (LMS_SUCCESS, service', m')) :
    ∃ s1 b s2 t1 mb t2 u1 loan u2,
      st.books = s1 ++ b :: s2 ∧ (∀ z ∈ s1, z.isbn ≠ strncpy isbn 13) ∧
      b.isbn = strncpy isbn 13 ∧
      st.members = t1 ++ mb :: t2 ∧ (∀ z ∈ t1, z.member_id ≠ strncpy member_id 10) ∧
      mb.member_id = strncpy member_id 10 ∧
      st.loans = u1 ++ u2 ∧
      Represents service' m'
        { books := s1 ++ { b with available_copies := b.available_copies - 1 } :: s2,
          members := t1 ++ { mb with loan_count := mb.loan_count + 1 } :: t2,
          loans := u1 ++ loan :: u2,
          loan_counter := st.loan_counter + 1 } ∧
      loan.status = 'L' ∧ loan.member_id = mb.member_id ∧ loan.isbn = b.isbn ∧
      (∀ z ∈ u1 ++ u2, z.loan_id ≠ loan.loan_id) ∧
      loan_service_get_total_loan_count service' =
        loan_service_get_total_loan_count service + 1 := by
  obtain ⟨s1, b, s2, t1, mb, t2, u1, loan, u2, h1, h2, h3, h4, h5, h6, h7, h8, h9, h10, -, -, -,
    -, -, -, -, h11⟩ :=
    loan_service_borrow_book_effect hrep member_id isbn now id_alloc due_alloc fuel hfuel
      service' m' hrun
  refine ⟨s1, b, s2, t1, mb, t2, u1, loan, u2, h1, h2, h3, h4, h5, h6, h7, h8, ?_, ?_, ?_,
    h10, h11⟩
  · rw [h9]; cases due_alloc <;> rfl
  · rw [h9, h6]; cases due_alloc <;> rfl
  · rw [h9, h3]; cases due_alloc <;> rfl

/-- The first loan of the loan service test: John Doe borrows "Clean Code" on
2024-05-01. -/
theorem loan_service_borrow_book_test :
    loan_service_borrow_book 1 loan_service_test "M001".toList "9780132350884".toList
      "2024-05-01".toList true true memory_test =
      some (LMS_SUCCESS, loan_service_after_loan, memory_after_loan) := by
  rfl

/-- Witness of C24, the loan service test: after the loan "Clean Code" has 4 available
copies, John Doe has 1 loan, and the loan L000000001 of member M001 and ISBN
9780132350884 with status 'L' is the one stored loan. -/
theorem loan_service_borrow_book_success_witness :
    (Represents loan_service_test memory_test records_test ∧ FuelFor 1 loan_service_test ∧
      loan_service_borrow_book 1 loan_service_test "M001".toList "9780132350884".toList
        "2024-05-01".toList true true memory_test =
        some (LMS_SUCCESS, loan_service_after_loan, memory_after_loan)) ∧
    (∃ s1 b s2 t1 mb t2 u1 loan u2,
      records_test.books = s1 ++ b :: s2 ∧
      (∀ z ∈ s1, z.isbn ≠ strncpy "9780132350884".toList 13) ∧
      b.isbn = strncpy "9780132350884".toList 13 ∧
      records_test.members = t1 ++ mb :: t2 ∧
      (∀ z ∈ t1, z.member_id ≠ strncpy "M001".toList 10) ∧
      mb.member_id = strncpy "M001".toList 10 ∧
      records_test.loans = u1 ++ u2 ∧
      Represents loan_service_after_loan memory_after_loan
        { books := s1 ++ { b with available_copies := b.available_copies - 1 } :: s2,
          members := t1 ++ { mb with loan_count := mb.loan_count + 1 } :: t2,
          loans := u1 ++ loan :: u2,
          loan_counter := records_test.loan_counter + 1 } ∧
      loan.status = 'L' ∧ loan.member_id = mb.member_id ∧ loan.isbn = b.isbn ∧
      (∀ z ∈ u1 ++ u2, z.loan_id ≠ loan.loan_id) ∧
      loan_service_get_total_loan_count loan_service_after_loan =
        loan_service_get_total_loan_count loan_service_test + 1) ∧
    stored_records loan_service_test memory_test =
      (some [book_clean_code], some [member_john], some []) ∧
    stored_records loan_service_after_loan memory_after_loan =
      (some [{ book_clean_code with available_copies := 4 }],
        some [{ member_john with loan_count := 1 }], some [loan_test]) ∧
    loan_service_get_total_loan_count loan_service_after_loan = 1 :=
  ⟨⟨represents_test, ⟨by decide, by decide, by decide⟩, loan_service_borrow_book_test⟩,
    loan_service_borrow_book_success loan_service_test memory_test records_test
      "M001".toList "9780132350884".toList "2024-05-01".toList true true 1
      loan_service_after_loan memory_after_loan represents_test
      ⟨by decide, by decide, by decide⟩ loan_service_borrow_book_test,
    by rfl, by rfl, by rfl⟩

theorem returned_loan_status (now : List Char) (loan : Loan) :
    (returned_loan now loan).status ≠ 'L' ∧
    ((returned_loan now loan).status = 'R' ∨ (returned_loan now loan).status = 'O') := by
  unfold returned_loan
  simp only
  split <;> simp

theorem length_eq_10 (s : List Char) (hlen : s.length = 10) :
    ∃ c0 c1 c2 c3 c4 c5 c6 c7 c8 c9, s = [c0, c1, c2, c3, c4, c5, c6, c7, c8, c9] := by
  match s, hlen with
  | [c0, c1, c2, c3, c4, c5, c6, c7, c8, c9], _ =>
    exact ⟨c0, c1, c2, c3, c4, c5, c6, c7, c8, c9, rfl⟩

theorem char_eq_iff_toNat (c d : Char) : c = d ↔ c.toNat = d.toNat :=
  ⟨fun h => by rw [h], char_eq_of_toNat⟩

/-- Function `validate_date` on a string of 10 characters. -/
theorem validate_date_10 (c0 c1 c2 c3 c4 c5 c6 c7 c8 c9 : Char) :
    validate_date [c0, c1, c2, c3, c4, c5, c6, c7, c8, c9] = true ↔
      is_date_form [c0, c1, c2, c3, c4, c5, c6, c7, c8, c9] = true ∧
      1900 ≤ date_year [c0, c1, c2, c3, c4, c5, c6, c7, c8, c9] ∧
      date_year [c0, c1, c2, c3, c4, c5, c6, c7, c8, c9] ≤ 2100 ∧
      1 ≤ date_month [c0, c1, c2, c3, c4, c5, c6, c7, c8, c9] ∧
      date_month [c0, c1, c2, c3, c4, c5, c6, c7, c8, c9] ≤ 12 ∧
      1 ≤ date_day [c0, c1, c2, c3, c4, c5, c6, c7, c8, c9] ∧
      date_day [c0, c1, c2, c3, c4, c5, c6, c7, c8, c9] ≤ 31 ∧
      (date_month [c0, c1, c2, c3, c4, c5, c6, c7, c8, c9] = 2 →
        date_day [c0, c1, c2, c3, c4, c5, c6, c7, c8, c9] ≤ 29) ∧
      (date_month [c0, c1, c2, c3, c4, c5, c6, c7, c8, c9] = 4 ∨
        date_month [c0, c1, c2, c3, c4, c5, c6, c7, c8, c9] = 6 ∨
        date_month [c0, c1, c2, c3, c4, c5, c6, c7, c8, c9] = 9 ∨
        date_month [c0, c1, c2, c3, c4, c5, c6, c7, c8, c9] = 11 →
        date_day [c0, c1, c2, c3, c4, c5, c6, c7, c8, c9] ≤ 30) := by
  have h0 : '0'.toNat = 48 := rfl
  have h9 : '9'.toNat = 57 := rfl
  have hm : '-'.toNat = 45 := rfl
  simp only [validate_date, is_date_form, date_year, date_month, date_day, decimal_value,
    is_decimal_digit, List.range_succ, List.range_zero, List.nil_append, List.cons_append,
    List.any_cons, List.any_nil, List.all_cons, List.all_nil, List.foldl_cons, List.foldl_nil,
    char_at, char_code, List.length_cons, List.length_nil, List.getElem?_cons_succ,
    List.getElem?_cons_zero, List.take_succ_cons, List.take_zero, List.drop_succ_cons,
    List.drop_zero, Option.some.injEq, char_eq_iff_toNat, h0, h9, hm]
  simp only [Nat.reduceAdd, ne_eq, not_true_eq_false, if_false, Bool.or_false,
    Bool.or_eq_true, Bool.and_eq_true, decide_eq_true_eq, Bool.and_true, Bool.true_and,
    Nat.cast_ofNat, Nat.reduceEqDiff, OfNat.ofNat_ne_zero, not_false_eq_true, true_and,
    false_and, decide_True, decide_False, Bool.false_eq_true, or_false, false_or, and_true,
    OfNat.zero_ne_ofNat, Nat.succ_ne_zero, one_ne_zero, not_or, and_false, decide_not,
    Bool.not_eq_true', decide_eq_false_iff_not, mul_zero,
    zero_add]
  generalize c0.toNat = n0
  generalize c1.toNat = n1
  generalize c2.toNat = n2
  generalize c3.toNat = n3
  generalize c4.toNat = n4
  generalize c5.toNat = n5
  generalize c6.toNat = n6
  generalize c7.toNat = n7
  generalize c8.toNat = n8
  generalize c9.toNat = n9
  split_ifs <;> simp only [Bool.false_eq_true, false_iff, true_iff] <;> omega

/-- Function `validate_date` accepts exactly the strings of the form `YYYY-MM-DD` whose
year, month and day are in range. -/
theorem validate_date_iff (date : List Char) :
    validate_date date = true ↔
      is_date_form date = true ∧ 1900 ≤ date_year date ∧ date_year date ≤ 2100 ∧
      1 ≤ date_month date ∧ date_month date ≤ 12 ∧ 1 ≤ date_day date ∧ date_day date ≤ 31 ∧
      (date_month date = 2 → date_day date ≤ 29) ∧
      (date_month date = 4 ∨ date_month date = 6 ∨ date_month date = 9 ∨ date_month date = 11 →
        date_day date ≤ 30) := by
  by_cases hlen : date.length = 10
  · obtain ⟨c0, c1, c2, c3, c4, c5, c6, c7, c8, c9, rfl⟩ := length_eq_10 date hlen
    exact validate_date_10 c0 c1 c2 c3 c4 c5 c6 c7 c8 c9
  · constructor
    · intro h
      simp [validate_date, hlen] at h
    · intro h
      have := h.1
      simp [is_date_form, hlen] at this

/-- C31: `validate_date` accepts a string iff it has the form `YYYY-MM-DD` (exactly 10
characters, `'-'` at positions 4 and 7, decimal digits elsewhere) with
`1900 ≤ year ≤ 2100`, `1 ≤ month ≤ 12`, `1 ≤ day ≤ 31`, `day ≤ 29` when the month is
2 and `day ≤ 30` when the month is 4, 6, 9 or 11; "2024-13-01" is rejected, and
February 29 is accepted in every year from 1900 to 2100, leap or not. -/
theorem validate_date_accepts :
    (∀ date : List Char,
      validate_date date = true ↔
        is_date_form date = true ∧ 1900 ≤ date_year date ∧ date_year date ≤ 2100 ∧
        1 ≤ date_month date ∧ date_month date ≤ 12 ∧
        1 ≤ date_day date ∧ date_day date ≤ 31 ∧
        (date_month date = 2 → date_day date ≤ 29) ∧
        (date_month date = 4 ∨ date_month date = 6 ∨ date_month date = 9 ∨
          date_month date = 11 → date_day date ≤ 30)) ∧
    validate_date "2024-13-01".toList = false ∧
    (∀ year : List Char, year.length = 4 → (∀ c ∈ year, is_decimal_digit c = true) →
      1900 ≤ decimal_value year → decimal_value year ≤ 2100 →
      validate_date (year ++ "-02-29".toList) = true) := by
  refine ⟨validate_date_iff, by decide, ?_⟩
  intro year hlen hdig hlo hhi
  match year, hlen with
  | [y0, y1, y2, y3], _ =>
    show validate_date [y0, y1, y2, y3, '-', '0', '2', '-', '2', '9'] = true
    rw [validate_date_10]
    have hy : date_year [y0, y1, y2, y3, '-', '0', '2', '-', '2', '9'] =
        decimal_value [y0, y1, y2, y3] := rfl
    have hmo : date_month [y0, y1, y2, y3, '-', '0', '2', '-', '2', '9'] = 2 := rfl
    have hda : date_day [y0, y1, y2, y3, '-', '0', '2', '-', '2', '9'] = 29 := rfl
    rw [hy, hmo, hda]
    refine ⟨?_, hlo, hhi, by decide, by decide, by decide, by decide, by decide, by decide⟩
    simp only [List.mem_cons, List.mem_singleton, forall_eq_or_imp, forall_eq,
      List.not_mem_nil, false_implies, implies_true, and_true] at hdig
    have hd0 : is_decimal_digit '0' = true := by decide
    have hd2 : is_decimal_digit '2' = true := by decide
    have hd9 : is_decimal_digit '9' = true := by decide
    simp [is_date_form, hdig, hd0, hd2, hd9]

/-- Witness of C31: February 29 of 2023 and of 1900, which are not leap years, is
accepted; "2024-01-15" is accepted; month 13, day 31 in April, a missing hyphen and a
short string are rejected. -/
theorem validate_date_accepts_witness :
    ("2023".toList.length = 4 ∧ (∀ c ∈ "2023".toList, is_decimal_digit c = true) ∧
      1900 ≤ decimal_value "2023".toList ∧ decimal_value "2023".toList ≤ 2100) ∧
    validate_date ("2023".toList ++ "-02-29".toList) = true ∧
    validate_date "1900-02-29".toList = true ∧ validate_date "2024-01-15".toList = true ∧
    validate_date "2024-13-01".toList = false ∧ validate_date "2024-04-31".toList = false ∧
    validate_date "2024/01/15".toList = false ∧ validate_date "2024-1-15".toList = false :=
  ⟨⟨by decide, by decide, by decide, by decide⟩,
    validate_date_accepts.2.2 "2023".toList (by decide) (by decide) (by decide) (by decide),
    by decide, by decide, by decide, by decide, by decide, by decide⟩

/-! ## The deletion forms and `dll_delete_node` -/

/-- Function `dll_delete_at` at a valid index is `dll_delete_node` on the node at this
index. -/
theorem dll_delete_at_node {list : DoublyLinkedList α} {h : Heap α} {l : List (Nat × α)}
    (hl : IsList list h l) (i : Int) (hi0 : 0 ≤ i) (hi1 : i < list.size) :
    ∃ a x, l[i.toNat]? = some (a, x) ∧
      dll_delete_at list i h = dll_delete_node list (some a) h := by
  have hrange : ¬ (i < 0 ∨ i ≥ list.size) := by omega
  have hlt : i.toNat < l.length := by
    have := hl.size_eq
    omega
  have hsplit : l = l.take i.toNat ++ l[i.toNat] :: l.drop (i.toNat + 1) := by
    rw [← List.drop_eq_getElem_cons hlt, List.take_append_drop]
  obtain ⟨⟨a, x⟩, hax⟩ : ∃ q, l[i.toNat] = q := ⟨_, rfl⟩
  rw [hax] at hsplit
  have hl' : IsList list h (l.take i.toNat ++ (a, x) :: l.drop (i.toNat + 1)) := hsplit ▸ hl
  refine ⟨a, x, by rw [List.getElem?_eq_getElem hlt, hax], ?_⟩
  by_cases h0 : i = 0
  · have ht : l.take i.toNat = [] := by simp [h0]
    rw [ht] at hl'
    rw [dll_delete_node_head hl']
    unfold dll_delete_at
    rw [if_neg hrange, if_pos h0]
  by_cases hn : i = list.size - 1
  · have hd : l.drop (i.toNat + 1) = [] := by
      apply List.drop_eq_nil_of_le
      have := hl.size_eq
      omega
    rw [hd] at hl'
    rw [dll_delete_node_tail hl']
    unfold dll_delete_at
    rw [if_neg hrange, if_neg h0, if_pos hn]
  · have hwalk := walk_next_NSeg (l.take i.toNat) ((a, x) :: l.drop (i.toNat + 1)) none hl'.nseg
    rw [← hl'.head_eq] at hwalk
    have htl : (l.take i.toNat).length = i.toNat := by
      rw [List.length_take]; omega
    rw [htl] at hwalk
    unfold dll_delete_at
    rw [if_neg hrange, if_neg h0, if_neg hn]
    simp only [hwalk, Option.bind_eq_bind, Option.some_bind, headAddr_cons]

/-- A node returned by `dll_search` is a node of the list. -/
theorem dll_search_mem {list : DoublyLinkedList α} {h : Heap α} {l : List (Nat × α)}
    (hl : IsList list h l) (x : α) (fuel : Nat) (hfuel : l.length ≤ fuel) (a : Nat)
    (hfound : dll_search fuel list x h = some (some a)) :
    ∃ l1 y l2, l = l1 ++ (a, y) :: l2 := by
  unfold dll_search at hfound
  cases hc : list.compare with
  | none => rw [hc] at hfound; simp at hfound
  | some cmp =>
    rw [hc] at hfound
    simp only at hfound
    by_cases hex : ∃ e ∈ l, cmp e.2 x = 0
    · obtain ⟨e, he, hcmp⟩ := hex
      have hfind : (l.find? fun e => decide (cmp e.2 x = 0)).isSome := by
        rw [List.find?_isSome]
        exact ⟨e, he, by simpa using hcmp⟩
      obtain ⟨⟨b, y⟩, hb⟩ := Option.isSome_iff_exists.mp hfind
      obtain ⟨hby, l1, l2, hsplit, hno⟩ := List.find?_eq_some.mp hb
      have hyes : cmp y x = 0 := by simpa using hby
      have hno' : ∀ e ∈ l1, cmp e.2 x ≠ 0 := by
        intro e he
        simpa using hno e he
      have hn : NSeg h (l1 ++ (b, y) :: l2) none := hsplit ▸ hl.nseg
      have hlen : l1.length < fuel := by
        have : l.length = l1.length + (l2.length + 1) := by rw [hsplit]; simp
        omega
      have hrun := search_from_found cmp x l1 l2 b y none hn hno' hyes fuel hlen
      rw [← hsplit, ← hl.head_eq, hfound] at hrun
      have hab : a = b := by simpa using hrun
      exact ⟨l1, y, l2, by rw [hab]; exact hsplit⟩
    · have hno : ∀ e ∈ l, cmp e.2 x ≠ 0 := fun e he hz => hex ⟨e, he, hz⟩
      have hrun := search_from_none cmp x l hl.nseg hno fuel hfuel
      rw [← hl.head_eq, hfound] at hrun
      simp at hrun

/-- C33: the other deletion forms reduce to `dll_delete_node`. On a non-empty
well-formed list, `dll_delete_front` gives the result, list and memory of
`dll_delete_node` on `head`, `dll_delete_rear` those of `dll_delete_node` on `tail`,
`dll_delete_at` at a valid index `i` those of `dll_delete_node` on the node at index
`i` (the one `dll_get_node_at` returns), and `dll_delete_data`, with fuel for one loop
turn per node, those of `dll_delete_node` on the node `dll_search` returns; each of
these calls of `dll_delete_node` returns `LMS_SUCCESS`. When `dll_search` returns
`NULL`, `dll_delete_data` returns `LMS_ERROR_NOT_FOUND` without a node to delete. -/
theorem dll_delete_reduces_to_node (list : DoublyLinkedList α) (h : Heap α)
    (hwf : WellFormed list h) (hne : list.size ≠ 0) :
    ∃ l, forward_nodes list h = some l ∧
      (∃ list' h', dll_delete_node list list.head h = some (LMS_SUCCESS, list', h') ∧
        dll_delete_front list h = dll_delete_node list list.head h) ∧
      (∃ list' h', dll_delete_node list list.tail h = some (LMS_SUCCESS, list', h') ∧
        dll_delete_rear list h = dll_delete_node list list.tail h) ∧
      (∀ i : Int, 0 ≤ i → i < list.size →
        ∃ e list' h', l[i.toNat]? = some e ∧ dll_get_node_at list i h = some (some e.1) ∧
          dll_delete_node list (some e.1) h = some (LMS_SUCCESS, list', h') ∧
          dll_delete_at list i h = dll_delete_node list (some e.1) h) ∧
      (∀ (fuel : Nat) (x : α), list.size ≤ fuel →
        (∀ node, dll_search fuel list x h = some (some node) →
          ∃ list' h', dll_delete_node list (some node) h = some (LMS_SUCCESS, list', h') ∧
            dll_delete_data fuel list x h = dll_delete_node list (some node) h) ∧
        (dll_search fuel list x h = some none →
          dll_delete_data fuel list x h = some (LMS_ERROR_NOT_FOUND, list, h))) := by
  obtain ⟨l, hl⟩ := hwf.isList
  refine ⟨l, hl.forward_nodes_eq, ?_, ?_, ?_, ?_⟩
  · cases l with
    | nil => exact absurd (hl.size_eq_zero.mpr rfl) hne
    | cons p l' =>
      obtain ⟨a, x⟩ := p
      have hhead : list.head = some a := by rw [hl.head_eq]; rfl
      obtain ⟨list', h', hrun, _⟩ := dll_delete_front_spec hl
      rw [hhead, dll_delete_node_head hl]
      exact ⟨list', h', hrun, rfl⟩
  · rcases nil_or_snoc l with hnil | ⟨l0, ⟨a, x⟩, hsnoc⟩
    · exact absurd (hl.size_eq_zero.mpr hnil) hne
    · subst hsnoc
      have htail : list.tail = some a := by rw [hl.tail_eq, lastAddr_concat]
      obtain ⟨list', h', hrun, _⟩ := dll_delete_rear_spec hl
      rw [htail, dll_delete_node_tail hl]
      exact ⟨list', h', hrun, rfl⟩
  · intro i hi0 hi1
    obtain ⟨a, x, hget, hrun⟩ := dll_delete_at_node hl i hi0 hi1
    obtain ⟨list', h', hdel, _⟩ := dll_delete_at_spec hl i hi0 hi1
    refine ⟨(a, x), list', h', hget, ?_, ?_, hrun⟩
    · rw [dll_get_node_at_spec hl i hi0 hi1, hget]; rfl
    · rw [← hrun]; exact hdel
  · intro fuel x hfuel
    have hlen : l.length ≤ fuel := by
      have := hl.size_eq
      omega
    constructor
    · intro node hfound
      obtain ⟨l1, y, l2, hsplit⟩ := dll_search_mem hl x fuel hlen node hfound
      subst hsplit
      obtain ⟨list', h', hdel, _⟩ := dll_delete_node_spec hl
      refine ⟨list', h', hdel, ?_⟩
      unfold dll_delete_data
      rw [hfound]
      rfl
    · intro hnone
      unfold dll_delete_data
      rw [hnone]
      rfl

/-- Witness of C33 on the list 10, 20, 30, 40, 50: the list is well formed and not
empty. -/
theorem dll_delete_reduces_to_node_witness :
    (WellFormed list_10_to_50 heap_10_to_50 ∧ list_10_to_50.size ≠ 0) ∧
    ∃ l, forward_nodes list_10_to_50 heap_10_to_50 = some l ∧
      (∃ list' h',
        dll_delete_node list_10_to_50 list_10_to_50.head heap_10_to_50 =
          some (LMS_SUCCESS, list', h') ∧
        dll_delete_front list_10_to_50 heap_10_to_50 =
          dll_delete_node list_10_to_50 list_10_to_50.head heap_10_to_50) ∧
      (∃ list' h',
        dll_delete_node list_10_to_50 list_10_to_50.tail heap_10_to_50 =
          some (LMS_SUCCESS, list', h') ∧
        dll_delete_rear list_10_to_50 heap_10_to_50 =
          dll_delete_node list_10_to_50 list_10_to_50.tail heap_10_to_50) ∧
      (∀ i : Int, 0 ≤ i → i < list_10_to_50.size →
        ∃ e list' h', l[i.toNat]? = some e ∧
          dll_get_node_at list_10_to_50 i heap_10_to_50 = some (some e.1) ∧
          dll_delete_node list_10_to_50 (some e.1) heap_10_to_50 =
            some (LMS_SUCCESS, list', h') ∧
          dll_delete_at list_10_to_50 i heap_10_to_50 =
            dll_delete_node list_10_to_50 (some e.1) heap_10_to_50) ∧
      (∀ (fuel : Nat) (x : Int), list_10_to_50.size ≤ fuel →
        (∀ node, dll_search fuel list_10_to_50 x heap_10_to_50 = some (some node) →
          ∃ list' h',
            dll_delete_node list_10_to_50 (some node) heap_10_to_50 =
              some (LMS_SUCCESS, list', h') ∧
            dll_delete_data fuel list_10_to_50 x heap_10_to_50 =
              dll_delete_node list_10_to_50 (some node) heap_10_to_50) ∧
        (dll_search fuel list_10_to_50 x heap_10_to_50 = some none →
          dll_delete_data fuel list_10_to_50 x heap_10_to_50 =
            some (LMS_ERROR_NOT_FOUND, list_10_to_50, heap_10_to_50))) :=
  ⟨⟨wellFormed_list_10_to_50, by decide⟩,
    dll_delete_reduces_to_node list_10_to_50 heap_10_to_50 wellFormed_list_10_to_50
      (by decide)⟩

/-! ## The sorts only reorder -/

/-- C34: `dll_sort` and `dll_sort_with` only reorder records. On a well-formed list,
for every comparator (no property of it is assumed) and with fuel for every node,
both return `LMS_SUCCESS`, the forward sequence of nodes afterwards is a permutation
of the one before (the same nodes holding the same records), so the forward sequence
of records is a permutation of the one before, and `size` is unchanged. -/
theorem dll_sort_permutation (cmp : α → α → Int) (list : DoublyLinkedList α) (h : Heap α)
    (fuel : Nat) (hwf : WellFormed list h) (hfuel : list.size ≤ fuel) :
    ∃ l s, forward_nodes list h = some l ∧ forward_seq list h = some s ∧
      (list.compare = some cmp →
        ∃ list' h' l' s', dll_sort fuel list h = some (LMS_SUCCESS, list', h') ∧
          forward_nodes list' h' = some l' ∧ l'.Perm l ∧
          forward_seq list' h' = some s' ∧ s'.Perm s ∧ list'.size = list.size) ∧
      (∃ list' h' l' s', dll_sort_with fuel list (some cmp) h = some (LMS_SUCCESS, list', h') ∧
          forward_nodes list' h' = some l' ∧ l'.Perm l ∧
          forward_seq list' h' = some s' ∧ s'.Perm s ∧ list'.size = list.size) := by
  obtain ⟨l, hl⟩ := hwf.isList
  have hlen : l.length ≤ fuel := by
    have := hl.size_eq
    omega
  obtain ⟨list', h', hrun, hl', hsize⟩ := sort_body_isList cmp hl fuel hlen
  have hperm := msort_model_perm cmp fuel l
  have hseq : forward_seq list h = some (l.map Prod.snd) := by
    simp [forward_seq, hl.forward_nodes_eq]
  have hseq' : forward_seq list' h' = some ((msort_model cmp fuel l).map Prod.snd) := by
    simp [forward_seq, hl'.forward_nodes_eq]
  refine ⟨l, l.map Prod.snd, hl.forward_nodes_eq, hseq, ?_, ?_⟩
  · intro hcmp
    refine ⟨list', h', _, _, ?_, hl'.forward_nodes_eq, hperm, hseq', hperm.map _, hsize⟩
    unfold dll_sort
    rw [hcmp]
    exact hrun
  · exact ⟨list', h', _, _, hrun, hl'.forward_nodes_eq, hperm, hseq', hperm.map _, hsize⟩

/-- Witness of C34 on the list 50, 10, 30, 20, 40 with the comparator that answers
"greater" for every pair: `dll_sort_with` leaves 40, 20, 30, 10, 50. -/
theorem dll_sort_permutation_witness :
    (WellFormed list_unsorted5 heap_unsorted5 ∧ list_unsorted5.size ≤ (5 : Nat)) ∧
    (∃ l s, forward_nodes list_unsorted5 heap_unsorted5 = some l ∧
      forward_seq list_unsorted5 heap_unsorted5 = some s ∧
      (list_unsorted5.compare = some compare_greater →
        ∃ list' h' l' s', dll_sort 5 list_unsorted5 heap_unsorted5 =
            some (LMS_SUCCESS, list', h') ∧
          forward_nodes list' h' = some l' ∧ l'.Perm l ∧
          forward_seq list' h' = some s' ∧ s'.Perm s ∧ list'.size = list_unsorted5.size) ∧
      (∃ list' h' l' s',
          dll_sort_with 5 list_unsorted5 (some compare_greater) heap_unsorted5 =
            some (LMS_SUCCESS, list', h') ∧
          forward_nodes list' h' = some l' ∧ l'.Perm l ∧
          forward_seq list' h' = some s' ∧ s'.Perm s ∧ list'.size = list_unsorted5.size)) ∧
    observe (dll_sort_with 5 list_unsorted5 (some compare_greater) heap_unsorted5) =
      some (LMS_SUCCESS, some 4, some 0, 5, some [40, 20, 30, 10, 50],
        some [50, 10, 30, 20, 40]) :=
  ⟨⟨wellFormed_list_unsorted5, by decide⟩,
    dll_sort_permutation compare_greater list_unsorted5 heap_unsorted5 5
      wellFormed_list_unsorted5 (by decide),
    by rfl⟩

/-! ## The midpoint split -/

/-- C35: `split_list` cuts a chain at its midpoint. For a chain of `n ≥ 2` nodes (the
nodes `l` met from `head` by following `next` until `NULL`), with fuel for one loop
turn per two nodes, `split_list` returns `front` and `back` such that the chain from
`front` holds `⌊n/2⌋` nodes and the chain from `back` holds `⌈n/2⌉` nodes, both are
non-empty and strictly shorter than `n`, and the front nodes followed by the back
nodes are the nodes of the original chain in their order; `front` is `head`. With
fuel `n`, `merge_sort_nodes` on the chain returns. -/
theorem split_list_midpoint (h : Heap α) (head : Option Nat) (l : List (Nat × α))
    (n fuel : Nat) (hchain : forward_from h n head = some l) (hlen : l.length = n)
    (hn : 2 ≤ n) (hfuel : n / 2 + 1 ≤ fuel) :
    (∃ back h' lf lb, split_list fuel head h = some (head, back, h') ∧
      forward_from h' n head = some lf ∧ forward_from h' n back = some lb ∧
      lf.length = n / 2 ∧ lb.length = (n + 1) / 2 ∧ lf ≠ [] ∧ lb ≠ [] ∧
      lf.length < n ∧ lb.length < n ∧ lf ++ lb = l) ∧
    (∀ cmp : α → α → Int, ∃ r, merge_sort_nodes cmp n head h = some r) := by
  obtain ⟨hhead, hseg, _⟩ := forward_from_eq_some.mp hchain
  have hnd := NSeg_nodup hseg
  subst hlen
  constructor
  · obtain ⟨h', hrun, hfront, hback, _⟩ := split_list_spec hseg hnd hn fuel hfuel
    have htake : (l.take (l.length / 2)).length = l.length / 2 := by
      rw [List.length_take]; omega
    have hdrop : (l.drop (l.length / 2)).length = (l.length + 1) / 2 := by
      rw [List.length_drop]; omega
    have hfh : headAddr (l.take (l.length / 2)) none = head := by
      rw [hhead]
      cases l with
      | nil => simp at hn
      | cons p l' =>
        obtain ⟨a, x⟩ := p
        have : (List.length ((a, x) :: l')) / 2 = (List.length ((a, x) :: l')) / 2 - 1 + 1 := by
          simp only [List.length_cons] at hn ⊢
          omega
        rw [this, List.take_succ_cons]
        rfl
    rw [← hhead, hfh] at hrun
    refine ⟨_, h', l.take (l.length / 2), l.drop (l.length / 2), hrun, ?_, ?_, htake, hdrop,
      ?_, ?_, ?_, ?_, List.take_append_drop _ _⟩
    · exact forward_from_eq_some.mpr ⟨hfh.symm, hfront, by omega⟩
    · exact forward_from_eq_some.mpr ⟨rfl, hback, by omega⟩
    · intro he
      rw [he] at htake
      simp at htake
      omega
    · intro he
      rw [he] at hdrop
      simp at hdrop
      omega
    · omega
    · omega
  · intro cmp
    obtain ⟨h', hrun, _⟩ := merge_sort_nodes_spec cmp l.length l h hseg hnd (le_refl _) (by omega)
    rw [← hhead] at hrun
    exact ⟨_, hrun⟩

/-- Witness of C35 on the chain of the five nodes 50, 10, 30, 20, 40 (odd `n`): the
front chain is 50, 10 and the back chain 30, 20, 40. -/
theorem split_list_midpoint_witness :
    (forward_from heap_unsorted5 5 (some 0) =
        some [(0, 50), (1, 10), (2, 30), (3, 20), (4, 40)] ∧
      [(0, (50 : Int)), (1, 10), (2, 30), (3, 20), (4, 40)].length = 5 ∧ 2 ≤ 5 ∧
      5 / 2 + 1 ≤ 3) ∧
    ((∃ back h' lf lb, split_list 3 (some 0) heap_unsorted5 = some (some 0, back, h') ∧
      forward_from h' 5 (some 0) = some lf ∧ forward_from h' 5 back = some lb ∧
      lf.length = 5 / 2 ∧ lb.length = (5 + 1) / 2 ∧ lf ≠ [] ∧ lb ≠ [] ∧
      lf.length < 5 ∧ lb.length < 5 ∧
      lf ++ lb = [(0, 50), (1, 10), (2, 30), (3, 20), (4, 40)]) ∧
    (∀ cmp : Int → Int → Int, ∃ r, merge_sort_nodes cmp 5 (some 0) heap_unsorted5 = some r)) ∧
    (split_list 3 (some 0) heap_unsorted5).map
        (fun r => (r.1, r.2.1, forward_from r.2.2 5 r.1, forward_from r.2.2 5 r.2.1)) =
      some (some 0, some 2, some [(0, 50), (1, 10)], some [(2, 30), (3, 20), (4, 40)]) ∧
    (split_list 3 (some 0) heap_10_20).map
        (fun r => (r.1, r.2.1, forward_from r.2.2 2 r.1, forward_from r.2.2 2 r.2.1)) =
      some (some 0, some 1, some [(0, 10)], some [(1, 20)]) :=
  ⟨⟨by decide, by decide, by decide, by decide⟩,
    split_list_midpoint heap_unsorted5 (some 0) [(0, 50), (1, 10), (2, 30), (3, 20), (4, 40)]
      5 3 (by decide) (by decide) (by decide) (by decide),
    by rfl, by rfl⟩

/-! ## Loan limits and stock bounds are invariants -/

/-- Function `book_repo_update_availability` keeps every stored book within
`0 ≤ available_copies ≤ total_copies`, whatever the change and the result. -/
theorem availability_model_bounds (isbn : List Char) (c : Int) (s : List Book)
    (hb : ∀ b ∈ s, 0 ≤ b.available_copies ∧ b.available_copies ≤ b.total_copies) :
    ∀ b ∈ (availability_model isbn c s).2,
      0 ≤ b.available_copies ∧ b.available_copies ≤ b.total_copies := by
  by_cases hs : (availability_model isbn c s).1 = LMS_SUCCESS
  · obtain ⟨s1, b, s2, hsplit, _, _, h0, h1, hres⟩ := (availability_model_cases isbn c s).1 hs
    rw [hres]
    intro x hx
    simp only [List.mem_append, List.mem_cons] at hx
    rcases hx with hx | hx | hx
    · exact hb x (by rw [hsplit]; simp [hx])
    · rw [hx]; exact ⟨h0, h1⟩
    · exact hb x (by rw [hsplit]; simp [hx])
  · rw [(availability_model_cases isbn c s).2.1 hs]
    exact hb

/-- Function `member_repo_update_loan_count` keeps every stored member within its loan
limit when `loan_count` is lowered, or when it is raised by one for a member found
below its limit. -/
theorem loan_count_model_bounds (member_id : List Char) (c : Int) (s : List Member)
    (hm : ∀ mb ∈ s, 0 ≤ mb.loan_count ∧ mb.loan_count ≤ loan_limit mb)
    (hc : ∀ mb, s.find? (has_member_id member_id) = some mb →
      mb.loan_count + c ≤ loan_limit mb) :
    ∀ mb ∈ (loan_count_model member_id c s).2,
      0 ≤ mb.loan_count ∧ mb.loan_count ≤ loan_limit mb := by
  by_cases hs : (loan_count_model member_id c s).1 = LMS_SUCCESS
  · obtain ⟨s1, b, s2, hsplit, hno, hyes, h0, hres⟩ :=
      (loan_count_model_cases member_id c s).1 hs
    rw [hres]
    intro x hx
    simp only [List.mem_append, List.mem_cons] at hx
    rcases hx with hx | hx | hx
    · exact hm x (by rw [hsplit]; simp [hx])
    · rw [hx]
      have hfind : s.find? (has_member_id member_id) = some b := by
        rw [hsplit]; exact find_of_split _ s1 s2 b hno hyes
      exact ⟨h0, hc b hfind⟩
    · exact hm x (by rw [hsplit]; simp [hx])
  · rw [(loan_count_model_cases member_id c s).2.1 hs]
    exact hm

/-- The effect of `loan_service_borrow_book` on the stored records keeps the stock
bounds and the loan limits, whatever the arguments and the result. -/
theorem borrow_model_within (member_id isbn now : List Char) (id_alloc due_alloc room : Bool)
    (st : Records) (hw : WithinLimits st) :
    WithinLimits (borrow_model member_id isbn now id_alloc due_alloc room st).2 := by
  by_cases hcan : can_borrow_model member_id isbn st = true
  · have hB1 := availability_model_bounds isbn (-1) st.books hw.1
    have hB2 := availability_model_bounds isbn 1 _ hB1
    have hM1 := loan_count_model_bounds member_id 1 st.members hw.2 (by
      intro mb hf
      obtain ⟨mb', b, hf', _, hlt, _⟩ := (can_borrow_model_iff member_id isbn st).1 hcan
      rw [hf] at hf'
      cases hf'
      unfold loan_limit MAX_LOANS_PREMIUM MAX_LOANS_REGULAR
      split_ifs at hlt ⊢ <;> omega)
    have hM2 := loan_count_model_bounds member_id (-1) _ hM1 (by
      intro mb hf
      have := hM1 mb (List.mem_of_find?_eq_some hf)
      omega)
    unfold borrow_model
    simp only [hcan, not_true_eq_false, if_false]
    by_cases hb1 : (availability_model isbn (-1) st.books).1 = LMS_SUCCESS
    · simp only [hb1, ne_eq, not_true_eq_false, if_false]
      by_cases hm1 : (loan_count_model member_id 1 st.members).1 = LMS_SUCCESS
      · simp only [hm1, ne_eq, not_true_eq_false, if_false]
        cases id_alloc with
        | false =>
          simp only [loan_service_generate_loan_id, Bool.false_eq_true, not_false_eq_true,
            if_true]
          exact ⟨hB2, hM2⟩
        | true =>
          have hid : loan_service_generate_loan_id true st.loan_counter =
              (some (format_loan_id st.loan_counter), st.loan_counter + 1) := by
            simp [loan_service_generate_loan_id]
          simp only [hid]
          split_ifs
          · exact ⟨hB1, hM1⟩
          · exact ⟨hB2, hM2⟩
      · simp only [hm1, ne_eq, not_false_eq_true, if_true]
        exact ⟨hB2, hM1⟩
    · simp only [hb1, ne_eq, not_false_eq_true, if_true]
      exact ⟨hB1, hw.2⟩
  · unfold borrow_model
    simp only [hcan, not_false_eq_true, if_true]
    exact hw

/-- The effect of `loan_service_return_book` on the stored records keeps the stock
bounds and the loan limits, whatever the arguments and the result. -/
theorem return_model_within (loan_id now : List Char) (st : Records) (hw : WithinLimits st) :
    WithinLimits (return_model loan_id now st).2 := by
  unfold return_model
  cases hfind : st.loans.find? (has_loan_id loan_id) with
  | none => exact hw
  | some loan =>
    have hB1 := availability_model_bounds loan.isbn 1 st.books hw.1
    have hB2 := availability_model_bounds loan.isbn (-1) _ hB1
    have hM1 := loan_count_model_bounds loan.member_id (-1) st.members hw.2 (by
      intro mb hf
      have := hw.2 mb (List.mem_of_find?_eq_some hf)
      omega)
    simp only
    split_ifs
    · exact hw
    · exact ⟨hB1, hw.2⟩
    · exact ⟨hB2, hM1⟩
    · exact ⟨hB1, hM1⟩

/-- Every state reached by loans and returns stores records within the stock bounds
and the loan limits. -/
theorem LoanRun.within {service service' : LoanService} {m m' : Memory} {st : Records}
    (hrep : Represents service m st) (hw : WithinLimits st)
    (hrun : LoanRun service m service' m') :
    ∃ st', Represents service' m' st' ∧ WithinLimits st' := by
  induction hrun with
  | start => exact ⟨st, hrep, hw⟩
  | @borrow service1 m1 fuel member_id isbn now id_alloc due_alloc r service2 m2 hfuel _ hcall
      ih =>
    obtain ⟨st1, hrep1, hw1⟩ := ih
    obtain ⟨s2, m2', hrun', hrep2, _⟩ :=
      loan_service_borrow_book_stored hrep1 member_id isbn now id_alloc due_alloc fuel hfuel
    rw [hcall] at hrun'
    simp only [Option.some.injEq, Prod.mk.injEq] at hrun'
    obtain ⟨_, hs, hm⟩ := hrun'
    subst hs hm
    exact ⟨_, hrep2, borrow_model_within _ _ _ _ _ _ _ hw1⟩
  | @give_back service1 m1 fuel loan_id now r m2 hfuel _ hcall ih =>
    obtain ⟨st1, hrep1, hw1⟩ := ih
    obtain ⟨m2', hrun', hrep2⟩ := loan_service_return_book_stored hrep1 loan_id now fuel hfuel
    rw [hcall] at hrun'
    simp only [Option.some.injEq, Prod.mk.injEq] at hrun'
    obtain ⟨_, hm⟩ := hrun'
    subst hm
    exact ⟨_, hrep2, return_model_within _ _ _ hw1⟩

/-- C37: loan limits and stock bounds are invariants of borrowing and returning.
Starting from well-formed repositories whose books satisfy
`0 ≤ available_copies ≤ total_copies` and whose members satisfy
`0 ≤ loan_count ≤ limit` (3 for a regular, 5 for a premium member), after any
sequence of calls of `loan_service_borrow_book` and `loan_service_return_book`, with
any arguments and any results, every stored book still satisfies
`0 ≤ available_copies ≤ total_copies` and every stored member still satisfies
`0 ≤ loan_count ≤ limit`; and in the state reached every further call, with fuel for
one loop turn per stored record, returns. -/
theorem loan_limits_invariant (service service' : LoanService) (m m' : Memory) (st : Records)
    (hrep : Represents service m st)
    (hbooks : ∀ b ∈ st.books, 0 ≤ b.available_copies ∧ b.available_copies ≤ b.total_copies)
    (hmembers : ∀ mb ∈ st.members, 0 ≤ mb.loan_count ∧ mb.loan_count ≤ loan_limit mb)
    (hrun : LoanRun service m service' m') :
    ∃ books members,
      forward_seq service'.book_repo.books m'.books = some books ∧
      (∀ b ∈ books, 0 ≤ b.available_copies ∧ b.available_copies ≤ b.total_copies) ∧
      forward_seq service'.member_repo.members m'.members = some members ∧
      (∀ mb ∈ members, 0 ≤ mb.loan_count ∧
        mb.loan_count ≤ (if mb.membership_type = 'P' then 5 else 3)) ∧
      (∀ (fuel : Nat) (member_id isbn now : List Char) (id_alloc due_alloc : Bool),
        FuelFor fuel service' →
        ∃ r service2 m2,
          loan_service_borrow_book fuel service' member_id isbn now id_alloc due_alloc m' =
            some (r, service2, m2)) ∧
      (∀ (fuel : Nat) (loan_id now : List Char), FuelFor fuel service' →
        ∃ r m2, loan_service_return_book fuel service' loan_id now m' = some (r, m2)) := by
  obtain ⟨st', hrep', hw'⟩ := LoanRun.within hrep ⟨hbooks, hmembers⟩ hrun
  refine ⟨st'.books, st'.members, hrep'.1.2, hw'.1, hrep'.2.2.1.2, ?_, ?_, ?_⟩
  · intro mb hmb
    have := hw'.2 mb hmb
    unfold loan_limit MAX_LOANS_PREMIUM MAX_LOANS_REGULAR at this
    exact this
  · intro fuel member_id isbn now id_alloc due_alloc hfuel
    obtain ⟨s2, m2, hcall, _⟩ :=
      loan_service_borrow_book_stored hrep' member_id isbn now id_alloc due_alloc fuel hfuel
    exact ⟨_, s2, m2, hcall⟩
  · intro fuel loan_id now hfuel
    obtain ⟨m2, hcall, _⟩ := loan_service_return_book_stored hrep' loan_id now fuel hfuel
    exact ⟨_, m2, hcall⟩

/-- Witness of C37, the loan service test: from the state with "Clean Code" (5 of 5
copies) and John Doe (no loan), the loan on 2024-05-01 followed by the return of
L000000001 on the same day is a sequence of calls, and the bounds hold after it. -/
theorem loan_limits_invariant_witness :
    (Represents loan_service_test memory_test records_test ∧
      (∀ b ∈ records_test.books, 0 ≤ b.available_copies ∧
        b.available_copies ≤ b.total_copies) ∧
      (∀ mb ∈ records_test.members, 0 ≤ mb.loan_count ∧ mb.loan_count ≤ loan_limit mb) ∧
      LoanRun loan_service_test memory_test loan_service_after_loan memory_after_return) ∧
    (∃ books members,
      forward_seq loan_service_after_loan.book_repo.books memory_after_return.books =
        some books ∧
      (∀ b ∈ books, 0 ≤ b.available_copies ∧ b.available_copies ≤ b.total_copies) ∧
      forward_seq loan_service_after_loan.member_repo.members memory_after_return.members =
        some members ∧
      (∀ mb ∈ members, 0 ≤ mb.loan_count ∧
        mb.loan_count ≤ (if mb.membership_type = 'P' then 5 else 3)) ∧
      (∀ (fuel : Nat) (member_id isbn now : List Char) (id_alloc due_alloc : Bool),
        FuelFor fuel loan_service_after_loan →
        ∃ r service2 m2,
          loan_service_borrow_book fuel loan_service_after_loan member_id isbn now id_alloc
            due_alloc memory_after_return = some (r, service2, m2)) ∧
      (∀ (fuel : Nat) (loan_id now : List Char), FuelFor fuel loan_service_after_loan →
        ∃ r m2, loan_service_return_book fuel loan_service_after_loan loan_id now
          memory_after_return = some (r, m2))) :=
  have hrun : LoanRun loan_service_test memory_test loan_service_after_loan
      memory_after_return :=
    LoanRun.give_back 1 "L000000001".toList "2024-05-01".toList LMS_SUCCESS
      memory_after_return ⟨by decide, by decide, by decide⟩
      (LoanRun.borrow 1 "M001".toList "9780132350884".toList "2024-05-01".toList true true
        LMS_SUCCESS loan_service_after_loan memory_after_loan
        ⟨by decide, by decide, by decide⟩ LoanRun.start loan_service_borrow_book_test)
      (by rfl)
  ⟨⟨represents_test, by decide, by decide, hrun⟩,
    loan_limits_invariant loan_service_test loan_service_after_loan memory_test
      memory_after_return records_test represents_test (by decide) (by decide) hrun⟩

/-! ## A loan is returned once -/

/-- The record left by a return: status 'R' and no fine when the current date does not
compare above the due date, status 'O' and a fine of one day otherwise. -/
theorem returned_loan_cases (now : List Char) (loan : Loan) :
    (strcmp now loan.due_date ≤ 0 →
      returned_loan now loan = { loan with return_date := strncpy now 10, status := 'R' }) ∧
    (0 < strcmp now loan.due_date →
      returned_loan now loan =
        { loan with return_date := strncpy now 10, fine_amount := 1, status := 'O' }) := by
  constructor
  · intro h
    simp [returned_loan, loan_service_calculate_fine, h]
  · intro h
    have h' : ¬ strcmp now loan.due_date ≤ 0 := by omega
    simp [returned_loan, loan_service_calculate_fine, h', FINE_PER_DAY]

/-- The effect of `loan_service_return_book` on the stored records, by cases on the
loan found under `loan_id`. -/
theorem return_model_cases (loan_id now : List Char) (st : Records) :
    (st.loans.find? (has_loan_id loan_id) = none →
      return_model loan_id now st = (LMS_ERROR_NOT_FOUND, st)) ∧
    (∀ loan, st.loans.find? (has_loan_id loan_id) = some loan → loan.status ≠ 'L' →
      return_model loan_id now st = (LMS_ERROR_INVALID_INPUT, st)) ∧
    ((return_model loan_id now st).1 = LMS_SUCCESS →
      ∃ u1 loan u2, st.loans = u1 ++ loan :: u2 ∧
        (∀ z ∈ u1, z.loan_id ≠ strncpy loan_id 10) ∧ loan.loan_id = strncpy loan_id 10 ∧
        loan.status = 'L' ∧
        (return_model loan_id now st).2.loans = u1 ++ returned_loan now loan :: u2 ∧
        (return_model loan_id now st).2.loans.find? (has_loan_id loan_id) =
          some (returned_loan now loan)) := by
  refine ⟨?_, ?_, ?_⟩
  · intro hf
    simp [return_model, hf]
  · intro loan hf hst
    simp [return_model, hf, hst]
  · intro hs
    cases hf : st.loans.find? (has_loan_id loan_id) with
    | none => simp [return_model, hf] at hs
    | some loan =>
      by_cases hst : loan.status = 'L'
      · obtain ⟨u1, u2, hsplit, hno, hyes⟩ := find_split hf
        have hyes' : has_loan_id loan_id (returned_loan now loan) = true := by
          have : (returned_loan now loan).loan_id = loan.loan_id := by
            unfold returned_loan
            simp only
            split <;> rfl
          simpa [has_loan_id, this] using hyes
        have hloans : (return_model loan_id now st).2.loans =
            u1 ++ returned_loan now loan :: u2 := by
          simp only [return_model, hf, hst, ne_eq, not_true_eq_false, if_false] at hs ⊢
          by_cases hb1 : (availability_model loan.isbn 1 st.books).1 = LMS_SUCCESS
          · by_cases hm1 : (loan_count_model loan.member_id (-1) st.members).1 = LMS_SUCCESS
            · simp only [hb1, hm1, not_true_eq_false, if_false]
              rw [hsplit, update_first_split _ _ u1 u2 loan hno hyes]
            · simp only [hb1, hm1, not_true_eq_false, not_false_eq_true, if_false, if_true] at hs
          · simp only [hb1, not_false_eq_true, if_true] at hs
        refine ⟨u1, loan, u2, hsplit, ?_, by simpa [has_loan_id] using hyes, hst, hloans, ?_⟩
        · intro z hz
          simpa [has_loan_id] using hno z hz
        · rw [hloans]
          exact find_of_split _ u1 u2 _ hno hyes'
      · simp [return_model, hf, hst] at hs

/-- The state of the loan service test after the first loan stores the records of
`records_after_loan`. -/
theorem represents_after_loan :
    Represents loan_service_after_loan memory_after_loan records_after_loan :=
  ⟨stored_single _ _ rfl rfl rfl, rfl, stored_single _ _ rfl rfl rfl, rfl,
    stored_single _ _ rfl rfl rfl, rfl, rfl⟩

/-! ## The overdue fines are set on copies -/

/-- C39 at the state of the loan service test after the first loan: the loan
L000000001 has status 'L' and is due on 2024-05-01. On 2024-06-01
`loan_service_calculate_overdue_fines` returns `LMS_SUCCESS`, and the loan found by
`loan_repo_find_by_id` still has status 'L' and fine 0: the loop has set status 'O'
and fine 1 on the copy of the loan made by `loan_repo_get_active` (node 1), which
`dll_destroy` then releases, and the stored loan (node 0) is never written. -/
theorem loan_service_calculate_overdue_fines_test :
    loan_status_and_fine 1 loan_service_after_loan.loan_repo "L000000001".toList
      memory_after_loan.loans = some ('L', 0) ∧
    strcmp "2024-06-01".toList loan_test.due_date > 0 ∧
    ((loan_repo_get_active 1 loan_service_after_loan.loan_repo memory_after_loan.loans).bind
      fun r => (overdue_loop "2024-06-01".toList 1 (dll_iterator_create r.1) r.2).map
        fun h => h.cells.map fun c => c.map fun nd => (nd.data.status, nd.data.fine_amount)) =
      some [some ('L', 0), some ('O', 1)] ∧
    (loan_service_calculate_overdue_fines 1 loan_service_after_loan "2024-06-01".toList
      memory_after_loan).map (fun r =>
        (r.1, forward_seq loan_service_after_loan.loan_repo.loans r.2.loans)) =
      some (LMS_SUCCESS, some [loan_test]) ∧
    ((loan_service_calculate_overdue_fines 1 loan_service_after_loan "2024-06-01".toList
      memory_after_loan).bind fun r =>
        loan_status_and_fine 1 loan_service_after_loan.loan_repo "L000000001".toList
          r.2.loans) = some ('L', 0) := by
  refine ⟨by rfl, by decide, ?_, ?_, ?_⟩
  · with_unfolding_all rfl
  · with_unfolding_all rfl
  · with_unfolding_all rfl

/-! ## The due date is the loan date -/

/-- C40 at the state of the loan service test: for the regular member M001 the loan
period is 14 days, and for the loan date 2024-05-01 `loan_service_calculate_due_date`
returns "2024-05-01", the loan date itself, not 2024-05-15; for the same member with
membership type 'P' the period is 21 days and the result is "2024-05-01" again. The
loan created by `loan_service_borrow_book` on 2024-05-01 is stored with the due date
"2024-05-01", equal to its loan date and not later. -/
theorem loan_service_calculate_due_date_test :
    loan_service_get_loan_period 1 loan_service_test "M001".toList memory_test.members =
      some 14 ∧
    loan_service_calculate_due_date 1 loan_service_test true "2024-05-01".toList
      "M001".toList memory_test.members = some (some "2024-05-01".toList) ∧
    loan_service_get_loan_period 1 loan_service_test "M001".toList
      (heap_single { member_john with membership_type := 'P' }) = some 21 ∧
    loan_service_calculate_due_date 1 loan_service_test true "2024-05-01".toList
      "M001".toList (heap_single { member_john with membership_type := 'P' }) =
      some (some "2024-05-01".toList) ∧
    (loan_service_borrow_book 1 loan_service_test "M001".toList "9780132350884".toList
      "2024-05-01".toList true true memory_test).map
        (fun r => (r.1, (forward_seq r.2.1.loan_repo.loans r.2.2.loans).map
          (List.map fun loan => (loan.loan_date, loan.due_date)))) =
      some (LMS_SUCCESS, some [("2024-05-01".toList, "2024-05-01".toList)]) ∧
    strcmp "2024-05-01".toList "2024-05-01".toList = 0 := by
  refine ⟨by rfl, by rfl, by rfl, by rfl, by rfl, by decide⟩

theorem strcmp_cons_le (a b : Char) (s t : List Char) :
    strcmp (a :: s) (b :: t) ≤ 0 ↔ a.toNat < b.toNat ∨ (a.toNat = b.toNat ∧ strcmp s t ≤ 0) := by
  by_cases hab : a = b
  · subst hab
    simp [strcmp]
  · have hne : a.toNat ≠ b.toNat := fun h => hab (char_eq_of_toNat h)
    simp only [strcmp, if_neg hab]
    split_ifs with hlt
    · simp [hlt]
    · simp [hlt, hne]

/-- On two strings accepted by `validate_date`, `strcmp (a, b) <= 0` is the order of the
calendar. -/
theorem strcmp_date_10 (a0 a1 a2 a3 a4 a5 a6 a7 a8 a9 b0 b1 b2 b3 b4 b5 b6 b7 b8 b9 : Char)
    (ha : validate_date [a0, a1, a2, a3, a4, a5, a6, a7, a8, a9] = true)
    (hb : validate_date [b0, b1, b2, b3, b4, b5, b6, b7, b8, b9] = true) :
    strcmp [a0, a1, a2, a3, a4, a5, a6, a7, a8, a9] [b0, b1, b2, b3, b4, b5, b6, b7, b8, b9] ≤ 0 ↔
      date_not_after [a0, a1, a2, a3, a4, a5, a6, a7, a8, a9]
        [b0, b1, b2, b3, b4, b5, b6, b7, b8, b9] := by
  rw [validate_date_10] at ha hb
  have ha1 := ha.1
  have hb1 := hb.1
  have hm : '-'.toNat = 45 := rfl
  simp only [is_date_form, is_decimal_digit, List.all_cons, List.all_nil,
    List.length_cons, List.length_nil, List.getElem?_cons_succ, List.getElem?_cons_zero,
    Option.some.injEq, char_eq_iff_toNat, hm, Bool.and_eq_true, decide_eq_true_eq,
    Bool.and_true, Nat.reduceAdd, true_and] at ha1 hb1
  have hnil : strcmp [] [] ≤ 0 := by simp [strcmp]
  simp only [date_not_after, date_year, date_month, date_day, decimal_value, strcmp_cons_le,
    hnil, and_true,
    List.foldl_cons, List.foldl_nil, char_code, List.take_succ_cons, List.take_zero,
    List.drop_succ_cons, List.drop_zero, mul_zero, zero_add]
  generalize a0.toNat = x0 at *
  generalize a1.toNat = x1 at *
  generalize a2.toNat = x2 at *
  generalize a3.toNat = x3 at *
  generalize a4.toNat = x4 at *
  generalize a5.toNat = x5 at *
  generalize a6.toNat = x6 at *
  generalize a7.toNat = x7 at *
  generalize a8.toNat = x8 at *
  generalize a9.toNat = x9 at *
  generalize b0.toNat = y0 at *
  generalize b1.toNat = y1 at *
  generalize b2.toNat = y2 at *
  generalize b3.toNat = y3 at *
  generalize b4.toNat = y4 at *
  generalize b5.toNat = y5 at *
  generalize b6.toNat = y6 at *
  generalize b7.toNat = y7 at *
  generalize b8.toNat = y8 at *
  generalize b9.toNat = y9 at *
  clear ha hb
  omega

/-- On two strings accepted by `validate_date`, `strcmp (a, b) <= 0` says that the date
`a` is not after the date `b`. -/
theorem strcmp_date_order (a b : List Char) (ha : validate_date a = true)
    (hb : validate_date b = true) : strcmp a b ≤ 0 ↔ date_not_after a b := by
  have hla : a.length = 10 := by
    by_contra hne
    simp [validate_date, hne] at ha
  have hlb : b.length = 10 := by
    by_contra hne
    simp [validate_date, hne] at hb
  obtain ⟨a0, a1, a2, a3, a4, a5, a6, a7, a8, a9, rfl⟩ := length_eq_10 a hla
  obtain ⟨b0, b1, b2, b3, b4, b5, b6, b7, b8, b9, rfl⟩ := length_eq_10 b hlb
  exact strcmp_date_10 _ _ _ _ _ _ _ _ _ _ _ _ _ _ _ _ _ _ _ _ ha hb

/-- C38: a loan can be returned only once. On well-formed repositories, with fuel for
one loop turn per stored record, `loan_service_return_book` returns; for an unknown
loan id the result is `LMS_ERROR_NOT_FOUND`, and for a loan found with a status other
than 'L' it is `LMS_ERROR_INVALID_INPUT`, the stored books, members and loans being
unchanged in both cases. After a result `LMS_SUCCESS` the loan found, which had status
'L', is stored with the return date and status 'R' when the current date does not
compare above its due date (`strcmp (now, due_date) <= 0`), and with status 'O' and
the positive fine 1 otherwise; when both strings pass `validate_date` this test is the
order of the calendar, so the status is 'R' exactly when the return date is not after
the due date and 'O' exactly when it is after it. A second return of the same loan
id, at any date, then returns `LMS_ERROR_INVALID_INPUT` and changes nothing. -/
theorem loan_service_return_book_once (service : LoanService) (m : Memory) (st : Records)
    (loan_id now : List Char) (fuel : Nat)
    (hrep : Represents service m st) (hfuel : FuelFor fuel service) :
    ∃ r m' st',
      loan_service_return_book fuel service loan_id now m = some (r, m') ∧
      Represents service m' st' ∧
      (st.loans.find? (has_loan_id loan_id) = none → r = LMS_ERROR_NOT_FOUND ∧ st' = st) ∧
      (∀ loan, st.loans.find? (has_loan_id loan_id) = some loan → loan.status ≠ 'L' →
        r = LMS_ERROR_INVALID_INPUT ∧ st' = st) ∧
      (r = LMS_SUCCESS →
        ∃ u1 loan u2 loan',
          st.loans = u1 ++ loan :: u2 ∧ (∀ z ∈ u1, z.loan_id ≠ strncpy loan_id 10) ∧
          loan.loan_id = strncpy loan_id 10 ∧ loan.status = 'L' ∧
          st'.loans = u1 ++ loan' :: u2 ∧
          (strcmp now loan.due_date ≤ 0 →
            loan' = { loan with return_date := strncpy now 10, status := 'R' }) ∧
          (0 < strcmp now loan.due_date →
            loan' =
              { loan with return_date := strncpy now 10, fine_amount := 1, status := 'O' } ∧
            0 < loan'.fine_amount) ∧
          (validate_date now = true → validate_date loan.due_date = true →
            (loan'.status = 'R' ↔ date_not_after now loan.due_date) ∧
            (loan'.status = 'O' ↔ ¬ date_not_after now loan.due_date)) ∧
          ∀ (now2 : List Char) (fuel2 : Nat), FuelFor fuel2 service →
            ∃ m2, loan_service_return_book fuel2 service loan_id now2 m' =
                some (LMS_ERROR_INVALID_INPUT, m2) ∧
              Represents service m2 st') := by
  obtain ⟨m', hrun, hrep'⟩ := loan_service_return_book_stored hrep loan_id now fuel hfuel
  obtain ⟨hnone, hinv, hsucc⟩ := return_model_cases loan_id now st
  refine ⟨_, m', _, hrun, hrep', ?_, ?_, ?_⟩
  · intro hf
    rw [hnone hf]
    exact ⟨rfl, rfl⟩
  · intro loan hf hst
    rw [hinv loan hf hst]
    exact ⟨rfl, rfl⟩
  · intro hs
    obtain ⟨u1, loan, u2, hsplit, hno, hid, hst, hloans, hfind⟩ := hsucc hs
    obtain ⟨hR, hO⟩ := returned_loan_cases now loan
    refine ⟨u1, loan, u2, returned_loan now loan, hsplit, hno, hid, hst, hloans, hR, ?_, ?_,
      ?_⟩
    · intro hlate
      refine ⟨hO hlate, ?_⟩
      rw [hO hlate]
      norm_num
    · intro hvn hvd
      rw [← strcmp_date_order now loan.due_date hvn hvd]
      by_cases hle : strcmp now loan.due_date ≤ 0
      · rw [hR hle]
        simp [hle]
      · rw [hO (by omega)]
        simp [hle]
    · intro now2 fuel2 hfuel2
      obtain ⟨m2, hrun2, hrep2⟩ :=
        loan_service_return_book_stored hrep' loan_id now2 fuel2 hfuel2
      have hagain := (return_model_cases loan_id now2 (return_model loan_id now st).2).2.1
        _ hfind (returned_loan_status now loan).1
      rw [hagain] at hrun2 hrep2
      exact ⟨m2, hrun2, hrep2⟩

/-- Witness of C38 on the state of the loan service test after the first loan (due on
2024-05-01): the return of L000000001 on 2024-05-02 stores the loan with status 'O'
and fine 1, the return on 2024-05-01 stores it with status 'R', a return after that is
refused with `LMS_ERROR_INVALID_INPUT`, and the unknown id L000000009 gives
`LMS_ERROR_NOT_FOUND`. -/
theorem loan_service_return_book_once_witness :
    (Represents loan_service_after_loan memory_after_loan records_after_loan ∧
      FuelFor 1 loan_service_after_loan) ∧
    (∃ r m' st',
      loan_service_return_book 1 loan_service_after_loan "L000000001".toList
        "2024-05-02".toList memory_after_loan = some (r, m') ∧
      Represents loan_service_after_loan m' st' ∧
      (records_after_loan.loans.find? (has_loan_id "L000000001".toList) = none →
        r = LMS_ERROR_NOT_FOUND ∧ st' = records_after_loan) ∧
      (∀ loan, records_after_loan.loans.find? (has_loan_id "L000000001".toList) = some loan →
        loan.status ≠ 'L' → r = LMS_ERROR_INVALID_INPUT ∧ st' = records_after_loan) ∧
      (r = LMS_SUCCESS →
        ∃ u1 loan u2 loan',
          records_after_loan.loans = u1 ++ loan :: u2 ∧
          (∀ z ∈ u1, z.loan_id ≠ strncpy "L000000001".toList 10) ∧
          loan.loan_id = strncpy "L000000001".toList 10 ∧ loan.status = 'L' ∧
          st'.loans = u1 ++ loan' :: u2 ∧
          (strcmp "2024-05-02".toList loan.due_date ≤ 0 →
            loan' = { loan with return_date := strncpy "2024-05-02".toList 10,
                                status := 'R' }) ∧
          (0 < strcmp "2024-05-02".toList loan.due_date →
            loan' =
              { loan with return_date := strncpy "2024-05-02".toList 10, fine_amount := 1,
                          status := 'O' } ∧
            0 < loan'.fine_amount) ∧
          (validate_date "2024-05-02".toList = true → validate_date loan.due_date = true →
            (loan'.status = 'R' ↔ date_not_after "2024-05-02".toList loan.due_date) ∧
            (loan'.status = 'O' ↔ ¬ date_not_after "2024-05-02".toList loan.due_date)) ∧
          ∀ (now2 : List Char) (fuel2 : Nat), FuelFor fuel2 loan_service_after_loan →
            ∃ m2, loan_service_return_book fuel2 loan_service_after_loan
                "L000000001".toList now2 m' = some (LMS_ERROR_INVALID_INPUT, m2) ∧
              Represents loan_service_after_loan m2 st')) ∧
    (loan_service_return_book 1 loan_service_after_loan "L000000001".toList
        "2024-05-02".toList memory_after_loan).map (fun r => (r.1, r.2.loans)) =
      some (LMS_SUCCESS, heap_single loan_test_late) ∧
    loan_service_return_book 1 loan_service_after_loan "L000000001".toList
        "2024-05-01".toList memory_after_loan = some (LMS_SUCCESS, memory_after_return) ∧
    loan_service_return_book 1 loan_service_after_loan "L000000001".toList
        "2024-05-03".toList memory_after_return =
      some (LMS_ERROR_INVALID_INPUT, memory_after_return) ∧
    loan_service_return_book 1 loan_service_after_loan "L000000009".toList
        "2024-05-01".toList memory_after_loan = some (LMS_ERROR_NOT_FOUND, memory_after_loan) :=
  ⟨⟨represents_after_loan, ⟨by decide, by decide, by decide⟩⟩,
    loan_service_return_book_once loan_service_after_loan memory_after_loan
      records_after_loan "L000000001".toList "2024-05-02".toList 1 represents_after_loan
      ⟨by decide, by decide, by decide⟩,
    by with_unfolding_all rfl, by rfl, by rfl, by rfl⟩

/-! ## The book validator -/

end LMS
